import Mathlib

/-!
SDAR: force kernels of the sample interaction classes

Shallow embedding of `sample/AR/interaction.h` (class `Interaction`),
`sample/Hermite/ar_interaction.h` (class `ARInteraction`) and
`sample/Hermite/hermite_interaction.h` (class `HermiteInteraction`).

Conventions of the embedding

* `Float` is an arbitrary linearly ordered field `F`; the library function
  `sqrt` is a parameter `sqrt : F → F` of every routine that calls it.  The
  theorems instantiate `F` with the real numbers and `sqrt` with `Real.sqrt`,
  so they speak about the exact (rounding-free) value of each expression.
* A C array `Float v[3]` is a `Vec3`; a pointer with an element count
  (`_particles`, `_n_particle`) is a list whose length is the count.
* The preprocessor switches are the fields of `Config`.
* A routine that can fail an `ASSERT` returns an `Option`; `none` is the abort.
-/

namespace SDAR

/-- Three-component array `Float v[3]`; `c0`, `c1`, `c2` are `v[0]`, `v[1]`, `v[2]`. -/
structure Vec3 (F : Type) where
  c0 : F
  c1 : F
  c2 : F

/-- Preprocessor switches that select the formulation, as a run-time record. -/
structure Config where
  AR_TTL : Bool
  AR_TTL_GT_MULTI : Bool
  AR_SLOWDOWN_PERT_R4 : Bool := false
  AR_SLOWDOWN_TIMESCALE : Bool := false

/-- The gradient-based sum-style configuration: `AR_TTL` defined, `AR_TTL_GT_MULTI`
and the slowdown switches not defined. -/
def Config.ttl : Config := { AR_TTL := true, AR_TTL_GT_MULTI := false }

/-- The gradient-based product-style configuration: `AR_TTL` and `AR_TTL_GT_MULTI`
defined, the slowdown switches not defined. -/
def Config.ttlMulti : Config := { AR_TTL := true, AR_TTL_GT_MULTI := true }

/-- Modelled from the spec: the particle status enum of `particle.h` (not among the
sources); spec section 3 lists `single`, `premerge`, `merger`, `unused`. -/
inductive Status where
  | single
  | premerge
  | merger
  | unused
  deriving DecidableEq, Repr

/-- Modelled from the spec: the type `Particle` of `particle.h` (not among the
sources); spec section 3: mass, position, velocity, status, radius, time_check.
The same record stands for `H4::ParticleAR<Particle>`, of which the kernels read
`mass` and `pos` only. -/
structure Particle (F : Type) where
  mass : F
  pos : Vec3 F
  vel : Vec3 F
  radius : F
  status : Status
  time_check : F

/-- Modelled from the spec: the type `AR::Force` of `AR/force.h` (not among the
sources); spec section 3: inner acceleration, perturber acceleration and
time-transformation gradient, three independent 3-vectors. -/
structure Force (F : Type) where
  acc_in : Vec3 F
  acc_pert : Vec3 F
  gtgrad : Vec3 F

/-- Modelled from the spec: the macro `ASSERT` of `Common/Float.h` (not among the
sources); spec section 7: a violated precondition is fatal.  `none` is the abort. -/
def ASSERT (c : Prop) [Decidable c] : Option Unit :=
  if c then some () else none

/-- Assignment through `_force[i]`: entry `i` of the array is replaced by `g` of
its old value, every other entry is kept.  An index past the end (undefined
behaviour in the source) writes nothing. -/
def writeForce {F : Type} : List (Force F) → Nat → (Force F → Force F) → List (Force F)
  | [], _, _ => []
  | f :: fs, 0, g => g f :: fs
  | f :: fs, i + 1, g => f :: writeForce fs i g

/-- Result of a kick evaluation on a force array: the array after the call, the
output parameter `_epot` and the returned time transformation factor. -/
structure KickOut (F : Type) where
  force : List (Force F)
  epot : F
  ret : F

/-- Result of the two-body routine of `Interaction`: the two force records after
the call, the output parameter `_epot` and the returned factor. -/
structure KickOutTwo (F : Type) where
  f1 : Force F
  f2 : Force F
  epot : F
  ret : F

/-- Loop-carried values of the inner `j` loop of the N-body kernels: the
accumulators `acci`, `gtgradi` (both alias entry `i` of the force array), `poti`
and `gtki`. -/
structure InnerState (F : Type) where
  acci : Vec3 F
  gtgradi : Vec3 F
  poti : F
  gtki : F

/-- Class `Interaction` of `sample/AR/interaction.h`: its one data member. -/
structure Interaction (F : Type) where
  gravitational_constant : F

/-- Class `ARInteraction` of `sample/Hermite/ar_interaction.h`: its data members. -/
structure ARInteraction (F : Type) where
  eps_sq : F
  G : F

/-- Class `HermiteInteraction` of `sample/Hermite/hermite_interaction.h`: its data
members. -/
structure HermiteInteraction (F : Type) where
  eps_sq : F
  G : F

/-- Modelled from the spec: the type `H4::ParticleH4<Particle>` of the Hermite module
(not among the sources); spec sections 3 and 4.2: a body with predicted kinematics,
i.e. mass, position, velocity, acceleration `acc0`, jerk `acc1` and the time of its
last update. -/
structure ParticleH4 (F : Type) where
  mass : F
  pos : Vec3 F
  vel : Vec3 F
  acc0 : Vec3 F
  acc1 : Vec3 F
  time : F

/-- Modelled from the spec: an entry of `neighbor_address` of `H4::Neighbor<Particle>`
(`Hermite/neighbor.h`, not among the sources); spec section 3: a neighbor reference is
a single particle or a group, of which the centre of mass `cm` is read. -/
inductive NBAdr (F : Type) where
  | single (p : ParticleH4 F)
  | group (cm : ParticleH4 F)

/-- Modelled from the spec: the type `H4::Neighbor<Particle>` (`Hermite/neighbor.h`, not
among the sources); spec section 3: the read-only perturber list, with the flag that
asks for member-resolved perturbation. -/
structure Neighbor (F : Type) where
  neighbor_address : List (NBAdr F)
  need_resolve_flag : Bool

/-- The particle `pertj` that the routines read from the neighbor entry `pert_adr[j]`
(ar_interaction.h 422-424). -/
def NBAdr.pertj {F : Type} : NBAdr F → ParticleH4 F
  | NBAdr.single p => p
  | NBAdr.group cm => cm

/-- Modelled from the spec: the class `AR::SlowDown` of `AR/slow_down.h` (not among the
sources); spec section 3: `pert_in`, `pert_out`, `period`, `timescale`, the four public
members that the routines assign.  `timescale_max` is what `getTimescaleMax()` returns
(spec section 4.2: the absolute maximum that caps the timescale) and `time_real` what
`getRealTime()` returns (spec section 4.2: the requested evaluation time).  The derived
factor is computed by `calcSlowDownFactor()`, which is a parameter of the routines that
call it. -/
structure SlowDown (F : Type) where
  pert_in : F
  pert_out : F
  period : F
  timescale : F
  timescale_max : F
  time_real : F

/-- The accessor `SlowDown::getTimescaleMax()`. -/
def SlowDown.getTimescaleMax {F : Type} (s : SlowDown F) : F := s.timescale_max

/-- The accessor `SlowDown::getRealTime()`. -/
def SlowDown.getRealTime {F : Type} (s : SlowDown F) : F := s.time_real

/-- Modelled from the spec: a child reference of a tree node (`Common/binary_tree.h`, not
among the sources); spec section 3: a child is a leaf particle or another node.
`particle i` stands for the pointer `&_particles[i]` and `node k` for the pointer
`&binarytree[k]`. -/
inductive Member where
  | particle (i : Nat)
  | node (k : Nat)
  deriving DecidableEq, Repr

/-- Modelled from the spec: the node type `COMM::BinaryTree` of `Common/binary_tree.h`
(not among the sources); spec section 3: combined mass, combined position and velocity
(centre of mass), the orbital elements `semi`, `ecc`, `period` and the masses `m1`, `m2`
of the two children.  `member_index` holds what `getMemberIndex(0)` and
`getMemberIndex(1)` return: the positions of the two children in the particle array.
`member_left` and `member_right` are the two child references that `setMembers` stores,
and `n_members` is what `getMemberN()` returns: the number of leaf particles below the
node. -/
structure BinaryTree (F : Type) where
  semi : F
  ecc : F
  period : F
  m1 : F
  m2 : F
  mass : F
  pos : Vec3 F
  vel : Vec3 F
  member_index : Int × Int
  member_left : Member
  member_right : Member
  n_members : Nat

/-- The accessor `getMemberN()`. -/
def BinaryTree.getMemberN {F : Type} (b : BinaryTree F) : Nat := b.n_members

/-- Modelled from the spec: the method `setMembers(_left, _right, _i_left, _i_right)` of
`COMM::BinaryTree` (`Common/binary_tree.h`, not among the sources); spec section 3: a node
holds two child references.  The two references and the two member indices are stored,
every other member of the node is kept. -/
def BinaryTree.setMembers {F : Type} (b : BinaryTree F) (_left _right : Member)
    (_i_left _i_right : Int) : BinaryTree F :=
  { b with member_left := _left, member_right := _right,
           member_index := (_i_left, _i_right) }

/-- The enum `AR::FixStepOption` (information.h 78). -/
inductive FixStepOption where
  | always
  | later
  | none
  deriving DecidableEq, Repr

/-- Modelled from the spec: the container `COMM::List` of `Common/list.h` (not among the
sources); spec section 3: a fixed-capacity list that is reused.  `size` is what
`getSize()` returns and `data` the storage behind `getDataAddress()` and `operator[]`, one
value per slot. -/
structure COMM.List (α : Type) where
  size : Nat
  data : Nat → α

/-- The accessor `getSize()`. -/
def COMM.List.getSize {α : Type} (l : COMM.List α) : Nat := l.size

/-- Modelled from the spec: `resizeNoInitialize(_n)` of `COMM::List` (not among the
sources); spec section 4.3: the nodes are reused storage.  The size becomes `_n`, the
storage is left as it is. -/
def COMM.List.resizeNoInitialize {α : Type} (l : COMM.List α) (_n : Nat) : COMM.List α :=
  { l with size := _n }

/-- Class `AR::Information` (information.h 84-289): its data members. -/
structure Information (F : Type) where
  ds : F
  fix_step_option : FixStepOption
  binarytree : COMM.List (BinaryTree F)

/-- The local accumulator `struct {Float G, min;}` of `calcDsAndStepOption`
(information.h 149), the type `Tds` of `calcDsKeplerIter` when `AR_TTL_GT_MULTI` is not
defined. -/
structure DsIter (F : Type) where
  G : F
  min : F

/-- Modelled from the spec: the enum `AR::InterruptStatus` (`AR/interrupt.h`, not among
the sources); spec section 4.5 and the comment at interaction.h 347: `change`, `merge`,
`none`. -/
inductive InterruptStatus where
  | change
  | merge
  | none
  deriving DecidableEq, Repr

/-- Modelled from the spec: the record `AR::BinaryInterrupt` (`AR/interrupt.h`, not among
the sources); spec section 4.5 and the comment at interaction.h 347: the address of the
affected node, the current time, the time at which the integration ends and the status.
The pointer `adr` is the node it points to, `none` when it points to no node. -/
structure BinaryInterrupt (F : Type) where
  adr : Option (BinaryTree F)
  time_now : F
  time_end : F
  status : InterruptStatus

/-- What a call of `Interaction::modifyAndInterruptIter` leaves behind: the interrupt
record (the routine returns the pointer it was given) and the two member particles that
`getLeftMember()` and `getRightMember()` point to. -/
structure InterruptOut (F : Type) where
  bin_interrupt : BinaryInterrupt F
  p1 : Particle F
  p2 : Particle F

/-- Modelled from the spec: the type `H4::ForceH4` of the Hermite module (not among the
sources); spec section 4.2 names the acceleration and the jerk of a body.  The kernels of
`HermiteInteraction` access its members `acc0` (acceleration) and `acc1` (jerk), three
values each. -/
structure ForceH4 (F : Type) where
  acc0 : Vec3 F
  acc1 : Vec3 F

/-- What the pair kernels of `HermiteInteraction` read of a particle of their template
types `Tpi`, `Tpj` and of a member of a group `Tgroup`: `id`, `mass`, `pos`, `vel`. -/
structure Tpi (F : Type) where
  id : Int
  mass : F
  pos : Vec3 F
  vel : Vec3 F

/-- Result of a pair kernel of `HermiteInteraction`: the force `_fi` after the call and
the returned squared distance. -/
structure AccJerkOut (F : Type) where
  fi : ForceH4 F
  ret : F

/-- Whether the particle `u` is one of the two children of the node `b`. -/
def BinaryTree.hasLeaf {F : Type} (b : BinaryTree F) (u : Nat) : Bool :=
  decide (b.member_left = Member.particle u) || decide (b.member_right = Member.particle u)

/-- A byte of a stream or of the memory of an object. -/
abbrev Byte := Fin 256

/-- The object representation of the values of a type `T` (the `sizeof(T)` bytes that an
object occupies in memory): `size` is `sizeof(T)`, `bytes x` are the bytes of an object that
holds `x`, and `value b` is what an object holds whose bytes are `b`.  Which bytes stand
for a `Float`, an enum or a class is fixed by the compiler and the platform, not by the
sources: a parameter of the snapshot routines. -/
structure ObjRep (T : Type) where
  size : Nat
  bytes : T → List Byte
  value : List Byte → T

/-- A representation is faithful at `x` when an object holding `x` has `size` bytes and
these bytes are read back as `x`. -/
def ObjRep.FaithfulAt {T : Type} (rep : ObjRep T) (x : T) : Prop :=
  (rep.bytes x).length = rep.size ∧ rep.value (rep.bytes x) = x

/-- The C library call `fwrite(ptr, size, 1, fp)` on the object `x` at `ptr`: the first
`size` bytes of the object are appended to the stream. -/
def fwrite {T : Type} (rep : ObjRep T) (x : T) (size : Nat) (fp : List Byte) : List Byte :=
  fp ++ (rep.bytes x).take size

/-- What a call of `fread` leaves: the returned count, the object at `ptr` and the bytes of
the stream that are still unread. -/
structure FreadOut (T : Type) where
  rcount : Nat
  obj : T
  fin : List Byte

/-- The C library call `fread(ptr, size, 1, fp)` on the object `x` at `ptr`: when the stream
holds `size` bytes they replace the first `size` bytes of the object and the count 1 is
returned; otherwise the count is 0 and the stream is exhausted (the object then holds the
bytes that were read over its first bytes; the C standard leaves its value
indeterminate). -/
def fread {T : Type} (rep : ObjRep T) (x : T) (size : Nat) (fp : List Byte) : FreadOut T :=
  if size ≤ fp.length then
    { rcount := 1, obj := rep.value (fp.take size ++ (rep.bytes x).drop size),
      fin := fp.drop size }
  else
    { rcount := 0, obj := rep.value (fp ++ (rep.bytes x).drop fp.length), fin := [] }

/-- `Interaction::writeBinary` (interaction.h 408-409): the body is empty. -/
def Interaction.writeBinary {F : Type} (_self : Interaction F) (_fp : List Byte) : List Byte :=
  _fp

/-- `Interaction::readBinary` (interaction.h 414-415): the body is empty.  The result is
the object and the stream after the call. -/
def Interaction.readBinary {F : Type} (self : Interaction F) (_fin : List Byte) :
    Interaction F × List Byte :=
  (self, _fin)

/-- `ARInteraction::writeBinary` (ar_interaction.h 640-642):
`fwrite(this, sizeof(*this), 1, _fp)`. -/
def ARInteraction.writeBinary {F : Type} (rep : ObjRep (ARInteraction F))
    (self : ARInteraction F) (_fp : List Byte) : List Byte :=
  fwrite rep self rep.size _fp

/-- `ARInteraction::readBinary` (ar_interaction.h 647-653); `none` is the `abort()`. -/
def ARInteraction.readBinary {F : Type} (rep : ObjRep (ARInteraction F))
    (self : ARInteraction F) (_fin : List Byte) : Option (ARInteraction F × List Byte) :=
  let r := fread rep self rep.size _fin
  if r.rcount < 1 then none else some (r.obj, r.fin)

/-- `HermiteInteraction::writeBinary` (hermite_interaction.h 343-345):
`fwrite(this, sizeof(*this), 1, _fp)`. -/
def HermiteInteraction.writeBinary {F : Type} (rep : ObjRep (HermiteInteraction F))
    (self : HermiteInteraction F) (_fp : List Byte) : List Byte :=
  fwrite rep self rep.size _fp

/-- `HermiteInteraction::readBinary` (hermite_interaction.h 350-356); `none` is the
`abort()`. -/
def HermiteInteraction.readBinary {F : Type} (rep : ObjRep (HermiteInteraction F))
    (self : HermiteInteraction F) (_fin : List Byte) :
    Option (HermiteInteraction F × List Byte) :=
  let r := fread rep self rep.size _fin
  if r.rcount < 1 then none else some (r.obj, r.fin)

/-- `BinarySlowDown::writeBinary` (information.h 15-17): `fwrite(this, sizeof(*this), 1, _fp)`.
The data of the class, the base `COMM::Binary` (`Common/binary_tree.h`) and the member
`slowdown`, is copied as a whole; its type is a parameter `B`. -/
def BinarySlowDown.writeBinary {B : Type} (rep : ObjRep B) (self : B) (_fp : List Byte) :
    List Byte :=
  fwrite rep self rep.size _fp

/-- `BinarySlowDown::readBinary` (information.h 22-28); `none` is the `abort()`. -/
def BinarySlowDown.readBinary {B : Type} (rep : ObjRep B) (self : B) (_fin : List Byte) :
    Option (B × List Byte) :=
  let r := fread rep self rep.size _fin
  if r.rcount < 1 then none else some (r.obj, r.fin)

/-- `Information::writeBinary` (information.h 269-272): `fwrite(&ds, sizeof(int), 1, _fout)`
and `fwrite(&fix_step_option, sizeof(FixStepOption), 1, _fout)`.  `sizeof_int` is
`sizeof(int)`, `repFloat.size` is `sizeof(Float)` and `repOption.size` is
`sizeof(FixStepOption)`. -/
def Information.writeBinary {F : Type} (sizeof_int : Nat) (repFloat : ObjRep F)
    (repOption : ObjRep FixStepOption) (self : Information F) (_fout : List Byte) :
    List Byte :=
  let _fout := fwrite repFloat self.ds sizeof_int _fout
  fwrite repOption self.fix_step_option repOption.size _fout

/-- `Information::readBinary` (information.h 277-288): `fread(&ds, sizeof(int), 1, _fin)`,
then `fread(&fix_step_option, sizeof(FixStepOption), 1, _fin)`, each followed by `abort()`
(`none`) when the count is below 1.  The result is the object and the stream after the
call. -/
def Information.readBinary {F : Type} (sizeof_int : Nat) (repFloat : ObjRep F)
    (repOption : ObjRep FixStepOption) (self : Information F) (_fin : List Byte) :
    Option (Information F × List Byte) :=
  let r1 := fread repFloat self.ds sizeof_int _fin
  if r1.rcount < 1 then none
  else
    let self1 := { self with ds := r1.obj }
    let r2 := fread repOption self1.fix_step_option repOption.size r1.fin
    if r2.rcount < 1 then none
    else some ({ self1 with fix_step_option := r2.obj }, r2.fin)

/-- The IEEE 754 binary64 object representation, low byte first, at the two values used as
concrete inputs: 1.0 is `00 00 00 00 00 00 F0 3F` and 0.0 is eight zero bytes.  To keep the
functions total every other value is given the bytes of 0.0 and every other byte pattern
the value 0.0, so the representation is faithful at 0 and 1 only. -/
def ObjRep.binary64 : ObjRep ℚ where
  size := 8
  bytes := fun x => if x = 1 then [0, 0, 0, 0, 0, 0, 240, 63] else [0, 0, 0, 0, 0, 0, 0, 0]
  value := fun b => if b = [0, 0, 0, 0, 0, 0, 240, 63] then 1 else 0

/-- The object representation of the enum `FixStepOption` as a four-byte `int`, low byte
first, with the enumerators numbered in the order of their declaration (information.h 78):
`always` 0, `later` 1, `none` 2.  A pattern that is no enumerator is read as `none`. -/
def ObjRep.fixStepOption : ObjRep FixStepOption where
  size := 4
  bytes := fun o =>
    match o with
    | FixStepOption.always => [0, 0, 0, 0]
    | FixStepOption.later => [1, 0, 0, 0]
    | FixStepOption.none => [2, 0, 0, 0]
  value := fun b =>
    if b = [0, 0, 0, 0] then FixStepOption.always
    else if b = [1, 0, 0, 0] then FixStepOption.later
    else FixStepOption.none

/-- The object representation of a class with two members `eps_sq` and `G` of type `Float`,
one after the other without padding, made of a representation of `Float`; `mk` builds the
object from the two members. -/
def ObjRep.twoFloats {F T : Type} (repFloat : ObjRep F) (mk : F → F → T) (eps_sq G : T → F) :
    ObjRep T where
  size := repFloat.size + repFloat.size
  bytes := fun x => repFloat.bytes (eps_sq x) ++ repFloat.bytes (G x)
  value := fun b => mk (repFloat.value (b.take repFloat.size))
    (repFloat.value (b.drop repFloat.size))

section Kernels

variable {F : Type} [LinearOrderedField F]

/-- A particle of mass `m` at rest at the position `(x, y, z)`, with radius 0 and
status `single`; used to write concrete inputs. -/
def Particle.atRest (m x y z : F) : Particle F :=
  ⟨m, ⟨x, y, z⟩, ⟨0, 0, 0⟩, 0, Status.single, 0⟩

/-- A force record whose nine entries all hold `v`, standing for stale content left
by an earlier evaluation; used to write concrete inputs. -/
def Force.filled (v : F) : Force F :=
  ⟨⟨v, v, v⟩, ⟨v, v, v⟩, ⟨v, v, v⟩⟩

/-- A body of mass `m` on the x axis at `x` with velocity `vx` along the axis, no
acceleration and no jerk, last updated at the time `t`: a concrete input. -/
def ParticleH4.coasting (m x vx t : F) : ParticleH4 F :=
  { mass := m, pos := ⟨x, 0, 0⟩, vel := ⟨vx, 0, 0⟩, acc0 := ⟨0, 0, 0⟩, acc1 := ⟨0, 0, 0⟩,
    time := t }

/-- A particle of mass `m` on the x axis at `x` with velocity `vx` along the axis, with
radius `r`, status `s` and check time `tc`: a concrete input. -/
def Particle.body (m x vx r : F) (s : Status) (tc : F) : Particle F :=
  ⟨m, ⟨x, 0, 0⟩, ⟨vx, 0, 0⟩, r, s, tc⟩

/-- A slowdown record with every assigned member zero, the timescale maximum `tmax` and
the real time `t`: a concrete input. -/
def SlowDown.atTime (tmax t : F) : SlowDown F :=
  { pert_in := 0, pert_out := 0, period := 0, timescale := 0, timescale_max := tmax,
    time_real := t }

/-- A binary with members of mass `m1`, `m2` on a circular orbit of semi-major axis `semi`
and period `period`, its centre of mass at rest at the origin, whose members are the
entries 0 and 1 of the particle array: a concrete input. -/
def BinaryTree.circular (m1 m2 semi period : F) : BinaryTree F :=
  { semi := semi, ecc := 0, period := period, m1 := m1, m2 := m2, mass := m1 + m2,
    pos := ⟨0, 0, 0⟩, vel := ⟨0, 0, 0⟩, member_index := (0, 1),
    member_left := Member.particle 0, member_right := Member.particle 1, n_members := 2 }

/-- The default constructor `Interaction()`: `gravitational_constant(Float(-1.0))`. -/
def Interaction.new : Interaction F := ⟨-1⟩

/-- The default constructor `ARInteraction()`: `eps_sq(Float(-1.0)), G(Float(-1.0))`. -/
def ARInteraction.new : ARInteraction F := ⟨-1, -1⟩

/-- The default constructor `HermiteInteraction()`: `eps_sq(Float(-1.0)), G(Float(-1.0))`. -/
def HermiteInteraction.new : HermiteInteraction F := ⟨-1, -1⟩

/-- `Interaction::checkParams` (interaction.h 22-25). -/
def Interaction.checkParams (self : Interaction F) : Option Bool := do
  ASSERT (self.gravitational_constant > 0)
  return true

/-- `ARInteraction::checkParams` (ar_interaction.h 150-154). -/
def ARInteraction.checkParams (self : ARInteraction F) : Option Bool := do
  ASSERT (self.eps_sq ≥ 0)
  ASSERT (self.G > 0)
  return true

/-- `HermiteInteraction::checkParams` (hermite_interaction.h 17-21). -/
def HermiteInteraction.checkParams (self : HermiteInteraction F) : Option Bool := do
  ASSERT (self.eps_sq ≥ 0)
  ASSERT (self.G > 0)
  return true

/-- `Interaction::calcInnerAccPotAndGTKickInvTwo` (interaction.h 40-93). -/
def Interaction.calcInnerAccPotAndGTKickInvTwo (cfg : Config) (sqrt : F → F)
    (self : Interaction F) (_f1 _f2 : Force F) (_p1 _p2 : Particle F) : KickOutTwo F :=
  let mass1 := _p1.mass
  let pos1 := _p1.pos
  let mass2 := _p2.mass
  let pos2 := _p2.pos
  let dr : Vec3 F := ⟨pos2.c0 - pos1.c0, pos2.c1 - pos1.c1, pos2.c2 - pos1.c2⟩
  let r2 := dr.c0 * dr.c0 + dr.c1 * dr.c1 + dr.c2 * dr.c2
  let inv_r := 1 / sqrt r2
  let inv_r3 := inv_r * inv_r * inv_r
  let gmor3_1 := self.gravitational_constant * mass2 * inv_r3
  let acc1 : Vec3 F := ⟨gmor3_1 * dr.c0, gmor3_1 * dr.c1, gmor3_1 * dr.c2⟩
  let gmor3_2 := self.gravitational_constant * mass1 * inv_r3
  let acc2 : Vec3 F := ⟨(-gmor3_2) * dr.c0, (-gmor3_2) * dr.c1, (-gmor3_2) * dr.c2⟩
  let gm1m2 := self.gravitational_constant * mass1 * mass2
  let gm1m2or3 := gm1m2 * inv_r3
  let gtgrad1 : Vec3 F :=
    if cfg.AR_TTL then ⟨gm1m2or3 * dr.c0, gm1m2or3 * dr.c1, gm1m2or3 * dr.c2⟩ else _f1.gtgrad
  let gtgrad2 : Vec3 F :=
    if cfg.AR_TTL then ⟨-gtgrad1.c0, -gtgrad1.c1, -gtgrad1.c2⟩ else _f2.gtgrad
  let gm1m2or := gm1m2 * inv_r
  let _epot := -gm1m2or
  let gt_kick_inv := gm1m2or
  { f1 := { _f1 with acc_in := acc1, gtgrad := gtgrad1 }
    f2 := { _f2 with acc_in := acc2, gtgrad := gtgrad2 }
    epot := _epot
    ret := gt_kick_inv }

/-- Body of the inner `j` loop of `Interaction::calcInnerAccPotAndGTKickInv`
(interaction.h 128-165) for the outer particle `i`, at `jp = (j, _particles[j])`. -/
def Interaction.innerBody (cfg : Config) (sqrt : F → F) (self : Interaction F)
    (i : Nat) (pi : Particle F) (st : InnerState F) (jp : Nat × Particle F) : InnerState F :=
  if i = jp.1 then st
  else
    let massi := pi.mass
    let posi := pi.pos
    let massj := jp.2.mass
    let posj := jp.2.pos
    let dr : Vec3 F := ⟨posj.c0 - posi.c0, posj.c1 - posi.c1, posj.c2 - posi.c2⟩
    let r2 := dr.c0 * dr.c0 + dr.c1 * dr.c1 + dr.c2 * dr.c2
    let inv_r := 1 / sqrt r2
    let inv_r3 := inv_r * inv_r * inv_r
    let gmor3 := self.gravitational_constant * massj * inv_r3
    let acci : Vec3 F :=
      ⟨st.acci.c0 + gmor3 * dr.c0, st.acci.c1 + gmor3 * dr.c1, st.acci.c2 + gmor3 * dr.c2⟩
    let inv_r2 := inv_r * inv_r
    let mimjor3 := self.gravitational_constant * massi * gmor3
    let gtgradi : Vec3 F :=
      if cfg.AR_TTL then
        if cfg.AR_TTL_GT_MULTI then
          ⟨st.gtgradi.c0 + inv_r2 * dr.c0, st.gtgradi.c1 + inv_r2 * dr.c1,
            st.gtgradi.c2 + inv_r2 * dr.c2⟩
        else
          ⟨st.gtgradi.c0 + mimjor3 * dr.c0, st.gtgradi.c1 + mimjor3 * dr.c1,
            st.gtgradi.c2 + mimjor3 * dr.c2⟩
      else st.gtgradi
    let gmor := self.gravitational_constant * massj * inv_r
    let poti := st.poti - gmor
    let gtki := if cfg.AR_TTL_GT_MULTI then st.gtki * inv_r else st.gtki + gmor
    { acci := acci, gtgradi := gtgradi, poti := poti, gtki := gtki }

/-- Values of `acci`, `gtgradi`, `poti`, `gtki` when the inner loop for particle `i`
of `Interaction::calcInnerAccPotAndGTKickInv` ends (interaction.h 111-165).  The
component `gtgradi` is the content of `_force[i].gtgrad` under `AR_TTL` only. -/
def Interaction.innerLoop (cfg : Config) (sqrt : F → F) (self : Interaction F)
    (_particles : List (Particle F)) (i : Nat) (pi : Particle F) : InnerState F :=
  _particles.enum.foldl (self.innerBody cfg sqrt i pi)
    { acci := ⟨0, 0, 0⟩
      gtgradi := ⟨0, 0, 0⟩
      poti := 0
      gtki := if cfg.AR_TTL_GT_MULTI then 1 else 0 }

/-- Body of the outer `i` loop of `Interaction::calcInnerAccPotAndGTKickInv`
(interaction.h 110-172), at `ip = (i, _particles[i])`. -/
def Interaction.outerBody (cfg : Config) (sqrt : F → F) (self : Interaction F)
    (_particles : List (Particle F)) (st : KickOut F) (ip : Nat × Particle F) : KickOut F :=
  let massi := ip.2.mass
  let r := self.innerLoop cfg sqrt _particles ip.1 ip.2
  { force := writeForce st.force ip.1 (fun f =>
      { f with acc_in := r.acci, gtgrad := if cfg.AR_TTL then r.gtgradi else f.gtgrad })
    epot := st.epot + r.poti * massi
    ret := if cfg.AR_TTL_GT_MULTI then st.ret * (r.gtki * massi) else st.ret + r.gtki * massi }

/-- The loop `for i: _force[i].gtgrad *= gt_kick_inv` (interaction.h 176-181) over the
indices in `is`. -/
def Interaction.scaleGtgrad (gt_kick_inv : F) (_force : List (Force F)) (is : List Nat) :
    List (Force F) :=
  is.foldl (fun fs i => writeForce fs i (fun f =>
    { f with gtgrad := ⟨f.gtgrad.c0 * gt_kick_inv, f.gtgrad.c1 * gt_kick_inv,
                        f.gtgrad.c2 * gt_kick_inv⟩ })) _force

/-- `Interaction::calcInnerAccPotAndGTKickInv` (interaction.h 103-186);
`_n_particle` is the length of `_particles`. -/
def Interaction.calcInnerAccPotAndGTKickInv (cfg : Config) (sqrt : F → F)
    (self : Interaction F) (_force : List (Force F)) (_particles : List (Particle F)) :
    KickOut F :=
  let st := _particles.enum.foldl (self.outerBody cfg sqrt _particles)
    { force := _force, epot := 0, ret := if cfg.AR_TTL_GT_MULTI then 1 else 0 }
  let _epot := st.epot * 0.5
  if cfg.AR_TTL_GT_MULTI then
    let gt_kick_inv := sqrt st.ret
    { force := Interaction.scaleGtgrad gt_kick_inv st.force (List.range _particles.length)
      epot := _epot
      ret := gt_kick_inv }
  else
    { force := st.force, epot := _epot, ret := 0.5 * st.ret }

/-- `ARInteraction::calcAccPotAndGTKickTwo` (ar_interaction.h 22-78); `_n_particle`
is the length of `_particles`. -/
def ARInteraction.calcAccPotAndGTKickTwo (cfg : Config) (sqrt : F → F)
    (self : ARInteraction F) (_force : List (Force F)) (_particles : List (Particle F)) :
    Option (KickOut F) := do
  ASSERT (_particles.length = 2)
  match _particles with
  | [p1, p2] =>
    let mass1 := p1.mass
    let pos1 := p1.pos
    let mass2 := p2.mass
    let pos2 := p2.pos
    let dr : Vec3 F := ⟨pos2.c0 - pos1.c0, pos2.c1 - pos1.c1, pos2.c2 - pos1.c2⟩
    let r2 := dr.c0 * dr.c0 + dr.c1 * dr.c1 + dr.c2 * dr.c2 + self.eps_sq
    ASSERT (r2 > 0)
    let inv_r := 1 / sqrt r2
    let inv_r3 := inv_r * inv_r * inv_r
    let mor3_1 := self.G * mass2 * inv_r3
    let acc1 : Vec3 F := ⟨mor3_1 * dr.c0, mor3_1 * dr.c1, mor3_1 * dr.c2⟩
    let mor3_2 := self.G * mass1 * inv_r3
    let acc2 : Vec3 F := ⟨(-mor3_2) * dr.c0, (-mor3_2) * dr.c1, (-mor3_2) * dr.c2⟩
    let m1m2 := self.G * mass1 * mass2
    let m1m2or3 := m1m2 * inv_r3
    let gtgrad1 : Vec3 F := ⟨m1m2or3 * dr.c0, m1m2or3 * dr.c1, m1m2or3 * dr.c2⟩
    let gtgrad2 : Vec3 F := ⟨-gtgrad1.c0, -gtgrad1.c1, -gtgrad1.c2⟩
    let m1m2or := m1m2 * inv_r
    let _epot := -m1m2or
    let gt_kick := 1 / m1m2or
    let force0 := writeForce _force 0 (fun f =>
      { f with acc_in := acc1, gtgrad := if cfg.AR_TTL then gtgrad1 else f.gtgrad })
    let force1 := writeForce force0 1 (fun f =>
      { f with acc_in := acc2, gtgrad := if cfg.AR_TTL then gtgrad2 else f.gtgrad })
    return { force := force1, epot := _epot, ret := gt_kick }
  | _ => none

/-- Body of the inner `j` loop of `ARInteraction::calcAccPotAndGTKick`
(ar_interaction.h 105-131) for the outer particle `i`, at `jp = (j, _particles[j])`. -/
def ARInteraction.innerBody (cfg : Config) (sqrt : F → F) (self : ARInteraction F)
    (i : Nat) (pi : Particle F) (st : InnerState F) (jp : Nat × Particle F) : InnerState F :=
  if i = jp.1 then st
  else
    let massi := pi.mass
    let posi := pi.pos
    let massj := jp.2.mass
    let posj := jp.2.pos
    let dr : Vec3 F := ⟨posj.c0 - posi.c0, posj.c1 - posi.c1, posj.c2 - posi.c2⟩
    let r2 := dr.c0 * dr.c0 + dr.c1 * dr.c1 + dr.c2 * dr.c2 + self.eps_sq
    let inv_r := 1 / sqrt r2
    let inv_r3 := inv_r * inv_r * inv_r
    let mor3 := self.G * massj * inv_r3
    let acci : Vec3 F :=
      ⟨st.acci.c0 + mor3 * dr.c0, st.acci.c1 + mor3 * dr.c1, st.acci.c2 + mor3 * dr.c2⟩
    let mimjor3 := massi * mor3
    let gtgradi : Vec3 F :=
      if cfg.AR_TTL then
        ⟨st.gtgradi.c0 + mimjor3 * dr.c0, st.gtgradi.c1 + mimjor3 * dr.c1,
          st.gtgradi.c2 + mimjor3 * dr.c2⟩
      else st.gtgradi
    let mor := self.G * massj * inv_r
    let poti := st.poti - mor
    let gtki := st.gtki + mor
    { acci := acci, gtgradi := gtgradi, poti := poti, gtki := gtki }

/-- Values of `acci`, `gtgradi`, `poti`, `gtki` when the inner loop for particle `i`
of `ARInteraction::calcAccPotAndGTKick` ends (ar_interaction.h 92-131).  The
component `gtgradi` is the content of `_force[i].gtgrad` under `AR_TTL` only. -/
def ARInteraction.innerLoop (cfg : Config) (sqrt : F → F) (self : ARInteraction F)
    (_particles : List (Particle F)) (i : Nat) (pi : Particle F) : InnerState F :=
  _particles.enum.foldl (self.innerBody cfg sqrt i pi)
    { acci := ⟨0, 0, 0⟩, gtgradi := ⟨0, 0, 0⟩, poti := 0, gtki := 0 }

/-- Body of the outer `i` loop of `ARInteraction::calcAccPotAndGTKick`
(ar_interaction.h 91-134), at `ip = (i, _particles[i])`. -/
def ARInteraction.outerBody (cfg : Config) (sqrt : F → F) (self : ARInteraction F)
    (_particles : List (Particle F)) (st : KickOut F) (ip : Nat × Particle F) : KickOut F :=
  let massi := ip.2.mass
  let r := self.innerLoop cfg sqrt _particles ip.1 ip.2
  { force := writeForce st.force ip.1 (fun f =>
      { f with acc_in := r.acci, gtgrad := if cfg.AR_TTL then r.gtgradi else f.gtgrad })
    epot := st.epot + r.poti * massi
    ret := st.ret + r.gtki * massi }

/-- `ARInteraction::calcAccPotAndGTKick` (ar_interaction.h 88-139); `_n_particle` is
the length of `_particles`. -/
def ARInteraction.calcAccPotAndGTKick (cfg : Config) (sqrt : F → F)
    (self : ARInteraction F) (_force : List (Force F)) (_particles : List (Particle F)) :
    KickOut F :=
  let st := _particles.enum.foldl (self.outerBody cfg sqrt _particles)
    { force := _force, epot := 0, ret := 0 }
  { force := st.force, epot := st.epot * 0.5, ret := 2.0 / st.ret }

/-- `Interaction::calcAccPotAndGTKickInv` (interaction.h 199-209).  `_force[0]` and
`_force[1]` are passed by reference to the two-body routine: the two records are read
from the array and written back (a record missing from a too short array reads as
zero and is not written).  The parameters `_particle_cm`, `_perturber` and `_time`
are not read; the type of the perturber container is a parameter. -/
def Interaction.calcAccPotAndGTKickInv {Perturber : Type} (cfg : Config) (sqrt : F → F)
    (self : Interaction F) (_force : List (Force F)) (_particles : List (Particle F))
    (_particle_cm : Particle F) (_perturber : Perturber) (_time : F) : KickOut F :=
  let inner : KickOut F :=
    match _particles with
    | [p1, p2] =>
      let t := self.calcInnerAccPotAndGTKickInvTwo cfg sqrt
        (_force.getD 0 (Force.filled 0)) (_force.getD 1 (Force.filled 0)) p1 p2
      { force := writeForce (writeForce _force 0 (fun _ => t.f1)) 1 (fun _ => t.f2)
        epot := t.epot
        ret := t.ret }
    | _ => self.calcInnerAccPotAndGTKickInv cfg sqrt _force _particles
  { force := (List.range _particles.length).foldl
      (fun fs i => writeForce fs i (fun f => { f with acc_pert := ⟨0, 0, 0⟩ })) inner.force
    epot := inner.epot
    ret := inner.ret }

/-- The prediction `pos + dt*(vel + 0.5*dt*(acc0 + inv3*dt*acc1))` of the three
coordinates (ar_interaction.h 427-429 and 436-438), with `inv3 = 1.0 / 3.0`. -/
def predictPos (p : ParticleH4 F) (dt : F) : Vec3 F :=
  let inv3 : F := 1.0 / 3.0
  ⟨p.pos.c0 + dt * (p.vel.c0 + 0.5 * dt * (p.acc0.c0 + inv3 * dt * p.acc1.c0)),
   p.pos.c1 + dt * (p.vel.c1 + 0.5 * dt * (p.acc0.c1 + inv3 * dt * p.acc1.c1)),
   p.pos.c2 + dt * (p.vel.c2 + 0.5 * dt * (p.acc0.c2 + inv3 * dt * p.acc1.c2))⟩

/-- Body of the first loop of `ARInteraction::calcAccEnergy` (ar_interaction.h 421-432):
the predicted position `xp[j]` and the mass `m[j]` of one perturber. -/
def ARInteraction.predictPert (_time : F) (adr : NBAdr F) : Option (Vec3 F × F) := do
  let pertj := adr.pertj
  let dt := _time - pertj.time
  ASSERT (dt ≥ 0)
  return (predictPos pertj dt, pertj.mass)

/-- Body of the loops over perturbers that accumulate `mor3 * dr` at the position `xi`
(ar_interaction.h 454-466, 493-505 and 523-535); `xm = (xp[j], m[j])`. -/
def ARInteraction.pertBody (sqrt : F → F) (self : ARInteraction F) (xi : Vec3 F)
    (acc_pert : Vec3 F) (xm : Vec3 F × F) : Vec3 F :=
  let dr : Vec3 F := ⟨xm.1.c0 - xi.c0, xm.1.c1 - xi.c1, xm.1.c2 - xi.c2⟩
  let r2 := dr.c0 * dr.c0 + dr.c1 * dr.c1 + dr.c2 * dr.c2 + self.eps_sq
  let r := sqrt r2
  let r3 := r * r2
  let mor3 := self.G * xm.2 / r3
  ⟨acc_pert.c0 + mor3 * dr.c0, acc_pert.c1 + mor3 * dr.c1, acc_pert.c2 + mor3 * dr.c2⟩

/-- Member-resolved branch of `ARInteraction::calcAccEnergy` (ar_interaction.h 442-490):
the force array after the two loops over the members. -/
def ARInteraction.pertResolved (sqrt : F → F) (self : ARInteraction F)
    (_force : List (Force F)) (_particles : List (Particle F)) (xcm : Vec3 F) (mcm : F)
    (pert : List (Vec3 F × F)) : List (Force F) :=
  let st := _particles.enum.foldl (fun (st : List (Force F) × Vec3 F) ip =>
      let xi : Vec3 F := ⟨ip.2.pos.c0 + xcm.c0, ip.2.pos.c1 + xcm.c1, ip.2.pos.c2 + xcm.c2⟩
      let acc_pert := pert.foldl (self.pertBody sqrt xi) ⟨0, 0, 0⟩
      (writeForce st.1 ip.1 (fun f => { f with acc_pert := acc_pert }),
       (⟨st.2.c0 + ip.2.mass * acc_pert.c0, st.2.c1 + ip.2.mass * acc_pert.c1,
         st.2.c2 + ip.2.mass * acc_pert.c2⟩ : Vec3 F))) (_force, ⟨0, 0, 0⟩)
  let acc_pert_cm : Vec3 F := ⟨st.2.c0 / mcm, st.2.c1 / mcm, st.2.c2 / mcm⟩
  (List.range _particles.length).foldl (fun fs i => writeForce fs i (fun f =>
      { f with acc_pert := ⟨f.acc_pert.c0 - acc_pert_cm.c0, f.acc_pert.c1 - acc_pert_cm.c1,
                            f.acc_pert.c2 - acc_pert_cm.c2⟩ })) st.1

/-- Centre-of-mass branch of `ARInteraction::calcAccEnergy` (ar_interaction.h 491-538):
the force array after the loop over the members. -/
def ARInteraction.pertUnresolved (sqrt : F → F) (self : ARInteraction F)
    (_force : List (Force F)) (_particles : List (Particle F)) (xcm : Vec3 F)
    (pert : List (Vec3 F × F)) : List (Force F) :=
  let acc_pert_cm := pert.foldl (self.pertBody sqrt xcm) ⟨0, 0, 0⟩
  _particles.enum.foldl (fun fs ip =>
      let xi : Vec3 F := ⟨ip.2.pos.c0 + xcm.c0, ip.2.pos.c1 + xcm.c1, ip.2.pos.c2 + xcm.c2⟩
      let acc_pert := pert.foldl (self.pertBody sqrt xi)
        ⟨-acc_pert_cm.c0, -acc_pert_cm.c1, -acc_pert_cm.c2⟩
      writeForce fs ip.1 (fun f => { f with acc_pert := acc_pert })) _force

/-- The sum over the perturbers that the member-resolved branch accumulates into
`acc_pert` of the member `p` before the centre-of-mass term is removed
(ar_interaction.h 446-466): the perturber acceleration at `xi = p.pos + xcm`. -/
def ARInteraction.memberAccPert (sqrt : F → F) (self : ARInteraction F) (xcm : Vec3 F)
    (pert : List (Vec3 F × F)) (p : Particle F) : Vec3 F :=
  pert.foldl (self.pertBody sqrt ⟨p.pos.c0 + xcm.c0, p.pos.c1 + xcm.c1, p.pos.c2 + xcm.c2⟩)
    ⟨0, 0, 0⟩

/-- `ARInteraction::calcAccEnergy` (ar_interaction.h 407-542, the variant compiled
without `SLOWDOWN_INTEGRATE`).  The lines under `ARC_DEBUG` are left out: they name an
undeclared `_particles_cm` and cannot be compiled in. -/
def ARInteraction.calcAccEnergy (cfg : Config) (sqrt : F → F) (self : ARInteraction F)
    (_force : List (Force F)) (_particles : List (Particle F)) (_particle_cm : ParticleH4 F)
    (_perturber : Neighbor F) (_time : F) : Option (KickOut F) := do
  let inner ←
    if _particles.length = 2 then self.calcAccPotAndGTKickTwo cfg sqrt _force _particles
    else some (self.calcAccPotAndGTKick cfg sqrt _force _particles)
  let n_pert := _perturber.neighbor_address.length
  if n_pert > 0 then
    let pert ← _perturber.neighbor_address.mapM (ARInteraction.predictPert _time)
    let dt := _time - _particle_cm.time
    ASSERT (dt ≥ 0)
    let xcm := predictPos _particle_cm dt
    let mcm := _particle_cm.mass
    if _perturber.need_resolve_flag then
      return { inner with
        force := self.pertResolved sqrt inner.force _particles xcm mcm pert }
    else
      return { inner with force := self.pertUnresolved sqrt inner.force _particles xcm pert }
  else
    return inner

/-- The prediction `vel + dt*(acc0 + 0.5*dt*acc1)` of the three velocity components
(ar_interaction.h 230-232, 243-245, 577-579 and 594-596). -/
def predictVel (p : ParticleH4 F) (dt : F) : Vec3 F :=
  ⟨p.vel.c0 + dt * (p.acc0.c0 + 0.5 * dt * p.acc1.c0),
   p.vel.c1 + dt * (p.acc0.c1 + 0.5 * dt * p.acc1.c1),
   p.vel.c2 + dt * (p.acc0.c2 + 0.5 * dt * p.acc1.c2)⟩

/-- `Interaction::calcPertFromBinary` (interaction.h 212-220). -/
def Interaction.calcPertFromBinary (cfg : Config) (_self : Interaction F)
    (_bin : BinaryTree F) : F :=
  let apo := _bin.semi * (1.0 + _bin.ecc)
  let apo2 := apo * apo
  if cfg.AR_SLOWDOWN_PERT_R4 then (_bin.m1 * _bin.m2) / (apo2 * apo2)
  else (_bin.m1 * _bin.m2) / (apo2 * apo)

/-- `Interaction::calcPertFromMR` (interaction.h 223-230). -/
def Interaction.calcPertFromMR (cfg : Config) (_self : Interaction F)
    (_r _mp _mpert : F) : F :=
  let r2 := _r * _r
  if cfg.AR_SLOWDOWN_PERT_R4 then _mp * _mpert / (r2 * r2)
  else (_mp * _mpert) / (r2 * _r)

/-- `ARInteraction::calcPertFromBinary` (ar_interaction.h 170-174). -/
def ARInteraction.calcPertFromBinary (_self : ARInteraction F) (_bin : BinaryTree F) : F :=
  let apo := _bin.semi * (1.0 + _bin.ecc)
  let r2 := apo * apo
  (_bin.m1 * _bin.m2) / (r2 * r2)

/-- `ARInteraction::calcPertFromMR` (ar_interaction.h 177-180). -/
def ARInteraction.calcPertFromMR (_self : ARInteraction F) (_r _mp _mpert : F) : F :=
  let r2 := _r * _r
  _mp * _mpert / (r2 * r2)

/-- `Interaction::calcSlowDownPert` (interaction.h 311-323).  `calcSlowDownFactor` is the
method of the class `SlowDown`, whose source is not available: it is a parameter. -/
def Interaction.calcSlowDownPert {Perturber : Type}
    (calcSlowDownFactor : SlowDown F → SlowDown F) (_self : Interaction F)
    (_slowdown : SlowDown F) (_particle_cm : Particle F) (_bin_root : BinaryTree F)
    (_perturber : Perturber) : SlowDown F :=
  let s1 := { _slowdown with pert_in := 0.0 }
  let s2 := { s1 with pert_out := 0.0 }
  let s3 := { s2 with timescale := s2.getTimescaleMax }
  calcSlowDownFactor s3

/-- Loop-carried values of the loop over the perturbers in
`ARInteraction::calcSlowDownPert`: `pert_pot` and `t2_min`. -/
structure SlowDownPertState (F : Type) where
  pert_pot : F
  t2_min : F

/-- Body of the loop over the perturbers in `ARInteraction::calcSlowDownPert`
(ar_interaction.h 584-615) at the neighbor entry `adr`.  The two `ASSERT(dt>=0.0)` of the
routine are commented out in the source and are not modelled.  The quotients `m / r4` and
`ti2` are those of the source when the divisor is not zero; a `Float` division by zero gives
an infinity or a NaN, which the field `F` does not have. -/
def ARInteraction.slowDownPertBody (self : ARInteraction F) (time : F) (xcm vcm : Vec3 F)
    (st : SlowDownPertState F) (adr : NBAdr F) : SlowDownPertState F :=
  let pertj := adr.pertj
  let dt := time - pertj.time
  let xp := predictPos pertj dt
  let vp := predictVel pertj dt
  let m := pertj.mass
  let dr : Vec3 F := ⟨xp.c0 - xcm.c0, xp.c1 - xcm.c1, xp.c2 - xcm.c2⟩
  let dv : Vec3 F := ⟨vp.c0 - vcm.c0, vp.c1 - vcm.c1, vp.c2 - vcm.c2⟩
  let r2 := dr.c0 * dr.c0 + dr.c1 * dr.c1 + dr.c2 * dr.c2 + self.eps_sq
  let r4 := r2 * r2
  let pert_pot := st.pert_pot + m / r4
  let v2 := dv.c0 * dv.c0 + dv.c1 * dv.c1 + dv.c2 * dv.c2
  let drdv := dr.c0 * dv.c0 + dr.c1 * dv.c1 + dr.c2 * dv.c2
  let ti2 := r2 * r2 / (drdv * drdv + 1e-4 * v2 * r2)
  { pert_pot := pert_pot, t2_min := min ti2 st.t2_min }

/-- `ARInteraction::calcSlowDownPert` (ar_interaction.h 551-623, the variant compiled
without `SLOWDOWN_INTEGRATE`).  `NUMERIC_FLOAT_MAX` is the constant of `Common/Float.h`,
whose source is not available: it is a parameter. -/
def ARInteraction.calcSlowDownPert (NUMERIC_FLOAT_MAX : F) (sqrt : F → F)
    (self : ARInteraction F) (_slowdown : SlowDown F) (_particle_cm : ParticleH4 F)
    (_bin_root : BinaryTree F) (_perturber : Neighbor F) : SlowDown F :=
  let apo_in := _bin_root.semi * (1.0 + _bin_root.ecc)
  let apo_in2 := apo_in * apo_in
  let s1 := { _slowdown with pert_in := _bin_root.m1 * _bin_root.m2 / (apo_in2 * apo_in2) }
  let s2 := { s1 with period := _bin_root.period }
  let time := s2.getRealTime
  let n_pert := _perturber.neighbor_address.length
  if n_pert > 0 then
    let dt := time - _particle_cm.time
    let xcm := predictPos _particle_cm dt
    let vcm := predictVel _particle_cm dt
    let mcm := _particle_cm.mass
    let st := _perturber.neighbor_address.foldl (self.slowDownPertBody time xcm vcm)
      { pert_pot := 0.0, t2_min := NUMERIC_FLOAT_MAX }
    let s3 := { s2 with pert_out := mcm * st.pert_pot }
    { s3 with timescale := 0.1 * min s3.getTimescaleMax (sqrt st.t2_min) }
  else
    let s3 := { s2 with pert_out := 0.0 }
    { s3 with timescale := s3.getTimescaleMax }

/-- Body of the first loop of `ARInteraction::calcAccEnergyAndSlowDownPert`
(ar_interaction.h 220-235): the predicted position `xp[j]`, the predicted velocity
`vp[j]` and the mass `m[j]` of one perturber. -/
def ARInteraction.predictPertVel (time : F) (adr : NBAdr F) :
    Option (Vec3 F × Vec3 F × F) := do
  let pertj := adr.pertj
  let dt := time - pertj.time
  ASSERT (dt ≥ 0)
  return (predictPos pertj dt, predictVel pertj dt, pertj.mass)

/-- Body of the loops over perturbers of `calcAccEnergyAndSlowDownPert` that accumulate
`mor3/r` at the position `xi` (ar_interaction.h 263-276 into `pert_pot`, 327-348 into
`pert_cm`); `xvm = (xp[j], vp[j], m[j])`. -/
def ARInteraction.pertPotBody (sqrt : F → F) (self : ARInteraction F) (xi : Vec3 F)
    (pert_pot : F) (xvm : Vec3 F × Vec3 F × F) : F :=
  let dr : Vec3 F := ⟨xvm.1.c0 - xi.c0, xvm.1.c1 - xi.c1, xvm.1.c2 - xi.c2⟩
  let r2 := dr.c0 * dr.c0 + dr.c1 * dr.c1 + dr.c2 * dr.c2 + self.eps_sq
  let r := sqrt r2
  let r3 := r * r2
  let mor3 := self.G * xvm.2.2 / r3
  pert_pot + mor3 / r

/-- Body of the loops of `calcAccEnergyAndSlowDownPert` that take the minimum of the
timescale estimate `ti` over the perturbers (ar_interaction.h 305-318 and 326-348);
`xvm = (xp[j], vp[j], m[j])`. -/
def ARInteraction.timescaleBody (self : ARInteraction F) (xcm vcm : Vec3 F)
    (timescale : F) (xvm : Vec3 F × Vec3 F × F) : F :=
  let dr : Vec3 F := ⟨xvm.1.c0 - xcm.c0, xvm.1.c1 - xcm.c1, xvm.1.c2 - xcm.c2⟩
  let dv : Vec3 F := ⟨xvm.2.1.c0 - vcm.c0, xvm.2.1.c1 - vcm.c1, xvm.2.1.c2 - vcm.c2⟩
  let r2 := dr.c0 * dr.c0 + dr.c1 * dr.c1 + dr.c2 * dr.c2 + self.eps_sq
  let drdv := dr.c0 * dv.c0 + dr.c1 * dv.c1 + dr.c2 * dv.c2
  let v2 := dv.c0 * dv.c0 + dv.c1 * dv.c1 + dv.c2 * dv.c2
  let ti := if drdv * drdv > 0.25 * v2 * r2 then r2 * r2 / (drdv * drdv) else r2 / v2
  min timescale ti

/-- `ARInteraction::calcAccEnergyAndSlowDownPert` (ar_interaction.h 196-392, compiled
under `SLOWDOWN_INTEGRATE` in place of `calcAccEnergy` and `calcSlowDownPert`).  The
statements that write `acc_pert` are those of `calcAccEnergy` (`pertResolved`,
`pertUnresolved`); the sums `pert_pot`, `pert_cm` and the timescale are accumulated in
the same loops and are written here as folds of their own.  The lines under `ARC_DEBUG`
are left out as in `calcAccEnergy`.  `NUMERIC_FLOAT_MAX` is a parameter. -/
def ARInteraction.calcAccEnergyAndSlowDownPert (cfg : Config) (NUMERIC_FLOAT_MAX : F)
    (sqrt : F → F) (self : ARInteraction F) (_slowdown : SlowDown F)
    (_force : List (Force F)) (_particles : List (Particle F)) (_particle_cm : ParticleH4 F)
    (_bin_root : BinaryTree F) (_perturber : Neighbor F) :
    Option (KickOut F × SlowDown F) := do
  let inner ←
    if _particles.length = 2 then self.calcAccPotAndGTKickTwo cfg sqrt _force _particles
    else some (self.calcAccPotAndGTKick cfg sqrt _force _particles)
  let apo_in := _bin_root.semi * (1.0 + _bin_root.ecc)
  let apo_in2 := apo_in * apo_in
  let s1 := { _slowdown with pert_in := _bin_root.m1 * _bin_root.m2 / (apo_in2 * apo_in2) }
  let s2 := { s1 with period := _bin_root.period }
  let time := s2.getRealTime
  let n_pert := _perturber.neighbor_address.length
  if n_pert > 0 then
    let pert ← _perturber.neighbor_address.mapM (ARInteraction.predictPertVel time)
    let dt := time - _particle_cm.time
    ASSERT (dt ≥ 0)
    let xcm := predictPos _particle_cm dt
    let vcm := predictVel _particle_cm dt
    let mcm := _particle_cm.mass
    let xm := pert.map (fun xvm => (xvm.1, xvm.2.2))
    if _perturber.need_resolve_flag then
      let force := self.pertResolved sqrt inner.force _particles xcm mcm xm
      let pert_cm := _particles.foldl (fun pert_cm pi =>
          let xi : Vec3 F := ⟨pi.pos.c0 + xcm.c0, pi.pos.c1 + xcm.c1, pi.pos.c2 + xcm.c2⟩
          pert_cm + pi.mass * pert.foldl (self.pertPotBody sqrt xi) 0.0) 0.0
      let timescale := sqrt (pert.foldl (self.timescaleBody xcm vcm) NUMERIC_FLOAT_MAX)
      let s3 := { s2 with timescale := 0.1 * min s2.getTimescaleMax timescale }
      return ({ inner with force := force }, { s3 with pert_out := pert_cm })
    else
      let timescale := sqrt (pert.foldl (self.timescaleBody xcm vcm) NUMERIC_FLOAT_MAX)
      let pert_cm := pert.foldl (self.pertPotBody sqrt xcm) 0.0
      let s3 := { s2 with timescale := 0.1 * min s2.getTimescaleMax timescale }
      let force := self.pertUnresolved sqrt inner.force _particles xcm xm
      return ({ inner with force := force }, { s3 with pert_out := _particle_cm.mass * pert_cm })
  else
    let s3 := { s2 with pert_out := 0.0 }
    return (inner, { s3 with timescale := s3.getTimescaleMax })

/-- Squared separation `dr[0]*dr[0] + dr[1]*dr[1] + dr[2]*dr[2]` of two positions,
with `dr = b - a`, as the kernels compute it. -/
def sepSq (a b : Vec3 F) : F :=
  (b.c0 - a.c0) * (b.c0 - a.c0) + (b.c1 - a.c1) * (b.c1 - a.c1)
    + (b.c2 - a.c2) * (b.c2 - a.c2)

/-- Euclidean distance `|b - a|` of two positions. -/
def dist3 (sqrt : F → F) (a b : Vec3 F) : F :=
  sqrt ((b.c0 - a.c0) ^ 2 + (b.c1 - a.c1) ^ 2 + (b.c2 - a.c2) ^ 2)

/-- Sum of `f p q` over the unordered pairs of a list: each pair `i < j` once. -/
def pairSum (f : Particle F → Particle F → F) : List (Particle F) → F
  | [] => 0
  | p :: ps => (ps.map (f p)).sum + pairSum f ps

/-- One term of the sum in `specGtgrad`: the contribution `G*m_i*m_j*(x_j-x_i)/|x_j-x_i|^3`
of the particle `jp = (j, pj)` to the gradient at particle `pi` with index `i`, nothing
for `j = i`. -/
def specGtgradStep (sqrt : F → F) (G : F) (i : Nat) (pi : Particle F) (acc : Vec3 F)
    (jp : Nat × Particle F) : Vec3 F :=
  if i = jp.1 then acc
  else
    ⟨acc.c0 + G * pi.mass * jp.2.mass * (jp.2.pos.c0 - pi.pos.c0)
        / dist3 sqrt pi.pos jp.2.pos ^ 3,
     acc.c1 + G * pi.mass * jp.2.mass * (jp.2.pos.c1 - pi.pos.c1)
        / dist3 sqrt pi.pos jp.2.pos ^ 3,
     acc.c2 + G * pi.mass * jp.2.mass * (jp.2.pos.c2 - pi.pos.c2)
        / dist3 sqrt pi.pos jp.2.pos ^ 3⟩

/-- The gradient that the spec names for particle `pi` with index `i`: the sum over the
other particles `pj` of `G*m_i*m_j*(x_j-x_i)/|x_j-x_i|^3`. -/
def specGtgrad (sqrt : F → F) (G : F) (ps : List (Particle F)) (i : Nat) (pi : Particle F) :
    Vec3 F :=
  ps.enum.foldl (specGtgradStep sqrt G i pi) ⟨0, 0, 0⟩

/-- The softened squared distance `r_j^2 = |x_j - x_cm|^2 + eps_sq` between the
predicted position of the perturber `adr` and the predicted centre of mass `cm`, both
taken at the time `time`. -/
def specPertR2 (self : ARInteraction F) (time : F) (cm : ParticleH4 F) (adr : NBAdr F) : F :=
  sepSq (predictPos cm (time - cm.time)) (predictPos adr.pertj (time - adr.pertj.time))
    + self.eps_sq

/-- The squared timescale estimate `r_j^4/((dr_j.dv_j)^2 + 1e-4*v_j^2*r_j^2)` of the
perturber `adr`, with `dr_j`, `dv_j` its predicted position and velocity relative to the
predicted centre of mass `cm`. -/
def specPertTi2 (self : ARInteraction F) (time : F) (cm : ParticleH4 F) (adr : NBAdr F) : F :=
  let xcm := predictPos cm (time - cm.time)
  let vcm := predictVel cm (time - cm.time)
  let xp := predictPos adr.pertj (time - adr.pertj.time)
  let vp := predictVel adr.pertj (time - adr.pertj.time)
  let drdv := (xp.c0 - xcm.c0) * (vp.c0 - vcm.c0) + (xp.c1 - xcm.c1) * (vp.c1 - vcm.c1)
    + (xp.c2 - xcm.c2) * (vp.c2 - vcm.c2)
  let v2 := (vp.c0 - vcm.c0) ^ 2 + (vp.c1 - vcm.c1) ^ 2 + (vp.c2 - vcm.c2) ^ 2
  specPertR2 self time cm adr ^ 2 / (drdv ^ 2 + 1e-4 * v2 * specPertR2 self time cm adr)

/-- The estimate that `Information::calcDsKeplerIter` assigns to `ds.min` before it takes
the minimum (information.h 100-102, the branch compiled without `AR_TTL_GT_MULTI`); `G`
is `_ds.G`.  It is the value of the source when `m1 + m2` is not zero and the number under
the square root is not negative; otherwise the `Float` is an infinity or a NaN, which the
field `F` does not have. -/
def Information.dsKepler (sqrt : F → F) (G : F) (_bin : BinaryTree F) : F :=
  if _bin.semi > 0 then
    0.19634954084 * sqrt (G * _bin.semi / (_bin.m1 + _bin.m2)) * (_bin.m1 * _bin.m2)
  else 0.0245436926 * sqrt (-_bin.semi / (_bin.m1 + _bin.m2)) * (_bin.m1 * _bin.m2)

/-- `Information::calcDsKeplerIter` (information.h 89-106), the variant compiled without
`AR_TTL_GT_MULTI`.  With `AR_TTL_GT_MULTI` the accumulator has other members, and
`calcDsAndStepOption` then names an undeclared `ds_dat` (information.h 147) and cannot be
compiled; that variant is not modelled. -/
def Information.calcDsKeplerIter (sqrt : F → F) (_ds : DsIter F) (_bin : BinaryTree F) :
    DsIter F :=
  let ds_G := _ds.G
  let ds_min := Information.dsKepler sqrt _ds.G _bin
  { G := ds_G, min := min ds_min _ds.min }

/-- `Information::getBinaryTreeRoot` (information.h 131-135): the node in the last slot
of the list. -/
def Information.getBinaryTreeRoot (self : Information F) : Option (BinaryTree F) := do
  let n := self.binarytree.getSize
  ASSERT (n > 0)
  return self.binarytree.data (n - 1)

/-- `Information::calcDsAndStepOption` (information.h 142-175), the variant compiled
without `AR_TTL_GT_MULTI`.  `processRootIter` is the method of `COMM::BinaryTree`
(`Common/binary_tree.h`, not among the sources) that applies a function at the nodes of
the tree below the root, and `NUMERIC_FLOAT_MAX` the constant of `Common/Float.h`: both
are parameters.  `_int_order` is not read. -/
def Information.calcDsAndStepOption
    (processRootIter : BinaryTree F → DsIter F → (DsIter F → BinaryTree F → DsIter F)
      → DsIter F)
    (NUMERIC_FLOAT_MAX : F) (sqrt : F → F) (self : Information F) (_int_order : Int)
    (_G : F) : Option (Information F) := do
  let bin_root ← self.getBinaryTreeRoot
  let ds_iter : DsIter F := { G := _G, min := NUMERIC_FLOAT_MAX }
  let ds_iter := processRootIter bin_root ds_iter (Information.calcDsKeplerIter sqrt)
  let s1 := { self with ds := ds_iter.min }
  let n_particle := bin_root.getMemberN
  let s2 := { s1 with fix_step_option := FixStepOption.none }
  if n_particle = 2 then return { s2 with fix_step_option := FixStepOption.later }
  else return s2

/-- Assignment through `binarytree[i]`: slot `i` of the storage is replaced by `g` of its
old value, every other slot is kept. -/
def writeNode (data : Nat → BinaryTree F) (i : Nat) (g : BinaryTree F → BinaryTree F) :
    Nat → BinaryTree F :=
  fun j => if j = i then g (data j) else data j

/-- The array `particle_index_local` after the loop of `generateBinaryTree`
(information.h 188-191): the indices of the particles with `mass > 0.0`, in input order;
its length is `n_particle_real`. -/
def realIndices (_particles : List (Particle F)) : List Nat :=
  (_particles.enum.filter (fun ip => ip.2.mass > 0)).map Prod.fst

/-- The array `particle_index_unused` after the loop of `generateBinaryTree`
(information.h 188-191): the indices of the other particles, in input order; its length
is `n_particle_unused`. -/
def unusedIndices (_particles : List (Particle F)) : List Nat :=
  (_particles.enum.filter (fun ip => ¬ ip.2.mass > 0)).map Prod.fst

/-- Body of the loop of `generateBinaryTree` for a group without real particle
(information.h 198-200), at the particle index `i`. -/
def Information.chainAll (d : Nat → BinaryTree F) (i : Nat) : Nat → BinaryTree F :=
  writeNode d (i - 1)
    (fun b => b.setMembers (Member.node (i - 2)) (Member.particle i) (-1) i)

/-- Body of the loop of `generateBinaryTree` for a group with one real particle
(information.h 206-209), at `ik = (i, particle_index_unused[i])`. -/
def Information.chainUnused (d : Nat → BinaryTree F) (ik : Nat × Nat) : Nat → BinaryTree F :=
  writeNode d ik.1
    (fun b => b.setMembers (Member.node (ik.1 - 1)) (Member.particle ik.2) (-1) ik.2)

/-- Body of the loop of `generateBinaryTree` for a group with two or more real particles
(information.h 212-217), at `ik = (i, particle_index_unused[i])`. -/
def Information.attachUnused (n_particle_real n_particle : Nat) (d : Nat → BinaryTree F)
    (ik : Nat × Nat) : Option (Nat → BinaryTree F) := do
  let ilast := n_particle_real - 1 + ik.1
  ASSERT (ilast < n_particle - 1)
  let k := ik.2
  return writeNode d ilast
    (fun b => b.setMembers (Member.node (ilast - 1)) (Member.particle k) (-1) k)

/-- `Information::generateBinaryTree` (information.h 180-219).  `generateCore` is the
static `BinaryTree::generateBinaryTree` of `Common/binary_tree.h` (not among the sources),
called with the data address of the node list, the indices of the real particles, the data
address of the particles and `_G`: a parameter, it returns the storage after the call.  In
the branch `n_particle_real == 1` both index arrays hold an entry 0, the default of
`headD` is never read. -/
def Information.generateBinaryTree
    (generateCore : (Nat → BinaryTree F) → List Nat → List (Particle F) → F
      → (Nat → BinaryTree F))
    (self : Information F) (_particles : List (Particle F)) (_G : F) :
    Option (Information F) := do
  let n_particle := _particles.length
  ASSERT (n_particle > 1)
  let binarytree := self.binarytree.resizeNoInitialize (n_particle - 1)
  let particle_index_local := realIndices _particles
  let particle_index_unused := unusedIndices _particles
  let n_particle_real := particle_index_local.length
  let data0 :=
    if n_particle_real > 1 then generateCore binarytree.data particle_index_local _particles _G
    else binarytree.data
  let data ←
    if n_particle_real = 0 then
      let d := writeNode data0 0
        (fun b => b.setMembers (Member.particle 0) (Member.particle 1) 0 1)
      some ((List.range' 2 (n_particle - 2)).foldl Information.chainAll d)
    else if n_particle_real = 1 then
      let i1 := particle_index_local.headD 0
      let i2 := particle_index_unused.headD 0
      let d := writeNode data0 0
        (fun b => b.setMembers (Member.particle i1) (Member.particle i2) i1 i2)
      some ((particle_index_unused.enum.drop 1).foldl Information.chainUnused d)
    else
      particle_index_unused.enum.foldlM
        (Information.attachUnused n_particle_real n_particle) data0
  return { self with binarytree := { binarytree with data := data } }

/-- Whether the two children of the node `b` are both particles without positive mass
(placeholders) of the group `ps`. -/
def pairsPlaceholders (ps : List (Particle F)) (b : BinaryTree F) : Bool :=
  match b.member_left, b.member_right with
  | Member.particle i, Member.particle j =>
    decide (i ∈ unusedIndices ps ∧ j ∈ unusedIndices ps)
  | _, _ => false

/-- The lambda `merge` of `Interaction::modifyAndInterruptIter` (interaction.h 356-368).
The loop over `k` reads `p1->mass`, which is assigned after the loop, and component `k`
of `p1->pos`, `p1->vel` only, so the three components are written at once. -/
def Interaction.merge (_bin_interrupt : BinaryInterrupt F) (_bin : BinaryTree F)
    (p1 p2 : Particle F) : InterruptOut F :=
  let i1 := { _bin_interrupt with adr := some _bin }
  let i2 := { i1 with status := InterruptStatus.merge }
  let p1a := { p1 with status := Status.single }
  let mcm := p1a.mass + p2.mass
  let p1b := { p1a with
    pos := ⟨(p1a.mass * p1a.pos.c0 + p2.mass * p2.pos.c0) / mcm,
            (p1a.mass * p1a.pos.c1 + p2.mass * p2.pos.c1) / mcm,
            (p1a.mass * p1a.pos.c2 + p2.mass * p2.pos.c2) / mcm⟩
    vel := ⟨(p1a.mass * p1a.vel.c0 + p2.mass * p2.vel.c0) / mcm,
            (p1a.mass * p1a.vel.c1 + p2.mass * p2.vel.c1) / mcm,
            (p1a.mass * p1a.vel.c2 + p2.mass * p2.vel.c2) / mcm⟩ }
  let p1c := { p1b with mass := mcm }
  let p2a := { p2 with status := Status.unused }
  let p2b := { p2a with mass := 0.0 }
  { bin_interrupt := i2, p1 := p1c, p2 := p2b }

/-- The product `drdv` of the relative position and the relative velocity of the two
members in `Interaction::modifyAndInterruptIter` (interaction.h 377-383). -/
def Interaction.drdv (p1 p2 : Particle F) : F :=
  let dr : Vec3 F := ⟨p1.pos.c0 - p2.pos.c0, p1.pos.c1 - p2.pos.c1, p1.pos.c2 - p2.pos.c2⟩
  let dv : Vec3 F := ⟨p1.vel.c0 - p2.vel.c0, p1.vel.c1 - p2.vel.c1, p1.vel.c2 - p2.vel.c2⟩
  dr.c0 * dv.c0 + dr.c1 * dv.c1 + dr.c2 * dv.c2

/-- The conversion of a `Float` to `int`: the fractional part is discarded, that is the
value is rounded toward zero.  A value outside the range of `int` has no defined conversion
in the source; here the integer is unbounded. -/
def truncToInt [FloorRing F] (x : F) : Int := if 0 ≤ x then ⌊x⌋ else ⌈x⌉

/-- The call `abs(x)` of interaction.h 389 with a `Float` argument.  The name is
unqualified, the file includes `<cmath>` and no other standard header and has no
using-declaration, so the function found is `int abs(int)` of the C library: the argument
is converted to `int`, and the `int` result is converted back to `Float` by the
initialisation of `t_peri`. -/
def Interaction.abs [FloorRing F] (x : F) : F := ((|truncToInt x| : Int) : F)

/-- The argument `mean_anomaly/6.28318530718*_bin.period` of `abs` in
`Interaction::modifyAndInterruptIter` (interaction.h 385-389).  `calcEccAnomaly` and
`calcMeanAnomaly` are methods of the node (`Common/binary_tree.h`, not among the sources):
parameters. -/
def Interaction.tPeriArg (sqrt : F → F) (calcEccAnomaly : BinaryTree F → F → F)
    (calcMeanAnomaly : BinaryTree F → F → F → F) (_bin : BinaryTree F)
    (p1 p2 : Particle F) : F :=
  let dr : Vec3 F := ⟨p1.pos.c0 - p2.pos.c0, p1.pos.c1 - p2.pos.c1, p1.pos.c2 - p2.pos.c2⟩
  let dr2 := dr.c0 * dr.c0 + dr.c1 * dr.c1 + dr.c2 * dr.c2
  let dr := sqrt dr2
  let ecc_anomaly := calcEccAnomaly _bin dr
  let mean_anomaly := calcMeanAnomaly _bin ecc_anomaly _bin.ecc
  mean_anomaly / 6.28318530718 * _bin.period

/-- The time to pericentre `t_peri` that `Interaction::modifyAndInterruptIter` computes
(interaction.h 385-389): `abs` of the argument above, with the `abs` that the source
calls. -/
def Interaction.tPeri [FloorRing F] (sqrt : F → F) (calcEccAnomaly : BinaryTree F → F → F)
    (calcMeanAnomaly : BinaryTree F → F → F → F) (_bin : BinaryTree F)
    (p1 p2 : Particle F) : F :=
  Interaction.abs (Interaction.tPeriArg sqrt calcEccAnomaly calcMeanAnomaly _bin p1 p2)

/-- The time to pericentre as the claims name it: the absolute value, a `Float`, of
`mean_anomaly/6.28318530718*period`. -/
def specTimeToPeri (sqrt : F → F) (calcEccAnomaly : BinaryTree F → F → F)
    (calcMeanAnomaly : BinaryTree F → F → F → F) (_bin : BinaryTree F)
    (p1 p2 : Particle F) : F :=
  |Interaction.tPeriArg sqrt calcEccAnomaly calcMeanAnomaly _bin p1 p2|

/-- `Interaction::modifyAndInterruptIter` (interaction.h 350-403), a static method.  `p1`
and `p2` are the particles that `getLeftMember()` and `getRightMember()` point to; they
are read only when the node has two members. -/
def Interaction.modifyAndInterruptIter [FloorRing F] (sqrt : F → F)
    (calcEccAnomaly : BinaryTree F → F → F) (calcMeanAnomaly : BinaryTree F → F → F → F)
    (_bin_interrupt : BinaryInterrupt F) (_bin : BinaryTree F) (p1 p2 : Particle F) :
    InterruptOut F :=
  if _bin.getMemberN = 2 ∧ _bin_interrupt.status = InterruptStatus.none then
    if p1.status ≠ Status.unused ∧ p2.status ≠ Status.unused then
      if p1.status = Status.premerge ∧ p2.status = Status.premerge
          ∧ p1.time_check < _bin_interrupt.time_end
          ∧ p2.time_check < _bin_interrupt.time_end then
        Interaction.merge _bin_interrupt _bin p1 p2
      else
        let peri := _bin.semi * (1 - _bin.ecc)
        let radius := p1.radius + p2.radius
        if peri < radius ∧ p1.status ≠ Status.premerge ∧ p2.status ≠ Status.premerge then
          let drdv := Interaction.drdv p1 p2
          if drdv < 0 then
            let t_peri := Interaction.tPeri sqrt calcEccAnomaly calcMeanAnomaly _bin p1 p2
            if t_peri < _bin_interrupt.time_end - _bin_interrupt.time_now then
              Interaction.merge _bin_interrupt _bin p1 p2
            else
              let p1a := { p1 with status := Status.premerge }
              let p2a := { p2 with status := Status.premerge }
              let p1b := { p1a with time_check := _bin_interrupt.time_now + t_peri }
              let p2b := { p2a with time_check := p1b.time_check }
              { bin_interrupt := _bin_interrupt, p1 := p1b, p2 := p2b }
          else { bin_interrupt := _bin_interrupt, p1 := p1, p2 := p2 }
        else { bin_interrupt := _bin_interrupt, p1 := p1, p2 := p2 }
    else { bin_interrupt := _bin_interrupt, p1 := p1, p2 := p2 }
  else { bin_interrupt := _bin_interrupt, p1 := p1, p2 := p2 }

/-- The first child of node 0 in the chaining fallback as the claim names it: the lone
real particle, or particle 0 when there is none. -/
def specChainFirst (ps : List (Particle F)) : Nat := (realIndices ps).headD 0

/-- The particles that the chaining fallback attaches as second children, as the claim
names them: the particles without positive mass in input order, particle 0 left out when
no particle is real (it is the first child of node 0). -/
def specChainRest (ps : List (Particle F)) : List Nat :=
  if (realIndices ps).length = 1 then unusedIndices ps else (unusedIndices ps).tail

/-- The default constructor `Information()` (information.h 114): `ds(Float(0.0))`,
`fix_step_option(AR::FixStepOption::none)`, `binarytree()`.  The empty list has size 0;
what its storage holds is not fixed by the source, here every slot holds `fill`. -/
def Information.new (fill : BinaryTree F) : Information F :=
  { ds := 0.0, fix_step_option := FixStepOption.none,
    binarytree := { size := 0, data := fun _ => fill } }

/-- `HermiteInteraction::calcAccJerkPairSingleSingle` (hermite_interaction.h 52-85). -/
def HermiteInteraction.calcAccJerkPairSingleSingle (sqrt : F → F)
    (self : HermiteInteraction F) (_fi : ForceH4 F) (_pi _pj : Tpi F) : AccJerkOut F :=
  let dr : Vec3 F := ⟨_pj.pos.c0 - _pi.pos.c0, _pj.pos.c1 - _pi.pos.c1,
    _pj.pos.c2 - _pi.pos.c2⟩
  let dr2 := dr.c0 * dr.c0 + dr.c1 * dr.c1 + dr.c2 * dr.c2
  let dr2_eps := dr2 + self.eps_sq
  let dv : Vec3 F := ⟨_pj.vel.c0 - _pi.vel.c0, _pj.vel.c1 - _pi.vel.c1,
    _pj.vel.c2 - _pi.vel.c2⟩
  let drdv := dr.c0 * dv.c0 + dr.c1 * dv.c1 + dr.c2 * dv.c2
  let r := sqrt dr2_eps
  let rinv := 1.0 / r
  let rinv2 := rinv * rinv
  let rinv3 := rinv2 * rinv
  let mor3 := self.G * _pj.mass * rinv3
  let acc0 : Vec3 F := ⟨mor3 * dr.c0, mor3 * dr.c1, mor3 * dr.c2⟩
  let acc1 : Vec3 F := ⟨mor3 * dv.c0 - 3.0 * drdv * rinv2 * acc0.c0,
    mor3 * dv.c1 - 3.0 * drdv * rinv2 * acc0.c1,
    mor3 * dv.c2 - 3.0 * drdv * rinv2 * acc0.c2⟩
  let fi : ForceH4 F :=
    { _fi with
      acc0 := ⟨_fi.acc0.c0 + acc0.c0, _fi.acc0.c1 + acc0.c1, _fi.acc0.c2 + acc0.c2⟩
      acc1 := ⟨_fi.acc1.c0 + acc1.c0, _fi.acc1.c1 + acc1.c1, _fi.acc1.c2 + acc1.c2⟩ }
  { fi := fi, ret := dr2 }

/-- Body of the loop over the members of `HermiteInteraction::calcAccJerkPairSingleGroupMember`
(hermite_interaction.h 101-132) at the member `pj = *member_adr[k]`; the state holds `_fi`
and `r2_min`. -/
def HermiteInteraction.groupMemberBody (sqrt : F → F) (self : HermiteInteraction F)
    (_pi : Tpi F) (st : AccJerkOut F) (pj : Tpi F) : Option (AccJerkOut F) := do
  ASSERT (_pi.id ≠ pj.id)
  let dr : Vec3 F := ⟨pj.pos.c0 - _pi.pos.c0, pj.pos.c1 - _pi.pos.c1, pj.pos.c2 - _pi.pos.c2⟩
  let dr2 := dr.c0 * dr.c0 + dr.c1 * dr.c1 + dr.c2 * dr.c2
  let dr2_eps := dr2 + self.eps_sq
  let dv : Vec3 F := ⟨pj.vel.c0 - _pi.vel.c0, pj.vel.c1 - _pi.vel.c1, pj.vel.c2 - _pi.vel.c2⟩
  let drdv := dr.c0 * dv.c0 + dr.c1 * dv.c1 + dr.c2 * dv.c2
  let r := sqrt dr2_eps
  let rinv := 1.0 / r
  let rinv2 := rinv * rinv
  let rinv3 := rinv2 * rinv
  let mor3 := self.G * pj.mass * rinv3
  let acc0 : Vec3 F := ⟨mor3 * dr.c0, mor3 * dr.c1, mor3 * dr.c2⟩
  let acc1 : Vec3 F := ⟨mor3 * dv.c0 - 3.0 * drdv * rinv2 * acc0.c0,
    mor3 * dv.c1 - 3.0 * drdv * rinv2 * acc0.c1,
    mor3 * dv.c2 - 3.0 * drdv * rinv2 * acc0.c2⟩
  let fi : ForceH4 F :=
    { st.fi with
      acc0 := ⟨st.fi.acc0.c0 + acc0.c0, st.fi.acc0.c1 + acc0.c1, st.fi.acc0.c2 + acc0.c2⟩
      acc1 := ⟨st.fi.acc1.c0 + acc1.c0, st.fi.acc1.c1 + acc1.c1, st.fi.acc1.c2 + acc1.c2⟩ }
  return { fi := fi, ret := min st.ret dr2 }

/-- `HermiteInteraction::calcAccJerkPairSingleGroupMember` (hermite_interaction.h 94-135).
`_gj` is the array `member_adr` of the group, `n_member` its length; `NUMERIC_FLOAT_MAX`
is a constant of `Common/Float.h` (not among the sources): a parameter. -/
def HermiteInteraction.calcAccJerkPairSingleGroupMember (NUMERIC_FLOAT_MAX : F)
    (sqrt : F → F) (self : HermiteInteraction F) (_fi : ForceH4 F) (_pi : Tpi F)
    (_gj : List (Tpi F)) : Option (AccJerkOut F) :=
  _gj.foldlM (self.groupMemberBody sqrt _pi) { fi := _fi, ret := NUMERIC_FLOAT_MAX }

/-- The group-member kernel as the claim words it: `calcAccJerkPairSingleSingle` applied
to `i` and each member in turn, on the force that the call before left, and the minimum of
the start value and the values that these calls return. -/
def specGroupMember (sqrt : F → F) (self : HermiteInteraction F) (_pi : Tpi F)
    (st : AccJerkOut F) (_gj : List (Tpi F)) : AccJerkOut F :=
  _gj.foldl (fun st pj =>
    { fi := (self.calcAccJerkPairSingleSingle sqrt st.fi _pi pj).fi
      ret := min st.ret (self.calcAccJerkPairSingleSingle sqrt st.fi _pi pj).ret }) st

/-- A particle with the identifier `id` and the mass `m` on the x axis at `x` with velocity
`vx` along the axis: a concrete input. -/
def Tpi.onAxis (id : Int) (m x vx : F) : Tpi F :=
  { id := id, mass := m, pos := ⟨x, 0, 0⟩, vel := ⟨vx, 0, 0⟩ }

/-- The node indices through which the loops of `Information::generateBinaryTree` after
the core pairing assign (`binarytree[...]`, information.h 196-218), in the order of the
assignments and as the `int` values that the source computes: `0` and `i-1` for a group
without real particle, `0` and `i` for a group with one, `ilast` otherwise. -/
def Information.writtenSlots (_particles : List (Particle F)) : List Int :=
  let n_particle := _particles.length
  let n_particle_real := (realIndices _particles).length
  let n_particle_unused := (unusedIndices _particles).length
  if n_particle_real = 0 then
    0 :: (List.range' 2 (n_particle - 2)).map (fun (i : Nat) => (i : Int) - 1)
  else if n_particle_real = 1 then
    0 :: (List.range' 1 (n_particle_unused - 1)).map (fun (i : Nat) => (i : Int))
  else
    (List.range n_particle_unused).map (fun (i : Nat) => (n_particle_real : Int) - 1 + i)

/-- The divisor `(dr_j.dv_j)^2 + 1e-4*v_j^2*r_j^2` of the squared timescale estimate of the
perturber `adr`.  A `Float` division by a zero divisor gives an infinity or a NaN and the
square root of a negative `Float` a NaN, which a field does not have: the estimate is
what the source computes when this divisor is positive. -/
def specPertDen (self : ARInteraction F) (time : F) (cm : ParticleH4 F) (adr : NBAdr F) : F :=
  let xcm := predictPos cm (time - cm.time)
  let vcm := predictVel cm (time - cm.time)
  let xp := predictPos adr.pertj (time - adr.pertj.time)
  let vp := predictVel adr.pertj (time - adr.pertj.time)
  let drdv := (xp.c0 - xcm.c0) * (vp.c0 - vcm.c0) + (xp.c1 - xcm.c1) * (vp.c1 - vcm.c1)
    + (xp.c2 - xcm.c2) * (vp.c2 - vcm.c2)
  let v2 := (vp.c0 - vcm.c0) ^ 2 + (vp.c1 - vcm.c1) ^ 2 + (vp.c2 - vcm.c2) ^ 2
  drdv ^ 2 + 1e-4 * v2 * specPertR2 self time cm adr

/-- The third-order Taylor polynomial `pos + vel*dt + acc0*dt^2/2 + acc1*dt^3/6` of the
position, as the claim names it. -/
def specTaylorPos (p : ParticleH4 F) (dt : F) : Vec3 F :=
  ⟨p.pos.c0 + p.vel.c0 * dt + p.acc0.c0 * dt ^ 2 / 2 + p.acc1.c0 * dt ^ 3 / 6,
   p.pos.c1 + p.vel.c1 * dt + p.acc0.c1 * dt ^ 2 / 2 + p.acc1.c1 * dt ^ 3 / 6,
   p.pos.c2 + p.vel.c2 * dt + p.acc0.c2 * dt ^ 2 / 2 + p.acc1.c2 * dt ^ 3 / 6⟩

/-- The Taylor polynomial `vel + acc0*dt + acc1*dt^2/2` of the velocity, as the claim names
it. -/
def specTaylorVel (p : ParticleH4 F) (dt : F) : Vec3 F :=
  ⟨p.vel.c0 + p.acc0.c0 * dt + p.acc1.c0 * dt ^ 2 / 2,
   p.vel.c1 + p.acc0.c1 * dt + p.acc1.c1 * dt ^ 2 / 2,
   p.vel.c2 + p.acc0.c2 * dt + p.acc1.c2 * dt ^ 2 / 2⟩

/-- The softened squared distance between the Taylor polynomials of the positions of the
perturber `adr` and of the centre of mass `cm` at the time `time`. -/
def specTaylorR2 (self : ARInteraction F) (time : F) (cm : ParticleH4 F) (adr : NBAdr F) : F :=
  sepSq (specTaylorPos cm (time - cm.time)) (specTaylorPos adr.pertj (time - adr.pertj.time))
    + self.eps_sq

/-- The squared timescale estimate `r^4/((dr.dv)^2 + 1e-4*v^2*r^2)` of the perturber `adr`
with `dr` and `dv` the differences of the Taylor polynomials of position and velocity of the
perturber and of the centre of mass `cm` at the time `time`. -/
def specTaylorTi2 (self : ARInteraction F) (time : F) (cm : ParticleH4 F) (adr : NBAdr F) : F :=
  let xcm := specTaylorPos cm (time - cm.time)
  let vcm := specTaylorVel cm (time - cm.time)
  let xp := specTaylorPos adr.pertj (time - adr.pertj.time)
  let vp := specTaylorVel adr.pertj (time - adr.pertj.time)
  let drdv := (xp.c0 - xcm.c0) * (vp.c0 - vcm.c0) + (xp.c1 - xcm.c1) * (vp.c1 - vcm.c1)
    + (xp.c2 - xcm.c2) * (vp.c2 - vcm.c2)
  let v2 := (vp.c0 - vcm.c0) ^ 2 + (vp.c1 - vcm.c1) ^ 2 + (vp.c2 - vcm.c2) ^ 2
  specTaylorR2 self time cm adr ^ 2 / (drdv ^ 2 + 1e-4 * v2 * specTaylorR2 self time cm adr)

end Kernels

/-! ## Supporting lemmas -/

theorem Vec3.eq_iff {F : Type} (a b : Vec3 F) :
    a = b ↔ a.c0 = b.c0 ∧ a.c1 = b.c1 ∧ a.c2 = b.c2 := by
  cases a; cases b; simp

section KernelLemmas

variable {F : Type} [LinearOrderedField F]

theorem sepSq_def (a b : Vec3 F) :
    sepSq a b = (b.c0 - a.c0) * (b.c0 - a.c0) + (b.c1 - a.c1) * (b.c1 - a.c1)
      + (b.c2 - a.c2) * (b.c2 - a.c2) := rfl

theorem ARInteraction_innerBody_of_ne (cfg : Config) (sqrt : F → F) (self : ARInteraction F)
    (i j : Nat) (h : i ≠ j) (pi pj : Particle F) (st : InnerState F) :
    self.innerBody cfg sqrt i pi st (j, pj)
      = { acci :=
            ⟨st.acci.c0 + self.G * pj.mass
                * (1 / sqrt (sepSq pi.pos pj.pos + self.eps_sq)
                    * (1 / sqrt (sepSq pi.pos pj.pos + self.eps_sq))
                    * (1 / sqrt (sepSq pi.pos pj.pos + self.eps_sq))) * (pj.pos.c0 - pi.pos.c0),
             st.acci.c1 + self.G * pj.mass
                * (1 / sqrt (sepSq pi.pos pj.pos + self.eps_sq)
                    * (1 / sqrt (sepSq pi.pos pj.pos + self.eps_sq))
                    * (1 / sqrt (sepSq pi.pos pj.pos + self.eps_sq))) * (pj.pos.c1 - pi.pos.c1),
             st.acci.c2 + self.G * pj.mass
                * (1 / sqrt (sepSq pi.pos pj.pos + self.eps_sq)
                    * (1 / sqrt (sepSq pi.pos pj.pos + self.eps_sq))
                    * (1 / sqrt (sepSq pi.pos pj.pos + self.eps_sq))) * (pj.pos.c2 - pi.pos.c2)⟩
          gtgradi :=
            if cfg.AR_TTL then
              ⟨st.gtgradi.c0 + pi.mass * (self.G * pj.mass
                  * (1 / sqrt (sepSq pi.pos pj.pos + self.eps_sq)
                      * (1 / sqrt (sepSq pi.pos pj.pos + self.eps_sq))
                      * (1 / sqrt (sepSq pi.pos pj.pos + self.eps_sq)))) * (pj.pos.c0 - pi.pos.c0),
               st.gtgradi.c1 + pi.mass * (self.G * pj.mass
                  * (1 / sqrt (sepSq pi.pos pj.pos + self.eps_sq)
                      * (1 / sqrt (sepSq pi.pos pj.pos + self.eps_sq))
                      * (1 / sqrt (sepSq pi.pos pj.pos + self.eps_sq)))) * (pj.pos.c1 - pi.pos.c1),
               st.gtgradi.c2 + pi.mass * (self.G * pj.mass
                  * (1 / sqrt (sepSq pi.pos pj.pos + self.eps_sq)
                      * (1 / sqrt (sepSq pi.pos pj.pos + self.eps_sq))
                      * (1 / sqrt (sepSq pi.pos pj.pos + self.eps_sq)))) * (pj.pos.c2 - pi.pos.c2)⟩
            else st.gtgradi
          poti := st.poti - self.G * pj.mass * (1 / sqrt (sepSq pi.pos pj.pos + self.eps_sq))
          gtki := st.gtki + self.G * pj.mass * (1 / sqrt (sepSq pi.pos pj.pos + self.eps_sq)) } := by
  simp only [ARInteraction.innerBody, if_neg h, sepSq]

theorem ARInteraction_innerBody_self (cfg : Config) (sqrt : F → F) (self : ARInteraction F)
    (i : Nat) (pi pj : Particle F) (st : InnerState F) :
    self.innerBody cfg sqrt i pi st (i, pj) = st := by
  simp only [ARInteraction.innerBody, if_true]

theorem ARInteraction_innerLoop_pair (cfg : Config) (sqrt : F → F) (self : ARInteraction F)
    (p1 p2 : Particle F) :
    self.innerLoop cfg sqrt [p1, p2] 0 p1
      = self.innerBody cfg sqrt 0 p1
          { acci := ⟨0, 0, 0⟩, gtgradi := ⟨0, 0, 0⟩, poti := 0, gtki := 0 } (1, p2)
    ∧ self.innerLoop cfg sqrt [p1, p2] 1 p2
      = self.innerBody cfg sqrt 1 p2
          { acci := ⟨0, 0, 0⟩, gtgradi := ⟨0, 0, 0⟩, poti := 0, gtki := 0 } (0, p1) := by
  simp only [ARInteraction.innerLoop, List.enum, List.enumFrom, List.foldl_cons,
    List.foldl_nil, zero_add, ARInteraction_innerBody_self, and_self]

theorem Interaction_innerBody_self (cfg : Config) (sqrt : F → F) (self : Interaction F)
    (i : Nat) (pi pj : Particle F) (st : InnerState F) :
    self.innerBody cfg sqrt i pi st (i, pj) = st := by
  simp only [Interaction.innerBody, if_true]

/-- The inner loops over a two-particle array reduce to one evaluation of the loop
body: the other particle. -/
theorem Interaction_innerLoop_pair (cfg : Config) (sqrt : F → F) (self : Interaction F)
    (p1 p2 : Particle F) :
    self.innerLoop cfg sqrt [p1, p2] 0 p1
      = self.innerBody cfg sqrt 0 p1
          { acci := ⟨0, 0, 0⟩, gtgradi := ⟨0, 0, 0⟩, poti := 0,
            gtki := if cfg.AR_TTL_GT_MULTI then 1 else 0 } (1, p2)
    ∧ self.innerLoop cfg sqrt [p1, p2] 1 p2
      = self.innerBody cfg sqrt 1 p2
          { acci := ⟨0, 0, 0⟩, gtgradi := ⟨0, 0, 0⟩, poti := 0,
            gtki := if cfg.AR_TTL_GT_MULTI then 1 else 0 } (0, p1) := by
  simp only [Interaction.innerLoop, List.enum, List.enumFrom, List.foldl_cons, List.foldl_nil,
    zero_add, Interaction_innerBody_self, and_self]

/-- The general kernel of `Interaction` on a two-particle array, loops unrolled. -/
theorem Interaction_calcInnerAccPotAndGTKickInv_pair (cfg : Config) (sqrt : F → F)
    (self : Interaction F) (f1 f2 : Force F) (rest : List (Force F)) (p1 p2 : Particle F)
    (e0 r0 : F) :
    self.outerBody cfg sqrt [p1, p2]
        (self.outerBody cfg sqrt [p1, p2] { force := f1 :: f2 :: rest, epot := e0, ret := r0 }
          (0, p1)) (1, p2)
      = { force :=
            { f1 with
              acc_in := (self.innerLoop cfg sqrt [p1, p2] 0 p1).acci
              gtgrad := if cfg.AR_TTL then (self.innerLoop cfg sqrt [p1, p2] 0 p1).gtgradi
                        else f1.gtgrad } ::
            { f2 with
              acc_in := (self.innerLoop cfg sqrt [p1, p2] 1 p2).acci
              gtgrad := if cfg.AR_TTL then (self.innerLoop cfg sqrt [p1, p2] 1 p2).gtgradi
                        else f2.gtgrad } :: rest
          epot := e0 + (self.innerLoop cfg sqrt [p1, p2] 0 p1).poti * p1.mass
                    + (self.innerLoop cfg sqrt [p1, p2] 1 p2).poti * p2.mass
          ret := if cfg.AR_TTL_GT_MULTI then
                   r0 * ((self.innerLoop cfg sqrt [p1, p2] 0 p1).gtki * p1.mass)
                     * ((self.innerLoop cfg sqrt [p1, p2] 1 p2).gtki * p2.mass)
                 else r0 + (self.innerLoop cfg sqrt [p1, p2] 0 p1).gtki * p1.mass
                     + (self.innerLoop cfg sqrt [p1, p2] 1 p2).gtki * p2.mass } := by
  cases hM : cfg.AR_TTL_GT_MULTI <;>
    simp only [Interaction.outerBody, writeForce, hM, Bool.false_eq_true, if_false, if_true]


theorem Interaction_innerBody_acci (cfg : Config) (sqrt : F → F) (self : Interaction F)
    (i j : Nat) (h : i ≠ j) (pi pj : Particle F) (st : InnerState F) :
    (self.innerBody cfg sqrt i pi st (j, pj)).acci
      = ⟨st.acci.c0 + self.gravitational_constant * pj.mass
            * (1 / sqrt (sepSq pi.pos pj.pos) * (1 / sqrt (sepSq pi.pos pj.pos))
                * (1 / sqrt (sepSq pi.pos pj.pos))) * (pj.pos.c0 - pi.pos.c0),
         st.acci.c1 + self.gravitational_constant * pj.mass
            * (1 / sqrt (sepSq pi.pos pj.pos) * (1 / sqrt (sepSq pi.pos pj.pos))
                * (1 / sqrt (sepSq pi.pos pj.pos))) * (pj.pos.c1 - pi.pos.c1),
         st.acci.c2 + self.gravitational_constant * pj.mass
            * (1 / sqrt (sepSq pi.pos pj.pos) * (1 / sqrt (sepSq pi.pos pj.pos))
                * (1 / sqrt (sepSq pi.pos pj.pos))) * (pj.pos.c2 - pi.pos.c2)⟩ := by
  simp only [Interaction.innerBody, if_neg h, sepSq]

theorem Interaction_innerBody_poti (cfg : Config) (sqrt : F → F) (self : Interaction F)
    (i j : Nat) (h : i ≠ j) (pi pj : Particle F) (st : InnerState F) :
    (self.innerBody cfg sqrt i pi st (j, pj)).poti
      = st.poti - self.gravitational_constant * pj.mass * (1 / sqrt (sepSq pi.pos pj.pos)) := by
  simp only [Interaction.innerBody, if_neg h, sepSq]

theorem Interaction_innerBody_gtki (cfg : Config) (sqrt : F → F) (self : Interaction F)
    (i j : Nat) (h : i ≠ j) (pi pj : Particle F) (st : InnerState F) :
    (self.innerBody cfg sqrt i pi st (j, pj)).gtki
      = if cfg.AR_TTL_GT_MULTI then st.gtki * (1 / sqrt (sepSq pi.pos pj.pos))
        else st.gtki
          + self.gravitational_constant * pj.mass * (1 / sqrt (sepSq pi.pos pj.pos)) := by
  simp only [Interaction.innerBody, if_neg h, sepSq]

theorem Interaction_calcInnerAccPotAndGTKickInvTwo_acc (cfg : Config) (sqrt : F → F)
    (self : Interaction F) (f1 f2 : Force F) (p1 p2 : Particle F) :
    (self.calcInnerAccPotAndGTKickInvTwo cfg sqrt f1 f2 p1 p2).f1.acc_in
      = ⟨self.gravitational_constant * p2.mass
            * (1 / sqrt (sepSq p1.pos p2.pos) * (1 / sqrt (sepSq p1.pos p2.pos))
                * (1 / sqrt (sepSq p1.pos p2.pos))) * (p2.pos.c0 - p1.pos.c0),
         self.gravitational_constant * p2.mass
            * (1 / sqrt (sepSq p1.pos p2.pos) * (1 / sqrt (sepSq p1.pos p2.pos))
                * (1 / sqrt (sepSq p1.pos p2.pos))) * (p2.pos.c1 - p1.pos.c1),
         self.gravitational_constant * p2.mass
            * (1 / sqrt (sepSq p1.pos p2.pos) * (1 / sqrt (sepSq p1.pos p2.pos))
                * (1 / sqrt (sepSq p1.pos p2.pos))) * (p2.pos.c2 - p1.pos.c2)⟩
    ∧ (self.calcInnerAccPotAndGTKickInvTwo cfg sqrt f1 f2 p1 p2).f2.acc_in
      = ⟨-(self.gravitational_constant * p1.mass
            * (1 / sqrt (sepSq p1.pos p2.pos) * (1 / sqrt (sepSq p1.pos p2.pos))
                * (1 / sqrt (sepSq p1.pos p2.pos)))) * (p2.pos.c0 - p1.pos.c0),
         -(self.gravitational_constant * p1.mass
            * (1 / sqrt (sepSq p1.pos p2.pos) * (1 / sqrt (sepSq p1.pos p2.pos))
                * (1 / sqrt (sepSq p1.pos p2.pos)))) * (p2.pos.c1 - p1.pos.c1),
         -(self.gravitational_constant * p1.mass
            * (1 / sqrt (sepSq p1.pos p2.pos) * (1 / sqrt (sepSq p1.pos p2.pos))
                * (1 / sqrt (sepSq p1.pos p2.pos)))) * (p2.pos.c2 - p1.pos.c2)⟩ := by
  simp only [Interaction.calcInnerAccPotAndGTKickInvTwo, sepSq, and_self]

theorem Interaction_calcInnerAccPotAndGTKickInvTwo_epot_ret (cfg : Config) (sqrt : F → F)
    (self : Interaction F) (f1 f2 : Force F) (p1 p2 : Particle F) :
    (self.calcInnerAccPotAndGTKickInvTwo cfg sqrt f1 f2 p1 p2).epot
      = -(self.gravitational_constant * p1.mass * p2.mass * (1 / sqrt (sepSq p1.pos p2.pos)))
    ∧ (self.calcInnerAccPotAndGTKickInvTwo cfg sqrt f1 f2 p1 p2).ret
      = self.gravitational_constant * p1.mass * p2.mass * (1 / sqrt (sepSq p1.pos p2.pos)) := by
  simp only [Interaction.calcInnerAccPotAndGTKickInvTwo, sepSq, and_self]

/-- A sum over an enumerated list of a term that reads the element only. -/
theorem sum_enumFrom_snd (g : Particle F → F) (k : Nat) (l : List (Particle F)) :
    ((l.enumFrom k).map (fun jp => g jp.2)).sum = (l.map g).sum := by
  have h : (l.enumFrom k).map (fun jp => g jp.2) = ((l.enumFrom k).map Prod.snd).map g := by
    rw [List.map_map]; rfl
  rw [h, List.enumFrom_map_snd]

/-- The double loop over ordered pairs `i ≠ j` of a symmetric term counts every
unordered pair twice. -/
theorem double_sum_eq_two_pairSum (f : Particle F → Particle F → F)
    (hf : ∀ p q, f p q = f q p) (l : List (Particle F)) (k : Nat) :
    ((l.enumFrom k).map (fun ip =>
        ((l.enumFrom k).map (fun jp => if ip.1 = jp.1 then 0 else f ip.2 jp.2)).sum)).sum
      = 2 * pairSum f l := by
  induction l generalizing k with
  | nil => simp [pairSum]
  | cons p rest ih =>
    rw [List.enumFrom_cons, List.map_cons, List.sum_cons, List.map_cons, List.sum_cons]
    have h1 : ((rest.enumFrom (k + 1)).map
          (fun jp => if (k, p).1 = jp.1 then 0 else f (k, p).2 jp.2)).sum
        = (rest.map (f p)).sum := by
      rw [← sum_enumFrom_snd (f p) (k + 1) rest]
      congr 1
      apply List.map_congr_left
      intro jp hjp
      have := List.le_fst_of_mem_enumFrom hjp
      have hne : ¬ k = jp.1 := by omega
      simp only [if_neg hne]
    have h2 : ((rest.enumFrom (k + 1)).map (fun ip =>
          (((k, p) :: rest.enumFrom (k + 1)).map
            (fun jp => if ip.1 = jp.1 then 0 else f ip.2 jp.2)).sum)).sum
        = (rest.map (f p)).sum + 2 * pairSum f rest := by
      have e : (rest.enumFrom (k + 1)).map (fun ip =>
            (((k, p) :: rest.enumFrom (k + 1)).map
              (fun jp => if ip.1 = jp.1 then 0 else f ip.2 jp.2)).sum)
          = (rest.enumFrom (k + 1)).map (fun ip => f p ip.2
              + ((rest.enumFrom (k + 1)).map
                  (fun jp => if ip.1 = jp.1 then 0 else f ip.2 jp.2)).sum) := by
        apply List.map_congr_left
        intro ip hip
        have := List.le_fst_of_mem_enumFrom hip
        have hne : ¬ ip.1 = k := by omega
        rw [List.map_cons, List.sum_cons]
        simp only [if_neg hne, hf ip.2 p]
      rw [e, List.sum_map_add, ih (k + 1), sum_enumFrom_snd (f p) (k + 1) rest]
    rw [h1, h2]
    simp only [if_true, pairSum]
    ring

theorem pairSum_neg (g : Particle F → Particle F → F) (l : List (Particle F)) :
    pairSum (fun p q => -g p q) l = -pairSum g l := by
  induction l with
  | nil => simp [pairSum]
  | cons p rest ih =>
    simp only [pairSum, ih]
    have h : (rest.map (fun q => -g p q)).sum = -(rest.map (g p)).sum := by
      rw [List.sum_neg, List.map_map]
      rfl
    rw [h]
    ring

/-- Accumulator `poti` after the inner loop of `Interaction` over any part of the
enumerated array. -/
theorem Interaction_fold_poti (cfg : Config) (sqrt : F → F) (self : Interaction F)
    (i : Nat) (pi : Particle F) (l : List (Nat × Particle F)) (st : InnerState F) :
    (l.foldl (self.innerBody cfg sqrt i pi) st).poti
      = st.poti + (l.map (fun jp => if i = jp.1 then 0 else
          -(self.gravitational_constant * jp.2.mass * (1 / sqrt (sepSq pi.pos jp.2.pos))))).sum := by
  induction l generalizing st with
  | nil => simp
  | cons jp rest ih =>
    rw [List.foldl_cons, ih, List.map_cons, List.sum_cons]
    obtain ⟨j, pj⟩ := jp
    by_cases h : i = j
    · subst h
      simp only [Interaction_innerBody_self, if_true]
      ring
    · simp only [Interaction_innerBody_poti _ _ _ _ _ h, if_neg h]
      ring

/-- In the sum-style configuration `gtki + poti` is preserved by the inner loop. -/
theorem Interaction_fold_gtki_add_poti (cfg : Config) (hsum : cfg.AR_TTL_GT_MULTI = false)
    (sqrt : F → F) (self : Interaction F)
    (i : Nat) (pi : Particle F) (l : List (Nat × Particle F)) (st : InnerState F) :
    (l.foldl (self.innerBody cfg sqrt i pi) st).gtki
        + (l.foldl (self.innerBody cfg sqrt i pi) st).poti
      = st.gtki + st.poti := by
  induction l generalizing st with
  | nil => simp
  | cons jp rest ih =>
    rw [List.foldl_cons, ih]
    obtain ⟨j, pj⟩ := jp
    by_cases h : i = j
    · subst h
      simp only [Interaction_innerBody_self]
    · simp only [Interaction_innerBody_poti _ _ _ _ _ h, Interaction_innerBody_gtki _ _ _ _ _ h,
        hsum, Bool.false_eq_true, if_false]
      ring

/-- Accumulator `_epot` after the outer loop of `Interaction` over any part of the
enumerated array. -/
theorem Interaction_fold_epot (cfg : Config) (sqrt : F → F) (self : Interaction F)
    (ps : List (Particle F)) (l : List (Nat × Particle F)) (st : KickOut F) :
    (l.foldl (self.outerBody cfg sqrt ps) st).epot
      = st.epot + (l.map (fun ip =>
          (self.innerLoop cfg sqrt ps ip.1 ip.2).poti * ip.2.mass)).sum := by
  induction l generalizing st with
  | nil => simp
  | cons ip rest ih =>
    rw [List.foldl_cons, ih, List.map_cons, List.sum_cons]
    simp only [Interaction.outerBody]
    ring

/-- In the sum-style configuration `ret + epot` is preserved by the outer loop. -/
theorem Interaction_fold_ret_add_epot (cfg : Config) (hsum : cfg.AR_TTL_GT_MULTI = false)
    (sqrt : F → F) (self : Interaction F)
    (ps : List (Particle F)) (l : List (Nat × Particle F)) (st : KickOut F) :
    (l.foldl (self.outerBody cfg sqrt ps) st).ret + (l.foldl (self.outerBody cfg sqrt ps) st).epot
      = st.ret + st.epot := by
  induction l generalizing st with
  | nil => simp
  | cons ip rest ih =>
    rw [List.foldl_cons, ih]
    have h := Interaction_fold_gtki_add_poti cfg hsum sqrt self ip.1 ip.2 ps.enum
      { acci := ⟨0, 0, 0⟩, gtgradi := ⟨0, 0, 0⟩, poti := 0,
        gtki := if cfg.AR_TTL_GT_MULTI then 1 else 0 }
    simp only [hsum, Bool.false_eq_true, if_false, add_zero] at h
    have h' : (self.innerLoop cfg sqrt ps ip.1 ip.2).gtki
        = -(self.innerLoop cfg sqrt ps ip.1 ip.2).poti := by
      simp only [Interaction.innerLoop, hsum, Bool.false_eq_true, if_false]
      linarith
    simp only [Interaction.outerBody, hsum, Bool.false_eq_true, if_false, h']
    ring

end KernelLemmas

section WriteLemmas

variable {F : Type}

theorem writeForce_length (l : List (Force F)) (i : Nat) (g : Force F → Force F) :
    (writeForce l i g).length = l.length := by
  induction l generalizing i with
  | nil => rfl
  | cons f fs ih =>
    cases i with
    | zero => rfl
    | succ i => simp only [writeForce, List.length_cons, ih]

/-- Reading entry `k` after a write through entry `i`. -/
theorem writeForce_get (l : List (Force F)) (i k : Nat) (g : Force F → Force F) :
    (writeForce l i g)[k]? = if k = i then l[k]?.map g else l[k]? := by
  induction l generalizing i k with
  | nil => simp [writeForce]
  | cons f fs ih =>
    cases i with
    | zero =>
      cases k with
      | zero => simp [writeForce]
      | succ k => simp [writeForce]
    | succ i =>
      cases k with
      | zero => simp [writeForce]
      | succ k => simp [writeForce, ih]

/-- Reading entry `k` after the loop `for (i = 0; i < n; i++) _force[i] = g(_force[i])`. -/
theorem writeLoop_get (g : Force F → Force F) (n k : Nat) (l : List (Force F)) :
    ((List.range n).foldl (fun fs i => writeForce fs i g) l)[k]?
      = if k < n then l[k]?.map g else l[k]? := by
  induction n with
  | zero => simp
  | succ n ih =>
    rw [List.range_succ, List.foldl_append, List.foldl_cons, List.foldl_nil, writeForce_get, ih]
    by_cases h1 : k = n
    · subst h1
      simp
    · by_cases h2 : k < n
      · have h3 : k < n + 1 := by omega
        simp [h1, h2, h3]
      · have h3 : ¬ k < n + 1 := by omega
        simp [h1, h2, h3]

theorem writeLoop_length (g : Force F → Force F) (is : List Nat) (l : List (Force F)) :
    (is.foldl (fun fs i => writeForce fs i g) l).length = l.length := by
  induction is generalizing l with
  | nil => rfl
  | cons i rest ih => rw [List.foldl_cons, ih, writeForce_length]

end WriteLemmas

section LengthLemmas

variable {F : Type} [LinearOrderedField F]

theorem Interaction_outer_length (cfg : Config) (sqrt : F → F) (self : Interaction F)
    (ps : List (Particle F)) (l : List (Nat × Particle F)) (st : KickOut F) :
    (l.foldl (self.outerBody cfg sqrt ps) st).force.length = st.force.length := by
  induction l generalizing st with
  | nil => rfl
  | cons ip rest ih =>
    rw [List.foldl_cons, ih]
    simp only [Interaction.outerBody, writeForce_length]

/-- The general kernel of `Interaction` returns a force array of the length it was
given. -/
theorem Interaction_calcInnerAccPotAndGTKickInv_length (cfg : Config) (sqrt : F → F)
    (self : Interaction F) (force : List (Force F)) (ps : List (Particle F)) :
    (self.calcInnerAccPotAndGTKickInv cfg sqrt force ps).force.length = force.length := by
  unfold Interaction.calcInnerAccPotAndGTKickInv
  split
  · simp only [Interaction.scaleGtgrad, writeLoop_length, Interaction_outer_length]
  · simp only [Interaction_outer_length]

end LengthLemmas

section GradLemmas

variable {F : Type} [LinearOrderedField F]

/-- The inner loop of the general kernel of `Interaction` accumulates in `gtgradi`, term
by term, `G` times the sum that defines `specGtgrad`. -/
theorem Interaction_fold_gtgradi (cfg : Config) (hT : cfg.AR_TTL = true)
    (hsum : cfg.AR_TTL_GT_MULTI = false) (sqrt : F → F) (self : Interaction F)
    (i : Nat) (pi : Particle F) (l : List (Nat × Particle F)) (st : InnerState F)
    (acc : Vec3 F)
    (h0 : st.gtgradi.c0 = self.gravitational_constant * acc.c0)
    (h1 : st.gtgradi.c1 = self.gravitational_constant * acc.c1)
    (h2 : st.gtgradi.c2 = self.gravitational_constant * acc.c2) :
    (l.foldl (self.innerBody cfg sqrt i pi) st).gtgradi
      = ⟨self.gravitational_constant
            * (l.foldl (specGtgradStep sqrt self.gravitational_constant i pi) acc).c0,
         self.gravitational_constant
            * (l.foldl (specGtgradStep sqrt self.gravitational_constant i pi) acc).c1,
         self.gravitational_constant
            * (l.foldl (specGtgradStep sqrt self.gravitational_constant i pi) acc).c2⟩ := by
  induction l generalizing st acc with
  | nil =>
    simp only [List.foldl_nil, Vec3.eq_iff]
    exact ⟨h0, h1, h2⟩
  | cons jp rest ih =>
    rw [List.foldl_cons, List.foldl_cons]
    have e : (jp.2.pos.c0 - pi.pos.c0) * (jp.2.pos.c0 - pi.pos.c0)
        + (jp.2.pos.c1 - pi.pos.c1) * (jp.2.pos.c1 - pi.pos.c1)
        + (jp.2.pos.c2 - pi.pos.c2) * (jp.2.pos.c2 - pi.pos.c2)
        = (jp.2.pos.c0 - pi.pos.c0) ^ 2 + (jp.2.pos.c1 - pi.pos.c1) ^ 2
          + (jp.2.pos.c2 - pi.pos.c2) ^ 2 := by ring
    by_cases h : i = jp.1
    · simp only [specGtgradStep, if_pos h, Interaction.innerBody]
      exact ih st acc h0 h1 h2
    · simp only [specGtgradStep, if_neg h]
      apply ih
      · simp only [Interaction.innerBody, if_neg h, hT, hsum, if_true, Bool.false_eq_true,
          if_false, h0, dist3, e]
        ring
      · simp only [Interaction.innerBody, if_neg h, hT, hsum, if_true, Bool.false_eq_true,
          if_false, h1, dist3, e]
        ring
      · simp only [Interaction.innerBody, if_neg h, hT, hsum, if_true, Bool.false_eq_true,
          if_false, h2, dist3, e]
        ring

end GradLemmas

section Lemmas

theorem ASSERT_bind {α : Type} (c : Prop) [Decidable c] (k : Unit → Option α) :
    (ASSERT c >>= k) = if c then k () else none := by
  unfold ASSERT; split <;> rfl

/-- The square of `dist3` is the sum of the squared coordinate differences. -/
theorem dist3_sq (a b : Vec3 ℝ) :
    dist3 Real.sqrt a b ^ 2 = (b.c0 - a.c0) ^ 2 + (b.c1 - a.c1) ^ 2 + (b.c2 - a.c2) ^ 2 := by
  unfold dist3
  exact Real.sq_sqrt (by positivity)

theorem sepSq_nonneg (a b : Vec3 ℝ) : 0 ≤ sepSq a b := by
  unfold sepSq
  nlinarith [mul_self_nonneg (b.c0 - a.c0), mul_self_nonneg (b.c1 - a.c1),
    mul_self_nonneg (b.c2 - a.c2)]

theorem sepSq_symm (a b : Vec3 ℝ) : sepSq a b = sepSq b a := by
  unfold sepSq; ring

theorem sepSq_pos (a b : Vec3 ℝ) (h : a ≠ b) : 0 < sepSq a b := by
  rcases (sepSq_nonneg a b).lt_or_eq with h1 | h1
  · exact h1
  · exfalso
    apply h
    unfold sepSq at h1
    have e0 : b.c0 - a.c0 = 0 := by
      nlinarith [mul_self_nonneg (b.c0 - a.c0), mul_self_nonneg (b.c1 - a.c1),
        mul_self_nonneg (b.c2 - a.c2)]
    have e1 : b.c1 - a.c1 = 0 := by
      nlinarith [mul_self_nonneg (b.c0 - a.c0), mul_self_nonneg (b.c1 - a.c1),
        mul_self_nonneg (b.c2 - a.c2)]
    have e2 : b.c2 - a.c2 = 0 := by
      nlinarith [mul_self_nonneg (b.c0 - a.c0), mul_self_nonneg (b.c1 - a.c1),
        mul_self_nonneg (b.c2 - a.c2)]
    rw [Vec3.eq_iff]
    exact ⟨by linarith, by linarith, by linarith⟩

/-- The argument of `sqrt` in the unsoftened kernels is `sepSq`; its root is `dist3`. -/
theorem sqrt_sepSq (a b : Vec3 ℝ) : Real.sqrt (sepSq a b) = dist3 Real.sqrt a b := by
  unfold sepSq dist3; congr 1; ring

theorem dist3_symm (a b : Vec3 ℝ) : dist3 Real.sqrt a b = dist3 Real.sqrt b a := by
  rw [← sqrt_sepSq, ← sqrt_sepSq, sepSq_symm]

theorem dist3_pos (a b : Vec3 ℝ) (h : a ≠ b) : 0 < dist3 Real.sqrt a b := by
  rw [← sqrt_sepSq]
  exact Real.sqrt_pos.mpr (sepSq_pos a b h)

end Lemmas

section PairLemmas

theorem Interaction_pair_agrees (cfg : Config) (hsum : cfg.AR_TTL_GT_MULTI = false)
    (self : Interaction ℝ) (f1 f2 : Force ℝ) (rest : List (Force ℝ)) (p1 p2 : Particle ℝ) :
      ∃ g1 g2,
        (self.calcInnerAccPotAndGTKickInv cfg Real.sqrt (f1 :: f2 :: rest)
            [p1, p2]).force = g1 :: g2 :: rest
        ∧ g1.acc_in
          = (self.calcInnerAccPotAndGTKickInvTwo cfg Real.sqrt f1 f2 p1 p2).f1.acc_in
        ∧ g2.acc_in
          = (self.calcInnerAccPotAndGTKickInvTwo cfg Real.sqrt f1 f2 p1 p2).f2.acc_in
        ∧ (self.calcInnerAccPotAndGTKickInv cfg Real.sqrt (f1 :: f2 :: rest)
            [p1, p2]).epot
          = (self.calcInnerAccPotAndGTKickInvTwo cfg Real.sqrt f1 f2 p1 p2).epot
        ∧ (self.calcInnerAccPotAndGTKickInv cfg Real.sqrt (f1 :: f2 :: rest)
            [p1, p2]).ret
          = (self.calcInnerAccPotAndGTKickInvTwo cfg Real.sqrt f1 f2 p1 p2).ret := by
  obtain ⟨e0, e1⟩ := Interaction_innerLoop_pair cfg Real.sqrt self p1 p2
  obtain ⟨a1, a2⟩ := Interaction_calcInnerAccPotAndGTKickInvTwo_acc cfg Real.sqrt self f1 f2 p1 p2
  obtain ⟨a3, a4⟩ :=
    Interaction_calcInnerAccPotAndGTKickInvTwo_epot_ret cfg Real.sqrt self f1 f2 p1 p2
  have h01 : (0 : Nat) ≠ 1 := by decide
  have h10 : (1 : Nat) ≠ 0 := by decide
  simp only [Interaction.calcInnerAccPotAndGTKickInv, List.enum, List.enumFrom,
    List.foldl_cons, List.foldl_nil, zero_add,
    Interaction_calcInnerAccPotAndGTKickInv_pair, hsum, Bool.false_eq_true, if_false]
  refine ⟨_, _, rfl, ?_, ?_, ?_, ?_⟩
  all_goals
    simp only [a1, a2, a3, a4, e0, e1, hsum, Bool.false_eq_true, if_false,
      Interaction_innerBody_acci _ _ _ _ _ h01,
      Interaction_innerBody_acci _ _ _ _ _ h10, Interaction_innerBody_poti _ _ _ _ _ h01,
      Interaction_innerBody_poti _ _ _ _ _ h10, Interaction_innerBody_gtki _ _ _ _ _ h01,
      Interaction_innerBody_gtki _ _ _ _ _ h10, sepSq_symm p2.pos p1.pos, Vec3.eq_iff]
    generalize Real.sqrt (sepSq p1.pos p2.pos) = s
  · refine ⟨?_, ?_, ?_⟩ <;> ring
  · refine ⟨?_, ?_, ?_⟩ <;> ring
  · ring
  · ring

theorem ARInteraction_pair_agrees (cfg : Config) (self : ARInteraction ℝ)
    (force : List (Force ℝ)) (p1 p2 : Particle ℝ)
    (hr : 0 < sepSq p1.pos p2.pos + self.eps_sq) :
    self.calcAccPotAndGTKickTwo cfg Real.sqrt force [p1, p2]
      = some (self.calcAccPotAndGTKick cfg Real.sqrt force [p1, p2]) := by
  obtain ⟨e0, e1⟩ := ARInteraction_innerLoop_pair cfg Real.sqrt self p1 p2
  have h01 : (0 : Nat) ≠ 1 := by decide
  have h10 : (1 : Nat) ≠ 0 := by decide
  have hr' := hr
  rw [sepSq_def] at hr'
  simp only [ARInteraction.calcAccPotAndGTKickTwo, ASSERT_bind, List.length_cons,
    List.length_nil, gt_iff_lt, hr', if_true]
  simp only [← sepSq_def]
  simp only [ARInteraction.calcAccPotAndGTKick, List.enum, List.enumFrom,
    List.foldl_cons, List.foldl_nil, ARInteraction.outerBody, zero_add, e0, e1,
    ARInteraction_innerBody_of_ne _ _ _ _ _ h01, ARInteraction_innerBody_of_ne _ _ _ _ _ h10,
    sepSq_symm p2.pos p1.pos]
  generalize Real.sqrt (sepSq p1.pos p2.pos + self.eps_sq) = s
  show some _ = some _
  rw [Option.some.injEq, KickOut.mk.injEq]
  refine ⟨?_, by ring, by ring⟩
  have hA : ∀ (g g' h h' : Force ℝ → Force ℝ), (∀ f, g f = g' f) → (∀ f, h f = h' f) →
      writeForce (writeForce force 0 g) 1 h = writeForce (writeForce force 0 g') 1 h' := by
    intro g g' h h' e1 e2
    rw [funext e1, funext e2]
  apply hA
  · intro f
    cases hT : cfg.AR_TTL
    all_goals
      simp only [Force.mk.injEq, Vec3.eq_iff, Bool.false_eq_true, if_false, if_true,
        and_self, and_true, true_and]
      repeat' apply And.intro
    all_goals ring
  · intro f
    cases hT : cfg.AR_TTL
    all_goals
      simp only [Force.mk.injEq, Vec3.eq_iff, Bool.false_eq_true, if_false, if_true,
        and_self, and_true, true_and]
      repeat' apply And.intro
    all_goals ring

/-- Value returned by the general kernel of `Interaction` on a two-particle array in the
product-style configuration, before any simplification of the square root. -/
theorem Interaction_pair_product_ret (cfg : Config) (hM : cfg.AR_TTL_GT_MULTI = true)
    (self : Interaction ℝ) (force : List (Force ℝ)) (p1 p2 : Particle ℝ) :
    (self.calcInnerAccPotAndGTKickInv cfg Real.sqrt force [p1, p2]).ret
      = Real.sqrt (p1.mass * p2.mass) * (1 / dist3 Real.sqrt p1.pos p2.pos) := by
  obtain ⟨e0, e1⟩ := Interaction_innerLoop_pair cfg Real.sqrt self p1 p2
  have h01 : (0 : Nat) ≠ 1 := by decide
  have h10 : (1 : Nat) ≠ 0 := by decide
  simp only [Interaction.calcInnerAccPotAndGTKickInv, List.enum, List.enumFrom,
    List.foldl_cons, List.foldl_nil, zero_add, Interaction.outerBody, hM, if_true, e0, e1,
    Interaction_innerBody_gtki _ _ _ _ _ h01, Interaction_innerBody_gtki _ _ _ _ _ h10,
    sepSq_symm p2.pos p1.pos, sqrt_sepSq]
  have hw : 0 ≤ 1 / dist3 Real.sqrt p1.pos p2.pos := by
    unfold dist3; positivity
  generalize 1 / dist3 Real.sqrt p1.pos p2.pos = w at hw
  have e : 1 * (1 * w * p1.mass) * (1 * w * p2.mass) = p1.mass * p2.mass * (w * w) := by ring
  rw [e, Real.sqrt_mul' _ (mul_self_nonneg w), Real.sqrt_mul_self hw]

/-- The potential accumulated by the general kernel of `Interaction`, as a sum over
unordered pairs. -/
theorem Interaction_epot_pairSum (cfg : Config) (self : Interaction ℝ)
    (force : List (Force ℝ)) (ps : List (Particle ℝ)) :
    (self.calcInnerAccPotAndGTKickInv cfg Real.sqrt force ps).epot
      = -pairSum (fun p q => self.gravitational_constant * p.mass * q.mass
          / dist3 Real.sqrt p.pos q.pos) ps := by
  have hE : (self.calcInnerAccPotAndGTKickInv cfg Real.sqrt force ps).epot
      = (ps.enum.foldl (self.outerBody cfg Real.sqrt ps)
          { force := force, epot := 0, ret := if cfg.AR_TTL_GT_MULTI then 1 else 0 }).epot
        * 0.5 := by
    unfold Interaction.calcInnerAccPotAndGTKickInv
    split <;> rfl
  rw [hE, Interaction_fold_epot]
  have hI : ∀ ip : Nat × Particle ℝ,
      (self.innerLoop cfg Real.sqrt ps ip.1 ip.2).poti * ip.2.mass
        = ((ps.enumFrom 0).map (fun jp => if ip.1 = jp.1 then 0 else
            -(self.gravitational_constant * ip.2.mass * jp.2.mass
                / dist3 Real.sqrt ip.2.pos jp.2.pos))).sum := by
    intro ip
    unfold Interaction.innerLoop
    rw [Interaction_fold_poti]
    simp only [zero_add, List.enum]
    rw [← List.sum_map_mul_right]
    congr 1
    apply List.map_congr_left
    intro jp _
    split
    · simp
    · rw [sqrt_sepSq]; ring
  simp only [hI, List.enum]
  rw [double_sum_eq_two_pairSum (fun p q => -(self.gravitational_constant * p.mass * q.mass
      / dist3 Real.sqrt p.pos q.pos))]
  · rw [pairSum_neg]; ring
  · intro p q
    rw [dist3_symm q.pos p.pos]; ring


theorem sqrt_four : Real.sqrt 4 = 2 := by
  rw [show (4 : ℝ) = 2 * 2 by norm_num]
  exact Real.sqrt_mul_self (by norm_num)

theorem sqrt_nine : Real.sqrt 9 = 3 := by
  rw [show (9 : ℝ) = 3 * 3 by norm_num]
  exact Real.sqrt_mul_self (by norm_num)

theorem range_three : List.range 3 = [0, 1, 2] := by decide

theorem range_two : List.range 2 = [0, 1] := by decide

/-- With an empty perturber list `ARInteraction::calcAccEnergy` is the inner kernel
alone: the branch `n_pert > 0`, which holds every write to `acc_pert`, is skipped. -/
theorem ARInteraction_calcAccEnergy_no_perturber {F : Type} [LinearOrderedField F]
    (cfg : Config) (sqrt : F → F) (self : ARInteraction F)
    (force : List (Force F)) (ps : List (Particle F)) (cm : ParticleH4 F) (flag : Bool)
    (t : F) :
    self.calcAccEnergy cfg sqrt force ps cm ⟨[], flag⟩ t
      = if ps.length = 2 then self.calcAccPotAndGTKickTwo cfg sqrt force ps
        else some (self.calcAccPotAndGTKick cfg sqrt force ps) := by
  simp only [ARInteraction.calcAccEnergy, List.length_nil, gt_iff_lt, lt_self_iff_false,
    if_false]
  split
  · cases self.calcAccPotAndGTKickTwo cfg sqrt force ps <;> rfl
  · rfl

end PairLemmas

section MinLemmas
variable {F : Type} [LinearOrderedField F] {α : Type}

theorem foldl_min_le_init (g : α → F) (l : List α) (t0 : F) :
    l.foldl (fun t x => min (g x) t) t0 ≤ t0 := by
  induction l generalizing t0 with
  | nil => exact le_refl _
  | cons x rest ih =>
    rw [List.foldl_cons]
    exact le_trans (ih _) (min_le_right _ _)

theorem foldl_min_le_mem (g : α → F) (l : List α) (t0 : F) (x : α) (hx : x ∈ l) :
    l.foldl (fun t x => min (g x) t) t0 ≤ g x := by
  induction l generalizing t0 with
  | nil => cases hx
  | cons y rest ih =>
    rw [List.foldl_cons]
    rcases List.mem_cons.mp hx with h | h
    · subst h
      exact le_trans (foldl_min_le_init g rest _) (min_le_left _ _)
    · exact ih _ h

theorem foldl_min_attained (g : α → F) (l : List α) (t0 : F) :
    l.foldl (fun t x => min (g x) t) t0 = t0
      ∨ ∃ x ∈ l, l.foldl (fun t x => min (g x) t) t0 = g x := by
  induction l generalizing t0 with
  | nil => exact Or.inl rfl
  | cons y rest ih =>
    rw [List.foldl_cons]
    rcases ih (min (g y) t0) with h | ⟨x, hx, h⟩
    · rcases min_choice (g y) t0 with h2 | h2
      · exact Or.inr ⟨y, List.mem_cons_self _ _, by rw [h, h2]⟩
      · exact Or.inl (by rw [h, h2])
    · exact Or.inr ⟨x, List.mem_cons_of_mem _ hx, h⟩

/-- A minimum accumulated from a start value that bounds every term is the least term,
when there is at least one. -/
theorem foldl_min_is_least (g : α → F) (l : List α) (t0 : F) (hne : l ≠ [])
    (hmax : ∀ x ∈ l, g x ≤ t0) :
    ∃ x ∈ l, l.foldl (fun t x => min (g x) t) t0 = g x ∧ ∀ y ∈ l, g x ≤ g y := by
  rcases foldl_min_attained g l t0 with h | ⟨x, hx, h⟩
  · obtain ⟨x, hx⟩ := List.exists_mem_of_ne_nil l hne
    have h1 := foldl_min_le_mem g l t0 x hx
    have h2 := hmax x hx
    have h3 : l.foldl (fun t x => min (g x) t) t0 = g x := le_antisymm h1 (by rw [h]; exact h2)
    exact ⟨x, hx, h3, fun y hy => by rw [← h3]; exact foldl_min_le_mem g l t0 y hy⟩
  · exact ⟨x, hx, h, fun y hy => by rw [← h]; exact foldl_min_le_mem g l t0 y hy⟩

end MinLemmas

section PertLemmas
variable {F : Type} [LinearOrderedField F]

theorem ARInteraction_slowDownPertBody_pert_pot (self : ARInteraction F) (time : F)
    (cm : ParticleH4 F) (st : SlowDownPertState F) (adr : NBAdr F) :
    (self.slowDownPertBody time (predictPos cm (time - cm.time))
        (predictVel cm (time - cm.time)) st adr).pert_pot
      = st.pert_pot + adr.pertj.mass / specPertR2 self time cm adr ^ 2 := by
  simp only [ARInteraction.slowDownPertBody, specPertR2, sepSq, sq]

theorem ARInteraction_slowDownPertBody_t2_min (self : ARInteraction F) (time : F)
    (cm : ParticleH4 F) (st : SlowDownPertState F) (adr : NBAdr F) :
    (self.slowDownPertBody time (predictPos cm (time - cm.time))
        (predictVel cm (time - cm.time)) st adr).t2_min
      = min (specPertTi2 self time cm adr) st.t2_min := by
  simp only [ARInteraction.slowDownPertBody, specPertTi2, specPertR2, sepSq, sq]

theorem ARInteraction_fold_pert_pot (self : ARInteraction F) (time : F)
    (cm : ParticleH4 F) (l : List (NBAdr F)) (st : SlowDownPertState F) :
    (l.foldl (self.slowDownPertBody time (predictPos cm (time - cm.time))
        (predictVel cm (time - cm.time))) st).pert_pot
      = st.pert_pot + (l.map (fun adr => adr.pertj.mass / specPertR2 self time cm adr ^ 2)).sum := by
  induction l generalizing st with
  | nil => simp
  | cons adr rest ih =>
    rw [List.foldl_cons, ih, ARInteraction_slowDownPertBody_pert_pot, List.map_cons,
      List.sum_cons]
    ring

theorem ARInteraction_fold_t2_min (self : ARInteraction F) (time : F)
    (cm : ParticleH4 F) (l : List (NBAdr F)) (st : SlowDownPertState F) :
    (l.foldl (self.slowDownPertBody time (predictPos cm (time - cm.time))
        (predictVel cm (time - cm.time))) st).t2_min
      = l.foldl (fun t adr => min (specPertTi2 self time cm adr) t) st.t2_min := by
  induction l generalizing st with
  | nil => rfl
  | cons adr rest ih =>
    rw [List.foldl_cons, ih, ARInteraction_slowDownPertBody_t2_min, List.foldl_cons]

end PertLemmas

section MapMLemmas
variable {α β : Type}

theorem mapM_option_eq_none_iff (f : α → Option β) (l : List α) :
    l.mapM f = none ↔ ∃ x ∈ l, f x = none := by
  induction l with
  | nil =>
    rw [List.mapM_nil]
    constructor
    · intro h
      cases h
    · rintro ⟨x, hx, _⟩
      cases hx
  | cons a rest ih =>
    rw [List.mapM_cons]
    cases hfa : f a with
    | none =>
      constructor
      · intro _
        exact ⟨a, List.mem_cons_self _ _, hfa⟩
      · intro _
        rfl
    | some b =>
      cases hr : rest.mapM f with
      | none =>
        obtain ⟨x, hx, hfx⟩ := ih.mp hr
        constructor
        · intro _
          exact ⟨x, List.mem_cons_of_mem _ hx, hfx⟩
        · intro _
          rfl
      | some bs =>
        have h : ¬ ∃ x ∈ rest, f x = none := fun hex => by
          have h1 := ih.mpr hex
          rw [hr] at h1
          cases h1
        constructor
        · intro h0
          cases h0
        · rintro ⟨x, hx, hfx⟩
          rcases List.mem_cons.mp hx with hx | hx
          · subst hx
            rw [hfa] at hfx
            cases hfx
          · exact absurd ⟨x, hx, hfx⟩ h

theorem mapM_option_eq_some_map (f : α → Option β) (g : α → β) (l : List α)
    (h : ∀ x ∈ l, f x = some (g x)) : l.mapM f = some (l.map g) := by
  induction l with
  | nil => rfl
  | cons a rest ih =>
    rw [List.mapM_cons, h a (List.mem_cons_self _ _),
      ih (fun x hx => h x (List.mem_cons_of_mem _ hx))]
    rfl

end MapMLemmas

section AbortLemmas
variable {F : Type} [LinearOrderedField F]

theorem ARInteraction_predictPert_eq_none_iff (t : F) (adr : NBAdr F) :
    ARInteraction.predictPert t adr = none ↔ t < adr.pertj.time := by
  simp only [ARInteraction.predictPert, ASSERT_bind, ge_iff_le, sub_nonneg]
  split
  · rename_i h
    simp [not_lt.mpr h]
  · rename_i h
    simp [not_le.mp h]

theorem ARInteraction_predictPertVel_eq_none_iff (t : F) (adr : NBAdr F) :
    ARInteraction.predictPertVel t adr = none ↔ t < adr.pertj.time := by
  simp only [ARInteraction.predictPertVel, ASSERT_bind, ge_iff_le, sub_nonneg]
  split
  · rename_i h
    simp [not_lt.mpr h]
  · rename_i h
    simp [not_le.mp h]

end AbortLemmas

section EnumWriteLemmas
variable {F : Type}

/-- Reading entry `k` after the loop `for (i = 0; i < n; i++) _force[i] = g(p[i], _force[i])`
started at index `n`. -/
theorem enumWrite_get (g : Particle F → Force F → Force F) (ps : List (Particle F))
    (n k : Nat) (fs : List (Force F)) :
    ((ps.enumFrom n).foldl (fun fs ip => writeForce fs ip.1 (g ip.2)) fs)[k]?
      = if n ≤ k then
          (match ps[k - n]? with
            | some p => fs[k]?.map (g p)
            | none => fs[k]?)
        else fs[k]? := by
  induction ps generalizing n fs with
  | nil => simp
  | cons p rest ih =>
    rw [List.enumFrom_cons, List.foldl_cons, ih, writeForce_get]
    by_cases h1 : k = n
    · subst h1
      simp
    · by_cases h2 : n ≤ k
      · have h3 : n + 1 ≤ k := by omega
        have h4 : k - n = (k - (n + 1)) + 1 := by omega
        simp only [h1, h2, h3, if_true, if_false]
        rw [h4, List.getElem?_cons_succ]
      · have h3 : ¬ n + 1 ≤ k := by omega
        simp [h1, h2, h3]

theorem enumWrite_length (g : Particle F → Force F → Force F)
    (l : List (Nat × Particle F)) (fs : List (Force F)) :
    (l.foldl (fun fs ip => writeForce fs ip.1 (g ip.2)) fs).length = fs.length := by
  induction l generalizing fs with
  | nil => rfl
  | cons ip rest ih => rw [List.foldl_cons, ih, writeForce_length]

end EnumWriteLemmas

section ResolvedLemmas
variable {F : Type} [LinearOrderedField F]

theorem ARInteraction_pertResolved_fold (sqrt : F → F) (self : ARInteraction F)
    (xcm : Vec3 F) (pert : List (Vec3 F × F)) (l : List (Nat × Particle F))
    (fs : List (Force F)) (a : Vec3 F) :
    l.foldl (fun (st : List (Force F) × Vec3 F) ip =>
      let xi : Vec3 F := ⟨ip.2.pos.c0 + xcm.c0, ip.2.pos.c1 + xcm.c1, ip.2.pos.c2 + xcm.c2⟩
      let acc_pert := pert.foldl (self.pertBody sqrt xi) ⟨0, 0, 0⟩
      (writeForce st.1 ip.1 (fun f => { f with acc_pert := acc_pert }),
       (⟨st.2.c0 + ip.2.mass * acc_pert.c0, st.2.c1 + ip.2.mass * acc_pert.c1,
         st.2.c2 + ip.2.mass * acc_pert.c2⟩ : Vec3 F))) (fs, a)
    = (l.foldl (fun fs ip => writeForce fs ip.1
          (fun f => { f with acc_pert := self.memberAccPert sqrt xcm pert ip.2 })) fs,
       ⟨a.c0 + (l.map (fun ip => ip.2.mass * (self.memberAccPert sqrt xcm pert ip.2).c0)).sum,
        a.c1 + (l.map (fun ip => ip.2.mass * (self.memberAccPert sqrt xcm pert ip.2).c1)).sum,
        a.c2 + (l.map (fun ip => ip.2.mass * (self.memberAccPert sqrt xcm pert ip.2).c2)).sum⟩)
    := by
  induction l generalizing fs a with
  | nil => simp
  | cons ip rest ih =>
    rw [List.foldl_cons, ih]
    simp only [List.foldl_cons, List.map_cons, List.sum_cons, ARInteraction.memberAccPert,
      add_assoc]

/-- Entry `k` of the force array after the member-resolved branch: the member's own
perturber acceleration minus the mass-weighted sum over all members divided by `mcm`. -/
theorem ARInteraction_pertResolved_get (sqrt : F → F) (self : ARInteraction F)
    (fs : List (Force F)) (ps : List (Particle F)) (xcm : Vec3 F) (mcm : F)
    (pert : List (Vec3 F × F)) (k : Nat) :
    (self.pertResolved sqrt fs ps xcm mcm pert)[k]?
      = match ps[k]? with
        | some p => fs[k]?.map (fun f => { f with acc_pert :=
            ⟨(self.memberAccPert sqrt xcm pert p).c0
                - (ps.map (fun q => q.mass * (self.memberAccPert sqrt xcm pert q).c0)).sum / mcm,
             (self.memberAccPert sqrt xcm pert p).c1
                - (ps.map (fun q => q.mass * (self.memberAccPert sqrt xcm pert q).c1)).sum / mcm,
             (self.memberAccPert sqrt xcm pert p).c2
                - (ps.map (fun q => q.mass * (self.memberAccPert sqrt xcm pert q).c2)).sum / mcm⟩ })
        | none => fs[k]? := by
  unfold ARInteraction.pertResolved
  rw [ARInteraction_pertResolved_fold]
  simp only [zero_add, writeLoop_get, List.enum]
  rw [enumWrite_get (fun p f => { f with acc_pert := self.memberAccPert sqrt xcm pert p })]
  simp only [Nat.zero_le, if_true, Nat.sub_zero,
    sum_enumFrom_snd (fun q => q.mass * (self.memberAccPert sqrt xcm pert q).c0),
    sum_enumFrom_snd (fun q => q.mass * (self.memberAccPert sqrt xcm pert q).c1),
    sum_enumFrom_snd (fun q => q.mass * (self.memberAccPert sqrt xcm pert q).c2)]
  by_cases hk : k < ps.length
  · rw [List.getElem?_eq_getElem hk]
    simp only [hk, if_true, Option.map_map]
    rfl
  · rw [List.getElem?_eq_none (not_lt.mp hk)]
    simp only [hk, if_false]

theorem sum_weighted_sub (w a : Particle F → F) (c : F) (l : List (Particle F)) :
    (l.map (fun p => w p * (a p - c))).sum
      = (l.map (fun p => w p * a p)).sum - (l.map w).sum * c := by
  induction l with
  | nil => simp
  | cons p rest ih =>
    simp only [List.map_cons, List.sum_cons, ih]
    ring

/-- With a force array that has an entry for every member and `mcm` the non-zero sum of
the member masses, the mass-weighted sum of one component (`c0`, `c1` or `c2`, passed as
the weights `w` and the values `a`) of the stored `acc_pert` vanishes. -/
theorem weighted_sub_mean_sum (w a : Particle F → F) (mcm : F) (ps : List (Particle F))
    (hm : mcm = (ps.map w).sum) (hm0 : mcm ≠ 0) :
    (ps.map (fun p => w p * (a p - (ps.map (fun q => w q * a q)).sum / mcm))).sum = 0 := by
  rw [sum_weighted_sub, ← hm, mul_div_cancel₀ _ hm0, sub_self]

theorem ARInteraction_pertResolved_zip (sqrt : F → F) (self : ARInteraction F)
    (fs : List (Force F)) (ps : List (Particle F)) (xcm : Vec3 F) (mcm : F)
    (pert : List (Vec3 F × F)) (hlen : ps.length ≤ fs.length) :
    List.zipWith (fun (p : Particle F) (f : Force F) => (p.mass, f.acc_pert)) ps
        (self.pertResolved sqrt fs ps xcm mcm pert)
      = ps.map (fun p => (p.mass,
          (⟨(self.memberAccPert sqrt xcm pert p).c0
              - (ps.map (fun q => q.mass * (self.memberAccPert sqrt xcm pert q).c0)).sum / mcm,
            (self.memberAccPert sqrt xcm pert p).c1
              - (ps.map (fun q => q.mass * (self.memberAccPert sqrt xcm pert q).c1)).sum / mcm,
            (self.memberAccPert sqrt xcm pert p).c2
              - (ps.map (fun q => q.mass * (self.memberAccPert sqrt xcm pert q).c2)).sum / mcm⟩
            : Vec3 F))) := by
  apply List.ext_getElem?
  intro k
  rw [List.getElem?_zipWith, ARInteraction_pertResolved_get, List.getElem?_map]
  by_cases hk : k < ps.length
  · have hk2 : k < fs.length := lt_of_lt_of_le hk hlen
    rw [List.getElem?_eq_getElem hk, List.getElem?_eq_getElem hk2]
    rfl
  · rw [List.getElem?_eq_none (not_lt.mp hk)]
    rfl

/-- The mass-weighted sum of the `acc_pert` written by the member-resolved branch is zero
in every component, when the force array has an entry for every member and `mcm` is the
non-zero sum of the member masses. -/
theorem ARInteraction_pertResolved_weighted_sum (sqrt : F → F) (self : ARInteraction F)
    (fs : List (Force F)) (ps : List (Particle F)) (xcm : Vec3 F) (mcm : F)
    (pert : List (Vec3 F × F)) (hlen : ps.length ≤ fs.length)
    (hm : mcm = (ps.map (fun p => p.mass)).sum) (hm0 : mcm ≠ 0) :
    (List.zipWith (fun (p : Particle F) (f : Force F) => p.mass * f.acc_pert.c0) ps
        (self.pertResolved sqrt fs ps xcm mcm pert)).sum = 0
    ∧ (List.zipWith (fun (p : Particle F) (f : Force F) => p.mass * f.acc_pert.c1) ps
        (self.pertResolved sqrt fs ps xcm mcm pert)).sum = 0
    ∧ (List.zipWith (fun (p : Particle F) (f : Force F) => p.mass * f.acc_pert.c2) ps
        (self.pertResolved sqrt fs ps xcm mcm pert)).sum = 0 := by
  have hz := ARInteraction_pertResolved_zip sqrt self fs ps xcm mcm pert hlen
  have h0 : List.zipWith (fun (p : Particle F) (f : Force F) => p.mass * f.acc_pert.c0) ps
      (self.pertResolved sqrt fs ps xcm mcm pert)
      = (List.zipWith (fun (p : Particle F) (f : Force F) => (p.mass, f.acc_pert)) ps
        (self.pertResolved sqrt fs ps xcm mcm pert)).map (fun x => x.1 * x.2.c0) := by
    rw [List.map_zipWith]
  have h1 : List.zipWith (fun (p : Particle F) (f : Force F) => p.mass * f.acc_pert.c1) ps
      (self.pertResolved sqrt fs ps xcm mcm pert)
      = (List.zipWith (fun (p : Particle F) (f : Force F) => (p.mass, f.acc_pert)) ps
        (self.pertResolved sqrt fs ps xcm mcm pert)).map (fun x => x.1 * x.2.c1) := by
    rw [List.map_zipWith]
  have h2 : List.zipWith (fun (p : Particle F) (f : Force F) => p.mass * f.acc_pert.c2) ps
      (self.pertResolved sqrt fs ps xcm mcm pert)
      = (List.zipWith (fun (p : Particle F) (f : Force F) => (p.mass, f.acc_pert)) ps
        (self.pertResolved sqrt fs ps xcm mcm pert)).map (fun x => x.1 * x.2.c2) := by
    rw [List.map_zipWith]
  rw [h0, h1, h2, hz]
  simp only [List.map_map, Function.comp_def]
  exact ⟨weighted_sub_mean_sum (fun p => p.mass)
      (fun p => (self.memberAccPert sqrt xcm pert p).c0) mcm ps hm hm0,
    weighted_sub_mean_sum (fun p => p.mass)
      (fun p => (self.memberAccPert sqrt xcm pert p).c1) mcm ps hm hm0,
    weighted_sub_mean_sum (fun p => p.mass)
      (fun p => (self.memberAccPert sqrt xcm pert p).c2) mcm ps hm hm0⟩

theorem ARInteraction_pertResolved_length (sqrt : F → F) (self : ARInteraction F)
    (fs : List (Force F)) (ps : List (Particle F)) (xcm : Vec3 F) (mcm : F)
    (pert : List (Vec3 F × F)) :
    (self.pertResolved sqrt fs ps xcm mcm pert).length = fs.length := by
  unfold ARInteraction.pertResolved
  rw [ARInteraction_pertResolved_fold]
  simp only [writeLoop_length]
  exact enumWrite_length (fun p f => { f with acc_pert := self.memberAccPert sqrt xcm pert p })
    ps.enum fs

theorem ARInteraction_outer_length (cfg : Config) (sqrt : F → F) (self : ARInteraction F)
    (ps : List (Particle F)) (l : List (Nat × Particle F)) (st : KickOut F) :
    (l.foldl (self.outerBody cfg sqrt ps) st).force.length = st.force.length := by
  induction l generalizing st with
  | nil => rfl
  | cons ip rest ih =>
    rw [List.foldl_cons, ih]
    simp only [ARInteraction.outerBody, writeForce_length]

theorem ARInteraction_calcAccPotAndGTKick_length (cfg : Config) (sqrt : F → F)
    (self : ARInteraction F) (fs : List (Force F)) (ps : List (Particle F)) :
    (self.calcAccPotAndGTKick cfg sqrt fs ps).force.length = fs.length := by
  simp only [ARInteraction.calcAccPotAndGTKick, ARInteraction_outer_length]

theorem ARInteraction_calcAccPotAndGTKickTwo_length (cfg : Config) (sqrt : F → F)
    (self : ARInteraction F) (fs : List (Force F)) (ps : List (Particle F))
    (out : KickOut F) (h : self.calcAccPotAndGTKickTwo cfg sqrt fs ps = some out) :
    out.force.length = fs.length := by
  unfold ARInteraction.calcAccPotAndGTKickTwo at h
  simp only [ASSERT_bind] at h
  split at h
  · split at h
    · simp only [gt_iff_lt] at h
      split at h
      · simp only [Option.some.injEq, pure] at h
        rw [← h]
        simp only [writeForce_length]
      · cases h
    · cases h
  · cases h

end ResolvedLemmas

section InnerBinaryLemmas
variable {F : Type} [LinearOrderedField F]

end InnerBinaryLemmas

section InterruptLemmas
variable {F : Type} [LinearOrderedField F] [FloorRing F]

/-- Every branch of `modifyAndInterruptIter` either calls the lambda `merge` or leaves the
interrupt record as it was. -/
theorem Interaction_modifyAndInterruptIter_cases (sqrt : F → F)
    (calcEccAnomaly : BinaryTree F → F → F) (calcMeanAnomaly : BinaryTree F → F → F → F)
    (intr : BinaryInterrupt F) (bin : BinaryTree F) (p1 p2 : Particle F) :
    Interaction.modifyAndInterruptIter sqrt calcEccAnomaly calcMeanAnomaly intr bin p1 p2
        = Interaction.merge intr bin p1 p2
    ∨ (Interaction.modifyAndInterruptIter sqrt calcEccAnomaly calcMeanAnomaly intr bin
        p1 p2).bin_interrupt = intr := by
  unfold Interaction.modifyAndInterruptIter
  split
  · split
    · split
      · exact Or.inl rfl
      · simp only []
        split
        · split
          · split
            · exact Or.inl rfl
            · exact Or.inr rfl
          · exact Or.inr rfl
        · exact Or.inr rfl
    · exact Or.inr rfl
  · exact Or.inr rfl

/-- A call that starts from the status `none` and ends with the status `merge` has taken
one of the two branches that call the lambda `merge`. -/
theorem Interaction_modifyAndInterruptIter_merged (sqrt : F → F)
    (calcEccAnomaly : BinaryTree F → F → F) (calcMeanAnomaly : BinaryTree F → F → F → F)
    (intr : BinaryInterrupt F) (bin : BinaryTree F) (p1 p2 : Particle F)
    (hs : intr.status = InterruptStatus.none)
    (hm : (Interaction.modifyAndInterruptIter sqrt calcEccAnomaly calcMeanAnomaly intr bin
      p1 p2).bin_interrupt.status = InterruptStatus.merge) :
    Interaction.modifyAndInterruptIter sqrt calcEccAnomaly calcMeanAnomaly intr bin p1 p2
      = Interaction.merge intr bin p1 p2 := by
  rcases Interaction_modifyAndInterruptIter_cases sqrt calcEccAnomaly calcMeanAnomaly intr bin
    p1 p2 with h | h
  · exact h
  · rw [h, hs] at hm
    cases hm

/-- Rule 1 of `modifyAndInterruptIter`. -/
theorem Interaction_modifyAndInterruptIter_premerge (sqrt : F → F)
    (calcEccAnomaly : BinaryTree F → F → F) (calcMeanAnomaly : BinaryTree F → F → F → F)
    (intr : BinaryInterrupt F) (bin : BinaryTree F) (p1 p2 : Particle F)
    (hn : bin.n_members = 2) (hs : intr.status = InterruptStatus.none)
    (h1 : p1.status = Status.premerge) (h2 : p2.status = Status.premerge)
    (ht1 : p1.time_check < intr.time_end) (ht2 : p2.time_check < intr.time_end) :
    Interaction.modifyAndInterruptIter sqrt calcEccAnomaly calcMeanAnomaly intr bin p1 p2
      = Interaction.merge intr bin p1 p2 := by
  unfold Interaction.modifyAndInterruptIter
  rw [if_pos ⟨hn, hs⟩, if_pos ⟨by rw [h1]; decide, by rw [h2]; decide⟩,
    if_pos ⟨h1, h2, ht1, ht2⟩]

/-- Rule 2 of `modifyAndInterruptIter` for two members of status `single`: the three
outcomes. -/
theorem Interaction_modifyAndInterruptIter_single (sqrt : F → F)
    (calcEccAnomaly : BinaryTree F → F → F) (calcMeanAnomaly : BinaryTree F → F → F → F)
    (intr : BinaryInterrupt F) (bin : BinaryTree F) (p1 p2 : Particle F)
    (hn : bin.n_members = 2) (hs : intr.status = InterruptStatus.none)
    (h1 : p1.status = Status.single) (h2 : p2.status = Status.single) :
    Interaction.modifyAndInterruptIter sqrt calcEccAnomaly calcMeanAnomaly intr bin p1 p2
      = if bin.semi * (1 - bin.ecc) < p1.radius + p2.radius ∧ Interaction.drdv p1 p2 < 0 then
          if Interaction.tPeri sqrt calcEccAnomaly calcMeanAnomaly bin p1 p2
              < intr.time_end - intr.time_now then
            Interaction.merge intr bin p1 p2
          else
            { bin_interrupt := intr
              p1 := { p1 with status := Status.premerge, time_check := intr.time_now
                + Interaction.tPeri sqrt calcEccAnomaly calcMeanAnomaly bin p1 p2 }
              p2 := { p2 with status := Status.premerge, time_check := intr.time_now
                + Interaction.tPeri sqrt calcEccAnomaly calcMeanAnomaly bin p1 p2 } }
        else { bin_interrupt := intr, p1 := p1, p2 := p2 } := by
  have hu1 : p1.status ≠ Status.unused := by rw [h1]; decide
  have hu2 : p2.status ≠ Status.unused := by rw [h2]; decide
  have hp1 : p1.status ≠ Status.premerge := by rw [h1]; decide
  have hp2 : p2.status ≠ Status.premerge := by rw [h2]; decide
  unfold Interaction.modifyAndInterruptIter
  rw [if_pos ⟨hn, hs⟩, if_pos ⟨hu1, hu2⟩, if_neg (fun h => hp1 h.1)]
  simp only []
  by_cases hperi : bin.semi * (1 - bin.ecc) < p1.radius + p2.radius
  · by_cases hd : Interaction.drdv p1 p2 < 0
    · simp only [hperi, hd, hp1, hp2, ne_eq, not_false_eq_true, and_self, if_true]
    · simp only [hperi, hd, hp1, hp2, ne_eq, not_false_eq_true, and_self, and_false, if_true,
        if_false]
  · simp only [hperi, false_and, if_false]

end InterruptLemmas

section StepLemmas
variable {F : Type} [LinearOrderedField F]

/-- With a non-empty node list `calcDsAndStepOption` returns: `ds` is the `min` that
`processRootIter` hands back and the option depends on the member count of the root. -/
theorem Information_calcDsAndStepOption_eq
    (processRootIter : BinaryTree F → DsIter F → (DsIter F → BinaryTree F → DsIter F)
      → DsIter F)
    (fmax : F) (sqrt : F → F) (self : Information F) (order : Int) (G : F)
    (hsize : 0 < self.binarytree.size) :
    self.calcDsAndStepOption processRootIter fmax sqrt order G
      = some { ds := (processRootIter (self.binarytree.data (self.binarytree.size - 1))
                  ⟨G, fmax⟩ (Information.calcDsKeplerIter sqrt)).min
               fix_step_option :=
                  if (self.binarytree.data (self.binarytree.size - 1)).getMemberN = 2
                  then FixStepOption.later else FixStepOption.none
               binarytree := self.binarytree } := by
  have hsz : self.binarytree.getSize > 0 := hsize
  have hroot : self.getBinaryTreeRoot
      = some (self.binarytree.data (self.binarytree.size - 1)) := by
    simp only [Information.getBinaryTreeRoot, ASSERT_bind, hsz, if_true]
    rfl
  unfold Information.calcDsAndStepOption
  rw [hroot]
  by_cases h2 : (self.binarytree.data (self.binarytree.size - 1)).getMemberN = 2
  · simp only [Option.some_bind, Option.bind_eq_bind, h2, if_true]
    rfl
  · simp only [Option.some_bind, Option.bind_eq_bind, h2, if_false]
    rfl

theorem sqrt_hundredth : Real.sqrt (1 / 100) = 1 / 10 := by
  rw [show (1 / 100 : ℝ) = (1 / 10) * (1 / 10) by norm_num]
  exact Real.sqrt_mul_self (by norm_num)

end StepLemmas

section PartitionLemmas
variable {α : Type}

theorem filter_length_add_filter_not (p : α → Prop) [DecidablePred p] (l : List α) :
    (l.filter (fun x => p x)).length + (l.filter (fun x => ¬ p x)).length = l.length := by
  induction l with
  | nil => rfl
  | cons a rest ih =>
    by_cases h : p a
    · rw [List.filter_cons_of_pos (by simpa using h), List.filter_cons_of_neg (by simpa using h),
        List.length_cons, List.length_cons]
      omega
    · rw [List.filter_cons_of_neg (by simpa using h), List.filter_cons_of_pos (by simpa using h),
        List.length_cons, List.length_cons]
      omega

/-- Skipping the first step of an enumerated loop. -/
theorem enum_drop_one (l : List α) : l.enum.drop 1 = l.tail.enumFrom 1 := by
  cases l with
  | nil => rfl
  | cons a rest => rfl

end PartitionLemmas

section TreeLemmas
variable {F : Type} [LinearOrderedField F]

/-- The two index arrays of `generateBinaryTree` share the indices of the group. -/
theorem realIndices_length_add (ps : List (Particle F)) :
    (realIndices ps).length + (unusedIndices ps).length = ps.length := by
  unfold realIndices unusedIndices
  rw [List.length_map, List.length_map]
  have h := filter_length_add_filter_not (fun ip : Nat × Particle F => ip.2.mass > 0) ps.enum
  rw [List.enum_length] at h
  exact h

/-- Without real particle every index is in the array of the unused particles. -/
theorem unusedIndices_of_no_real (ps : List (Particle F)) (h : (realIndices ps).length = 0) :
    unusedIndices ps = List.range ps.length := by
  unfold realIndices at h
  unfold unusedIndices
  rw [List.length_map, List.length_eq_zero, List.filter_eq_nil_iff] at h
  have h2 : ps.enum.filter (fun ip => ¬ ip.2.mass > 0) = ps.enum := by
    rw [List.filter_eq_self]
    intro a ha
    have := h a ha
    simpa using this
  rw [h2, List.enum_map_fst]

/-- The indices of the unused particles are in input order. -/
theorem unusedIndices_sorted (ps : List (Particle F)) :
    (unusedIndices ps).Pairwise (fun a b => a < b) := by
  unfold unusedIndices
  have h : List.Sublist ((ps.enum.filter (fun ip => ¬ ip.2.mass > 0)).map Prod.fst)
      (ps.enum.map Prod.fst) := List.Sublist.map _ (List.filter_sublist _)
  rw [List.enum_map_fst] at h
  exact List.Pairwise.sublist h (List.pairwise_lt_range _)

/-- An index of the array of the unused particles names a particle without positive
mass. -/
theorem unusedIndices_mem (ps : List (Particle F)) (u : Nat) (h : u ∈ unusedIndices ps) :
    ∃ p, ps[u]? = some p ∧ ¬ p.mass > 0 := by
  unfold unusedIndices at h
  rw [List.mem_map] at h
  obtain ⟨⟨i, p⟩, hip, hi⟩ := h
  rw [List.mem_filter] at hip
  obtain ⟨hmem, hp⟩ := hip
  have h1 := List.mem_enum hmem
  simp only at hi
  subst hi
  refine ⟨p, ?_, by simpa using hp⟩
  rw [List.getElem?_eq_getElem h1.1]
  exact congrArg some h1.2.symm

/-- An index of the array of the real particles names a particle of positive mass. -/
theorem realIndices_mem (ps : List (Particle F)) (u : Nat) (h : u ∈ realIndices ps) :
    ∃ p, ps[u]? = some p ∧ p.mass > 0 := by
  unfold realIndices at h
  rw [List.mem_map] at h
  obtain ⟨⟨i, p⟩, hip, hi⟩ := h
  rw [List.mem_filter] at hip
  obtain ⟨hmem, hp⟩ := hip
  have h1 := List.mem_enum hmem
  simp only at hi
  subst hi
  refine ⟨p, ?_, by simpa using hp⟩
  rw [List.getElem?_eq_getElem h1.1]
  exact congrArg some h1.2.symm

theorem realIndices_not_unused (ps : List (Particle F)) (u : Nat) (h : u ∈ realIndices ps) :
    u ∉ unusedIndices ps := by
  intro h2
  obtain ⟨p, hp, hpos⟩ := realIndices_mem ps u h
  obtain ⟨q, hq, hneg⟩ := unusedIndices_mem ps u h2
  rw [hp] at hq
  cases hq
  exact hneg hpos

end TreeLemmas

section ChainLemmas
variable {F : Type}

/-- Slot `j` after the particles `ks` were chained to the slots `p0`, `p0 + 1`, ...: a
slot of the chain holds the slot before it and its particle, any other slot is kept. -/
theorem chainUnused_get (ks : List Nat) (p0 : Nat) (d : Nat → BinaryTree F) (j : Nat) :
    ((ks.enumFrom p0).foldl Information.chainUnused d) j
      = if p0 ≤ j then
          (match ks[j - p0]? with
            | some k => (d j).setMembers (Member.node (j - 1)) (Member.particle k) (-1) k
            | none => d j)
        else d j := by
  induction ks generalizing p0 d with
  | nil => simp
  | cons k rest ih =>
    rw [List.enumFrom_cons, List.foldl_cons, ih]
    by_cases h1 : j = p0
    · subst h1
      simp [Information.chainUnused, writeNode]
    · by_cases h2 : p0 ≤ j
      · have h3 : p0 + 1 ≤ j := by omega
        have h4 : j - p0 = (j - (p0 + 1)) + 1 := by omega
        simp only [h2, h3, if_true]
        rw [h4, List.getElem?_cons_succ]
        simp [Information.chainUnused, writeNode, h1]
      · have h3 : ¬ p0 + 1 ≤ j := by omega
        simp [Information.chainUnused, writeNode, h1, h2, h3]

/-- The loop for a group without real particle is the chain of the particles
`s + 1, s + 2, ...` from the slot `s` on. -/
theorem chainAll_eq_chainUnused (s m : Nat) (d : Nat → BinaryTree F) :
    (List.range' (s + 1) m).foldl Information.chainAll d
      = ((List.range' (s + 1) m).enumFrom s).foldl Information.chainUnused d := by
  induction m generalizing s d with
  | zero => rfl
  | succ m ih =>
    rw [List.range'_succ, List.enumFrom_cons, List.foldl_cons, List.foldl_cons, ih (s + 1)]
    have h : Information.chainAll d (s + 1) = Information.chainUnused d (s, s + 1) := by
      simp only [Information.chainAll, Information.chainUnused, Nat.add_sub_cancel]
      rfl
    rw [h]

/-- The loop for a group with two or more real particles passes every assertion when the
chain ends within the list, and is then the chain from the slot `n_real - 1 + s` on. -/
theorem attachUnused_eq_chainUnused (n_real n : Nat) (ks : List Nat) (s : Nat)
    (d : Nat → BinaryTree F) (h : n_real - 1 + s + ks.length ≤ n - 1) :
    (ks.enumFrom s).foldlM (Information.attachUnused n_real n) d
      = some ((ks.enumFrom (n_real - 1 + s)).foldl Information.chainUnused d) := by
  induction ks generalizing s d with
  | nil => rfl
  | cons k rest ih =>
    rw [List.enumFrom_cons, List.foldlM_cons, List.enumFrom_cons, List.foldl_cons]
    have h1 : n_real - 1 + s < n - 1 := by
      rw [List.length_cons] at h
      omega
    have h2 : Information.attachUnused n_real n d (s, k)
        = some (Information.chainUnused d (n_real - 1 + s, k)) := by
      simp only [Information.attachUnused, ASSERT_bind, h1, if_true]
      rfl
    rw [h2]
    have h3 := ih (s + 1) (Information.chainUnused d (n_real - 1 + s, k)) (by
      rw [List.length_cons] at h
      omega)
    simpa using h3

end ChainLemmas

section BuildLemmas
variable {F : Type} [LinearOrderedField F]

/-- `generateBinaryTree` on a group without real particle: particles 0 and 1 in slot 0,
then the chain of the particles 2, 3, ... from slot 1 on. -/
theorem Information_generateBinaryTree_no_real
    (generateCore : (Nat → BinaryTree F) → List Nat → List (Particle F) → F
      → (Nat → BinaryTree F))
    (self : Information F) (ps : List (Particle F)) (G : F) (hn : 2 ≤ ps.length)
    (h0 : (realIndices ps).length = 0) :
    self.generateBinaryTree generateCore ps G
      = some { self with binarytree :=
          { size := ps.length - 1
            data := ((List.range' 2 (ps.length - 2)).enumFrom 1).foldl Information.chainUnused
              (writeNode self.binarytree.data 0
                (fun b => b.setMembers (Member.particle 0) (Member.particle 1) 0 1)) } } := by
  have hn' : ps.length > 1 := hn
  simp only [Information.generateBinaryTree, ASSERT_bind, hn', if_true, h0,
    COMM.List.resizeNoInitialize, gt_iff_lt, Nat.not_lt_zero, if_false,
    chainAll_eq_chainUnused 1]
  rfl

/-- `generateBinaryTree` on a group with one real particle: the real particle and the
first unused one in slot 0, then the chain of the other unused particles from slot 1 on. -/
theorem Information_generateBinaryTree_one_real
    (generateCore : (Nat → BinaryTree F) → List Nat → List (Particle F) → F
      → (Nat → BinaryTree F))
    (self : Information F) (ps : List (Particle F)) (G : F) (hn : 2 ≤ ps.length)
    (h1 : (realIndices ps).length = 1) :
    self.generateBinaryTree generateCore ps G
      = some { self with binarytree :=
          { size := ps.length - 1
            data := ((unusedIndices ps).tail.enumFrom 1).foldl Information.chainUnused
              (writeNode self.binarytree.data 0
                (fun b => b.setMembers (Member.particle ((realIndices ps).headD 0))
                  (Member.particle ((unusedIndices ps).headD 0))
                  ((realIndices ps).headD 0) ((unusedIndices ps).headD 0))) } } := by
  have hn' : ps.length > 1 := hn
  simp only [Information.generateBinaryTree, ASSERT_bind, hn', if_true, h1,
    COMM.List.resizeNoInitialize, gt_iff_lt, lt_self_iff_false, if_false, one_ne_zero,
    enum_drop_one]
  rfl

/-- `generateBinaryTree` on a group with two or more real particles: no assertion fails,
and the unused particles are chained from slot `n_real - 1` on, above the storage that
the core builder returns. -/
theorem Information_generateBinaryTree_core
    (generateCore : (Nat → BinaryTree F) → List Nat → List (Particle F) → F
      → (Nat → BinaryTree F))
    (self : Information F) (ps : List (Particle F)) (G : F)
    (h2 : 2 ≤ (realIndices ps).length) :
    self.generateBinaryTree generateCore ps G
      = some { self with binarytree :=
          { size := ps.length - 1
            data := ((unusedIndices ps).enumFrom ((realIndices ps).length - 1)).foldl
              Information.chainUnused
              (generateCore self.binarytree.data (realIndices ps) ps G) } } := by
  have hsum := realIndices_length_add ps
  have hn' : ps.length > 1 := by omega
  have hne0 : ¬ (realIndices ps).length = 0 := by omega
  have hne1 : ¬ (realIndices ps).length = 1 := by omega
  have hgt : (realIndices ps).length > 1 := h2
  have hloop := attachUnused_eq_chainUnused (realIndices ps).length ps.length (unusedIndices ps)
    0 (generateCore self.binarytree.data (realIndices ps) ps G) (by omega)
  rw [add_zero] at hloop
  simp only [Information.generateBinaryTree, ASSERT_bind, hn', if_true, hne0, hne1, if_false,
    COMM.List.resizeNoInitialize, hgt, List.enum, hloop]
  rfl

end BuildLemmas

/-- On a non-empty list `getBinaryTreeRoot` returns the node in the last slot; on an empty
list its assertion fails. -/
theorem Information_getBinaryTreeRoot_eq {F : Type} (self : Information F) :
    self.getBinaryTreeRoot
      = if 0 < self.binarytree.size then some (self.binarytree.data (self.binarytree.size - 1))
        else none := by
  simp only [Information.getBinaryTreeRoot, ASSERT_bind, COMM.List.getSize, gt_iff_lt]
  rfl

section RootLemmas
variable {F : Type} [LinearOrderedField F]

/-- With a group of two or more particles `generateBinaryTree` returns, the list has
`n - 1` slots and only the storage of the list is changed. -/
theorem Information_generateBinaryTree_size
    (generateCore : (Nat → BinaryTree F) → List Nat → List (Particle F) → F
      → (Nat → BinaryTree F))
    (self : Information F) (ps : List (Particle F)) (G : F) (hn : 2 ≤ ps.length) :
    ∃ out, self.generateBinaryTree generateCore ps G = some out
      ∧ out.binarytree.size = ps.length - 1 ∧ out.ds = self.ds
      ∧ out.fix_step_option = self.fix_step_option := by
  by_cases h0 : (realIndices ps).length = 0
  · exact ⟨_, Information_generateBinaryTree_no_real generateCore self ps G hn h0, rfl, rfl,
      rfl⟩
  · by_cases h1 : (realIndices ps).length = 1
    · exact ⟨_, Information_generateBinaryTree_one_real generateCore self ps G hn h1, rfl, rfl,
        rfl⟩
    · exact ⟨_, Information_generateBinaryTree_core generateCore self ps G (by omega), rfl, rfl,
        rfl⟩

/-- With fewer than two particles the first assertion of `generateBinaryTree` fails. -/
theorem Information_generateBinaryTree_abort
    (generateCore : (Nat → BinaryTree F) → List Nat → List (Particle F) → F
      → (Nat → BinaryTree F))
    (self : Information F) (ps : List (Particle F)) (G : F) (hn : ps.length < 2) :
    self.generateBinaryTree generateCore ps G = none := by
  have hn' : ¬ ps.length > 1 := by omega
  simp only [Information.generateBinaryTree, ASSERT_bind, hn', if_false]

end RootLemmas

section InterruptFrameLemmas
variable {F : Type} [LinearOrderedField F] [FloorRing F]

/-- When the node does not have exactly two members, the record does not have the status
`none`, or a member has the status `unused`, `modifyAndInterruptIter` takes none of its
writing branches. -/
theorem Interaction_modifyAndInterruptIter_skip (sqrt : F → F)
    (calcEccAnomaly : BinaryTree F → F → F) (calcMeanAnomaly : BinaryTree F → F → F → F)
    (intr : BinaryInterrupt F) (bin : BinaryTree F) (p1 p2 : Particle F)
    (h : bin.getMemberN ≠ 2 ∨ intr.status ≠ InterruptStatus.none
      ∨ p1.status = Status.unused ∨ p2.status = Status.unused) :
    Interaction.modifyAndInterruptIter sqrt calcEccAnomaly calcMeanAnomaly intr bin p1 p2
      = { bin_interrupt := intr, p1 := p1, p2 := p2 } := by
  unfold Interaction.modifyAndInterruptIter
  by_cases h0 : bin.getMemberN = 2 ∧ intr.status = InterruptStatus.none
  · rw [if_pos h0, if_neg]
    rintro ⟨h1, h2⟩
    rcases h with h | h | h | h
    · exact h h0.1
    · exact h h0.2
    · exact h1 h
    · exact h2 h
  · rw [if_neg h0]

end InterruptFrameLemmas

section HermiteLemmas
variable {F : Type} [LinearOrderedField F]

/-- The value that `calcAccJerkPairSingleSingle` returns is the squared separation; it does
not depend on the force. -/
theorem HermiteInteraction_calcAccJerkPairSingleSingle_ret (sqrt : F → F)
    (self : HermiteInteraction F) (fi : ForceH4 F) (pi pj : Tpi F) :
    (self.calcAccJerkPairSingleSingle sqrt fi pi pj).ret = sepSq pi.pos pj.pos := rfl

/-- One step of the loop over the members is one call of the pair kernel, when the
identifiers differ. -/
theorem HermiteInteraction_groupMemberBody_eq (sqrt : F → F) (self : HermiteInteraction F)
    (pi : Tpi F) (st : AccJerkOut F) (pj : Tpi F) (h : pi.id ≠ pj.id) :
    self.groupMemberBody sqrt pi st pj
      = some { fi := (self.calcAccJerkPairSingleSingle sqrt st.fi pi pj).fi
               ret := min st.ret (self.calcAccJerkPairSingleSingle sqrt st.fi pi pj).ret } := by
  simp only [HermiteInteraction.groupMemberBody, ASSERT_bind, h, ne_eq, not_false_eq_true,
    if_true]
  rfl

/-- One step of the loop over the members aborts when the identifiers are equal. -/
theorem HermiteInteraction_groupMemberBody_abort (sqrt : F → F) (self : HermiteInteraction F)
    (pi : Tpi F) (st : AccJerkOut F) (pj : Tpi F) (h : pi.id = pj.id) :
    self.groupMemberBody sqrt pi st pj = none := by
  simp only [HermiteInteraction.groupMemberBody, ASSERT_bind, h, ne_eq, not_true_eq_false,
    if_false]

/-- The loop over the members from any state: the pair kernel in turn when no identifier
equals that of `i`. -/
theorem HermiteInteraction_groupMember_fold (sqrt : F → F) (self : HermiteInteraction F)
    (pi : Tpi F) (g : List (Tpi F)) (st : AccJerkOut F) (h : ∀ pj ∈ g, pi.id ≠ pj.id) :
    g.foldlM (self.groupMemberBody sqrt pi) st = some (specGroupMember sqrt self pi st g) := by
  induction g generalizing st with
  | nil => rfl
  | cons pj rest ih =>
    rw [List.foldlM_cons, HermiteInteraction_groupMemberBody_eq sqrt self pi st pj
      (h pj (List.mem_cons_self _ _))]
    exact ih _ (fun q hq => h q (List.mem_cons_of_mem _ hq))

/-- The loop over the members from any state aborts when a member has the identifier of
`i`. -/
theorem HermiteInteraction_groupMember_fold_abort (sqrt : F → F)
    (self : HermiteInteraction F) (pi : Tpi F) (g : List (Tpi F)) (st : AccJerkOut F)
    (h : ∃ pj ∈ g, pi.id = pj.id) :
    g.foldlM (self.groupMemberBody sqrt pi) st = none := by
  induction g generalizing st with
  | nil =>
    obtain ⟨pj, hpj, _⟩ := h
    cases hpj
  | cons q rest ih =>
    rw [List.foldlM_cons]
    by_cases hq : pi.id = q.id
    · rw [HermiteInteraction_groupMemberBody_abort sqrt self pi st q hq]
      rfl
    · rw [HermiteInteraction_groupMemberBody_eq sqrt self pi st q hq]
      obtain ⟨pj, hpj, hid⟩ := h
      rcases List.mem_cons.mp hpj with hh | hh
      · subst hh
        exact absurd hid hq
      · exact ih _ ⟨pj, hh, hid⟩

/-- The minimum that the pair kernels in turn leave is the minimum of the start value and
the squared separations. -/
theorem specGroupMember_ret (sqrt : F → F) (self : HermiteInteraction F) (pi : Tpi F)
    (g : List (Tpi F)) (st : AccJerkOut F) :
    (specGroupMember sqrt self pi st g).ret
      = g.foldl (fun t pj => min (sepSq pi.pos pj.pos) t) st.ret := by
  induction g generalizing st with
  | nil => rfl
  | cons pj rest ih =>
    simp only [specGroupMember, List.foldl_cons] at ih ⊢
    rw [ih]
    simp only [HermiteInteraction_calcAccJerkPairSingleSingle_ret, min_comm]

end HermiteLemmas

section StaleLemmas
variable {F : Type}

/-- Reading entry `k` after a loop over the particles, started at index `n`, whose body
writes entry `i` of the force array with a value made of `i`, particle `i` and the old
entry. -/
theorem kickFold_get (body : KickOut F → Nat × Particle F → KickOut F)
    (W : Nat → Particle F → Force F → Force F)
    (hbody : ∀ st ip, (body st ip).force = writeForce st.force ip.1 (W ip.1 ip.2))
    (ps : List (Particle F)) (n k : Nat) (st : KickOut F) :
    ((ps.enumFrom n).foldl body st).force[k]?
      = if n ≤ k then
          (match ps[k - n]? with
            | some p => st.force[k]?.map (W k p)
            | none => st.force[k]?)
        else st.force[k]? := by
  induction ps generalizing n st with
  | nil => simp
  | cons p rest ih =>
    rw [List.enumFrom_cons, List.foldl_cons, ih, hbody, writeForce_get]
    by_cases h1 : k = n
    · subst h1
      simp
    · by_cases h2 : n ≤ k
      · have h3 : n + 1 ≤ k := by omega
        have h4 : k - n = (k - (n + 1)) + 1 := by omega
        simp only [h1, h2, h3, if_true, if_false]
        rw [h4, List.getElem?_cons_succ]
      · have h3 : ¬ n + 1 ≤ k := by omega
        simp [h1, h2, h3]

/-- The accumulators `_epot` and `gt_kick_inv` after a loop whose body computes them from
their old values and the particle do not depend on the force array. -/
theorem kickFold_scalars (body : KickOut F → Nat × Particle F → KickOut F)
    (hbody : ∀ st st' ip, st.epot = st'.epot → st.ret = st'.ret →
      (body st ip).epot = (body st' ip).epot ∧ (body st ip).ret = (body st' ip).ret)
    (l : List (Nat × Particle F)) (st st' : KickOut F)
    (he : st.epot = st'.epot) (hr : st.ret = st'.ret) :
    (l.foldl body st).epot = (l.foldl body st').epot
      ∧ (l.foldl body st).ret = (l.foldl body st').ret := by
  induction l generalizing st st' with
  | nil => exact ⟨he, hr⟩
  | cons ip rest ih =>
    rw [List.foldl_cons, List.foldl_cons]
    exact ih _ _ (hbody st st' ip he hr).1 (hbody st st' ip he hr).2

end StaleLemmas

section StaleKernelLemmas
variable {F : Type} [LinearOrderedField F]

/-- The potential and the returned factor of the general kernel of `Interaction` do not
depend on the force array it is given. -/
theorem Interaction_calcInnerAccPotAndGTKickInv_scalars (cfg : Config) (sqrt : F → F)
    (self : Interaction F) (ps : List (Particle F)) (f f' : List (Force F)) :
    (self.calcInnerAccPotAndGTKickInv cfg sqrt f ps).epot
        = (self.calcInnerAccPotAndGTKickInv cfg sqrt f' ps).epot
      ∧ (self.calcInnerAccPotAndGTKickInv cfg sqrt f ps).ret
        = (self.calcInnerAccPotAndGTKickInv cfg sqrt f' ps).ret := by
  have h := kickFold_scalars (self.outerBody cfg sqrt ps)
    (fun st st' ip he hr => by
      simp only [Interaction.outerBody, he, hr, and_self])
    ps.enum
    { force := f, epot := 0, ret := if cfg.AR_TTL_GT_MULTI then 1 else 0 }
    { force := f', epot := 0, ret := if cfg.AR_TTL_GT_MULTI then 1 else 0 } rfl rfl
  unfold Interaction.calcInnerAccPotAndGTKickInv
  simp only []
  rw [h.1, h.2]
  constructor <;> split <;> rfl

/-- After the general kernel of `Interaction` in a gradient formulation (`AR_TTL`), entry
`k` of the force array holds the accumulators of the inner loop for particle `k`, the
gradient multiplied by the returned factor in the product style; of the old entry only
`acc_pert` is left. -/
theorem Interaction_calcInnerAccPotAndGTKickInv_get (cfg : Config) (hT : cfg.AR_TTL = true)
    (sqrt : F → F) (self : Interaction F) (ps : List (Particle F)) (f : List (Force F))
    (k : Nat) (p : Particle F) (x : Force F) (hp : ps[k]? = some p) (hx : f[k]? = some x) :
    (self.calcInnerAccPotAndGTKickInv cfg sqrt f ps).force[k]?
      = some { x with
          acc_in := (self.innerLoop cfg sqrt ps k p).acci
          gtgrad :=
            if cfg.AR_TTL_GT_MULTI then
              ⟨(self.innerLoop cfg sqrt ps k p).gtgradi.c0
                  * (self.calcInnerAccPotAndGTKickInv cfg sqrt f ps).ret,
                (self.innerLoop cfg sqrt ps k p).gtgradi.c1
                  * (self.calcInnerAccPotAndGTKickInv cfg sqrt f ps).ret,
                (self.innerLoop cfg sqrt ps k p).gtgradi.c2
                  * (self.calcInnerAccPotAndGTKickInv cfg sqrt f ps).ret⟩
            else (self.innerLoop cfg sqrt ps k p).gtgradi } := by
  have hk : k < ps.length := by
    by_contra hcon
    rw [List.getElem?_eq_none (by omega)] at hp
    cases hp
  have hget := kickFold_get (self.outerBody cfg sqrt ps)
    (fun i q y => { y with acc_in := (self.innerLoop cfg sqrt ps i q).acci
                           gtgrad := if cfg.AR_TTL then (self.innerLoop cfg sqrt ps i q).gtgradi
                             else y.gtgrad })
    (fun st ip => rfl) ps 0 k
    { force := f, epot := 0, ret := if cfg.AR_TTL_GT_MULTI then 1 else 0 }
  simp only [Nat.zero_le, if_true, Nat.sub_zero, hp, hx, Option.map_some', hT] at hget
  unfold Interaction.calcInnerAccPotAndGTKickInv
  cases hM : cfg.AR_TTL_GT_MULTI
  · simp only [hM, Bool.false_eq_true, if_false] at hget ⊢
    rw [List.enum, hget]
  · simp only [hM, if_true, Interaction.scaleGtgrad, writeLoop_get, hk] at hget ⊢
    rw [List.enum, hget]
    rfl

/-- The potential and the returned factor of the kernel of `ARInteraction` do not depend on
the force array it is given. -/
theorem ARInteraction_calcAccPotAndGTKick_scalars (cfg : Config) (sqrt : F → F)
    (self : ARInteraction F) (ps : List (Particle F)) (f f' : List (Force F)) :
    (self.calcAccPotAndGTKick cfg sqrt f ps).epot
        = (self.calcAccPotAndGTKick cfg sqrt f' ps).epot
      ∧ (self.calcAccPotAndGTKick cfg sqrt f ps).ret
        = (self.calcAccPotAndGTKick cfg sqrt f' ps).ret := by
  have h := kickFold_scalars (self.outerBody cfg sqrt ps)
    (fun st st' ip he hr => by
      simp only [ARInteraction.outerBody, he, hr, and_self])
    ps.enum { force := f, epot := 0, ret := 0 } { force := f', epot := 0, ret := 0 } rfl rfl
  unfold ARInteraction.calcAccPotAndGTKick
  exact ⟨by simp only [h.1], by simp only [h.2]⟩

/-- After the kernel of `ARInteraction` in the gradient formulation (`AR_TTL`), entry `k`
of the force array holds the accumulators of the inner loop for particle `k`; of the old
entry only `acc_pert` is left. -/
theorem ARInteraction_calcAccPotAndGTKick_get (cfg : Config) (hT : cfg.AR_TTL = true)
    (sqrt : F → F) (self : ARInteraction F) (ps : List (Particle F)) (f : List (Force F))
    (k : Nat) (p : Particle F) (x : Force F) (hp : ps[k]? = some p) (hx : f[k]? = some x) :
    (self.calcAccPotAndGTKick cfg sqrt f ps).force[k]?
      = some { x with
          acc_in := (self.innerLoop cfg sqrt ps k p).acci
          gtgrad := (self.innerLoop cfg sqrt ps k p).gtgradi } := by
  have hget := kickFold_get (self.outerBody cfg sqrt ps)
    (fun i q y => { y with acc_in := (self.innerLoop cfg sqrt ps i q).acci
                           gtgrad := if cfg.AR_TTL then (self.innerLoop cfg sqrt ps i q).gtgradi
                             else y.gtgrad })
    (fun st ip => rfl) ps 0 k { force := f, epot := 0, ret := 0 }
  simp only [Nat.zero_le, if_true, Nat.sub_zero, hp, hx, Option.map_some', hT] at hget
  unfold ARInteraction.calcAccPotAndGTKick
  simp only []
  rw [List.enum, hget]

end StaleKernelLemmas

section SlotLemmas
variable {F : Type}

theorem BinaryTree_hasLeaf_iff (b : BinaryTree F) (u : Nat) :
    b.hasLeaf u = true
      ↔ b.member_left = Member.particle u ∨ b.member_right = Member.particle u := by
  simp [BinaryTree.hasLeaf]

/-- A run of consecutive integers, computed from the loop variable, as the casts of a run
of naturals. -/
theorem map_range'_cast (f : Nat → Int) (a b m : Nat)
    (h : ∀ i, i < m → f (a + i) = ((b + i : Nat) : Int)) :
    (List.range' a m).map f = (List.range' b m).map (fun i : Nat => (i : Int)) := by
  induction m generalizing a b with
  | zero => rfl
  | succ m ih =>
    rw [List.range'_succ, List.range'_succ, List.map_cons, List.map_cons]
    have h0 := h 0 (by omega)
    rw [Nat.add_zero, Nat.add_zero] at h0
    rw [h0, ih (a + 1) (b + 1) (fun i hi => by
      have := h (i + 1) (by omega)
      rw [show a + 1 + i = a + (i + 1) by omega, show b + 1 + i = b + (i + 1) by omega]
      exact this)]

/-- A slot outside the chain is as it was. -/
theorem chainUnused_get_outside (ks : List Nat) (p0 : Nat) (d : Nat → BinaryTree F) (j : Nat)
    (h : j < p0 ∨ p0 + ks.length ≤ j) :
    ((ks.enumFrom p0).foldl Information.chainUnused d) j = d j := by
  rw [chainUnused_get]
  by_cases h1 : p0 ≤ j
  · have h2 : ks.length ≤ j - p0 := by omega
    rw [if_pos h1, List.getElem?_eq_none h2]
  · rw [if_neg h1]

/-- A slot of the chain holds the slot before it and its particle. -/
theorem chainUnused_get_inside (ks : List Nat) (p0 : Nat) (d : Nat → BinaryTree F) (j k : Nat)
    (h1 : p0 ≤ j) (hk : ks[j - p0]? = some k) :
    ((ks.enumFrom p0).foldl Information.chainUnused d) j
      = (d j).setMembers (Member.node (j - 1)) (Member.particle k) (-1) k := by
  rw [chainUnused_get, if_pos h1, hk]

/-- When the nodes `c, c + 1, ...` have the entries of a list without repetition as their
only leaves and no other node has a leaf of the list, every entry is a leaf of exactly one
node. -/
theorem leaf_of_exactly_one (ks : List Nat) (hnd : ks.Nodup) (c m : Nat) (P : Nat → Bool)
    (u : Nat) (hm : m = c + ks.length)
    (hP : ∀ j, j < m → (P j = true ↔ c ≤ j ∧ ks[j - c]? = some u)) (hu : u ∈ ks) :
    ∃! j, j < m ∧ P j = true := by
  obtain ⟨i, hi⟩ := List.mem_iff_getElem?.mp hu
  have hil : i < ks.length := (List.getElem?_eq_some.mp hi).1
  refine ⟨c + i, ⟨by omega, (hP (c + i) (by omega)).mpr ⟨by omega, ?_⟩⟩, ?_⟩
  · rw [Nat.add_sub_cancel_left]
    exact hi
  · rintro j ⟨hj, hpj⟩
    obtain ⟨hcj, hks⟩ := (hP j hj).mp hpj
    have hji : j - c = i :=
      List.getElem?_inj (by omega) hnd (by rw [hks, hi])
    omega

end SlotLemmas

section SafeLemmas
variable {F : Type} [LinearOrderedField F]

/-- The slots written after the core pairing are, in increasing order and once each, the
slots from `n_real - 1` (from 0 when there are fewer than two real particles) to
`n - 2`. -/
theorem Information_writtenSlots_eq (ps : List (Particle F)) (hn : 2 ≤ ps.length) :
    Information.writtenSlots ps
      = (List.range'
          (if (realIndices ps).length ≤ 1 then 0 else (realIndices ps).length - 1)
          (ps.length - 1
            - (if (realIndices ps).length ≤ 1 then 0 else (realIndices ps).length - 1))).map
          (fun i : Nat => (i : Int)) := by
  have hsum := realIndices_length_add ps
  unfold Information.writtenSlots
  by_cases h0 : (realIndices ps).length = 0
  · have hle : (realIndices ps).length ≤ 1 := by omega
    rw [if_pos hle, if_pos h0,
      show ps.length - 1 - 0 = (ps.length - 2) + 1 by omega, List.range'_succ, List.map_cons,
      map_range'_cast (fun (i : Nat) => (i : Int) - 1) 2 (0 + 1) (ps.length - 2) (fun i _ => by
        push_cast
        ring)]
    rfl
  · by_cases h1 : (realIndices ps).length = 1
    · have hle : (realIndices ps).length ≤ 1 := by omega
      rw [if_pos hle, if_neg h0, if_pos h1,
        show ps.length - 1 - 0 = ((unusedIndices ps).length - 1) + 1 by omega,
        List.range'_succ, List.map_cons]
      rfl
    · have hle : ¬ (realIndices ps).length ≤ 1 := by omega
      rw [if_neg hle, if_neg h0, if_neg h1,
        show ps.length - 1 - ((realIndices ps).length - 1) = (unusedIndices ps).length by
        omega, List.range_eq_range',
        map_range'_cast (fun (i : Nat) => ((realIndices ps).length : Int) - 1 + i) 0
          ((realIndices ps).length - 1) (unusedIndices ps).length (fun i _ => by
            have h2 : 1 ≤ (realIndices ps).length := by omega
            push_cast [h2]
            ring)]

end SafeLemmas

section SafeMemLemmas
variable {F : Type} [LinearOrderedField F]

/-- A node index is among the slots written after the core pairing exactly when it lies
between the first such slot and `n - 2`. -/
theorem Information_writtenSlots_mem (ps : List (Particle F)) (hn : 2 ≤ ps.length) (j : Nat) :
    (j : Int) ∈ Information.writtenSlots ps
      ↔ (if (realIndices ps).length ≤ 1 then 0 else (realIndices ps).length - 1) ≤ j
        ∧ j < ps.length - 1 := by
  have hsum := realIndices_length_add ps
  rw [Information_writtenSlots_eq ps hn, List.mem_map]
  constructor
  · rintro ⟨i, hi, hij⟩
    have hij' : i = j := by exact_mod_cast hij
    subst hij'
    rw [List.mem_range'_1] at hi
    by_cases hle : (realIndices ps).length ≤ 1
    · rw [if_pos hle] at hi ⊢
      omega
    · rw [if_neg hle] at hi ⊢
      omega
  · rintro ⟨h1, h2⟩
    refine ⟨j, ?_, rfl⟩
    rw [List.mem_range'_1]
    by_cases hle : (realIndices ps).length ≤ 1
    · rw [if_pos hle] at h1 ⊢
      omega
    · rw [if_neg hle] at h1 ⊢
      omega

/-- Every node index written after the core pairing lies in `0 .. n - 2`. -/
theorem Information_writtenSlots_bounds (ps : List (Particle F)) (hn : 2 ≤ ps.length)
    (s : Int) (hs : s ∈ Information.writtenSlots ps) :
    0 ≤ s ∧ s ≤ (ps.length : Int) - 2 := by
  rw [Information_writtenSlots_eq ps hn, List.mem_map] at hs
  obtain ⟨i, hi, rfl⟩ := hs
  rw [List.mem_range'_1] at hi
  by_cases hle : (realIndices ps).length ≤ 1
  · rw [if_pos hle] at hi
    omega
  · rw [if_neg hle] at hi
    omega

end SafeMemLemmas

section LeafLemmas
variable {F : Type}

/-- The chain of a group without real particle: what each slot holds. -/
theorem chain_no_real_get (n : Nat) (d : Nat → BinaryTree F) (j : Nat) :
    (((List.range' 2 (n - 2)).enumFrom 1).foldl Information.chainUnused
        (writeNode d 0 (fun b => b.setMembers (Member.particle 0) (Member.particle 1) 0 1))) j
      = if j = 0 then (d 0).setMembers (Member.particle 0) (Member.particle 1) 0 1
        else if j < n - 1 then
          (d j).setMembers (Member.node (j - 1)) (Member.particle (j + 1)) (-1) ((j + 1 : Nat) : Int)
        else d j := by
  by_cases h0 : j = 0
  · subst h0
    rw [chainUnused_get_outside _ _ _ _ (Or.inl (by omega)), if_pos rfl]
    simp [writeNode]
  · rw [if_neg h0]
    by_cases h1 : j < n - 1
    · rw [if_pos h1, chainUnused_get_inside _ _ _ j (j + 1) (by omega) (by
        rw [List.getElem?_range' 2 1 (by omega)]
        congr 1
        omega)]
      simp [writeNode, h0]
    · rw [if_neg h1, chainUnused_get_outside _ _ _ _ (Or.inr (by
        rw [List.length_range']
        omega))]
      simp [writeNode, h0]

/-- The chain of a group with one real particle `i1`: what each slot holds. -/
theorem chain_one_real_get (us : List Nat) (i1 : Nat) (d : Nat → BinaryTree F) (j : Nat) :
    ((us.tail.enumFrom 1).foldl Information.chainUnused
        (writeNode d 0 (fun b => b.setMembers (Member.particle i1)
          (Member.particle (us.headD 0)) i1 (us.headD 0)))) j
      = if j = 0 then
          (d 0).setMembers (Member.particle i1) (Member.particle (us.headD 0)) i1 (us.headD 0)
        else
          (match us[j]? with
            | some k => (d j).setMembers (Member.node (j - 1)) (Member.particle k) (-1) k
            | none => d j) := by
  by_cases h0 : j = 0
  · subst h0
    rw [chainUnused_get_outside _ _ _ _ (Or.inl (by omega)), if_pos rfl]
    simp [writeNode]
  · rw [if_neg h0, chainUnused_get, if_pos (by omega), List.getElem?_tail,
      show j - 1 + 1 = j by omega]
    simp [writeNode, h0]

end LeafLemmas

section SnapshotLemmas
variable {T : Type}

/-- A read on a stream that holds `size` bytes. -/
theorem fread_of_le (rep : ObjRep T) (x : T) (size : Nat) (fp : List Byte)
    (h : size ≤ fp.length) :
    fread rep x size fp
      = { rcount := 1, obj := rep.value (fp.take size ++ (rep.bytes x).drop size),
          fin := fp.drop size } := by
  unfold fread
  rw [if_pos h]

/-- A read on a stream that holds fewer than `size` bytes returns the count 0. -/
theorem fread_of_lt (rep : ObjRep T) (x : T) (size : Nat) (fp : List Byte)
    (h : fp.length < size) : (fread rep x size fp).rcount = 0 := by
  unfold fread
  rw [if_neg (by omega)]

/-- A routine `fread(this, sizeof(*this), 1, _fin)` followed by `abort()` on a count below
1: it aborts exactly on a stream shorter than the object, and otherwise returns the object
whose first `size` bytes are those of the stream. -/
theorem readWhole_eq (rep : ObjRep T) (self : T) (fin : List Byte) :
    (let r := fread rep self rep.size fin
     if r.rcount < 1 then none else some (r.obj, r.fin))
      = if fin.length < rep.size then none
        else some (rep.value (fin.take rep.size ++ (rep.bytes self).drop rep.size),
          fin.drop rep.size) := by
  by_cases h : fin.length < rep.size
  · simp only [fread_of_lt rep self rep.size fin h, if_pos h, Nat.lt_one_iff, if_true]
  · rw [if_neg h]
    simp only [fread_of_le rep self rep.size fin (by omega), Nat.lt_irrefl, if_false]

/-- Writing an object as a whole and reading it back, where the representation is faithful. -/
theorem readWhole_writeWhole (rep : ObjRep T) (self x : T) (h : rep.FaithfulAt x)
    (hself : (rep.bytes self).length = rep.size) :
    (let r := fread rep self rep.size (fwrite rep x rep.size [])
     if r.rcount < 1 then none else some (r.obj, r.fin))
      = some (x, []) := by
  obtain ⟨hlen, hval⟩ := h
  have hw : fwrite rep x rep.size [] = rep.bytes x := by
    unfold fwrite
    rw [List.nil_append, List.take_of_length_le (by omega)]
  rw [readWhole_eq, hw, if_neg (by omega), List.take_of_length_le (by omega),
    List.drop_eq_nil_of_le (by omega), List.drop_eq_nil_of_le (by omega), List.append_nil,
    hval]

end SnapshotLemmas

section InformationSnapshotLemmas
variable {F : Type}

/-- `Information::readBinary` aborts exactly on a stream shorter than `sizeof(int)` plus
`sizeof(FixStepOption)`, and otherwise returns the object with the first `sizeof(int)`
bytes of `ds` and the first `sizeof(FixStepOption)` bytes of `fix_step_option` taken from
the stream. -/
theorem Information_readBinary_eq (n : Nat) (repF : ObjRep F) (repO : ObjRep FixStepOption)
    (self : Information F) (fin : List Byte) :
    self.readBinary n repF repO fin
      = if fin.length < n + repO.size then none
        else some
          ({ self with
              ds := repF.value (fin.take n ++ (repF.bytes self.ds).drop n)
              fix_step_option := repO.value ((fin.drop n).take repO.size
                ++ (repO.bytes self.fix_step_option).drop repO.size) },
            fin.drop (n + repO.size)) := by
  unfold Information.readBinary
  by_cases h1 : fin.length < n
  · simp only [fread_of_lt repF self.ds n fin h1, Nat.lt_one_iff, if_true]
    rw [if_pos (by omega)]
  · simp only [fread_of_le repF self.ds n fin (by omega), Nat.lt_irrefl, if_false]
    by_cases h2 : (fin.drop n).length < repO.size
    · simp only [fread_of_lt repO self.fix_step_option repO.size (fin.drop n) h2,
        Nat.lt_one_iff, if_true]
      rw [List.length_drop] at h2
      rw [if_pos (by omega)]
    · simp only [fread_of_le repO self.fix_step_option repO.size (fin.drop n) (by omega),
        Nat.lt_irrefl, if_false]
      rw [List.length_drop] at h2
      rw [if_neg (by omega), List.drop_drop]

/-- What `Information::writeBinary` appends to an empty stream. -/
theorem Information_writeBinary_nil (n : Nat) (repF : ObjRep F) (repO : ObjRep FixStepOption)
    (self : Information F) :
    self.writeBinary n repF repO []
      = (repF.bytes self.ds).take n ++ (repO.bytes self.fix_step_option).take repO.size := by
  simp only [Information.writeBinary, fwrite, List.nil_append]

/-- Writing an `Information` and reading the bytes back into another one: the option comes
back, and of `ds` the first `sizeof(int)` bytes; the other bytes of `ds` are those of the
object read into. -/
theorem Information_readBinary_writeBinary (n : Nat) (repF : ObjRep F)
    (repO : ObjRep FixStepOption) (info self : Information F)
    (hn : n ≤ (repF.bytes info.ds).length)
    (ho : repO.FaithfulAt info.fix_step_option)
    (hself : (repO.bytes self.fix_step_option).length = repO.size) :
    self.readBinary n repF repO (info.writeBinary n repF repO [])
      = some
          ({ self with
              ds := repF.value ((repF.bytes info.ds).take n ++ (repF.bytes self.ds).drop n)
              fix_step_option := info.fix_step_option },
            []) := by
  obtain ⟨holen, hoval⟩ := ho
  have hlen : ((repF.bytes info.ds).take n).length = n := by
    rw [List.length_take]
    omega
  have e3 : (repO.bytes info.fix_step_option).take repO.size
      = repO.bytes info.fix_step_option := List.take_of_length_le (le_of_eq holen)
  have hl : ((repF.bytes info.ds).take n ++ repO.bytes info.fix_step_option).length
      = n + repO.size := by
    rw [List.length_append, hlen, holen]
  have e1 : ((repF.bytes info.ds).take n ++ repO.bytes info.fix_step_option).take n
      = (repF.bytes info.ds).take n := List.take_left' hlen
  have e2 : ((repF.bytes info.ds).take n ++ repO.bytes info.fix_step_option).drop n
      = repO.bytes info.fix_step_option := List.drop_left' hlen
  have e4 : (repO.bytes self.fix_step_option).drop repO.size = [] :=
    List.drop_eq_nil_of_le (le_of_eq hself)
  have e5 : ((repF.bytes info.ds).take n ++ repO.bytes info.fix_step_option).drop
      (n + repO.size) = [] := List.drop_eq_nil_of_le (le_of_eq hl)
  rw [Information_readBinary_eq, Information_writeBinary_nil, e3, if_neg (by omega), e1, e2,
    e3, e4, e5, List.append_nil, hoval]

end InformationSnapshotLemmas

section AbsLemmas
variable {F : Type} [LinearOrderedField F] [FloorRing F]

/-- The `abs` that the source calls gives the integer part of the absolute value. -/
theorem Interaction_abs_eq_floor (x : F) : Interaction.abs x = ((⌊|x|⌋ : Int) : F) := by
  unfold Interaction.abs truncToInt
  by_cases h : 0 ≤ x
  · rw [if_pos h, abs_of_nonneg h, abs_of_nonneg (Int.floor_nonneg.mpr h)]
  · have hx : x < 0 := not_le.mp h
    have hc : ⌈x⌉ ≤ 0 := Int.ceil_le.mpr (by exact_mod_cast le_of_lt hx)
    rw [if_neg h, abs_of_neg hx, abs_of_nonpos hc, Int.floor_neg]

/-- It is never above the absolute value. -/
theorem Interaction_abs_le (x : F) : Interaction.abs x ≤ |x| := by
  rw [Interaction_abs_eq_floor]
  exact Int.floor_le _

/-- It is less than one below the absolute value. -/
theorem Interaction_abs_gt (x : F) : |x| - 1 < Interaction.abs x := by
  rw [Interaction_abs_eq_floor]
  exact Int.sub_one_lt_floor _

end AbsLemmas

section TaylorLemmas

/-- The nested form of the predicted position is the Taylor polynomial. -/
theorem predictPos_eq_taylor (p : ParticleH4 ℝ) (dt : ℝ) :
    predictPos p dt = specTaylorPos p dt := by
  have h5 : (0.5 : ℝ) = 1 / 2 := by norm_num
  have h1 : (1.0 : ℝ) = 1 := by norm_num
  have h3 : (3.0 : ℝ) = 3 := by norm_num
  simp only [predictPos, specTaylorPos, Vec3.eq_iff, h5, h1, h3]
  refine ⟨?_, ?_, ?_⟩ <;> ring

/-- The nested form of the predicted velocity is the Taylor polynomial. -/
theorem predictVel_eq_taylor (p : ParticleH4 ℝ) (dt : ℝ) :
    predictVel p dt = specTaylorVel p dt := by
  have h5 : (0.5 : ℝ) = 1 / 2 := by norm_num
  simp only [predictVel, specTaylorVel, Vec3.eq_iff, h5]
  refine ⟨?_, ?_, ?_⟩ <;> ring

theorem specPertR2_eq_taylor (self : ARInteraction ℝ) (time : ℝ) (cm : ParticleH4 ℝ)
    (adr : NBAdr ℝ) : specPertR2 self time cm adr = specTaylorR2 self time cm adr := by
  simp only [specPertR2, specTaylorR2, predictPos_eq_taylor]

theorem specPertTi2_eq_taylor (self : ARInteraction ℝ) (time : ℝ) (cm : ParticleH4 ℝ)
    (adr : NBAdr ℝ) : specPertTi2 self time cm adr = specTaylorTi2 self time cm adr := by
  simp only [specPertTi2, specTaylorTi2, specPertR2_eq_taylor, predictPos_eq_taylor,
    predictVel_eq_taylor]

/-- With no time earlier than the last update of a perturber, the first loop of
`calcAccEnergy` stores the predicted position and the mass of every perturber. -/
theorem ARInteraction_mapM_predictPert (t : ℝ) (l : List (NBAdr ℝ))
    (h : ∀ adr ∈ l, adr.pertj.time ≤ t) :
    l.mapM (ARInteraction.predictPert t)
      = some (l.map (fun adr =>
          (specTaylorPos adr.pertj (t - adr.pertj.time), adr.pertj.mass))) := by
  apply mapM_option_eq_some_map
  intro adr hadr
  have h0 : 0 ≤ t - adr.pertj.time := sub_nonneg.mpr (h adr hadr)
  simp only [ARInteraction.predictPert, ASSERT_bind, ge_iff_le, h0, if_true,
    predictPos_eq_taylor]
  rfl

end TaylorLemmas

section SlotContentLemmas
variable {F : Type} [LinearOrderedField F]

/-- What `generateBinaryTree` leaves in the storage of the node list, slot by slot: a slot
below `n_real - 1` and a slot from `n - 1` on is as the core pairing (with two or more real
particles) or the caller left it; a slot `j` from `n_real - 1` to `n - 2` has its members set
once, the second to the particle `particle_index_unused[j + 1 - n_real]` and the first to
the node `j - 1`, or in slot 0 to the lone real particle (particle 0 without one). -/
theorem Information_generateBinaryTree_slots
    (generateCore : (Nat → BinaryTree F) → List Nat → List (Particle F) → F
      → (Nat → BinaryTree F))
    (self : Information F) (ps : List (Particle F)) (G : F) (hn : 2 ≤ ps.length) :
    ∃ out, self.generateBinaryTree generateCore ps G = some out
      ∧ out.binarytree.size = ps.length - 1
      ∧ (∀ j, j < (realIndices ps).length - 1 ∨ ps.length - 1 ≤ j →
          out.binarytree.data j
            = (if 2 ≤ (realIndices ps).length then
                generateCore self.binarytree.data (realIndices ps) ps G
              else self.binarytree.data) j)
      ∧ (∀ j, (realIndices ps).length - 1 ≤ j → j < ps.length - 1 →
          ∃ u, (unusedIndices ps)[j + 1 - (realIndices ps).length]? = some u
            ∧ out.binarytree.data j
              = ((if 2 ≤ (realIndices ps).length then
                    generateCore self.binarytree.data (realIndices ps) ps G
                  else self.binarytree.data) j).setMembers
                  (if j = 0 then Member.particle ((realIndices ps).headD 0)
                    else Member.node (j - 1))
                  (Member.particle u)
                  (if j = 0 then (((realIndices ps).headD 0 : Nat) : Int) else -1)
                  (u : Int)) := by
  have hsum := realIndices_length_add ps
  by_cases h0 : (realIndices ps).length = 0
  · have hu := unusedIndices_of_no_real ps h0
    have hnil : realIndices ps = [] := List.length_eq_zero.mp h0
    have h2 : ¬ 2 ≤ (realIndices ps).length := by omega
    refine ⟨_, Information_generateBinaryTree_no_real generateCore self ps G hn h0, rfl, ?_, ?_⟩
    · intro j hj
      have hj' : ¬ j < ps.length - 1 := by omega
      have hj0 : j ≠ 0 := by omega
      simp only [chain_no_real_get, hj0, hj', if_false, h2]
    · intro j _ hj
      refine ⟨j + 1, ?_, ?_⟩
      · rw [h0, hu, Nat.sub_zero, List.getElem?_range (by omega)]
      · by_cases hj0 : j = 0
        · subst hj0
          simp only [chain_no_real_get, if_true, h2, if_false, hnil, List.headD_nil]
          rfl
        · simp only [chain_no_real_get, hj0, hj, if_true, if_false, h2]
  · by_cases h1 : (realIndices ps).length = 1
    · have h2 : ¬ 2 ≤ (realIndices ps).length := by omega
      have hpos : 0 < (unusedIndices ps).length := by omega
      have hhead : (unusedIndices ps)[0]? = some ((unusedIndices ps).headD 0) := by
        cases hus : unusedIndices ps with
        | nil =>
          rw [hus] at hpos
          cases hpos
        | cons a rest => simp
      refine ⟨_, Information_generateBinaryTree_one_real generateCore self ps G hn h1, rfl,
        ?_, ?_⟩
      · intro j hj
        have hj' : ¬ j < ps.length - 1 := by omega
        have hj0 : j ≠ 0 := by omega
        have hnone : (unusedIndices ps)[j]? = none := List.getElem?_eq_none (by omega)
        simp only [chain_one_real_get, hj0, if_false, hnone, h2]
      · intro j _ hj
        by_cases hj0 : j = 0
        · subst hj0
          refine ⟨(unusedIndices ps).headD 0, ?_, ?_⟩
          · rw [h1]
            exact hhead
          · simp only [chain_one_real_get, if_true, h2, if_false]
        · have hlt : j < (unusedIndices ps).length := by omega
          refine ⟨(unusedIndices ps)[j], ?_, ?_⟩
          · rw [h1, Nat.add_sub_cancel, List.getElem?_eq_getElem hlt]
          · simp only [chain_one_real_get, hj0, if_false, List.getElem?_eq_getElem hlt, h2]
    · have h2 : 2 ≤ (realIndices ps).length := by omega
      refine ⟨_, Information_generateBinaryTree_core generateCore self ps G h2, rfl, ?_, ?_⟩
      · intro j hj
        rw [if_pos h2]
        exact chainUnused_get_outside _ _ _ _ (by omega)
      · intro j hj1 hj2
        have hlt : j - ((realIndices ps).length - 1) < (unusedIndices ps).length := by omega
        have hj0 : j ≠ 0 := by omega
        have hidx : j + 1 - (realIndices ps).length = j - ((realIndices ps).length - 1) := by
          omega
        refine ⟨(unusedIndices ps)[j - ((realIndices ps).length - 1)], ?_, ?_⟩
        · rw [hidx, List.getElem?_eq_getElem hlt]
        · rw [if_pos h2, if_neg hj0, if_neg hj0]
          exact chainUnused_get_inside _ _ _ j _ hj1 (List.getElem?_eq_getElem hlt)

end SlotContentLemmas

section LeafCoverLemmas
variable {F : Type} [LinearOrderedField F]

/-- When the nodes that the core builder leaves below slot `n_real - 1` have no particle
without positive mass as a child, every such particle is a child of exactly one node of the
tree that `generateBinaryTree` returns. -/
theorem Information_generateBinaryTree_leaf
    (generateCore : (Nat → BinaryTree F) → List Nat → List (Particle F) → F
      → (Nat → BinaryTree F))
    (self : Information F) (ps : List (Particle F)) (G : F) (hn : 2 ≤ ps.length)
    (hcore : ∀ k, k < (realIndices ps).length - 1 → ∀ u ∈ unusedIndices ps,
      (generateCore self.binarytree.data (realIndices ps) ps G k).hasLeaf u = false) :
    ∃ out, self.generateBinaryTree generateCore ps G = some out
      ∧ (∀ u ∈ unusedIndices ps,
          ∃! j, j < ps.length - 1 ∧ (out.binarytree.data j).hasLeaf u = true) := by
  have hsum := realIndices_length_add ps
  have hnd : (unusedIndices ps).Nodup := (unusedIndices_sorted ps).nodup
  by_cases h0 : (realIndices ps).length = 0
  · have hu := unusedIndices_of_no_real ps h0
    refine ⟨_, Information_generateBinaryTree_no_real generateCore self ps G hn h0, ?_⟩
    intro u hu'
    rw [hu, List.mem_range] at hu'
    have hleaf : ∀ j, j < ps.length - 1 →
        (((((List.range' 2 (ps.length - 2)).enumFrom 1).foldl Information.chainUnused
          (writeNode self.binarytree.data 0 (fun b => b.setMembers (Member.particle 0)
            (Member.particle 1) 0 1))) j).hasLeaf u = true
          ↔ (j = 0 ∧ u ≤ 1) ∨ (j ≠ 0 ∧ u = j + 1)) := by
      intro j hj
      rw [chain_no_real_get]
      by_cases hj0 : j = 0
      · rw [if_pos hj0]
        simp only [BinaryTree_hasLeaf_iff, BinaryTree.setMembers, Member.particle.injEq]
        constructor
        · rintro (h | h)
          · exact Or.inl ⟨hj0, by omega⟩
          · exact Or.inl ⟨hj0, by omega⟩
        · rintro (h | h)
          · by_cases hu0 : u = 0
            · exact Or.inl hu0.symm
            · exact Or.inr (by omega)
          · exact absurd hj0 h.1
      · rw [if_neg hj0, if_pos hj]
        simp only [BinaryTree_hasLeaf_iff, BinaryTree.setMembers, Member.particle.injEq]
        constructor
        · rintro (h | h)
          · cases h
          · exact Or.inr ⟨hj0, h.symm⟩
        · rintro (h | h)
          · exact absurd h.1 hj0
          · exact Or.inr h.2.symm
    by_cases hu1 : u ≤ 1
    · refine ⟨0, ⟨by omega, (hleaf 0 (by omega)).mpr (Or.inl ⟨rfl, hu1⟩)⟩, ?_⟩
      rintro j ⟨hj, hl⟩
      rcases (hleaf j hj).mp hl with h | h
      · exact h.1
      · omega
    · refine ⟨u - 1, ⟨by omega, (hleaf (u - 1) (by omega)).mpr
        (Or.inr ⟨by omega, by omega⟩)⟩, ?_⟩
      rintro j ⟨hj, hl⟩
      rcases (hleaf j hj).mp hl with h | h
      · omega
      · omega
  · by_cases h1 : (realIndices ps).length = 1
    · obtain ⟨i1, hi1⟩ := List.length_eq_one.mp h1
      have hi1mem : i1 ∉ unusedIndices ps :=
        realIndices_not_unused ps i1 (by rw [hi1]; exact List.mem_singleton_self _)
      have hpos : 0 < (unusedIndices ps).length := by omega
      have hhead : (unusedIndices ps)[0]? = some ((unusedIndices ps).headD 0) := by
        cases hus : unusedIndices ps with
        | nil =>
          rw [hus] at hpos
          cases hpos
        | cons a rest => simp
      refine ⟨_, Information_generateBinaryTree_one_real generateCore self ps G hn h1, ?_⟩
      intro u hu'
      have hui : u ≠ i1 := fun h => hi1mem (h ▸ hu')
      apply leaf_of_exactly_one (unusedIndices ps) hnd 0 (ps.length - 1) _ u (by omega) _ hu'
      intro j hj
      have hlt : j < (unusedIndices ps).length := by omega
      simp only []
      rw [Nat.sub_zero, chain_one_real_get]
      by_cases hj0 : j = 0
      · subst hj0
        rw [hhead]
        simp only [if_true, hi1, List.headD_cons, BinaryTree_hasLeaf_iff,
          BinaryTree.setMembers, Member.particle.injEq, Option.some.injEq, le_refl, true_and]
        constructor
        · rintro (h | h)
          · exact absurd h.symm hui
          · exact h
        · intro h
          exact Or.inr h
      · rw [if_neg hj0, List.getElem?_eq_getElem hlt]
        simp only [BinaryTree_hasLeaf_iff, BinaryTree.setMembers, Member.particle.injEq,
          Option.some.injEq, Nat.zero_le, true_and]
        constructor
        · rintro (h | h)
          · cases h
          · exact h
        · intro h
          exact Or.inr h
    · have h2 : 2 ≤ (realIndices ps).length := by omega
      refine ⟨_, Information_generateBinaryTree_core generateCore self ps G h2, ?_⟩
      intro u hu'
      apply leaf_of_exactly_one (unusedIndices ps) hnd ((realIndices ps).length - 1)
        (ps.length - 1) _ u (by omega) _ hu'
      intro j hj
      simp only []
      by_cases hcj : (realIndices ps).length - 1 ≤ j
      · have hlt : j - ((realIndices ps).length - 1) < (unusedIndices ps).length := by omega
        rw [chainUnused_get_inside _ _ _ j _ hcj (List.getElem?_eq_getElem hlt),
          List.getElem?_eq_getElem hlt]
        simp only [BinaryTree_hasLeaf_iff, BinaryTree.setMembers,
          Member.particle.injEq, Option.some.injEq, hcj, true_and]
        constructor
        · rintro (h | h)
          · cases h
          · exact h
        · intro h
          exact Or.inr h
      · rw [chainUnused_get_outside _ _ _ j (Or.inl (by omega)), hcore j (by omega) u hu']
        simp only [hcj, false_and, iff_false]
        exact Bool.false_ne_true

/-- The indices of the particles without positive mass are indices of the array. -/
theorem unusedIndices_lt (ps : List (Particle F)) (u : Nat) (h : u ∈ unusedIndices ps) :
    u < ps.length := by
  obtain ⟨p, hp, _⟩ := unusedIndices_mem ps u h
  exact (List.getElem?_eq_some.mp hp).1

/-- The first index of a real particle, 0 when there is none, is an index of the array of
two or more particles. -/
theorem realIndices_headD_lt (ps : List (Particle F)) (hn : 2 ≤ ps.length) :
    (realIndices ps).headD 0 < ps.length := by
  cases hr : realIndices ps with
  | nil =>
    rw [List.headD_nil]
    omega
  | cons a rest =>
    rw [List.headD_cons]
    obtain ⟨p, hp, _⟩ := realIndices_mem ps a (by rw [hr]; exact List.mem_cons_self _ _)
    exact (List.getElem?_eq_some.mp hp).1

end LeafCoverLemmas

/-! ## The claims -/

/-- C1: for every `G` and every two particles at distinct positions, the two-body
routine of `Interaction` stores `G*m2*(x2-x1)/|x2-x1|^3` as `acc_in` of particle 1,
`G*m1*(x1-x2)/|x1-x2|^3` as `acc_in` of particle 2, and sets the potential to
`-G*m1*m2/|x1-x2|`. -/
theorem two_body_closed_form (cfg : Config) (self : Interaction ℝ) (f1 f2 : Force ℝ)
    (p1 p2 : Particle ℝ) (h : p1.pos ≠ p2.pos) :
    (self.calcInnerAccPotAndGTKickInvTwo cfg Real.sqrt f1 f2 p1 p2).f1.acc_in
        = ⟨self.gravitational_constant * p2.mass * (p2.pos.c0 - p1.pos.c0)
             / dist3 Real.sqrt p1.pos p2.pos ^ 3,
           self.gravitational_constant * p2.mass * (p2.pos.c1 - p1.pos.c1)
             / dist3 Real.sqrt p1.pos p2.pos ^ 3,
           self.gravitational_constant * p2.mass * (p2.pos.c2 - p1.pos.c2)
             / dist3 Real.sqrt p1.pos p2.pos ^ 3⟩
    ∧ (self.calcInnerAccPotAndGTKickInvTwo cfg Real.sqrt f1 f2 p1 p2).f2.acc_in
        = ⟨self.gravitational_constant * p1.mass * (p1.pos.c0 - p2.pos.c0)
             / dist3 Real.sqrt p2.pos p1.pos ^ 3,
           self.gravitational_constant * p1.mass * (p1.pos.c1 - p2.pos.c1)
             / dist3 Real.sqrt p2.pos p1.pos ^ 3,
           self.gravitational_constant * p1.mass * (p1.pos.c2 - p2.pos.c2)
             / dist3 Real.sqrt p2.pos p1.pos ^ 3⟩
    ∧ (self.calcInnerAccPotAndGTKickInvTwo cfg Real.sqrt f1 f2 p1 p2).epot
        = -(self.gravitational_constant * p1.mass * p2.mass) / dist3 Real.sqrt p2.pos p1.pos := by
  have hd : dist3 Real.sqrt p1.pos p2.pos ≠ 0 := (dist3_pos _ _ h).ne'
  obtain ⟨a1, a2⟩ := Interaction_calcInnerAccPotAndGTKickInvTwo_acc cfg Real.sqrt self f1 f2 p1 p2
  obtain ⟨a3, _⟩ :=
    Interaction_calcInnerAccPotAndGTKickInvTwo_epot_ret cfg Real.sqrt self f1 f2 p1 p2
  simp only [a1, a2, a3, sqrt_sepSq, dist3_symm p2.pos p1.pos, Vec3.eq_iff]
  generalize dist3 Real.sqrt p1.pos p2.pos = d at hd
  refine ⟨⟨?_, ?_, ?_⟩, ⟨?_, ?_, ?_⟩, ?_⟩ <;> ring

/-- Witness of C1: `G = 2`, masses 3 and 5 at `(0,0,0)` and `(1,0,0)`; the potential
is `-30`. -/
theorem two_body_closed_form_witness :
    (Particle.atRest (3 : ℝ) 0 0 0).pos ≠ (Particle.atRest (5 : ℝ) 1 0 0).pos
    ∧ ((⟨2⟩ : Interaction ℝ).calcInnerAccPotAndGTKickInvTwo Config.ttl
          Real.sqrt (Force.filled 7) (Force.filled 7) (Particle.atRest 3 0 0 0)
          (Particle.atRest 5 1 0 0)).epot = -30 := by
  have h : (Particle.atRest (3 : ℝ) 0 0 0).pos ≠ (Particle.atRest (5 : ℝ) 1 0 0).pos := by
    simp [Particle.atRest]
  refine ⟨h, ?_⟩
  rw [(two_body_closed_form Config.ttl ⟨2⟩ (Force.filled 7) (Force.filled 7)
    (Particle.atRest 3 0 0 0) (Particle.atRest 5 1 0 0) h).2.2]
  simp [dist3, Particle.atRest]
  norm_num

/-- C2: the two-body kick factor is tied to the potential returned alongside.  For
`G > 0` and positive masses, the inverse-potential routine of `Interaction` (positions
distinct) returns the potential `epot = -G*m1*m2/r`, which is negative, and the factor
`-epot = |epot| > 0`; the harmonic routine of `ARInteraction` (softened squared separation
`r2 > 0`) returns, with the potential `epot = -G*m1*m2/sqrt(r2)`, which is negative, and
the factor `-1/epot = 1/|epot| > 0`, so that factor times `|epot|` is 1. -/
theorem kick_factor_tied_to_potential (cfg : Config) (self : Interaction ℝ)
    (ar : ARInteraction ℝ) (f1 f2 : Force ℝ) (force : List (Force ℝ)) (p1 p2 : Particle ℝ)
    (hG : 0 < self.gravitational_constant) (hG' : 0 < ar.G)
    (hm1 : 0 < p1.mass) (hm2 : 0 < p2.mass) :
    (p1.pos ≠ p2.pos →
      (self.calcInnerAccPotAndGTKickInvTwo cfg Real.sqrt f1 f2 p1 p2).ret
          = -(self.calcInnerAccPotAndGTKickInvTwo cfg Real.sqrt f1 f2 p1 p2).epot
      ∧ (self.calcInnerAccPotAndGTKickInvTwo cfg Real.sqrt f1 f2 p1 p2).ret
          = |(self.calcInnerAccPotAndGTKickInvTwo cfg Real.sqrt f1 f2 p1 p2).epot|
      ∧ (self.calcInnerAccPotAndGTKickInvTwo cfg Real.sqrt f1 f2 p1 p2).epot
          = -(self.gravitational_constant * p1.mass * p2.mass
              / Real.sqrt (sepSq p1.pos p2.pos))
      ∧ (self.calcInnerAccPotAndGTKickInvTwo cfg Real.sqrt f1 f2 p1 p2).epot < 0
      ∧ 0 < (self.calcInnerAccPotAndGTKickInvTwo cfg Real.sqrt f1 f2 p1 p2).ret)
    ∧ (0 < sepSq p1.pos p2.pos + ar.eps_sq →
      ∃ out, ar.calcAccPotAndGTKickTwo cfg Real.sqrt force [p1, p2] = some out
        ∧ out.ret = -1 / out.epot ∧ out.ret = 1 / |out.epot|
        ∧ out.epot = -(ar.G * p1.mass * p2.mass / Real.sqrt (sepSq p1.pos p2.pos + ar.eps_sq))
        ∧ out.epot < 0
        ∧ 0 < out.ret
        ∧ out.ret * |out.epot| = 1) := by
  constructor
  · intro hne
    obtain ⟨a3, a4⟩ :=
      Interaction_calcInnerAccPotAndGTKickInvTwo_epot_ret cfg Real.sqrt self f1 f2 p1 p2
    have hs : 0 < Real.sqrt (sepSq p1.pos p2.pos) :=
      Real.sqrt_pos.mpr (sepSq_pos p1.pos p2.pos hne)
    have h0 : 0 < self.gravitational_constant * p1.mass * p2.mass
        * (1 / Real.sqrt (sepSq p1.pos p2.pos)) := by positivity
    rw [a3, a4, neg_neg, abs_neg, abs_of_pos h0]
    refine ⟨rfl, rfl, ?_, ?_, h0⟩
    · rw [mul_one_div]
    · exact neg_lt_zero.mpr h0
  · intro hr
    have hs : 0 < Real.sqrt (sepSq p1.pos p2.pos + ar.eps_sq) := Real.sqrt_pos.mpr hr
    have h0 : 0 < ar.G * p1.mass * p2.mass
        * (1 / Real.sqrt (sepSq p1.pos p2.pos + ar.eps_sq)) := by positivity
    have hr' := hr
    rw [sepSq_def] at hr'
    simp only [ARInteraction.calcAccPotAndGTKickTwo, ASSERT_bind, List.length_cons,
      List.length_nil, gt_iff_lt, hr', if_true]
    simp only [← sepSq_def]
    refine ⟨_, rfl, ?_, ?_, ?_, ?_, ?_, ?_⟩
    · simp only [neg_div_neg_eq]
    · simp only [abs_neg, abs_of_pos h0]
    · simp only [mul_one_div]
    · exact neg_lt_zero.mpr h0
    · exact one_div_pos.mpr h0
    · simp only [abs_neg, abs_of_pos h0]
      exact one_div_mul_cancel (ne_of_gt h0)

/-- Witness of C2: `G = 2`, masses 3 and 5 at `(0,0,0)` and `(1,0,0)`, no softening: both
potentials are negative and the harmonic factor times `|epot|` is 1. -/
theorem kick_factor_tied_to_potential_witness :
    ((0 : ℝ) < 2 ∧ (0 : ℝ) < 3 ∧ (0 : ℝ) < 5
      ∧ (Particle.atRest (3 : ℝ) 0 0 0).pos ≠ (Particle.atRest (5 : ℝ) 1 0 0).pos
      ∧ 0 < sepSq (Particle.atRest (3 : ℝ) 0 0 0).pos (Particle.atRest (5 : ℝ) 1 0 0).pos + 0)
    ∧ ((⟨2⟩ : Interaction ℝ).calcInnerAccPotAndGTKickInvTwo Config.ttl
          Real.sqrt (Force.filled 7) (Force.filled 7) (Particle.atRest 3 0 0 0)
          (Particle.atRest 5 1 0 0)).ret
        = |((⟨2⟩ : Interaction ℝ).calcInnerAccPotAndGTKickInvTwo Config.ttl
          Real.sqrt (Force.filled 7) (Force.filled 7) (Particle.atRest 3 0 0 0)
          (Particle.atRest 5 1 0 0)).epot|
    ∧ ((⟨2⟩ : Interaction ℝ).calcInnerAccPotAndGTKickInvTwo Config.ttl
          Real.sqrt (Force.filled 7) (Force.filled 7) (Particle.atRest 3 0 0 0)
          (Particle.atRest 5 1 0 0)).epot < 0
    ∧ ∃ out, (⟨0, 2⟩ : ARInteraction ℝ).calcAccPotAndGTKickTwo Config.ttl
          Real.sqrt [Force.filled 7, Force.filled 7]
          [Particle.atRest 3 0 0 0, Particle.atRest 5 1 0 0] = some out
        ∧ out.ret = -1 / out.epot ∧ out.ret = 1 / |out.epot| ∧ out.epot < 0
        ∧ out.ret * |out.epot| = 1 := by
  have hx : (Particle.atRest (3 : ℝ) 0 0 0).pos ≠ (Particle.atRest (5 : ℝ) 1 0 0).pos := by
    simp [Particle.atRest]
  have hr : 0 < sepSq (Particle.atRest (3 : ℝ) 0 0 0).pos (Particle.atRest (5 : ℝ) 1 0 0).pos
      + 0 := by
    simp [sepSq, Particle.atRest]
  have h := kick_factor_tied_to_potential Config.ttl ⟨2⟩ ⟨0, 2⟩
    (Force.filled 7) (Force.filled 7) [Force.filled 7, Force.filled 7]
    (Particle.atRest 3 0 0 0) (Particle.atRest 5 1 0 0)
    (by norm_num) (by norm_num) (by norm_num [Particle.atRest])
    (by norm_num [Particle.atRest])
  obtain ⟨out, ho, b1, b2, _, b4, _, b6⟩ := h.2 hr
  exact ⟨⟨by norm_num, by norm_num, by norm_num, hx, hr⟩, (h.1 hx).2.1, (h.1 hx).2.2.2.1,
    out, ho, b1, b2, b4, b6⟩

/-- C3: on a two-particle array with non-zero (softened) separation the general N-body
kernel gives the same inner accelerations, potential and kick factor as the two-body
routine: for `Interaction` in the sum-style configuration, and for `ARInteraction`,
where the whole result (force array, potential, returned factor) coincides. -/
theorem n_body_path_agrees_with_two_body (cfg : Config) (hsum : cfg.AR_TTL_GT_MULTI = false)
    (self : Interaction ℝ) (ar : ARInteraction ℝ) (f1 f2 : Force ℝ)
    (rest force : List (Force ℝ)) (p1 p2 : Particle ℝ) :
    (p1.pos ≠ p2.pos →
      ∃ g1 g2,
        (self.calcInnerAccPotAndGTKickInv cfg Real.sqrt (f1 :: f2 :: rest) [p1, p2]).force
          = g1 :: g2 :: rest
        ∧ g1.acc_in = (self.calcInnerAccPotAndGTKickInvTwo cfg Real.sqrt f1 f2 p1 p2).f1.acc_in
        ∧ g2.acc_in = (self.calcInnerAccPotAndGTKickInvTwo cfg Real.sqrt f1 f2 p1 p2).f2.acc_in
        ∧ (self.calcInnerAccPotAndGTKickInv cfg Real.sqrt (f1 :: f2 :: rest) [p1, p2]).epot
          = (self.calcInnerAccPotAndGTKickInvTwo cfg Real.sqrt f1 f2 p1 p2).epot
        ∧ (self.calcInnerAccPotAndGTKickInv cfg Real.sqrt (f1 :: f2 :: rest) [p1, p2]).ret
          = (self.calcInnerAccPotAndGTKickInvTwo cfg Real.sqrt f1 f2 p1 p2).ret)
    ∧ (0 < sepSq p1.pos p2.pos + ar.eps_sq →
      ar.calcAccPotAndGTKickTwo cfg Real.sqrt force [p1, p2]
        = some (ar.calcAccPotAndGTKick cfg Real.sqrt force [p1, p2])) :=
  ⟨fun _ => Interaction_pair_agrees cfg hsum self f1 f2 rest p1 p2,
   fun hr => ARInteraction_pair_agrees cfg ar force p1 p2 hr⟩

/-- Witness of C3: `G = 2`, masses 3 and 5 at `(0,0,0)` and `(1,0,0)`, stale force
records, gradient formulation switched on. -/
theorem n_body_path_agrees_with_two_body_witness :
    ((Particle.atRest (3 : ℝ) 0 0 0).pos ≠ (Particle.atRest (5 : ℝ) 1 0 0).pos
      ∧ 0 < sepSq (Particle.atRest (3 : ℝ) 0 0 0).pos (Particle.atRest (5 : ℝ) 1 0 0).pos + 0)
    ∧ ((⟨2⟩ : Interaction ℝ).calcInnerAccPotAndGTKickInv Config.ttl Real.sqrt
          [Force.filled 7, Force.filled 7]
          [Particle.atRest 3 0 0 0, Particle.atRest 5 1 0 0]).ret
        = ((⟨2⟩ : Interaction ℝ).calcInnerAccPotAndGTKickInvTwo Config.ttl
            Real.sqrt (Force.filled 7) (Force.filled 7) (Particle.atRest 3 0 0 0)
            (Particle.atRest 5 1 0 0)).ret
    ∧ (⟨0, 2⟩ : ARInteraction ℝ).calcAccPotAndGTKickTwo Config.ttl Real.sqrt
          [Force.filled 7, Force.filled 7] [Particle.atRest 3 0 0 0, Particle.atRest 5 1 0 0]
        = some ((⟨0, 2⟩ : ARInteraction ℝ).calcAccPotAndGTKick Config.ttl
            Real.sqrt [Force.filled 7, Force.filled 7]
            [Particle.atRest 3 0 0 0, Particle.atRest 5 1 0 0]) := by
  have hx : (Particle.atRest (3 : ℝ) 0 0 0).pos ≠ (Particle.atRest (5 : ℝ) 1 0 0).pos := by
    simp [Particle.atRest]
  have hr : 0 < sepSq (Particle.atRest (3 : ℝ) 0 0 0).pos (Particle.atRest (5 : ℝ) 1 0 0).pos
      + 0 := by
    simp [sepSq, Particle.atRest]
  have h := n_body_path_agrees_with_two_body Config.ttl rfl ⟨2⟩ ⟨0, 2⟩
    (Force.filled 7) (Force.filled 7) [] [Force.filled 7, Force.filled 7]
    (Particle.atRest 3 0 0 0) (Particle.atRest 5 1 0 0)
  obtain ⟨g1, g2, _, _, _, _, hret⟩ := h.1 hx
  exact ⟨⟨hx, hr⟩, hret, h.2 hr⟩

/-- C4 (amended): in the product-style configuration, for `G > 0` and two positive-mass
particles at distinct positions, the general kernel on the two-particle array returns
`sqrt(m1*m2)/|x1-x2|`, the two-body routine returns `G*m1*m2/|x1-x2|`, and the two
coincide exactly when `G^2*m1*m2 = 1`. -/
theorem product_style_pair_kick (cfg : Config) (hM : cfg.AR_TTL_GT_MULTI = true)
    (self : Interaction ℝ) (f1 f2 : Force ℝ) (force : List (Force ℝ)) (p1 p2 : Particle ℝ)
    (hG : 0 < self.gravitational_constant) (hm1 : 0 < p1.mass) (hm2 : 0 < p2.mass)
    (hx : p1.pos ≠ p2.pos) :
    (self.calcInnerAccPotAndGTKickInv cfg Real.sqrt force [p1, p2]).ret
        = Real.sqrt (p1.mass * p2.mass) / dist3 Real.sqrt p1.pos p2.pos
    ∧ (self.calcInnerAccPotAndGTKickInvTwo cfg Real.sqrt f1 f2 p1 p2).ret
        = self.gravitational_constant * p1.mass * p2.mass / dist3 Real.sqrt p1.pos p2.pos
    ∧ ((self.calcInnerAccPotAndGTKickInv cfg Real.sqrt force [p1, p2]).ret
        = (self.calcInnerAccPotAndGTKickInvTwo cfg Real.sqrt f1 f2 p1 p2).ret
        ↔ self.gravitational_constant ^ 2 * p1.mass * p2.mass = 1) := by
  have hd : 0 < dist3 Real.sqrt p1.pos p2.pos := dist3_pos _ _ hx
  have hN := Interaction_pair_product_ret cfg hM self force p1 p2
  have hT := (Interaction_calcInnerAccPotAndGTKickInvTwo_epot_ret cfg Real.sqrt self f1 f2
    p1 p2).2
  rw [sqrt_sepSq] at hT
  rw [hN, hT]
  generalize dist3 Real.sqrt p1.pos p2.pos = d at hd
  generalize self.gravitational_constant = G at hG
  have hmm : 0 < p1.mass * p2.mass := mul_pos hm1 hm2
  generalize p1.mass = m1 at *
  generalize p2.mass = m2 at *
  refine ⟨by ring, by ring, ?_⟩
  have hdi : 0 < 1 / d := by positivity
  rw [mul_comm (G * m1 * m2) (1 / d), mul_comm (Real.sqrt (m1 * m2)) (1 / d),
    mul_right_inj' hdi.ne']
  constructor
  · intro h
    have h2 : Real.sqrt (m1 * m2) ^ 2 = m1 * m2 := Real.sq_sqrt hmm.le
    rw [h] at h2
    have h3 : (m1 * m2) * (G ^ 2 * m1 * m2) = (m1 * m2) * 1 := by
      rw [mul_one]
      calc (m1 * m2) * (G ^ 2 * m1 * m2) = (G * m1 * m2) ^ 2 := by ring
        _ = m1 * m2 := h2
    exact mul_left_cancel₀ hmm.ne' h3
  · intro h
    have hnn : 0 ≤ G * m1 * m2 := by positivity
    rw [Real.sqrt_eq_iff_mul_self_eq hmm.le hnn]
    have : G * m1 * m2 * (G * m1 * m2) = (G ^ 2 * m1 * m2) * (m1 * m2) := by ring
    rw [this, h, one_mul]

/-- Counterexample to C4 as stated: `G = 2` and two unit masses at distance 1 in the
product-style configuration.  The general kernel returns `sqrt(1*1)/1 = 1`, the
two-body routine returns `2*1*1/1 = 2`. -/
theorem product_style_pair_kick_differs :
    ((⟨2⟩ : Interaction ℝ).calcInnerAccPotAndGTKickInv Config.ttlMulti Real.sqrt
        [Force.filled 0, Force.filled 0] [Particle.atRest 1 0 0 0, Particle.atRest 1 1 0 0]).ret
      = 1
    ∧ ((⟨2⟩ : Interaction ℝ).calcInnerAccPotAndGTKickInvTwo Config.ttlMulti
          Real.sqrt (Force.filled 0) (Force.filled 0) (Particle.atRest 1 0 0 0)
          (Particle.atRest 1 1 0 0)).ret = 2
    ∧ ((⟨2⟩ : Interaction ℝ).calcInnerAccPotAndGTKickInv Config.ttlMulti Real.sqrt
        [Force.filled 0, Force.filled 0] [Particle.atRest 1 0 0 0, Particle.atRest 1 1 0 0]).ret
      ≠ ((⟨2⟩ : Interaction ℝ).calcInnerAccPotAndGTKickInvTwo Config.ttlMulti
          Real.sqrt (Force.filled 0) (Force.filled 0) (Particle.atRest 1 0 0 0)
          (Particle.atRest 1 1 0 0)).ret := by
  rw [Interaction_pair_product_ret _ rfl,
    (Interaction_calcInnerAccPotAndGTKickInvTwo_epot_ret _ _ _ _ _ _ _).2]
  simp [dist3, sepSq, Particle.atRest]

/-- Witness of C4 (amended): `G = 1/2`, masses 2 and 2 at distance 1, where
`G^2*m1*m2 = 1` and both routines return 2. -/
theorem product_style_pair_kick_witness :
    ((0 : ℝ) < 1 / 2 ∧ (0 : ℝ) < 2
      ∧ (Particle.atRest (2 : ℝ) 0 0 0).pos ≠ (Particle.atRest (2 : ℝ) 1 0 0).pos)
    ∧ ((⟨1 / 2⟩ : Interaction ℝ).calcInnerAccPotAndGTKickInv Config.ttlMulti
        Real.sqrt [Force.filled 0, Force.filled 0]
        [Particle.atRest 2 0 0 0, Particle.atRest 2 1 0 0]).ret
      = ((⟨1 / 2⟩ : Interaction ℝ).calcInnerAccPotAndGTKickInvTwo Config.ttlMulti
          Real.sqrt (Force.filled 0) (Force.filled 0) (Particle.atRest 2 0 0 0)
          (Particle.atRest 2 1 0 0)).ret := by
  have hx : (Particle.atRest (2 : ℝ) 0 0 0).pos ≠ (Particle.atRest (2 : ℝ) 1 0 0).pos := by
    simp [Particle.atRest]
  have h := product_style_pair_kick Config.ttlMulti rfl ⟨1 / 2⟩ (Force.filled 0)
    (Force.filled 0) [Force.filled 0, Force.filled 0] (Particle.atRest 2 0 0 0)
    (Particle.atRest 2 1 0 0) (by norm_num) (by norm_num [Particle.atRest])
    (by norm_num [Particle.atRest]) hx
  exact ⟨⟨by norm_num, by norm_num, hx⟩, h.2.2.mpr (by norm_num [Particle.atRest])⟩

/-- C5: Newton's third law for an isolated pair.  For every `G`, masses, configuration
and positions with non-zero (softened) separation, the accelerations written by the
two-body routines satisfy `m1*acc1 = -(m2*acc2)` in each component, in `Interaction`
and in `ARInteraction`. -/
theorem newton_third_law_two_body (cfg : Config) (self : Interaction ℝ)
    (ar : ARInteraction ℝ) (f1 f2 : Force ℝ) (rest : List (Force ℝ)) (p1 p2 : Particle ℝ) :
    (p1.pos ≠ p2.pos →
      p1.mass * (self.calcInnerAccPotAndGTKickInvTwo cfg Real.sqrt f1 f2 p1 p2).f1.acc_in.c0
        = -(p2.mass * (self.calcInnerAccPotAndGTKickInvTwo cfg Real.sqrt f1 f2 p1 p2).f2.acc_in.c0)
      ∧ p1.mass * (self.calcInnerAccPotAndGTKickInvTwo cfg Real.sqrt f1 f2 p1 p2).f1.acc_in.c1
        = -(p2.mass * (self.calcInnerAccPotAndGTKickInvTwo cfg Real.sqrt f1 f2 p1 p2).f2.acc_in.c1)
      ∧ p1.mass * (self.calcInnerAccPotAndGTKickInvTwo cfg Real.sqrt f1 f2 p1 p2).f1.acc_in.c2
        = -(p2.mass * (self.calcInnerAccPotAndGTKickInvTwo cfg Real.sqrt f1 f2 p1 p2).f2.acc_in.c2))
    ∧ (0 < sepSq p1.pos p2.pos + ar.eps_sq →
      ∃ out g1 g2,
        ar.calcAccPotAndGTKickTwo cfg Real.sqrt (f1 :: f2 :: rest) [p1, p2] = some out
        ∧ out.force = g1 :: g2 :: rest
        ∧ p1.mass * g1.acc_in.c0 = -(p2.mass * g2.acc_in.c0)
        ∧ p1.mass * g1.acc_in.c1 = -(p2.mass * g2.acc_in.c1)
        ∧ p1.mass * g1.acc_in.c2 = -(p2.mass * g2.acc_in.c2)) := by
  constructor
  · intro _
    obtain ⟨a1, a2⟩ :=
      Interaction_calcInnerAccPotAndGTKickInvTwo_acc cfg Real.sqrt self f1 f2 p1 p2
    rw [a1, a2]
    refine ⟨?_, ?_, ?_⟩ <;> ring
  · intro hr
    have hr' := hr
    rw [sepSq_def] at hr'
    simp only [ARInteraction.calcAccPotAndGTKickTwo, ASSERT_bind, List.length_cons,
      List.length_nil, gt_iff_lt, hr', if_true, writeForce]
    refine ⟨_, _, _, rfl, rfl, ?_, ?_, ?_⟩ <;> ring

/-- Witness of C5: `G = 2`, masses 3 and 5 at `(0,0,0)` and `(1,0,0)`, no softening. -/
theorem newton_third_law_two_body_witness :
    ((Particle.atRest (3 : ℝ) 0 0 0).pos ≠ (Particle.atRest (5 : ℝ) 1 0 0).pos
      ∧ 0 < sepSq (Particle.atRest (3 : ℝ) 0 0 0).pos (Particle.atRest (5 : ℝ) 1 0 0).pos + 0)
    ∧ (3 : ℝ) * ((⟨2⟩ : Interaction ℝ).calcInnerAccPotAndGTKickInvTwo Config.ttl
          Real.sqrt (Force.filled 7) (Force.filled 7) (Particle.atRest 3 0 0 0)
          (Particle.atRest 5 1 0 0)).f1.acc_in.c0
        = -(5 * ((⟨2⟩ : Interaction ℝ).calcInnerAccPotAndGTKickInvTwo Config.ttl
          Real.sqrt (Force.filled 7) (Force.filled 7) (Particle.atRest 3 0 0 0)
          (Particle.atRest 5 1 0 0)).f2.acc_in.c0)
    ∧ ∃ out g1 g2,
        (⟨0, 2⟩ : ARInteraction ℝ).calcAccPotAndGTKickTwo Config.ttl Real.sqrt
          [Force.filled 7, Force.filled 7] [Particle.atRest 3 0 0 0, Particle.atRest 5 1 0 0]
          = some out
        ∧ out.force = [g1, g2] ∧ (3 : ℝ) * g1.acc_in.c0 = -(5 * g2.acc_in.c0) := by
  have hx : (Particle.atRest (3 : ℝ) 0 0 0).pos ≠ (Particle.atRest (5 : ℝ) 1 0 0).pos := by
    simp [Particle.atRest]
  have hr : 0 < sepSq (Particle.atRest (3 : ℝ) 0 0 0).pos (Particle.atRest (5 : ℝ) 1 0 0).pos
      + 0 := by
    simp [sepSq, Particle.atRest]
  have h := newton_third_law_two_body Config.ttl ⟨2⟩ ⟨0, 2⟩
    (Force.filled 7) (Force.filled 7) [] (Particle.atRest 3 0 0 0) (Particle.atRest 5 1 0 0)
  obtain ⟨out, g1, g2, h1, h2, h3, _, _⟩ := h.2 hr
  exact ⟨⟨hx, hr⟩, (h.1 hx).1, out, g1, g2, h1, h2, h3⟩

/-- C6: for particles at pairwise distinct positions the potential returned by the
general kernel of `Interaction` counts each unordered pair once,
`epot = -(sum over i<j of G*m_i*m_j/|x_i-x_j|)`, every distance in the sum being
positive; in the sum-style configuration the returned kick factor is `-epot`. -/
theorem n_body_potential_counts_each_pair_once (cfg : Config) (self : Interaction ℝ)
    (force : List (Force ℝ)) (ps : List (Particle ℝ))
    (hx : ps.Pairwise (fun p q => p.pos ≠ q.pos)) :
    (self.calcInnerAccPotAndGTKickInv cfg Real.sqrt force ps).epot
        = -pairSum (fun p q => self.gravitational_constant * p.mass * q.mass
            / dist3 Real.sqrt p.pos q.pos) ps
    ∧ ps.Pairwise (fun p q => 0 < dist3 Real.sqrt p.pos q.pos)
    ∧ (cfg.AR_TTL_GT_MULTI = false →
        (self.calcInnerAccPotAndGTKickInv cfg Real.sqrt force ps).ret
          = -(self.calcInnerAccPotAndGTKickInv cfg Real.sqrt force ps).epot) := by
  refine ⟨Interaction_epot_pairSum cfg self force ps, ?_, ?_⟩
  · exact hx.imp (fun h => dist3_pos _ _ h)
  · intro hsum
    have h := Interaction_fold_ret_add_epot cfg hsum Real.sqrt self ps ps.enum
      { force := force, epot := 0, ret := if cfg.AR_TTL_GT_MULTI then 1 else 0 }
    simp only [hsum, Bool.false_eq_true, if_false, add_zero] at h
    simp only [Interaction.calcInnerAccPotAndGTKickInv, hsum, Bool.false_eq_true, if_false]
    linarith

/-- Witness of C6: `G = 1`, masses 1, 2, 3 on a line at `x = 0, 1, 3`; the pair terms
are `2/1`, `3/3` and `6/2`, so the potential is `-6` and the kick factor `6`. -/
theorem n_body_potential_counts_each_pair_once_witness :
    [Particle.atRest (1 : ℝ) 0 0 0, Particle.atRest 2 1 0 0, Particle.atRest 3 3 0 0].Pairwise
        (fun p q => p.pos ≠ q.pos)
    ∧ ((⟨1⟩ : Interaction ℝ).calcInnerAccPotAndGTKickInv Config.ttl Real.sqrt
          [Force.filled 7, Force.filled 7, Force.filled 7]
          [Particle.atRest 1 0 0 0, Particle.atRest 2 1 0 0, Particle.atRest 3 3 0 0]).epot = -6
    ∧ ((⟨1⟩ : Interaction ℝ).calcInnerAccPotAndGTKickInv Config.ttl Real.sqrt
          [Force.filled 7, Force.filled 7, Force.filled 7]
          [Particle.atRest 1 0 0 0, Particle.atRest 2 1 0 0, Particle.atRest 3 3 0 0]).ret = 6 := by
  have hx : [Particle.atRest (1 : ℝ) 0 0 0, Particle.atRest 2 1 0 0,
      Particle.atRest 3 3 0 0].Pairwise (fun p q => p.pos ≠ q.pos) := by
    simp [Particle.atRest]
  have h := n_body_potential_counts_each_pair_once Config.ttl ⟨1⟩
    [Force.filled 7, Force.filled 7, Force.filled 7]
    [Particle.atRest 1 0 0 0, Particle.atRest 2 1 0 0, Particle.atRest 3 3 0 0] hx
  have he : ((⟨1⟩ : Interaction ℝ).calcInnerAccPotAndGTKickInv Config.ttl
      Real.sqrt [Force.filled 7, Force.filled 7, Force.filled 7]
      [Particle.atRest 1 0 0 0, Particle.atRest 2 1 0 0, Particle.atRest 3 3 0 0]).epot
      = -6 := by
    rw [h.1]
    simp only [pairSum, dist3, Particle.atRest, List.map_cons, List.map_nil, List.sum_cons,
      List.sum_nil]
    norm_num [sqrt_four, sqrt_nine]
  refine ⟨hx, he, ?_⟩
  rw [h.2.2 rfl, he]
  norm_num


/-- C7 (the code departs from the claim): in the gradient-based sum-style configuration
with `G = 2`, masses 1, 1, 9 on a line at `x = 0, 1, 3`, the full kick evaluation
(dispatched to the general kernel, since `n = 3`) stores the `gtgrad` vectors
`(8,0,0)`, `(5,0,0)`, `(-13,0,0)`, while the gradient named by the claim for the first
particle, `G*m_0*(m_1*1/1 + m_2*3/27)`, is `(4,0,0)`: the stored value carries a second
factor `G`. -/
theorem general_kernel_gtgrad_has_extra_G :
    (((⟨2⟩ : Interaction ℝ).calcAccPotAndGTKickInv Config.ttl Real.sqrt
        [Force.filled 7, Force.filled 7, Force.filled 7]
        [Particle.atRest 1 0 0 0, Particle.atRest 1 1 0 0, Particle.atRest 9 3 0 0]
        (Particle.atRest 11 0 0 0) () 0).force.map (fun f => f.gtgrad))
      = [⟨8, 0, 0⟩, ⟨5, 0, 0⟩, ⟨-13, 0, 0⟩]
    ∧ specGtgrad Real.sqrt 2
        [Particle.atRest 1 0 0 0, Particle.atRest 1 1 0 0, Particle.atRest 9 3 0 0]
        0 (Particle.atRest 1 0 0 0) = ⟨4, 0, 0⟩ := by
  constructor
  · simp only [Interaction.calcAccPotAndGTKickInv, Interaction.calcInnerAccPotAndGTKickInv,
      List.enum, List.enumFrom, List.foldl_cons, List.foldl_nil, Interaction.outerBody,
      Interaction.innerLoop, Interaction.innerBody, writeForce, List.length_cons,
      List.length_nil, range_three, Particle.atRest, Force.filled, List.map_cons, List.map_nil,
      Config.ttl]
    norm_num [sqrt_four, sqrt_nine]
    simp only [range_three, List.foldl_cons, List.foldl_nil, writeForce, List.map_cons,
      List.map_nil]
  · simp only [specGtgrad, specGtgradStep, List.enum, List.enumFrom, List.foldl_cons,
      List.foldl_nil, dist3, Particle.atRest]
    norm_num [sqrt_nine]

/-- C8 (the code departs from the claim): with an empty perturber list
`ARInteraction::calcAccEnergy` leaves `acc_pert` as it found it (here the stale value
`(7,7,7)` in both members), whereas `Interaction::calcAccPotAndGTKickInv` on the same
members resets it to zero. -/
theorem calcAccEnergy_keeps_stale_acc_pert :
    ((⟨0, 2⟩ : ARInteraction ℝ).calcAccEnergy Config.ttl Real.sqrt
        [Force.filled 7, Force.filled 7] [Particle.atRest 3 0 0 0, Particle.atRest 5 1 0 0]
        ⟨8, ⟨0, 0, 0⟩, ⟨0, 0, 0⟩, ⟨0, 0, 0⟩, ⟨0, 0, 0⟩, 0⟩ ⟨[], true⟩ 0).map
          (fun out => out.force.map (fun f => f.acc_pert))
      = some [⟨7, 7, 7⟩, ⟨7, 7, 7⟩]
    ∧ ((⟨2⟩ : Interaction ℝ).calcAccPotAndGTKickInv Config.ttl Real.sqrt
        [Force.filled 7, Force.filled 7] [Particle.atRest 3 0 0 0, Particle.atRest 5 1 0 0]
        (Particle.atRest 8 0 0 0) () 0).force.map (fun f => f.acc_pert)
      = [⟨0, 0, 0⟩, ⟨0, 0, 0⟩] := by
  constructor
  · rw [ARInteraction_calcAccEnergy_no_perturber]
    simp only [ARInteraction.calcAccPotAndGTKickTwo, ASSERT_bind, List.length_cons,
      List.length_nil, Particle.atRest, Force.filled, writeForce]
    norm_num
  · simp only [Interaction.calcAccPotAndGTKickInv, List.length_cons, List.length_nil,
      writeForce, Force.filled, Interaction.calcInnerAccPotAndGTKickInvTwo]
    norm_num [range_two, writeForce]

/-- C9: parameter validation is fail-fast.  `Interaction::checkParams` returns `true`
exactly when `gravitational_constant > 0`, `ARInteraction::checkParams` and
`HermiteInteraction::checkParams` exactly when `eps_sq >= 0` and `G > 0`; in every other
case the assertion fails.  A default-constructed object of each class fails. -/
theorem checkParams_fail_fast {F : Type} [LinearOrderedField F] (self : Interaction F)
    (ar : ARInteraction F) (hi : HermiteInteraction F) :
    (self.checkParams = if 0 < self.gravitational_constant then some true else none)
    ∧ (ar.checkParams = if 0 ≤ ar.eps_sq ∧ 0 < ar.G then some true else none)
    ∧ (hi.checkParams = if 0 ≤ hi.eps_sq ∧ 0 < hi.G then some true else none)
    ∧ (self.checkParams = some true ↔ 0 < self.gravitational_constant)
    ∧ (ar.checkParams = some true ↔ 0 ≤ ar.eps_sq ∧ 0 < ar.G)
    ∧ (hi.checkParams = some true ↔ 0 ≤ hi.eps_sq ∧ 0 < hi.G)
    ∧ (Interaction.new : Interaction F).checkParams = none
    ∧ (ARInteraction.new : ARInteraction F).checkParams = none
    ∧ (HermiteInteraction.new : HermiteInteraction F).checkParams = none := by
  have h1 : self.checkParams = if 0 < self.gravitational_constant then some true else none := by
    simp only [Interaction.checkParams, ASSERT_bind, gt_iff_lt]
    rfl
  have h2 : ar.checkParams = if 0 ≤ ar.eps_sq ∧ 0 < ar.G then some true else none := by
    simp only [ARInteraction.checkParams, ASSERT_bind, gt_iff_lt, ge_iff_le]
    by_cases ha : 0 ≤ ar.eps_sq <;> by_cases hb : 0 < ar.G <;> simp [ha, hb]
  have h3 : hi.checkParams = if 0 ≤ hi.eps_sq ∧ 0 < hi.G then some true else none := by
    simp only [HermiteInteraction.checkParams, ASSERT_bind, gt_iff_lt, ge_iff_le]
    by_cases ha : 0 ≤ hi.eps_sq <;> by_cases hb : 0 < hi.G <;> simp [ha, hb]
  refine ⟨h1, h2, h3, ?_, ?_, ?_, ?_, ?_, ?_⟩
  · rw [h1]; split <;> simp [*]
  · rw [h2]; split <;> simp [*]
  · rw [h3]; split <;> simp [*]
  · simp [Interaction.checkParams, ASSERT_bind, Interaction.new]
  · simp [ARInteraction.checkParams, ASSERT_bind, ARInteraction.new]
  · simp [HermiteInteraction.checkParams, ASSERT_bind, HermiteInteraction.new]

/-- Counterexample to C10 as stated: `eps_sq = 0`, `G = 1` pass `checkParams`, and for two
particles at the same position the softened squared distance is `0`, not positive: the
`ASSERT(r2>0.0)` of the two-body routine fails. -/
theorem softened_r2_can_be_zero :
    (⟨0, 1⟩ : ARInteraction ℝ).checkParams = some true
    ∧ sepSq (Particle.atRest (1 : ℝ) 0 0 0).pos (Particle.atRest (1 : ℝ) 0 0 0).pos
        + (⟨0, 1⟩ : ARInteraction ℝ).eps_sq = 0
    ∧ (⟨0, 1⟩ : ARInteraction ℝ).calcAccPotAndGTKickTwo Config.ttl Real.sqrt
        [Force.filled 0, Force.filled 0] [Particle.atRest 1 0 0 0, Particle.atRest 1 0 0 0]
      = none := by
  refine ⟨?_, ?_, ?_⟩
  · simp [ARInteraction.checkParams, ASSERT_bind]
  · simp [sepSq, Particle.atRest]
  · simp [ARInteraction.calcAccPotAndGTKickTwo, ASSERT_bind, Particle.atRest]

/-- C10 (amended): for every `ARInteraction` whose parameters pass `checkParams` and every
two particles, the softened squared distance `r2 = |x2-x1|^2 + eps_sq` is non-negative,
and strictly positive whenever `eps_sq > 0` or the positions differ; it is zero exactly
when `eps_sq = 0` and the positions coincide.  The two-body routine returns if and only
if `r2 > 0` (otherwise its `ASSERT(r2>0.0)` fails), so it never divides by a zero
`sqrt(r2)`. -/
theorem softened_r2_guard (cfg : Config) (ar : ARInteraction ℝ) (force : List (Force ℝ))
    (p1 p2 : Particle ℝ) (hc : ar.checkParams = some true) :
    0 ≤ sepSq p1.pos p2.pos + ar.eps_sq
    ∧ (0 < ar.eps_sq ∨ p1.pos ≠ p2.pos → 0 < sepSq p1.pos p2.pos + ar.eps_sq)
    ∧ (sepSq p1.pos p2.pos + ar.eps_sq = 0 ↔ ar.eps_sq = 0 ∧ p1.pos = p2.pos)
    ∧ ((ar.calcAccPotAndGTKickTwo cfg Real.sqrt force [p1, p2]).isSome
        ↔ 0 < sepSq p1.pos p2.pos + ar.eps_sq)
    ∧ ((ar.calcAccPotAndGTKickTwo cfg Real.sqrt force [p1, p2]).isSome
        → 0 < Real.sqrt (sepSq p1.pos p2.pos + ar.eps_sq)) := by
  have he : 0 ≤ ar.eps_sq := by
    by_contra hn
    simp [ARInteraction.checkParams, ASSERT_bind, hn] at hc
  have hs := sepSq_nonneg p1.pos p2.pos
  have hpos : p1.pos ≠ p2.pos → 0 < sepSq p1.pos p2.pos := sepSq_pos p1.pos p2.pos
  have hsome : (ar.calcAccPotAndGTKickTwo cfg Real.sqrt force [p1, p2]).isSome
      ↔ 0 < sepSq p1.pos p2.pos + ar.eps_sq := by
    simp only [ARInteraction.calcAccPotAndGTKickTwo, ASSERT_bind, List.length_cons,
      List.length_nil, gt_iff_lt, ← sepSq_def, if_true]
    split
    · rename_i h
      simp only [h, iff_true]
      rfl
    · rename_i h
      simp only [h, iff_false]
      simp
  refine ⟨by linarith, ?_, ?_, hsome, ?_⟩
  · rintro (h | h)
    · linarith
    · have := hpos h
      linarith
  · constructor
    · intro h0
      have h1 : ar.eps_sq = 0 := by linarith
      refine ⟨h1, ?_⟩
      by_contra hne
      have := hpos hne
      linarith
    · rintro ⟨h1, h2⟩
      rw [h1, h2]
      simp [sepSq]
  · intro h
    exact Real.sqrt_pos.mpr (hsome.mp h)

/-- Witness of C10 (amended): `eps_sq = 0`, `G = 1` and particles at `(0,0,0)`, `(1,0,0)`. -/
theorem softened_r2_guard_witness :
    (⟨0, 1⟩ : ARInteraction ℝ).checkParams = some true
    ∧ 0 < sepSq (Particle.atRest (3 : ℝ) 0 0 0).pos (Particle.atRest (5 : ℝ) 1 0 0).pos
        + (⟨0, 1⟩ : ARInteraction ℝ).eps_sq := by
  have hc : (⟨0, 1⟩ : ARInteraction ℝ).checkParams = some true := by
    simp [ARInteraction.checkParams, ASSERT_bind]
  exact ⟨hc, (softened_r2_guard Config.ttl ⟨0, 1⟩ [] (Particle.atRest 3 0 0 0)
    (Particle.atRest 5 1 0 0) hc).2.1 (Or.inr (by simp [Particle.atRest]))⟩

/-- C11: the inner and the outer perturbation strength follow one convention.  For every
binary node, `calcPertFromBinary` is `m1*m2/(semi*(1+ecc))^p`, which is `calcPertFromMR`
at the apocentre distance with the two member masses; `calcPertFromMR r a b` is
`a*b/r^p`; `p` is 3 by default and 4 under `AR_SLOWDOWN_PERT_R4` in `Interaction`, and 4
in `ARInteraction`; `calcPertFromMR` is symmetric in the two masses. -/
theorem pert_strength_same_convention (cfg : Config) (self : Interaction ℝ)
    (ar : ARInteraction ℝ) (bin : BinaryTree ℝ) (r a b : ℝ) :
    self.calcPertFromBinary cfg bin
        = bin.m1 * bin.m2
          / (bin.semi * (1 + bin.ecc)) ^ (if cfg.AR_SLOWDOWN_PERT_R4 then 4 else 3)
    ∧ self.calcPertFromMR cfg r a b
        = a * b / r ^ (if cfg.AR_SLOWDOWN_PERT_R4 then 4 else 3)
    ∧ self.calcPertFromBinary cfg bin
        = self.calcPertFromMR cfg (bin.semi * (1 + bin.ecc)) bin.m1 bin.m2
    ∧ ar.calcPertFromBinary bin = bin.m1 * bin.m2 / (bin.semi * (1 + bin.ecc)) ^ 4
    ∧ ar.calcPertFromMR r a b = a * b / r ^ 4
    ∧ ar.calcPertFromBinary bin = ar.calcPertFromMR (bin.semi * (1 + bin.ecc)) bin.m1 bin.m2
    ∧ self.calcPertFromMR cfg r a b = self.calcPertFromMR cfg r b a
    ∧ ar.calcPertFromMR r a b = ar.calcPertFromMR r b a := by
  have h1 : (1.0 : ℝ) = 1 := by norm_num
  cases hR : cfg.AR_SLOWDOWN_PERT_R4 <;>
    simp only [Interaction.calcPertFromBinary, Interaction.calcPertFromMR,
      ARInteraction.calcPertFromBinary, ARInteraction.calcPertFromMR, hR, h1,
      Bool.false_eq_true, if_false, if_true, true_and] <;>
    refine ⟨?_, ?_, ?_, ?_, ?_, ?_⟩ <;> ring

/-- C12: `Interaction::calcSlowDownPert` is the pure-perturbation policy.  Whatever the
tree root, the centre-of-mass particle and the perturber, it hands to
`calcSlowDownFactor` the record with `pert_in = 0`, `pert_out = 0` and `timescale` equal
to the timescale maximum of the record, so two calls on the same record with different
trees, centre-of-mass particles and perturbers (of any type) give the same record. -/
theorem calcSlowDownPert_pure_perturbation {P1 P2 : Type}
    (calcSlowDownFactor : SlowDown ℝ → SlowDown ℝ) (self : Interaction ℝ)
    (sd : SlowDown ℝ) (cm1 cm2 : Particle ℝ) (b1 b2 : BinaryTree ℝ)
    (pert1 : P1) (pert2 : P2) :
    self.calcSlowDownPert calcSlowDownFactor sd cm1 b1 pert1
        = calcSlowDownFactor
            { sd with pert_in := 0, pert_out := 0, timescale := sd.timescale_max }
    ∧ self.calcSlowDownPert calcSlowDownFactor sd cm1 b1 pert1
        = self.calcSlowDownPert calcSlowDownFactor sd cm2 b2 pert2 := by
  have h0 : (0.0 : ℝ) = 0 := by norm_num
  simp only [Interaction.calcSlowDownPert, SlowDown.getTimescaleMax, h0, and_self]

/-- C16: the kinematics of the perturbers and of the centre of mass are predicted by the
third-order Taylor polynomial.  Over the reals the predicted position is
`pos + vel*dt + acc0*dt^2/2 + acc1*dt^3/6` and the predicted velocity
`vel + acc0*dt + acc1*dt^2/2`; with `dt = 0` they are the stored `pos` and `vel`; the
loops over the perturbers of `ARInteraction` store exactly these predictions at
`dt = t - pertj.time` (when `dt >= 0`, the condition of their `ASSERT`).  With at least one
perturber (and the divisors `r_j^2` and `(dr_j.dv_j)^2 + 1e-4*v_j^2*r_j^2` positive; a
`Float` division by zero is outside the model) `calcSlowDownPert` computes `pert_out` from
the distances between the Taylor polynomials of the positions of perturber and centre of
mass, and the timescale from the differences of the Taylor polynomials of their positions
and velocities; and `calcAccEnergy`, when no assertion fails, computes the perturbation
from the Taylor polynomials of the positions of the centre of mass and of the
perturbers. -/
theorem taylor_prediction (p : ParticleH4 ℝ) (t dt : ℝ) (adr : NBAdr ℝ) (cfg : Config)
    (fmax : ℝ) (ar : ARInteraction ℝ) (sd : SlowDown ℝ) (cm : ParticleH4 ℝ)
    (bin : BinaryTree ℝ) (pert : Neighbor ℝ) (force : List (Force ℝ))
    (ps : List (Particle ℝ)) (hne : pert.neighbor_address ≠ [])
    (hr2 : ∀ a ∈ pert.neighbor_address, 0 < specPertR2 ar sd.time_real cm a)
    (hden : ∀ a ∈ pert.neighbor_address, 0 < specPertDen ar sd.time_real cm a) :
    predictPos p dt
        = ⟨p.pos.c0 + p.vel.c0 * dt + p.acc0.c0 * dt ^ 2 / 2 + p.acc1.c0 * dt ^ 3 / 6,
           p.pos.c1 + p.vel.c1 * dt + p.acc0.c1 * dt ^ 2 / 2 + p.acc1.c1 * dt ^ 3 / 6,
           p.pos.c2 + p.vel.c2 * dt + p.acc0.c2 * dt ^ 2 / 2 + p.acc1.c2 * dt ^ 3 / 6⟩
    ∧ predictVel p dt
        = ⟨p.vel.c0 + p.acc0.c0 * dt + p.acc1.c0 * dt ^ 2 / 2,
           p.vel.c1 + p.acc0.c1 * dt + p.acc1.c1 * dt ^ 2 / 2,
           p.vel.c2 + p.acc0.c2 * dt + p.acc1.c2 * dt ^ 2 / 2⟩
    ∧ predictPos p 0 = p.pos
    ∧ predictVel p 0 = p.vel
    ∧ ARInteraction.predictPert t adr
        = (if 0 ≤ t - adr.pertj.time then
            some (predictPos adr.pertj (t - adr.pertj.time), adr.pertj.mass)
          else none)
    ∧ ARInteraction.predictPertVel t adr
        = (if 0 ≤ t - adr.pertj.time then
            some (predictPos adr.pertj (t - adr.pertj.time),
              predictVel adr.pertj (t - adr.pertj.time), adr.pertj.mass)
          else none)
    ∧ (ar.calcSlowDownPert fmax Real.sqrt sd cm bin pert).pert_out
        = cm.mass * (pert.neighbor_address.map (fun a =>
            a.pertj.mass / specTaylorR2 ar sd.time_real cm a ^ 2)).sum
    ∧ (ar.calcSlowDownPert fmax Real.sqrt sd cm bin pert).timescale
        = 0.1 * min sd.timescale_max (Real.sqrt (pert.neighbor_address.foldl
            (fun t2 a => min (specTaylorTi2 ar sd.time_real cm a) t2) fmax))
    ∧ (∀ a ∈ pert.neighbor_address, 0 < specTaylorR2 ar sd.time_real cm a
        ∧ 0 ≤ specTaylorTi2 ar sd.time_real cm a)
    ∧ (cm.time ≤ t → (∀ a ∈ pert.neighbor_address, a.pertj.time ≤ t) →
        ∀ inner,
          (if ps.length = 2 then ar.calcAccPotAndGTKickTwo cfg Real.sqrt force ps
            else some (ar.calcAccPotAndGTKick cfg Real.sqrt force ps)) = some inner →
          ar.calcAccEnergy cfg Real.sqrt force ps cm pert t
            = some { inner with
                force :=
                  if pert.need_resolve_flag = true then
                    ar.pertResolved Real.sqrt inner.force ps
                      (specTaylorPos cm (t - cm.time)) cm.mass
                      (pert.neighbor_address.map (fun a =>
                        (specTaylorPos a.pertj (t - a.pertj.time), a.pertj.mass)))
                  else
                    ar.pertUnresolved Real.sqrt inner.force ps
                      (specTaylorPos cm (t - cm.time))
                      (pert.neighbor_address.map (fun a =>
                        (specTaylorPos a.pertj (t - a.pertj.time), a.pertj.mass))) }) := by
  have h5 : (0.5 : ℝ) = 1 / 2 := by norm_num
  have h1 : (1.0 : ℝ) = 1 := by norm_num
  have h3 : (3.0 : ℝ) = 3 := by norm_num
  have h0 : (0.0 : ℝ) = 0 := by norm_num
  have hpos : 0 < pert.neighbor_address.length := List.length_pos.mpr hne
  refine ⟨?_, ?_, ?_, ?_, ?_, ?_, ?_, ?_, ?_, ?_⟩
  · simp only [predictPos, Vec3.eq_iff, h5, h1, h3]
    refine ⟨?_, ?_, ?_⟩ <;> ring
  · simp only [predictVel, Vec3.eq_iff, h5]
    refine ⟨?_, ?_, ?_⟩ <;> ring
  · simp only [predictPos, Vec3.eq_iff]
    refine ⟨?_, ?_, ?_⟩ <;> ring
  · simp only [predictVel, Vec3.eq_iff]
    refine ⟨?_, ?_, ?_⟩ <;> ring
  · simp only [ARInteraction.predictPert, ASSERT_bind, ge_iff_le]
    rfl
  · simp only [ARInteraction.predictPertVel, ASSERT_bind, ge_iff_le]
    rfl
  · simp only [ARInteraction.calcSlowDownPert, SlowDown.getRealTime, gt_iff_lt, hpos, if_true,
      ARInteraction_fold_pert_pot, specPertR2_eq_taylor, h0, zero_add]
  · simp only [ARInteraction.calcSlowDownPert, SlowDown.getRealTime, SlowDown.getTimescaleMax,
      gt_iff_lt, hpos, if_true, ARInteraction_fold_t2_min, specPertTi2_eq_taylor]
  · intro a ha
    have hr := hr2 a ha
    have hd := hden a ha
    rw [specPertR2_eq_taylor] at hr
    refine ⟨hr, ?_⟩
    rw [← specPertTi2_eq_taylor]
    exact div_nonneg (sq_nonneg _) (le_of_lt hd)
  · intro hcm hp inner hin
    have hc : 0 ≤ t - cm.time := sub_nonneg.mpr hcm
    by_cases h2 : ps.length = 2
    · rw [if_pos h2] at hin
      simp only [ARInteraction.calcAccEnergy, gt_iff_lt, hpos, if_true, ASSERT_bind,
        ge_iff_le, hc, ARInteraction_mapM_predictPert t _ hp, hin, h2,
        predictPos_eq_taylor]
      cases hf : pert.need_resolve_flag <;> simp
    · rw [if_neg h2] at hin
      have hin' := Option.some.inj hin
      subst hin'
      simp only [ARInteraction.calcAccEnergy, gt_iff_lt, hpos, if_true, ASSERT_bind,
        ge_iff_le, hc, ARInteraction_mapM_predictPert t _ hp, h2, if_false,
        predictPos_eq_taylor]
      cases hf : pert.need_resolve_flag <;> simp

/-- Witness of C16: softening 0, real time 1; the centre of mass of mass 1 rests at the
origin and one perturber of mass 1 was at `x = 2` with velocity 1 at the time 0, so its
Taylor polynomial gives `x = 3` at the time 1, `r^2 = 9` and `pert_out = 1/81`. -/
theorem taylor_prediction_witness :
    ((⟨0, 1⟩ : ARInteraction ℝ).calcSlowDownPert 100 Real.sqrt (SlowDown.atTime 1 1)
        (ParticleH4.coasting 1 0 0 0) (BinaryTree.circular 1 1 1 1)
        ⟨[NBAdr.single (ParticleH4.coasting 1 2 1 0)], false⟩).pert_out = 1 / 81 := by
  have h := (taylor_prediction (ParticleH4.coasting 1 2 1 0) 1 1
    (NBAdr.single (ParticleH4.coasting 1 2 1 0)) Config.ttl 100 ⟨0, 1⟩ (SlowDown.atTime 1 1)
    (ParticleH4.coasting 1 0 0 0) (BinaryTree.circular 1 1 1 1)
    ⟨[NBAdr.single (ParticleH4.coasting 1 2 1 0)], false⟩ [] [] (by simp)
    (by
      intro a ha
      rw [List.mem_singleton] at ha
      subst ha
      norm_num [specPertR2, sepSq, predictPos, ParticleH4.coasting, NBAdr.pertj,
        SlowDown.atTime])
    (by
      intro a ha
      rw [List.mem_singleton] at ha
      subst ha
      norm_num [specPertDen, specPertR2, sepSq, predictPos, predictVel, ParticleH4.coasting,
        NBAdr.pertj, SlowDown.atTime])).2.2.2.2.2.2.1
  rw [h]
  norm_num [specTaylorR2, specTaylorPos, sepSq, ParticleH4.coasting, NBAdr.pertj,
    SlowDown.atTime]

/-- C17 (amended): in `calcAccEnergy` and `calcAccEnergyAndSlowDownPert`, called with a
non-empty perturber list, the call aborts exactly when the inner two-body kernel aborts
or the evaluation time is earlier than the last update of the centre of mass or of some
listed perturber; so backward extrapolation (`dt < 0`) always fails the assertion and
yields neither forces nor a slowdown record, and forward extrapolation returns. -/
theorem backward_extrapolation_aborts (cfg : Config) (fmax : ℝ) (ar : ARInteraction ℝ)
    (sd : SlowDown ℝ) (force : List (Force ℝ)) (ps : List (Particle ℝ)) (cm : ParticleH4 ℝ)
    (bin : BinaryTree ℝ) (pert : Neighbor ℝ) (hne : pert.neighbor_address ≠ []) :
    (ar.calcAccEnergy cfg Real.sqrt force ps cm pert sd.time_real = none
      ↔ (ps.length = 2 ∧ ar.calcAccPotAndGTKickTwo cfg Real.sqrt force ps = none)
        ∨ sd.time_real < cm.time
        ∨ ∃ adr ∈ pert.neighbor_address, sd.time_real < adr.pertj.time)
    ∧ (ar.calcAccEnergyAndSlowDownPert cfg fmax Real.sqrt sd force ps cm bin pert = none
      ↔ (ps.length = 2 ∧ ar.calcAccPotAndGTKickTwo cfg Real.sqrt force ps = none)
        ∨ sd.time_real < cm.time
        ∨ ∃ adr ∈ pert.neighbor_address, sd.time_real < adr.pertj.time) := by
  have hpos : 0 < pert.neighbor_address.length := List.length_pos.mpr hne
  have hP : (pert.neighbor_address.mapM (ARInteraction.predictPert sd.time_real) = none)
      ↔ ∃ adr ∈ pert.neighbor_address, sd.time_real < adr.pertj.time := by
    rw [mapM_option_eq_none_iff]
    simp only [ARInteraction_predictPert_eq_none_iff]
  have hV : (pert.neighbor_address.mapM (ARInteraction.predictPertVel sd.time_real) = none)
      ↔ ∃ adr ∈ pert.neighbor_address, sd.time_real < adr.pertj.time := by
    rw [mapM_option_eq_none_iff]
    simp only [ARInteraction_predictPertVel_eq_none_iff]
  constructor
  · simp only [ARInteraction.calcAccEnergy, gt_iff_lt, hpos, if_true, ASSERT_bind, ge_iff_le,
      sub_nonneg]
    rw [← hP]
    by_cases h2 : ps.length = 2
    · simp only [h2, if_true, true_and]
      cases hin : ar.calcAccPotAndGTKickTwo cfg Real.sqrt force ps with
      | none => simp
      | some inner =>
        cases hm : pert.neighbor_address.mapM (ARInteraction.predictPert sd.time_real) with
        | none => simp
        | some xs =>
          by_cases hc : cm.time ≤ sd.time_real
          · cases hf : pert.need_resolve_flag <;> simp [hc, hf, not_lt.mpr hc]
          · simp [hc, not_le.mp hc]
    · simp only [h2, if_false, false_and, false_or]
      cases hm : pert.neighbor_address.mapM (ARInteraction.predictPert sd.time_real) with
      | none => simp
      | some xs =>
        by_cases hc : cm.time ≤ sd.time_real
        · cases hf : pert.need_resolve_flag <;> simp [hc, hf, not_lt.mpr hc]
        · simp [hc, not_le.mp hc]
  · simp only [ARInteraction.calcAccEnergyAndSlowDownPert, SlowDown.getRealTime, gt_iff_lt,
      hpos, if_true, ASSERT_bind, ge_iff_le, sub_nonneg]
    rw [← hV]
    by_cases h2 : ps.length = 2
    · simp only [h2, if_true, true_and]
      cases hin : ar.calcAccPotAndGTKickTwo cfg Real.sqrt force ps with
      | none => simp
      | some inner =>
        cases hm : pert.neighbor_address.mapM (ARInteraction.predictPertVel sd.time_real) with
        | none => simp
        | some xs =>
          by_cases hc : cm.time ≤ sd.time_real
          · cases hf : pert.need_resolve_flag <;> simp [hc, hf, not_lt.mpr hc]
          · simp [hc, not_le.mp hc]
    · simp only [h2, if_false, false_and, false_or]
      cases hm : pert.neighbor_address.mapM (ARInteraction.predictPertVel sd.time_real) with
      | none => simp
      | some xs =>
        by_cases hc : cm.time ≤ sd.time_real
        · cases hf : pert.need_resolve_flag <;> simp [hc, hf, not_lt.mpr hc]
        · simp [hc, not_le.mp hc]

/-- Counterexample to C17 as stated: `calcSlowDownPert` at real time 0 with one perturber
of mass 1 last updated at time 5 (`dt = -5 < 0`), stored at `x = 7` with velocity 1.  No
assertion fails: the routine extrapolates the perturber backwards to `x = 2` and returns a
record with `pert_out = 1/(2^2)^2`; from the stored position it would be `1/(7^2)^2`. -/
theorem calcSlowDownPert_extrapolates_backwards :
    (SlowDown.atTime (1 : ℝ) 0).time_real - (ParticleH4.coasting (1 : ℝ) 7 1 5).time < 0
    ∧ ((⟨0, 1⟩ : ARInteraction ℝ).calcSlowDownPert 100 Real.sqrt (SlowDown.atTime 1 0)
        (ParticleH4.coasting 1 0 0 0) (BinaryTree.circular 1 1 1 1)
        ⟨[NBAdr.single (ParticleH4.coasting 1 7 1 5)], false⟩).pert_out = 1 / 16 := by
  constructor
  · norm_num [SlowDown.atTime, ParticleH4.coasting]
  · norm_num [ARInteraction.calcSlowDownPert, ARInteraction.slowDownPertBody,
      SlowDown.getRealTime, SlowDown.getTimescaleMax, SlowDown.atTime, ParticleH4.coasting,
      BinaryTree.circular, NBAdr.pertj, predictPos, predictVel]

/-- Witness of C17: the same perturber (last updated at time 5) with real time 0, and two
members of mass 1 at `x = -1` and `x = 1`: both routines abort. -/
theorem backward_extrapolation_aborts_witness :
    (⟨0, 1⟩ : ARInteraction ℝ).calcAccEnergy Config.ttl Real.sqrt
        [Force.filled 7, Force.filled 7] [Particle.atRest 1 (-1) 0 0, Particle.atRest 1 1 0 0]
        (ParticleH4.coasting 2 0 0 0) ⟨[NBAdr.single (ParticleH4.coasting 1 7 1 5)], false⟩
        (SlowDown.atTime (1 : ℝ) 0).time_real = none
    ∧ (⟨0, 1⟩ : ARInteraction ℝ).calcAccEnergyAndSlowDownPert Config.ttl 100 Real.sqrt
        (SlowDown.atTime 1 0) [Force.filled 7, Force.filled 7]
        [Particle.atRest 1 (-1) 0 0, Particle.atRest 1 1 0 0]
        (ParticleH4.coasting 2 0 0 0) (BinaryTree.circular 1 1 1 1)
        ⟨[NBAdr.single (ParticleH4.coasting 1 7 1 5)], false⟩ = none := by
  have h := backward_extrapolation_aborts Config.ttl 100 ⟨0, 1⟩ (SlowDown.atTime 1 0)
    [Force.filled 7, Force.filled 7] [Particle.atRest 1 (-1) 0 0, Particle.atRest 1 1 0 0]
    (ParticleH4.coasting 2 0 0 0) (BinaryTree.circular 1 1 1 1)
    ⟨[NBAdr.single (ParticleH4.coasting 1 7 1 5)], false⟩ (by simp)
  have hb : ∃ adr ∈ [NBAdr.single (ParticleH4.coasting (1 : ℝ) 7 1 5)],
      (SlowDown.atTime (1 : ℝ) 0).time_real < adr.pertj.time :=
    ⟨_, List.mem_singleton_self _, by
      norm_num [SlowDown.atTime, ParticleH4.coasting, NBAdr.pertj]⟩
  exact ⟨h.1.mpr (Or.inr (Or.inr hb)), h.2.mpr (Or.inr (Or.inr hb))⟩

/-- C18: the perturbation is measured relative to the free fall of the whole subsystem.
In the member-resolved branch of `ARInteraction::calcAccEnergy` (flag set, at least one
perturber), with a force entry for every member, forward extrapolation and a returning
inner kernel, if the mass of the centre-of-mass particle is the non-zero sum of the member
masses, then the call returns and the mass-weighted sum of the members' perturber
accelerations is zero in each of the three components. -/
theorem perturbation_relative_to_free_fall (cfg : Config) (ar : ARInteraction ℝ)
    (force : List (Force ℝ)) (ps : List (Particle ℝ)) (cm : ParticleH4 ℝ)
    (pert : Neighbor ℝ) (t : ℝ)
    (hflag : pert.need_resolve_flag = true) (hne : pert.neighbor_address ≠ [])
    (hlen : ps.length ≤ force.length)
    (hm : cm.mass = (ps.map (fun p => p.mass)).sum) (hm0 : cm.mass ≠ 0)
    (hcm : cm.time ≤ t) (hpert : ∀ adr ∈ pert.neighbor_address, adr.pertj.time ≤ t)
    (hinner : ps.length = 2 → ar.calcAccPotAndGTKickTwo cfg Real.sqrt force ps ≠ none) :
    ∃ out, ar.calcAccEnergy cfg Real.sqrt force ps cm pert t = some out
      ∧ out.force.length = force.length
      ∧ (List.zipWith (fun (p : Particle ℝ) (f : Force ℝ) => p.mass * f.acc_pert.c0)
          ps out.force).sum = 0
      ∧ (List.zipWith (fun (p : Particle ℝ) (f : Force ℝ) => p.mass * f.acc_pert.c1)
          ps out.force).sum = 0
      ∧ (List.zipWith (fun (p : Particle ℝ) (f : Force ℝ) => p.mass * f.acc_pert.c2)
          ps out.force).sum = 0 := by
  have hpos : 0 < pert.neighbor_address.length := List.length_pos.mpr hne
  have hmap : pert.neighbor_address.mapM (ARInteraction.predictPert t)
      = some (pert.neighbor_address.map
          (fun adr => (predictPos adr.pertj (t - adr.pertj.time), adr.pertj.mass))) := by
    apply mapM_option_eq_some_map
    intro adr hadr
    simp only [ARInteraction.predictPert, ASSERT_bind, ge_iff_le, sub_nonneg, hpert adr hadr,
      if_true]
    rfl
  have hin : ∃ inner, (if ps.length = 2 then ar.calcAccPotAndGTKickTwo cfg Real.sqrt force ps
      else some (ar.calcAccPotAndGTKick cfg Real.sqrt force ps)) = some inner
      ∧ inner.force.length = force.length := by
    by_cases h2 : ps.length = 2
    · obtain ⟨inner, hi⟩ := Option.ne_none_iff_exists'.mp (hinner h2)
      exact ⟨inner, by rw [if_pos h2, hi],
        ARInteraction_calcAccPotAndGTKickTwo_length cfg Real.sqrt ar force ps inner hi⟩
    · exact ⟨_, by rw [if_neg h2], ARInteraction_calcAccPotAndGTKick_length _ _ _ _ _⟩
  obtain ⟨inner, hi, hil⟩ := hin
  refine ⟨{ inner with force := (ar.pertResolved Real.sqrt inner.force ps
      (predictPos cm (t - cm.time)) cm.mass (pert.neighbor_address.map
          (fun adr => (predictPos adr.pertj (t - adr.pertj.time), adr.pertj.mass)))) },
    ?_, ?_, ?_⟩
  · by_cases h2 : ps.length = 2
    · rw [if_pos h2] at hi
      simp only [ARInteraction.calcAccEnergy, h2, hi, gt_iff_lt, hpos, if_true, hmap,
        ASSERT_bind, ge_iff_le, sub_nonneg, hcm, hflag]
      rfl
    · rw [if_neg h2, Option.some.injEq] at hi
      subst hi
      simp only [ARInteraction.calcAccEnergy, h2, gt_iff_lt, hpos, if_true, if_false, hmap,
        ASSERT_bind, ge_iff_le, sub_nonneg, hcm, hflag]
      rfl
  · simp only [ARInteraction_pertResolved_length, hil]
  · exact ARInteraction_pertResolved_weighted_sum Real.sqrt ar inner.force ps _ cm.mass _
      (by rw [hil]; exact hlen) hm hm0

/-- Witness of C18: softening 0, `G = 1`; two members of mass 1 at `x = -1` and `x = 1`
relative to a centre of mass of mass 2 at rest at the origin, and one perturber of mass 1
at rest at `x = 5`; everything was last updated at time 0 and the call is at time 1. -/
theorem perturbation_relative_to_free_fall_witness :
    ∃ out, (⟨0, 1⟩ : ARInteraction ℝ).calcAccEnergy Config.ttl Real.sqrt
        [Force.filled 7, Force.filled 7] [Particle.atRest 1 (-1) 0 0, Particle.atRest 1 1 0 0]
        (ParticleH4.coasting 2 0 0 0) ⟨[NBAdr.single (ParticleH4.coasting 1 5 0 0)], true⟩ 1
        = some out
      ∧ (List.zipWith (fun (p : Particle ℝ) (f : Force ℝ) => p.mass * f.acc_pert.c0)
          [Particle.atRest 1 (-1) 0 0, Particle.atRest 1 1 0 0] out.force).sum = 0 := by
  obtain ⟨out, h1, _, h2, _, _⟩ := perturbation_relative_to_free_fall Config.ttl ⟨0, 1⟩
    [Force.filled 7, Force.filled 7] [Particle.atRest 1 (-1) 0 0, Particle.atRest 1 1 0 0]
    (ParticleH4.coasting 2 0 0 0) ⟨[NBAdr.single (ParticleH4.coasting 1 5 0 0)], true⟩ 1
    rfl (by simp) (by simp)
    (by norm_num [ParticleH4.coasting, Particle.atRest])
    (by norm_num [ParticleH4.coasting])
    (by norm_num [ParticleH4.coasting])
    (by
      intro adr hadr
      rw [List.mem_singleton] at hadr
      subst hadr
      norm_num [ParticleH4.coasting, NBAdr.pertj])
    (by
      intro _
      simp only [ARInteraction.calcAccPotAndGTKickTwo, ASSERT_bind, Particle.atRest,
        List.length_cons, List.length_nil]
      norm_num
      exact Option.some_ne_none _)
  exact ⟨out, h1, h2⟩

/-- C20: the slowdown estimation of `ARInteraction::calcSlowDownPert` is idempotent on
the record.  Applying it twice with the same centre-of-mass particle, tree root and
perturber list gives the record of one application, and the result does not depend on the
members `pert_in`, `pert_out`, `period`, `timescale` that it overwrites; likewise the
record that `Interaction::calcSlowDownPert` hands to `calcSlowDownFactor` does not depend
on the members it overwrites. -/
theorem calcSlowDownPert_idempotent {P : Type} (fmax : ℝ) (ar : ARInteraction ℝ)
    (sd : SlowDown ℝ) (cm : ParticleH4 ℝ) (bin : BinaryTree ℝ) (pert : Neighbor ℝ)
    (a b c d : ℝ) (calcSlowDownFactor : SlowDown ℝ → SlowDown ℝ) (self : Interaction ℝ)
    (cmp : Particle ℝ) (pb : P) :
    ar.calcSlowDownPert fmax Real.sqrt (ar.calcSlowDownPert fmax Real.sqrt sd cm bin pert)
        cm bin pert
      = ar.calcSlowDownPert fmax Real.sqrt sd cm bin pert
    ∧ ar.calcSlowDownPert fmax Real.sqrt
        { sd with pert_in := a, pert_out := b, period := c, timescale := d } cm bin pert
      = ar.calcSlowDownPert fmax Real.sqrt sd cm bin pert
    ∧ self.calcSlowDownPert calcSlowDownFactor
        { sd with pert_in := a, pert_out := b, timescale := d } cmp bin pb
      = self.calcSlowDownPert calcSlowDownFactor sd cmp bin pb := by
  refine ⟨?_, ?_, ?_⟩
  · simp only [ARInteraction.calcSlowDownPert, SlowDown.getRealTime, SlowDown.getTimescaleMax]
    split <;> rfl
  · simp only [ARInteraction.calcSlowDownPert, SlowDown.getRealTime, SlowDown.getTimescaleMax]
  · simp only [Interaction.calcSlowDownPert, SlowDown.getTimescaleMax]

/-- C21: for every group of `n >= 2` particles `generateBinaryTree` returns and leaves the
node list with exactly `n - 1` nodes, and `getBinaryTreeRoot` then returns the node of the
last slot, index `n - 2`.  Each of the `n - 1` slots holds a node that the call built: a
slot below `n_real - 1` is what the core pairing of the real particles returned for it, and
every later slot `j` has had its members set by the call, to the node `j - 1` (in slot 0 to
the lone real particle, particle 0 without one) and to a particle without positive mass.
So the root is the last node built: with no particle without positive mass it is the last
node of the core pairing, otherwise its second member is the last such particle and its
first member the node `n - 3` (with `n = 2` the lone real particle, particle 0 without
one).  For every group of fewer than two particles `generateBinaryTree` fails its
assertion, and `getBinaryTreeRoot` on an empty list fails its assertion. -/
theorem tree_has_n_minus_one_nodes
    (generateCore : (Nat → BinaryTree ℝ) → List Nat → List (Particle ℝ) → ℝ
      → (Nat → BinaryTree ℝ))
    (self : Information ℝ) (ps : List (Particle ℝ)) (G : ℝ) (hn : 2 ≤ ps.length) :
    (∃ out, self.generateBinaryTree generateCore ps G = some out
      ∧ out.binarytree.size = ps.length - 1
      ∧ out.getBinaryTreeRoot = some (out.binarytree.data (ps.length - 2))
      ∧ (∀ j, j < (realIndices ps).length - 1 →
          out.binarytree.data j
            = generateCore self.binarytree.data (realIndices ps) ps G j)
      ∧ (∀ j, (realIndices ps).length - 1 ≤ j → j < ps.length - 1 →
          ∃ u ∈ unusedIndices ps,
            (out.binarytree.data j).member_left
                = (if j = 0 then Member.particle ((realIndices ps).headD 0)
                    else Member.node (j - 1))
              ∧ (out.binarytree.data j).member_right = Member.particle u
              ∧ (out.binarytree.data j).member_index
                = ((if j = 0 then (((realIndices ps).headD 0 : Nat) : Int) else -1),
                    (u : Int)))
      ∧ (unusedIndices ps = [] →
          out.getBinaryTreeRoot
            = some (generateCore self.binarytree.data (realIndices ps) ps G (ps.length - 2)))
      ∧ (∀ u, (unusedIndices ps).getLast? = some u →
          ∃ root, out.getBinaryTreeRoot = some root
            ∧ root.member_right = Member.particle u
            ∧ root.member_left
              = (if ps.length = 2 then Member.particle ((realIndices ps).headD 0)
                  else Member.node (ps.length - 3))))
    ∧ (∀ few : List (Particle ℝ), few.length < 2 →
        self.generateBinaryTree generateCore few G = none)
    ∧ (∀ empty : Information ℝ, empty.binarytree.size = 0 → empty.getBinaryTreeRoot = none)
    := by
  have hsum := realIndices_length_add ps
  refine ⟨?_, ?_, ?_⟩
  · obtain ⟨out, h1, h2, hkeep, hset⟩ :=
      Information_generateBinaryTree_slots generateCore self ps G hn
    have hroot : out.getBinaryTreeRoot = some (out.binarytree.data (ps.length - 2)) := by
      rw [Information_getBinaryTreeRoot_eq, h2, if_pos (by omega)]
      have h3 : ps.length - 1 - 1 = ps.length - 2 := by omega
      rw [h3]
    refine ⟨out, h1, h2, hroot, ?_, ?_, ?_, ?_⟩
    · intro j hj
      rw [hkeep j (Or.inl hj), if_pos (by omega)]
    · intro j hj1 hj2
      obtain ⟨u, hu, hd⟩ := hset j hj1 hj2
      refine ⟨u, List.mem_iff_getElem?.mpr ⟨_, hu⟩, ?_, ?_, ?_⟩ <;> rw [hd] <;> rfl
    · intro hnil
      have hlen : (unusedIndices ps).length = 0 := by rw [hnil]; rfl
      rw [hroot, hkeep (ps.length - 2) (Or.inl (by omega)), if_pos (by omega)]
    · intro u hu
      have hne : unusedIndices ps ≠ [] := by
        intro hnil
        rw [hnil] at hu
        cases hu
      have hpos : 0 < (unusedIndices ps).length := List.length_pos.mpr hne
      obtain ⟨v, hv, hd⟩ := hset (ps.length - 2) (by omega) (by omega)
      have hidx : ps.length - 2 + 1 - (realIndices ps).length
          = (unusedIndices ps).length - 1 := by omega
      rw [hidx, ← List.getLast?_eq_getElem?, hu] at hv
      have hvu : u = v := Option.some.inj hv
      subst hvu
      refine ⟨_, hroot, ?_, ?_⟩
      · rw [hd]
        rfl
      · rw [hd]
        simp only [BinaryTree.setMembers]
        by_cases h2' : ps.length = 2
        · rw [if_pos h2', if_pos (by omega)]
        · rw [if_neg h2', if_neg (by omega)]
          congr 1
  · intro few hfew
    exact Information_generateBinaryTree_abort generateCore self few G hfew
  · intro empty hempty
    rw [Information_getBinaryTreeRoot_eq, hempty]
    rfl

/-- Witness of C21: a group of three particles, the first two of mass 0 and the third of
mass 1; the list has two nodes afterwards, and the root is the node of slot 1, whose
members are the node 0 and the particle 1, the last one without positive mass. -/
theorem tree_has_n_minus_one_nodes_witness :
    ∃ out, (Information.new (BinaryTree.circular (1 : ℝ) 1 1 1)).generateBinaryTree
          (fun d _ _ _ => d)
          [Particle.atRest 0 0 0 0, Particle.atRest 0 1 0 0, Particle.atRest 1 2 0 0] 1
        = some out
      ∧ out.binarytree.size = 2
      ∧ ∃ root, out.getBinaryTreeRoot = some root
        ∧ root.member_right = Member.particle 1
        ∧ root.member_left = Member.node 0 := by
  have hu : unusedIndices [Particle.atRest (0 : ℝ) 0 0 0, Particle.atRest 0 1 0 0,
      Particle.atRest 1 2 0 0] = [0, 1] := by
    simp [unusedIndices, List.enum, List.enumFrom, List.filter, Particle.atRest]
  obtain ⟨⟨out, h1, h2, _, _, _, _, hroot⟩, _, _⟩ :=
    tree_has_n_minus_one_nodes (fun d _ _ _ => d)
    (Information.new (BinaryTree.circular (1 : ℝ) 1 1 1))
    [Particle.atRest 0 0 0 0, Particle.atRest 0 1 0 0, Particle.atRest 1 2 0 0] 1
    (by simp)
  obtain ⟨root, hr1, hr2, hr3⟩ := hroot 1 (by rw [hu]; rfl)
  exact ⟨out, h1, h2, root, hr1, hr2, hr3⟩

/-- C22: the chaining fallback.  When the group (of two or more particles) has no or one
particle of positive mass, `generateBinaryTree` builds a pure chain: node 0 has as first
child the lone real particle (particle 0 when there is none) and as second child the first
of the remaining particles without positive mass, with these two indices as member
indices; every later node `k` has node `k - 1` as first child, member index -1, and the
next remaining particle, in input order, as second child, with the index of that particle
as member index.  The remaining particles are `n - 1`, in increasing order, none of
positive mass. -/
theorem chaining_fallback
    (generateCore : (Nat → BinaryTree ℝ) → List Nat → List (Particle ℝ) → ℝ
      → (Nat → BinaryTree ℝ))
    (self : Information ℝ) (ps : List (Particle ℝ)) (G : ℝ) (hn : 2 ≤ ps.length)
    (hreal : (realIndices ps).length ≤ 1) :
    ∃ out, self.generateBinaryTree generateCore ps G = some out
      ∧ (specChainRest ps).length = ps.length - 1
      ∧ (specChainRest ps).Pairwise (fun a b => a < b)
      ∧ (∀ u ∈ specChainRest ps, ∃ p, ps[u]? = some p ∧ ¬ p.mass > 0)
      ∧ ((realIndices ps).length = 1 → realIndices ps = [specChainFirst ps])
      ∧ ((realIndices ps).length = 0 → specChainFirst ps = 0)
      ∧ (∀ u, (specChainRest ps)[0]? = some u →
          (out.binarytree.data 0).member_left = Member.particle (specChainFirst ps)
          ∧ (out.binarytree.data 0).member_right = Member.particle u
          ∧ (out.binarytree.data 0).member_index = ((specChainFirst ps : Int), (u : Int)))
      ∧ (∀ k u, 1 ≤ k → (specChainRest ps)[k]? = some u →
          (out.binarytree.data k).member_left = Member.node (k - 1)
          ∧ (out.binarytree.data k).member_right = Member.particle u
          ∧ (out.binarytree.data k).member_index = (-1, (u : Int))) := by
  have hsum := realIndices_length_add ps
  by_cases h0 : (realIndices ps).length = 0
  · have hu := unusedIndices_of_no_real ps h0
    have hnil : realIndices ps = [] := List.length_eq_zero.mp h0
    have hrest : specChainRest ps = (List.range ps.length).tail := by
      simp only [specChainRest, h0, zero_ne_one, if_false, hu]
    have hfirst : specChainFirst ps = 0 := by
      simp only [specChainFirst, hnil, List.headD_nil]
    have hget : ∀ k u, (specChainRest ps)[k]? = some u → u = k + 1 ∧ k + 1 < ps.length := by
      intro k u hk
      rw [hrest, List.getElem?_tail] at hk
      by_cases hlt : k + 1 < ps.length
      · rw [List.getElem?_range hlt] at hk
        cases hk
        exact ⟨rfl, hlt⟩
      · rw [List.getElem?_eq_none (by rw [List.length_range]; omega)] at hk
        cases hk
    refine ⟨_, Information_generateBinaryTree_no_real generateCore self ps G hn h0, ?_, ?_, ?_,
      ?_, ?_, ?_, ?_⟩
    · rw [hrest, List.length_tail, List.length_range]
    · rw [hrest]
      exact List.Pairwise.sublist (List.tail_sublist _) (List.pairwise_lt_range _)
    · intro u hmem
      apply unusedIndices_mem
      rw [hu]
      rw [hrest] at hmem
      exact List.mem_of_mem_tail hmem
    · intro h1
      omega
    · intro _
      exact hfirst
    · intro u hu0
      obtain ⟨hue, _⟩ := hget 0 u hu0
      subst hue
      simp only [chainUnused_get, hfirst]
      simp [writeNode, BinaryTree.setMembers]
    · intro k u hk hku
      obtain ⟨hue, hlt⟩ := hget k u hku
      subst hue
      simp only [chainUnused_get, hk, if_true]
      rw [List.getElem?_range' 2 1 (by omega : k - 1 < ps.length - 2)]
      have hk2 : 2 + 1 * (k - 1) = k + 1 := by omega
      rw [hk2]
      exact ⟨rfl, rfl, rfl⟩
  · have h1 : (realIndices ps).length = 1 := by omega
    obtain ⟨i1, hi1⟩ := List.length_eq_one.mp h1
    have hrest : specChainRest ps = unusedIndices ps := by
      simp only [specChainRest, h1, if_true]
    have hfirst : specChainFirst ps = i1 := by
      simp only [specChainFirst, hi1, List.headD_cons]
    refine ⟨_, Information_generateBinaryTree_one_real generateCore self ps G hn h1, ?_, ?_, ?_,
      ?_, ?_, ?_, ?_⟩
    · rw [hrest]
      omega
    · rw [hrest]
      exact unusedIndices_sorted ps
    · intro u hmem
      rw [hrest] at hmem
      exact unusedIndices_mem ps u hmem
    · intro _
      rw [hfirst]
      exact hi1
    · intro h
      omega
    · intro u hu0
      rw [hrest] at hu0
      have hhead : (unusedIndices ps).headD 0 = u := by
        rw [List.headD_eq_head?, List.head?_eq_getElem?, hu0]
        rfl
      simp only [chainUnused_get, hfirst, hhead, hi1, List.headD_cons]
      simp [writeNode, BinaryTree.setMembers]
    · intro k u hk hku
      rw [hrest] at hku
      have hk1 : k - 1 + 1 = k := by omega
      simp only [chainUnused_get, hk, if_true, List.getElem?_tail, hk1, hku]
      exact ⟨rfl, rfl, rfl⟩

/-- Witness of C22: three particles of mass 0, 1, 0; the real particle 1 and particle 0
fill node 0, and node 1 has node 0 and particle 2 as children. -/
theorem chaining_fallback_witness :
    ∃ out, (Information.new (BinaryTree.circular (1 : ℝ) 1 1 1)).generateBinaryTree
          (fun d _ _ _ => d)
          [Particle.atRest 0 0 0 0, Particle.atRest 1 1 0 0, Particle.atRest 0 2 0 0] 1
        = some out
      ∧ (out.binarytree.data 0).member_left = Member.particle 1
      ∧ (out.binarytree.data 0).member_right = Member.particle 0
      ∧ (out.binarytree.data 1).member_left = Member.node 0
      ∧ (out.binarytree.data 1).member_right = Member.particle 2 := by
  have hr : realIndices [Particle.atRest (0 : ℝ) 0 0 0, Particle.atRest 1 1 0 0,
      Particle.atRest 0 2 0 0] = [1] := by
    simp [realIndices, List.enum, List.enumFrom, List.filter, Particle.atRest]
  have hu : unusedIndices [Particle.atRest (0 : ℝ) 0 0 0, Particle.atRest 1 1 0 0,
      Particle.atRest 0 2 0 0] = [0, 2] := by
    simp [unusedIndices, List.enum, List.enumFrom, List.filter, Particle.atRest]
  have hrest : specChainRest [Particle.atRest (0 : ℝ) 0 0 0, Particle.atRest 1 1 0 0,
      Particle.atRest 0 2 0 0] = [0, 2] := by
    simp [specChainRest, hr, hu]
  have hfirst : specChainFirst [Particle.atRest (0 : ℝ) 0 0 0, Particle.atRest 1 1 0 0,
      Particle.atRest 0 2 0 0] = 1 := by
    simp [specChainFirst, hr]
  obtain ⟨out, h1, _, _, _, _, _, h0, hk⟩ := chaining_fallback (fun d _ _ _ => d)
    (Information.new (BinaryTree.circular (1 : ℝ) 1 1 1))
    [Particle.atRest 0 0 0 0, Particle.atRest 1 1 0 0, Particle.atRest 0 2 0 0] 1
    (by simp) (by rw [hr]; simp)
  have a := h0 0 (by rw [hrest]; rfl)
  have b := hk 1 2 (le_refl 1) (by rw [hrest]; rfl)
  rw [hfirst] at a
  exact ⟨out, h1, a.1, a.2.1, b.1, b.2.1⟩

/-- Counterexample to C23 as stated: a group of two particles of mass 0.
`generateBinaryTree` returns, and node 0 has the two particles, both without positive
mass, as its two children. -/
theorem all_placeholders_are_paired :
    ∃ out, (Information.new (BinaryTree.circular (1 : ℝ) 1 1 1)).generateBinaryTree
          (fun d _ _ _ => d) [Particle.atRest 0 0 0 0, Particle.atRest 0 1 0 0] 1 = some out
      ∧ (out.binarytree.data 0).member_left = Member.particle 0
      ∧ (out.binarytree.data 0).member_right = Member.particle 1
      ∧ pairsPlaceholders [Particle.atRest (0 : ℝ) 0 0 0, Particle.atRest 0 1 0 0]
          (out.binarytree.data 0) = true := by
  have hr : realIndices [Particle.atRest (0 : ℝ) 0 0 0, Particle.atRest 0 1 0 0] = [] := by
    simp [realIndices, List.enum, List.enumFrom, List.filter, Particle.atRest]
  have hu : unusedIndices [Particle.atRest (0 : ℝ) 0 0 0, Particle.atRest 0 1 0 0]
      = [0, 1] := by
    simp [unusedIndices, List.enum, List.enumFrom, List.filter, Particle.atRest]
  refine ⟨_, Information_generateBinaryTree_no_real (fun d _ _ _ => d) _ _ 1 (by simp)
    (by rw [hr]; rfl), ?_, ?_, ?_⟩
  · simp [chainUnused_get, writeNode, BinaryTree.setMembers]
  · simp [chainUnused_get, writeNode, BinaryTree.setMembers]
  · simp [chainUnused_get, writeNode, BinaryTree.setMembers, pairsPlaceholders, hu]

/-- C23 (amended): placeholders are attached at the outermost level.  For a group of two
or more particles of which at least one has positive mass, and a core builder whose nodes
do not pair two particles without positive mass, no node of the tree that
`generateBinaryTree` produces has two such particles as its two children; and when two or
more particles have positive mass, the `i`-th particle without positive mass is the second
child (member index: its own index) of the node in slot `n_real - 1 + i`, whose first
child (member index -1) is the node of the slot before, and the slots below
`n_real - 1`, those of the core hierarchy, are left as the core builder returned them. -/
theorem placeholders_attached_outermost
    (generateCore : (Nat → BinaryTree ℝ) → List Nat → List (Particle ℝ) → ℝ
      → (Nat → BinaryTree ℝ))
    (self : Information ℝ) (ps : List (Particle ℝ)) (G : ℝ) (hn : 2 ≤ ps.length)
    (hreal : 1 ≤ (realIndices ps).length)
    (hcore : ∀ k, k < (realIndices ps).length - 1 →
      pairsPlaceholders ps (generateCore self.binarytree.data (realIndices ps) ps G k)
        = false) :
    ∃ out, self.generateBinaryTree generateCore ps G = some out
      ∧ (∀ k, k < ps.length - 1 → pairsPlaceholders ps (out.binarytree.data k) = false)
      ∧ (2 ≤ (realIndices ps).length → ∀ i u, (unusedIndices ps)[i]? = some u →
          (out.binarytree.data ((realIndices ps).length - 1 + i)).member_left
              = Member.node ((realIndices ps).length - 1 + i - 1)
          ∧ (out.binarytree.data ((realIndices ps).length - 1 + i)).member_right
              = Member.particle u
          ∧ (out.binarytree.data ((realIndices ps).length - 1 + i)).member_index
              = (-1, (u : Int)))
      ∧ (2 ≤ (realIndices ps).length → ∀ k, k < (realIndices ps).length - 1 →
          out.binarytree.data k
            = generateCore self.binarytree.data (realIndices ps) ps G k) := by
  have hsum := realIndices_length_add ps
  by_cases h1 : (realIndices ps).length = 1
  · obtain ⟨i1, hi1⟩ := List.length_eq_one.mp h1
    have hi1mem : i1 ∉ unusedIndices ps :=
      realIndices_not_unused ps i1 (by rw [hi1]; exact List.mem_singleton_self _)
    refine ⟨_, Information_generateBinaryTree_one_real generateCore self ps G hn h1, ?_, ?_,
      ?_⟩
    · intro k hk
      by_cases hk0 : k = 0
      · subst hk0
        simp only [chainUnused_get, hi1, List.headD_cons]
        simp [writeNode, BinaryTree.setMembers, pairsPlaceholders, hi1mem]
      · have hk1 : 1 ≤ k := by omega
        have hk2 : k - 1 + 1 = k := by omega
        have hlt : k < (unusedIndices ps).length := by omega
        simp only [chainUnused_get, hk1, if_true, List.getElem?_tail, hk2,
          List.getElem?_eq_getElem hlt]
        rfl
    · intro h2
      omega
    · intro h2
      omega
  · have h2 : 2 ≤ (realIndices ps).length := by omega
    refine ⟨_, Information_generateBinaryTree_core generateCore self ps G h2, ?_, ?_, ?_⟩
    · intro k hk
      by_cases hlow : (realIndices ps).length - 1 ≤ k
      · have hlt : k - ((realIndices ps).length - 1) < (unusedIndices ps).length := by omega
        simp only [chainUnused_get, hlow, if_true, List.getElem?_eq_getElem hlt]
        rfl
      · simp only [chainUnused_get, hlow, if_false]
        exact hcore k (by omega)
    · intro _ i u hiu
      have hle : (realIndices ps).length - 1 ≤ (realIndices ps).length - 1 + i := by omega
      have hsub : (realIndices ps).length - 1 + i - ((realIndices ps).length - 1) = i := by
        omega
      simp only [chainUnused_get, hle, if_true, hsub, hiu]
      exact ⟨rfl, rfl, rfl⟩
    · intro _ k hk
      have hlow : ¬ (realIndices ps).length - 1 ≤ k := by omega
      simp only [chainUnused_get, hlow, if_false]

/-- Witness of C23 (amended): three particles of mass 1, 1, 0 and a core builder that puts
the first two real particles into slot 0; the particle of mass 0 is the second child of
node 1, whose first child is node 0. -/
theorem placeholders_attached_outermost_witness :
    ∃ out, (Information.new (BinaryTree.circular (1 : ℝ) 1 1 1)).generateBinaryTree
          (fun d idx _ _ => writeNode d 0 (fun b => b.setMembers
            (Member.particle (idx.headD 0)) (Member.particle (idx.getD 1 0))
            (idx.headD 0) (idx.getD 1 0)))
          [Particle.atRest 1 0 0 0, Particle.atRest 1 1 0 0, Particle.atRest 0 2 0 0] 1
        = some out
      ∧ (out.binarytree.data 1).member_left = Member.node 0
      ∧ (out.binarytree.data 1).member_right = Member.particle 2
      ∧ pairsPlaceholders [Particle.atRest (1 : ℝ) 0 0 0, Particle.atRest 1 1 0 0,
          Particle.atRest 0 2 0 0] (out.binarytree.data 0) = false := by
  have hr : realIndices [Particle.atRest (1 : ℝ) 0 0 0, Particle.atRest 1 1 0 0,
      Particle.atRest 0 2 0 0] = [0, 1] := by
    simp [realIndices, List.enum, List.enumFrom, List.filter, Particle.atRest]
  have hu : unusedIndices [Particle.atRest (1 : ℝ) 0 0 0, Particle.atRest 1 1 0 0,
      Particle.atRest 0 2 0 0] = [2] := by
    simp [unusedIndices, List.enum, List.enumFrom, List.filter, Particle.atRest]
  obtain ⟨out, h1, hall, hpos, _⟩ := placeholders_attached_outermost
    (fun d idx _ _ => writeNode d 0 (fun b => b.setMembers
      (Member.particle (idx.headD 0)) (Member.particle (idx.getD 1 0))
      (idx.headD 0) (idx.getD 1 0)))
    (Information.new (BinaryTree.circular (1 : ℝ) 1 1 1))
    [Particle.atRest 1 0 0 0, Particle.atRest 1 1 0 0, Particle.atRest 0 2 0 0] 1
    (by simp) (by rw [hr]; simp)
    (by
      intro k hk
      rw [hr] at hk
      have hk0 : k = 0 := by
        simp only [List.length_cons, List.length_nil] at hk
        omega
      subst hk0
      simp [writeNode, BinaryTree.setMembers, pairsPlaceholders, hr, hu])
  have a := hpos (by rw [hr]; simp) 0 2 (by rw [hu]; rfl)
  rw [hr] at a
  exact ⟨out, h1, a.1, a.2.1, hall 0 (by simp)⟩

/-- C25 (the code departs from the claim): with `G = 1/100`, two unit masses and
`semi = 2` against `semi = -2`, the estimate that `calcDsKeplerIter` computes for the
hyperbolic node, `0.0245436926`, is larger than the one for the bound node,
`0.019634954084`: the hyperbolic branch leaves `G` out of the square root. -/
theorem hyperbolic_estimate_exceeds_bound :
    Information.dsKepler Real.sqrt (1 / 100) (BinaryTree.circular 1 1 2 1) = 0.019634954084
    ∧ Information.dsKepler Real.sqrt (1 / 100)
        { BinaryTree.circular (1 : ℝ) 1 2 1 with semi := -2 } = 0.0245436926
    ∧ Information.dsKepler Real.sqrt (1 / 100) (BinaryTree.circular 1 1 2 1)
        < Information.dsKepler Real.sqrt (1 / 100)
            { BinaryTree.circular (1 : ℝ) 1 2 1 with semi := -2 }
    ∧ (Information.calcDsKeplerIter Real.sqrt ⟨1 / 100, 1⟩ (BinaryTree.circular 1 1 2 1)).min
        < (Information.calcDsKeplerIter Real.sqrt ⟨1 / 100, 1⟩
            { BinaryTree.circular (1 : ℝ) 1 2 1 with semi := -2 }).min := by
  have hb : Information.dsKepler Real.sqrt (1 / 100) (BinaryTree.circular 1 1 2 1)
      = 0.019634954084 := by
    simp only [Information.dsKepler, BinaryTree.circular]
    rw [if_pos (by norm_num), show ((1 : ℝ) / 100 * 2 / (1 + 1)) = 1 / 100 by norm_num,
      sqrt_hundredth]
    norm_num
  have hh : Information.dsKepler Real.sqrt (1 / 100)
      { BinaryTree.circular (1 : ℝ) 1 2 1 with semi := -2 } = 0.0245436926 := by
    simp only [Information.dsKepler, BinaryTree.circular]
    rw [if_neg (by norm_num), show (-(-2 : ℝ) / (1 + 1)) = 1 by norm_num, Real.sqrt_one]
    norm_num
  refine ⟨hb, hh, ?_, ?_⟩
  · rw [hb, hh]
    norm_num
  · simp only [Information.calcDsKeplerIter, hb, hh]
    norm_num

/-- C26: the fix-step policy.  When the node list is not empty, `calcDsAndStepOption`
returns, and the stored `fix_step_option` is `later` if the root has exactly 2 member
particles and `none` otherwise; it is never `always`; the result is the same for every
integrator order; and it is a function of the member count of the root alone, whatever the
other members of the root, the gravitational constant and the traversal. -/
theorem fix_step_policy
    (processRootIter : BinaryTree ℝ → DsIter ℝ → (DsIter ℝ → BinaryTree ℝ → DsIter ℝ)
      → DsIter ℝ)
    (fmax G : ℝ) (self : Information ℝ) (order order' : Int)
    (hsize : 0 < self.binarytree.size) :
    ∃ out, self.calcDsAndStepOption processRootIter fmax Real.sqrt order G = some out
      ∧ out.fix_step_option
          = (if (self.binarytree.data (self.binarytree.size - 1)).getMemberN = 2
              then FixStepOption.later else FixStepOption.none)
      ∧ (out.fix_step_option = FixStepOption.later
          ↔ (self.binarytree.data (self.binarytree.size - 1)).getMemberN = 2)
      ∧ out.fix_step_option ≠ FixStepOption.always
      ∧ self.calcDsAndStepOption processRootIter fmax Real.sqrt order' G = some out := by
  refine ⟨_, Information_calcDsAndStepOption_eq processRootIter fmax Real.sqrt self order G
    hsize, rfl, ?_, ?_, Information_calcDsAndStepOption_eq processRootIter fmax Real.sqrt self
    order' G hsize⟩
  · by_cases h2 : (self.binarytree.data (self.binarytree.size - 1)).getMemberN = 2
    · simp only [h2, if_true]
    · simp only [h2, if_false, iff_false]
      intro h
      cases h
  · by_cases h2 : (self.binarytree.data (self.binarytree.size - 1)).getMemberN = 2
    · simp only [h2, if_true]
      intro h
      cases h
    · simp only [h2, if_false]
      intro h
      cases h

/-- Witness of C26: a list of one node with two members, integrator orders 2 and 4: the
option is `later`. -/
theorem fix_step_policy_witness :
    ∃ out, (⟨0, FixStepOption.always, ⟨1, fun _ => BinaryTree.circular 1 1 1 1⟩⟩
          : Information ℝ).calcDsAndStepOption (fun _ d _ => d) 100 Real.sqrt 2 1 = some out
      ∧ out.fix_step_option = FixStepOption.later := by
  obtain ⟨out, h1, h2, _, _, _⟩ := fix_step_policy (fun _ d _ => d) 100 1
    ⟨0, FixStepOption.always, ⟨1, fun _ => BinaryTree.circular 1 1 1 1⟩⟩ 2 4 (by decide)
  exact ⟨out, h1, by rw [h2]; rfl⟩

/-- C27: merger trigger, rule 2.  For a node with two members, both of status `single`,
and an interrupt record of status `none`: if the pericentre `semi*(1-ecc)` is below the
sum of the radii, the pair approaches (`(x1-x2).(v1-v2) < 0`) and the time to pericentre is
less than `time_end - time_now`, `modifyAndInterruptIter` performs the merge: the record
gets the status `merge` and the node as `adr` and keeps its two times, the first member
gets the mass `m1+m2`, the position `(m1*x1+m2*x2)/(m1+m2)`, the velocity
`(m1*v1+m2*v2)/(m1+m2)` and keeps the status `single`, the second member gets the mass 0
and the status `unused`, and radii, check times and the position and velocity of the second
member are kept (this is the result of the lambda `merge`).  The time to pericentre may be
taken as the `t_peri` that the source computes or as the absolute value
`|mean_anomaly/6.28318530718*period|`: the first is never above the second.  If the
pericentre is not below the sum of the radii or the pair does not approach, the call
changes neither record nor particle. -/
theorem merger_trigger_rule_two (calcEccAnomaly : BinaryTree ℝ → ℝ → ℝ)
    (calcMeanAnomaly : BinaryTree ℝ → ℝ → ℝ → ℝ) (intr : BinaryInterrupt ℝ)
    (bin : BinaryTree ℝ) (p1 p2 : Particle ℝ)
    (hn : bin.getMemberN = 2) (hs : intr.status = InterruptStatus.none)
    (h1 : p1.status = Status.single) (h2 : p2.status = Status.single) :
    (bin.semi * (1 - bin.ecc) < p1.radius + p2.radius →
      (p1.pos.c0 - p2.pos.c0) * (p1.vel.c0 - p2.vel.c0)
        + (p1.pos.c1 - p2.pos.c1) * (p1.vel.c1 - p2.vel.c1)
        + (p1.pos.c2 - p2.pos.c2) * (p1.vel.c2 - p2.vel.c2) < 0 →
      (Interaction.tPeri Real.sqrt calcEccAnomaly calcMeanAnomaly bin p1 p2
          < intr.time_end - intr.time_now
        ∨ specTimeToPeri Real.sqrt calcEccAnomaly calcMeanAnomaly bin p1 p2
          < intr.time_end - intr.time_now) →
      Interaction.modifyAndInterruptIter Real.sqrt calcEccAnomaly calcMeanAnomaly intr bin
          p1 p2 = Interaction.merge intr bin p1 p2
      ∧ (Interaction.modifyAndInterruptIter Real.sqrt calcEccAnomaly calcMeanAnomaly intr bin
          p1 p2).bin_interrupt.status = InterruptStatus.merge
      ∧ (Interaction.modifyAndInterruptIter Real.sqrt calcEccAnomaly calcMeanAnomaly intr bin
          p1 p2).bin_interrupt.adr = some bin
      ∧ Interaction.modifyAndInterruptIter Real.sqrt calcEccAnomaly calcMeanAnomaly intr bin
          p1 p2
        = { bin_interrupt :=
              ⟨some bin, intr.time_now, intr.time_end, InterruptStatus.merge⟩
            p1 := { mass := p1.mass + p2.mass
                    pos := ⟨(p1.mass * p1.pos.c0 + p2.mass * p2.pos.c0) / (p1.mass + p2.mass),
                            (p1.mass * p1.pos.c1 + p2.mass * p2.pos.c1) / (p1.mass + p2.mass),
                            (p1.mass * p1.pos.c2 + p2.mass * p2.pos.c2) / (p1.mass + p2.mass)⟩
                    vel := ⟨(p1.mass * p1.vel.c0 + p2.mass * p2.vel.c0) / (p1.mass + p2.mass),
                            (p1.mass * p1.vel.c1 + p2.mass * p2.vel.c1) / (p1.mass + p2.mass),
                            (p1.mass * p1.vel.c2 + p2.mass * p2.vel.c2) / (p1.mass + p2.mass)⟩
                    radius := p1.radius
                    status := Status.single
                    time_check := p1.time_check }
            p2 := { mass := 0
                    pos := p2.pos
                    vel := p2.vel
                    radius := p2.radius
                    status := Status.unused
                    time_check := p2.time_check } })
    ∧ Interaction.tPeri Real.sqrt calcEccAnomaly calcMeanAnomaly bin p1 p2
        ≤ specTimeToPeri Real.sqrt calcEccAnomaly calcMeanAnomaly bin p1 p2
    ∧ (p1.radius + p2.radius ≤ bin.semi * (1 - bin.ecc)
        ∨ 0 ≤ (p1.pos.c0 - p2.pos.c0) * (p1.vel.c0 - p2.vel.c0)
          + (p1.pos.c1 - p2.pos.c1) * (p1.vel.c1 - p2.vel.c1)
          + (p1.pos.c2 - p2.pos.c2) * (p1.vel.c2 - p2.vel.c2) →
      Interaction.modifyAndInterruptIter Real.sqrt calcEccAnomaly calcMeanAnomaly intr bin
          p1 p2 = { bin_interrupt := intr, p1 := p1, p2 := p2 }) := by
  have h := Interaction_modifyAndInterruptIter_single Real.sqrt calcEccAnomaly calcMeanAnomaly
    intr bin p1 p2 hn hs h1 h2
  have hd : Interaction.drdv p1 p2 = (p1.pos.c0 - p2.pos.c0) * (p1.vel.c0 - p2.vel.c0)
      + (p1.pos.c1 - p2.pos.c1) * (p1.vel.c1 - p2.vel.c1)
      + (p1.pos.c2 - p2.pos.c2) * (p1.vel.c2 - p2.vel.c2) := rfl
  have hle : Interaction.tPeri Real.sqrt calcEccAnomaly calcMeanAnomaly bin p1 p2
      ≤ specTimeToPeri Real.sqrt calcEccAnomaly calcMeanAnomaly bin p1 p2 :=
    Interaction_abs_le _
  have h0 : (0.0 : ℝ) = 0 := by norm_num
  rw [hd] at h
  refine ⟨?_, hle, ?_⟩
  · intro hperi hdr ht
    have ht' : Interaction.tPeri Real.sqrt calcEccAnomaly calcMeanAnomaly bin p1 p2
        < intr.time_end - intr.time_now := by
      rcases ht with ht | ht
      · exact ht
      · exact lt_of_le_of_lt hle ht
    rw [h, if_pos ⟨hperi, hdr⟩, if_pos ht']
    refine ⟨rfl, rfl, rfl, ?_⟩
    simp only [Interaction.merge, h0, h1]
  · intro hno
    rw [h, if_neg]
    rintro ⟨hperi, hdr⟩
    rcases hno with hno | hno
    · exact absurd hperi (not_lt.mpr hno)
    · exact absurd hdr (not_lt.mpr hno)

/-- Witness of C27: a node with `semi = 1`, `ecc = 0`, `period = 1`; two members of status
`single` and radius 1, the first of mass 1 at `x = 0` with velocity 1, the second of mass 3
at rest at `x = 1`, so the pericentre 1 is below the radius sum 2 and
`(x1-x2).(v1-v2) = -1`; the mean anomaly is taken as 3.14159265359, so the time to
pericentre is 1/2, less than `time_end - time_now = 1`: the pair is merged, the first
member has mass 4 and the second mass 0 and status `unused`. -/
theorem merger_trigger_rule_two_witness :
    (Interaction.modifyAndInterruptIter Real.sqrt (fun _ _ => 0)
        (fun _ _ _ => 3.14159265359)
        ⟨none, 0, 1, InterruptStatus.none⟩ (BinaryTree.circular 1 3 1 1)
        (Particle.body 1 0 1 1 Status.single 0)
        (Particle.body 3 1 0 1 Status.single 0)).bin_interrupt.status
      = InterruptStatus.merge
    ∧ (Interaction.modifyAndInterruptIter Real.sqrt (fun _ _ => 0)
        (fun _ _ _ => 3.14159265359)
        ⟨none, 0, 1, InterruptStatus.none⟩ (BinaryTree.circular 1 3 1 1)
        (Particle.body 1 0 1 1 Status.single 0)
        (Particle.body 3 1 0 1 Status.single 0)).p1.mass = 4
    ∧ (Interaction.modifyAndInterruptIter Real.sqrt (fun _ _ => 0)
        (fun _ _ _ => 3.14159265359)
        ⟨none, 0, 1, InterruptStatus.none⟩ (BinaryTree.circular 1 3 1 1)
        (Particle.body 1 0 1 1 Status.single 0)
        (Particle.body 3 1 0 1 Status.single 0)).p2.status = Status.unused := by
  have h := (merger_trigger_rule_two (fun _ _ => 0) (fun _ _ _ => 3.14159265359)
    ⟨none, 0, 1, InterruptStatus.none⟩ (BinaryTree.circular 1 3 1 1)
    (Particle.body 1 0 1 1 Status.single 0) (Particle.body 3 1 0 1 Status.single 0)
    rfl rfl rfl rfl).1
    (by norm_num [BinaryTree.circular, Particle.body])
    (by norm_num [Particle.body])
    (Or.inr (by
      norm_num [specTimeToPeri, Interaction.tPeriArg, BinaryTree.circular]
      rw [abs_of_nonneg (by norm_num)]
      norm_num))
  refine ⟨h.2.1, ?_, ?_⟩
  · rw [h.2.2.2]
    norm_num [Particle.body]
  · rw [h.2.2.2]

/-- C28: the merge action.  Whenever `modifyAndInterruptIter`, entered with the status
`none`, ends with the status `merge`, its result is that of the lambda `merge`: the first
member has mass `m1+m2`, position `(m1*x1+m2*x2)/(m1+m2)`, velocity
`(m1*v1+m2*v2)/(m1+m2)` (from the values before the merge) and status `single`; the second
member has mass 0 and status `unused`; the position and velocity of the second member, both
radii and both check times are unchanged; the record has status `merge`, `adr` is the node
and its two times are unchanged. -/
theorem merge_action_postcondition (calcEccAnomaly : BinaryTree ℝ → ℝ → ℝ)
    (calcMeanAnomaly : BinaryTree ℝ → ℝ → ℝ → ℝ) (intr : BinaryInterrupt ℝ)
    (bin : BinaryTree ℝ) (p1 p2 : Particle ℝ)
    (hs : intr.status = InterruptStatus.none)
    (hm : (Interaction.modifyAndInterruptIter Real.sqrt calcEccAnomaly calcMeanAnomaly intr
      bin p1 p2).bin_interrupt.status = InterruptStatus.merge) :
    Interaction.modifyAndInterruptIter Real.sqrt calcEccAnomaly calcMeanAnomaly intr bin
        p1 p2
      = { bin_interrupt := ⟨some bin, intr.time_now, intr.time_end, InterruptStatus.merge⟩
          p1 := { mass := p1.mass + p2.mass
                  pos := ⟨(p1.mass * p1.pos.c0 + p2.mass * p2.pos.c0) / (p1.mass + p2.mass),
                          (p1.mass * p1.pos.c1 + p2.mass * p2.pos.c1) / (p1.mass + p2.mass),
                          (p1.mass * p1.pos.c2 + p2.mass * p2.pos.c2) / (p1.mass + p2.mass)⟩
                  vel := ⟨(p1.mass * p1.vel.c0 + p2.mass * p2.vel.c0) / (p1.mass + p2.mass),
                          (p1.mass * p1.vel.c1 + p2.mass * p2.vel.c1) / (p1.mass + p2.mass),
                          (p1.mass * p1.vel.c2 + p2.mass * p2.vel.c2) / (p1.mass + p2.mass)⟩
                  radius := p1.radius
                  status := Status.single
                  time_check := p1.time_check }
          p2 := { mass := 0
                  pos := p2.pos
                  vel := p2.vel
                  radius := p2.radius
                  status := Status.unused
                  time_check := p2.time_check } } := by
  have h0 : (0.0 : ℝ) = 0 := by norm_num
  rw [Interaction_modifyAndInterruptIter_merged Real.sqrt calcEccAnomaly calcMeanAnomaly intr
    bin p1 p2 hs hm]
  simp only [Interaction.merge, h0]

/-- Witness of C28: two members of status `premerge` with check time 0 before
`time_end = 1`, masses 1 and 3 at `x = 0` and `x = 4` with velocities 4 and 0: the merged
first member has mass 4. -/
theorem merge_action_postcondition_witness :
    (Interaction.modifyAndInterruptIter Real.sqrt (fun _ _ => 0) (fun _ _ _ => 0)
        ⟨none, 0, 1, InterruptStatus.none⟩ (BinaryTree.circular 1 3 1 1)
        (Particle.body 1 0 4 1 Status.premerge 0)
        (Particle.body 3 4 0 1 Status.premerge 0)).p1.mass = 4 := by
  have h := merge_action_postcondition (fun _ _ => 0) (fun _ _ _ => 0)
    ⟨none, 0, 1, InterruptStatus.none⟩ (BinaryTree.circular 1 3 1 1)
    (Particle.body 1 0 4 1 Status.premerge 0) (Particle.body 3 4 0 1 Status.premerge 0) rfl
    (by
      rw [Interaction_modifyAndInterruptIter_premerge Real.sqrt _ _ _ _ _ _ rfl rfl rfl rfl
        (by norm_num [Particle.body]) (by norm_num [Particle.body])]
      rfl)
  rw [h]
  norm_num [Particle.body]

/-- C29: a merge conserves mass, momentum and centre of mass.  Whenever
`modifyAndInterruptIter`, entered with the status `none`, merges two members with
`m1+m2 != 0`, the sums over the two members of the mass, of mass times velocity and of mass
times position (each component) are the same after the call as before. -/
theorem merge_conserves_mass_momentum (calcEccAnomaly : BinaryTree ℝ → ℝ → ℝ)
    (calcMeanAnomaly : BinaryTree ℝ → ℝ → ℝ → ℝ) (intr : BinaryInterrupt ℝ)
    (bin : BinaryTree ℝ) (p1 p2 : Particle ℝ)
    (hs : intr.status = InterruptStatus.none)
    (hm : (Interaction.modifyAndInterruptIter Real.sqrt calcEccAnomaly calcMeanAnomaly intr
      bin p1 p2).bin_interrupt.status = InterruptStatus.merge)
    (hmass : p1.mass + p2.mass ≠ 0)
    (out : InterruptOut ℝ)
    (hout : out = Interaction.modifyAndInterruptIter Real.sqrt calcEccAnomaly calcMeanAnomaly
      intr bin p1 p2) :
    out.p1.mass + out.p2.mass = p1.mass + p2.mass
    ∧ out.p1.mass * out.p1.vel.c0 + out.p2.mass * out.p2.vel.c0
        = p1.mass * p1.vel.c0 + p2.mass * p2.vel.c0
    ∧ out.p1.mass * out.p1.vel.c1 + out.p2.mass * out.p2.vel.c1
        = p1.mass * p1.vel.c1 + p2.mass * p2.vel.c1
    ∧ out.p1.mass * out.p1.vel.c2 + out.p2.mass * out.p2.vel.c2
        = p1.mass * p1.vel.c2 + p2.mass * p2.vel.c2
    ∧ out.p1.mass * out.p1.pos.c0 + out.p2.mass * out.p2.pos.c0
        = p1.mass * p1.pos.c0 + p2.mass * p2.pos.c0
    ∧ out.p1.mass * out.p1.pos.c1 + out.p2.mass * out.p2.pos.c1
        = p1.mass * p1.pos.c1 + p2.mass * p2.pos.c1
    ∧ out.p1.mass * out.p1.pos.c2 + out.p2.mass * out.p2.pos.c2
        = p1.mass * p1.pos.c2 + p2.mass * p2.pos.c2 := by
  have h0 : (0.0 : ℝ) = 0 := by norm_num
  rw [hout, Interaction_modifyAndInterruptIter_merged Real.sqrt calcEccAnomaly calcMeanAnomaly
    intr bin p1 p2 hs hm]
  simp only [Interaction.merge, h0, zero_mul, add_zero]
  refine ⟨trivial, ?_, ?_, ?_, ?_, ?_, ?_⟩ <;> exact mul_div_cancel₀ _ hmass

/-- Witness of C29: the pair of the witness of C28 (masses 1 and 3, velocities 4 and 0):
the momentum along x is 4 before and after the merge. -/
theorem merge_conserves_mass_momentum_witness :
    (Interaction.modifyAndInterruptIter Real.sqrt (fun _ _ => 0) (fun _ _ _ => 0)
        ⟨none, 0, 1, InterruptStatus.none⟩ (BinaryTree.circular 1 3 1 1)
        (Particle.body 1 0 4 1 Status.premerge 0)
        (Particle.body 3 4 0 1 Status.premerge 0)).p1.mass
      * (Interaction.modifyAndInterruptIter Real.sqrt (fun _ _ => 0) (fun _ _ _ => 0)
        ⟨none, 0, 1, InterruptStatus.none⟩ (BinaryTree.circular 1 3 1 1)
        (Particle.body 1 0 4 1 Status.premerge 0)
        (Particle.body 3 4 0 1 Status.premerge 0)).p1.vel.c0
      + (Interaction.modifyAndInterruptIter Real.sqrt (fun _ _ => 0) (fun _ _ _ => 0)
        ⟨none, 0, 1, InterruptStatus.none⟩ (BinaryTree.circular 1 3 1 1)
        (Particle.body 1 0 4 1 Status.premerge 0)
        (Particle.body 3 4 0 1 Status.premerge 0)).p2.mass
      * (Interaction.modifyAndInterruptIter Real.sqrt (fun _ _ => 0) (fun _ _ _ => 0)
        ⟨none, 0, 1, InterruptStatus.none⟩ (BinaryTree.circular 1 3 1 1)
        (Particle.body 1 0 4 1 Status.premerge 0)
        (Particle.body 3 4 0 1 Status.premerge 0)).p2.vel.c0
      = (Particle.body (1 : ℝ) 0 4 1 Status.premerge 0).mass
          * (Particle.body (1 : ℝ) 0 4 1 Status.premerge 0).vel.c0
        + (Particle.body (3 : ℝ) 4 0 1 Status.premerge 0).mass
          * (Particle.body (3 : ℝ) 4 0 1 Status.premerge 0).vel.c0 :=
  (merge_conserves_mass_momentum (fun _ _ => 0) (fun _ _ _ => 0)
    ⟨none, 0, 1, InterruptStatus.none⟩ (BinaryTree.circular 1 3 1 1)
    (Particle.body 1 0 4 1 Status.premerge 0) (Particle.body 3 4 0 1 Status.premerge 0) rfl
    (by
      rw [Interaction_modifyAndInterruptIter_premerge Real.sqrt _ _ _ _ _ _ rfl rfl rfl rfl
        (by norm_num [Particle.body]) (by norm_num [Particle.body])]
      rfl)
    (by norm_num [Particle.body]) _ rfl).2.1

/-- C31 (the code departs from the claim): the time to pericentre loses its fractional
part, so a pair is merged, or its check is scheduled too early, where the claim asks for a
check at `time_now + t_peri`.  The call `abs(mean_anomaly/6.28318530718*_bin.period)` finds
`int abs(int)`.  First input: a node with `semi = 1`, `ecc = 0`, `period = 1`, two members
of status `single` and radius 1 that approach, a mean anomaly of 3.14159265359, so that the
time to pericentre is 1/2, and `time_end - time_now = 1/4`: the time to pericentre is not
less than 1/4, yet the source computes `t_peri = 0` and merges the pair.  Second input: the
same with the mean anomaly 9.42477796077, time to pericentre 3/2, and
`time_end - time_now = 1`: the members become `premerge` with the check time 1, not
`0 + 3/2`. -/
theorem premerge_scheduling_truncates_time :
    (specTimeToPeri Real.sqrt (fun _ _ => 0) (fun _ _ _ => (3.14159265359 : ℝ))
        (BinaryTree.circular 1 1 1 1) (Particle.body 1 0 1 1 Status.single 0)
        (Particle.body 1 1 0 1 Status.single 0) = 1 / 2
      ∧ ¬ (1 / 2 : ℝ) < 1 / 4 - 0
      ∧ Interaction.tPeri Real.sqrt (fun _ _ => 0) (fun _ _ _ => (3.14159265359 : ℝ))
        (BinaryTree.circular 1 1 1 1) (Particle.body 1 0 1 1 Status.single 0)
        (Particle.body 1 1 0 1 Status.single 0) = 0
      ∧ Interaction.modifyAndInterruptIter Real.sqrt (fun _ _ => 0)
          (fun _ _ _ => (3.14159265359 : ℝ)) ⟨none, 0, 1 / 4, InterruptStatus.none⟩
          (BinaryTree.circular 1 1 1 1) (Particle.body 1 0 1 1 Status.single 0)
          (Particle.body 1 1 0 1 Status.single 0)
        = { bin_interrupt :=
              ⟨some (BinaryTree.circular 1 1 1 1), 0, 1 / 4, InterruptStatus.merge⟩
            p1 := Particle.body 2 (1 / 2) (1 / 2) 1 Status.single 0
            p2 := Particle.body 0 1 0 1 Status.unused 0 })
    ∧ (specTimeToPeri Real.sqrt (fun _ _ => 0) (fun _ _ _ => (9.42477796077 : ℝ))
        (BinaryTree.circular 1 1 1 1) (Particle.body 1 0 1 1 Status.single 0)
        (Particle.body 1 1 0 1 Status.single 0) = 3 / 2
      ∧ ¬ (3 / 2 : ℝ) < 1 - 0
      ∧ Interaction.tPeri Real.sqrt (fun _ _ => 0) (fun _ _ _ => (9.42477796077 : ℝ))
        (BinaryTree.circular 1 1 1 1) (Particle.body 1 0 1 1 Status.single 0)
        (Particle.body 1 1 0 1 Status.single 0) = 1
      ∧ Interaction.modifyAndInterruptIter Real.sqrt (fun _ _ => 0)
          (fun _ _ _ => (9.42477796077 : ℝ)) ⟨none, 0, 1, InterruptStatus.none⟩
          (BinaryTree.circular 1 1 1 1) (Particle.body 1 0 1 1 Status.single 0)
          (Particle.body 1 1 0 1 Status.single 0)
        = { bin_interrupt := ⟨none, 0, 1, InterruptStatus.none⟩
            p1 := Particle.body 1 0 1 1 Status.premerge 1
            p2 := Particle.body 1 1 0 1 Status.premerge 1 }
      ∧ (0 : ℝ) + 3 / 2 ≠ 1) := by
  have harg1 : Interaction.tPeriArg Real.sqrt (fun _ _ => 0)
      (fun _ _ _ => (3.14159265359 : ℝ)) (BinaryTree.circular 1 1 1 1)
      (Particle.body 1 0 1 1 Status.single 0) (Particle.body 1 1 0 1 Status.single 0)
      = 1 / 2 := by
    norm_num [Interaction.tPeriArg, BinaryTree.circular]
  have harg2 : Interaction.tPeriArg Real.sqrt (fun _ _ => 0)
      (fun _ _ _ => (9.42477796077 : ℝ)) (BinaryTree.circular 1 1 1 1)
      (Particle.body 1 0 1 1 Status.single 0) (Particle.body 1 1 0 1 Status.single 0)
      = 3 / 2 := by
    norm_num [Interaction.tPeriArg, BinaryTree.circular]
  have hf1 : ⌊|(1 / 2 : ℝ)|⌋ = 0 := by
    rw [Int.floor_eq_iff, abs_of_nonneg (by norm_num)]
    norm_num
  have hf2 : ⌊|(3 / 2 : ℝ)|⌋ = 1 := by
    rw [Int.floor_eq_iff, abs_of_nonneg (by norm_num)]
    norm_num
  have ht1 : Interaction.tPeri Real.sqrt (fun _ _ => 0) (fun _ _ _ => (3.14159265359 : ℝ))
      (BinaryTree.circular 1 1 1 1) (Particle.body 1 0 1 1 Status.single 0)
      (Particle.body 1 1 0 1 Status.single 0) = 0 := by
    rw [Interaction.tPeri, harg1, Interaction_abs_eq_floor, hf1]
    norm_num
  have ht2 : Interaction.tPeri Real.sqrt (fun _ _ => 0) (fun _ _ _ => (9.42477796077 : ℝ))
      (BinaryTree.circular 1 1 1 1) (Particle.body 1 0 1 1 Status.single 0)
      (Particle.body 1 1 0 1 Status.single 0) = 1 := by
    rw [Interaction.tPeri, harg2, Interaction_abs_eq_floor, hf2]
    norm_num
  have hperi : (BinaryTree.circular (1 : ℝ) 1 1 1).semi
          * (1 - (BinaryTree.circular (1 : ℝ) 1 1 1).ecc)
        < (Particle.body (1 : ℝ) 0 1 1 Status.single 0).radius
          + (Particle.body (1 : ℝ) 1 0 1 Status.single 0).radius
      ∧ Interaction.drdv (Particle.body (1 : ℝ) 0 1 1 Status.single 0)
          (Particle.body (1 : ℝ) 1 0 1 Status.single 0) < 0 := by
    constructor
    · norm_num [BinaryTree.circular, Particle.body]
    · norm_num [Interaction.drdv, Particle.body]
  refine ⟨⟨?_, by norm_num, ht1, ?_⟩, ⟨?_, by norm_num, ht2, ?_, by norm_num⟩⟩
  · rw [specTimeToPeri, harg1, abs_of_nonneg (by norm_num)]
  · rw [Interaction_modifyAndInterruptIter_single Real.sqrt _ _ _ _ _ _ rfl rfl rfl rfl,
      if_pos hperi, ht1, if_pos (by norm_num)]
    simp only [Interaction.merge, Particle.body, BinaryTree.circular]
    norm_num
  · rw [specTimeToPeri, harg2, abs_of_nonneg (by norm_num)]
  · rw [Interaction_modifyAndInterruptIter_single Real.sqrt _ _ _ _ _ _ rfl rfl rfl rfl,
      if_pos hperi, ht2, if_neg (by norm_num)]
    simp only [Particle.body]
    norm_num

/-- C32: at most one merge decision per interrupt record.  If the status of the record is
not `none` on entry, `modifyAndInterruptIter` changes neither particle nor record.  In
every case the record that comes back has the status it had on entry or the status
`merge`, and its two times are unchanged; so the status on exit is `change` only when it
was `change` on entry. -/
theorem one_merge_decision_per_record (calcEccAnomaly : BinaryTree ℝ → ℝ → ℝ)
    (calcMeanAnomaly : BinaryTree ℝ → ℝ → ℝ → ℝ) (intr : BinaryInterrupt ℝ)
    (bin : BinaryTree ℝ) (p1 p2 : Particle ℝ) :
    (intr.status ≠ InterruptStatus.none →
      Interaction.modifyAndInterruptIter Real.sqrt calcEccAnomaly calcMeanAnomaly intr bin
        p1 p2 = { bin_interrupt := intr, p1 := p1, p2 := p2 })
    ∧ ((Interaction.modifyAndInterruptIter Real.sqrt calcEccAnomaly calcMeanAnomaly intr bin
          p1 p2).bin_interrupt.status = intr.status
      ∨ (Interaction.modifyAndInterruptIter Real.sqrt calcEccAnomaly calcMeanAnomaly intr bin
          p1 p2).bin_interrupt.status = InterruptStatus.merge)
    ∧ (Interaction.modifyAndInterruptIter Real.sqrt calcEccAnomaly calcMeanAnomaly intr bin
          p1 p2).bin_interrupt.time_now = intr.time_now
    ∧ (Interaction.modifyAndInterruptIter Real.sqrt calcEccAnomaly calcMeanAnomaly intr bin
          p1 p2).bin_interrupt.time_end = intr.time_end
    ∧ ((Interaction.modifyAndInterruptIter Real.sqrt calcEccAnomaly calcMeanAnomaly intr bin
          p1 p2).bin_interrupt.status = InterruptStatus.change →
        intr.status = InterruptStatus.change) := by
  have hc := Interaction_modifyAndInterruptIter_cases Real.sqrt calcEccAnomaly calcMeanAnomaly
    intr bin p1 p2
  refine ⟨fun hs => Interaction_modifyAndInterruptIter_skip Real.sqrt calcEccAnomaly
    calcMeanAnomaly intr bin p1 p2 (Or.inr (Or.inl hs)), ?_, ?_, ?_, ?_⟩
  · rcases hc with h | h
    · exact Or.inr (by rw [h]; rfl)
    · exact Or.inl (by rw [h])
  · rcases hc with h | h
    · rw [h]; rfl
    · rw [h]
  · rcases hc with h | h
    · rw [h]; rfl
    · rw [h]
  · intro hch
    rcases hc with h | h
    · rw [h] at hch
      cases hch
    · rw [h] at hch
      exact hch

/-- Witness of C32: the pair of the witness of C27, which a record of status `none` would
merge, entered with a record that already has the status `merge`: record and particles
come back unchanged. -/
theorem one_merge_decision_per_record_witness :
    Interaction.modifyAndInterruptIter Real.sqrt (fun _ _ => 0) (fun _ _ _ => 0)
        ⟨none, 0, 1, InterruptStatus.merge⟩ (BinaryTree.circular 1 1 1 1)
        (Particle.body 1 0 1 1 Status.single 0) (Particle.body 1 1 0 1 Status.single 0)
      = { bin_interrupt := ⟨none, 0, 1, InterruptStatus.merge⟩
          p1 := Particle.body 1 0 1 1 Status.single 0
          p2 := Particle.body 1 1 0 1 Status.single 0 } :=
  (one_merge_decision_per_record (fun _ _ => 0) (fun _ _ _ => 0)
    ⟨none, 0, 1, InterruptStatus.merge⟩ (BinaryTree.circular 1 1 1 1)
    (Particle.body 1 0 1 1 Status.single 0) (Particle.body 1 1 0 1 Status.single 0)).1
    (by decide)

/-- C38: a merged pair is never merged again.  After a call of `modifyAndInterruptIter`
that was entered with the status `none` and merged the two members of a node, the second
member has the status `unused`, and a further call on the same node and the two particles
as the merge left them, with any record of status `none` (any `adr`, `time_now`,
`time_end`), changes neither particle and returns the record unchanged, so its status stays
`none`.  More generally the routine changes nothing whenever a member has the status
`unused` or the node does not have exactly two members. -/
theorem merged_pair_not_merged_again (calcEccAnomaly : BinaryTree ℝ → ℝ → ℝ)
    (calcMeanAnomaly : BinaryTree ℝ → ℝ → ℝ → ℝ) (intr : BinaryInterrupt ℝ)
    (bin : BinaryTree ℝ) (p1 p2 : Particle ℝ) :
    (intr.status = InterruptStatus.none →
      (Interaction.modifyAndInterruptIter Real.sqrt calcEccAnomaly calcMeanAnomaly intr bin
        p1 p2).bin_interrupt.status = InterruptStatus.merge →
      (Interaction.modifyAndInterruptIter Real.sqrt calcEccAnomaly calcMeanAnomaly intr bin
        p1 p2).p2.status = Status.unused
      ∧ ∀ fresh : BinaryInterrupt ℝ, fresh.status = InterruptStatus.none →
        Interaction.modifyAndInterruptIter Real.sqrt calcEccAnomaly calcMeanAnomaly fresh bin
          (Interaction.modifyAndInterruptIter Real.sqrt calcEccAnomaly calcMeanAnomaly intr
            bin p1 p2).p1
          (Interaction.modifyAndInterruptIter Real.sqrt calcEccAnomaly calcMeanAnomaly intr
            bin p1 p2).p2
        = { bin_interrupt := fresh
            p1 := (Interaction.modifyAndInterruptIter Real.sqrt calcEccAnomaly
              calcMeanAnomaly intr bin p1 p2).p1
            p2 := (Interaction.modifyAndInterruptIter Real.sqrt calcEccAnomaly
              calcMeanAnomaly intr bin p1 p2).p2 })
    ∧ (p1.status = Status.unused ∨ p2.status = Status.unused ∨ bin.getMemberN ≠ 2 →
      Interaction.modifyAndInterruptIter Real.sqrt calcEccAnomaly calcMeanAnomaly intr bin
        p1 p2 = { bin_interrupt := intr, p1 := p1, p2 := p2 }) := by
  constructor
  · intro hs hm
    have h := Interaction_modifyAndInterruptIter_merged Real.sqrt calcEccAnomaly
      calcMeanAnomaly intr bin p1 p2 hs hm
    have hu : (Interaction.modifyAndInterruptIter Real.sqrt calcEccAnomaly calcMeanAnomaly
        intr bin p1 p2).p2.status = Status.unused := by
      rw [h]
      rfl
    exact ⟨hu, fun fresh _ => Interaction_modifyAndInterruptIter_skip Real.sqrt calcEccAnomaly
      calcMeanAnomaly fresh bin _ _ (Or.inr (Or.inr (Or.inr hu)))⟩
  · intro h
    apply Interaction_modifyAndInterruptIter_skip
    rcases h with h | h | h
    · exact Or.inr (Or.inr (Or.inl h))
    · exact Or.inr (Or.inr (Or.inr h))
    · exact Or.inl h

/-- Witness of C38: the pair of the witness of C27 is merged by a first call; a second
call with a fresh record (times 5 and 9) on the particles as the merge left them returns
the fresh record and the two particles unchanged. -/
theorem merged_pair_not_merged_again_witness :
    (Interaction.modifyAndInterruptIter Real.sqrt (fun _ _ => 0) (fun _ _ _ => 0)
        ⟨none, 5, 9, InterruptStatus.none⟩ (BinaryTree.circular 1 1 1 1)
        (Interaction.modifyAndInterruptIter Real.sqrt (fun _ _ => 0) (fun _ _ _ => 0)
          ⟨none, 0, 1, InterruptStatus.none⟩ (BinaryTree.circular 1 1 1 1)
          (Particle.body 1 0 1 1 Status.single 0) (Particle.body 1 1 0 1 Status.single 0)).p1
        (Interaction.modifyAndInterruptIter Real.sqrt (fun _ _ => 0) (fun _ _ _ => 0)
          ⟨none, 0, 1, InterruptStatus.none⟩ (BinaryTree.circular 1 1 1 1)
          (Particle.body 1 0 1 1 Status.single 0)
          (Particle.body 1 1 0 1 Status.single 0)).p2).bin_interrupt.status
      = InterruptStatus.none := by
  have hm : (Interaction.modifyAndInterruptIter Real.sqrt (fun _ _ => 0) (fun _ _ _ => 0)
      ⟨none, 0, 1, InterruptStatus.none⟩ (BinaryTree.circular 1 1 1 1)
      (Particle.body 1 0 1 1 Status.single 0)
      (Particle.body 1 1 0 1 Status.single 0)).bin_interrupt.status
      = InterruptStatus.merge := by
    rw [Interaction_modifyAndInterruptIter_single Real.sqrt _ _ _ _ _ _ rfl rfl rfl rfl,
      if_pos ⟨by norm_num [BinaryTree.circular, Particle.body],
        by norm_num [Interaction.drdv, Particle.body]⟩,
      if_pos (by norm_num [Interaction.tPeri, Interaction.abs, Interaction.tPeriArg, truncToInt,
      BinaryTree.circular])]
    rfl
  have h := ((merged_pair_not_merged_again (fun _ _ => 0) (fun _ _ _ => 0)
    ⟨none, 0, 1, InterruptStatus.none⟩ (BinaryTree.circular 1 1 1 1)
    (Particle.body 1 0 1 1 Status.single 0) (Particle.body 1 1 0 1 Status.single 0)).1 rfl
    hm).2 ⟨none, 5, 9, InterruptStatus.none⟩ rfl
  rw [h]

/-- C37: the softened Hermite pair kernel.  For a pair `(i, j)` with
`r^2 = |x_j - x_i|^2 + eps_sq > 0`, `calcAccJerkPairSingleSingle` adds to the three
components of `acc0` the vector `G*m_j*(x_j - x_i)/r^3` and to those of `acc1` the vector
`G*m_j*((v_j - v_i)/r^3 - 3*((x_j - x_i).(v_j - v_i))*(x_j - x_i)/r^5)`, on top of what the
force held, and returns the unsoftened squared distance `|x_j - x_i|^2`; and `m_i` times the
acceleration that the call for `(i, j)` adds is minus `m_j` times the acceleration that the
call for `(j, i)` adds, whatever the two forces held. -/
theorem hermite_pair_kernel (self : HermiteInteraction ℝ) (fi fj : ForceH4 ℝ) (pi pj : Tpi ℝ)
    (hr : 0 < sepSq pi.pos pj.pos + self.eps_sq) :
    0 < Real.sqrt (sepSq pi.pos pj.pos + self.eps_sq)
    ∧ (self.calcAccJerkPairSingleSingle Real.sqrt fi pi pj).fi.acc0
      = ⟨fi.acc0.c0 + self.G * pj.mass * (pj.pos.c0 - pi.pos.c0)
            / Real.sqrt (sepSq pi.pos pj.pos + self.eps_sq) ^ 3,
         fi.acc0.c1 + self.G * pj.mass * (pj.pos.c1 - pi.pos.c1)
            / Real.sqrt (sepSq pi.pos pj.pos + self.eps_sq) ^ 3,
         fi.acc0.c2 + self.G * pj.mass * (pj.pos.c2 - pi.pos.c2)
            / Real.sqrt (sepSq pi.pos pj.pos + self.eps_sq) ^ 3⟩
    ∧ (self.calcAccJerkPairSingleSingle Real.sqrt fi pi pj).fi.acc1
      = ⟨fi.acc1.c0 + self.G * pj.mass * ((pj.vel.c0 - pi.vel.c0)
              / Real.sqrt (sepSq pi.pos pj.pos + self.eps_sq) ^ 3
            - 3 * ((pj.pos.c0 - pi.pos.c0) * (pj.vel.c0 - pi.vel.c0)
                + (pj.pos.c1 - pi.pos.c1) * (pj.vel.c1 - pi.vel.c1)
                + (pj.pos.c2 - pi.pos.c2) * (pj.vel.c2 - pi.vel.c2))
              * (pj.pos.c0 - pi.pos.c0)
              / Real.sqrt (sepSq pi.pos pj.pos + self.eps_sq) ^ 5),
         fi.acc1.c1 + self.G * pj.mass * ((pj.vel.c1 - pi.vel.c1)
              / Real.sqrt (sepSq pi.pos pj.pos + self.eps_sq) ^ 3
            - 3 * ((pj.pos.c0 - pi.pos.c0) * (pj.vel.c0 - pi.vel.c0)
                + (pj.pos.c1 - pi.pos.c1) * (pj.vel.c1 - pi.vel.c1)
                + (pj.pos.c2 - pi.pos.c2) * (pj.vel.c2 - pi.vel.c2))
              * (pj.pos.c1 - pi.pos.c1)
              / Real.sqrt (sepSq pi.pos pj.pos + self.eps_sq) ^ 5),
         fi.acc1.c2 + self.G * pj.mass * ((pj.vel.c2 - pi.vel.c2)
              / Real.sqrt (sepSq pi.pos pj.pos + self.eps_sq) ^ 3
            - 3 * ((pj.pos.c0 - pi.pos.c0) * (pj.vel.c0 - pi.vel.c0)
                + (pj.pos.c1 - pi.pos.c1) * (pj.vel.c1 - pi.vel.c1)
                + (pj.pos.c2 - pi.pos.c2) * (pj.vel.c2 - pi.vel.c2))
              * (pj.pos.c2 - pi.pos.c2)
              / Real.sqrt (sepSq pi.pos pj.pos + self.eps_sq) ^ 5)⟩
    ∧ (self.calcAccJerkPairSingleSingle Real.sqrt fi pi pj).ret
      = (pj.pos.c0 - pi.pos.c0) ^ 2 + (pj.pos.c1 - pi.pos.c1) ^ 2
        + (pj.pos.c2 - pi.pos.c2) ^ 2
    ∧ pi.mass * ((self.calcAccJerkPairSingleSingle Real.sqrt fi pi pj).fi.acc0.c0 - fi.acc0.c0)
      = -(pj.mass
          * ((self.calcAccJerkPairSingleSingle Real.sqrt fj pj pi).fi.acc0.c0 - fj.acc0.c0))
    ∧ pi.mass * ((self.calcAccJerkPairSingleSingle Real.sqrt fi pi pj).fi.acc0.c1 - fi.acc0.c1)
      = -(pj.mass
          * ((self.calcAccJerkPairSingleSingle Real.sqrt fj pj pi).fi.acc0.c1 - fj.acc0.c1))
    ∧ pi.mass * ((self.calcAccJerkPairSingleSingle Real.sqrt fi pi pj).fi.acc0.c2 - fi.acc0.c2)
      = -(pj.mass
          * ((self.calcAccJerkPairSingleSingle Real.sqrt fj pj pi).fi.acc0.c2
            - fj.acc0.c2)) := by
  have h1 : (1.0 : ℝ) = 1 := by norm_num
  have h3 : (3.0 : ℝ) = 3 := by norm_num
  have hsym : sepSq pj.pos pi.pos = sepSq pi.pos pj.pos := sepSq_symm _ _
  refine ⟨Real.sqrt_pos.mpr hr, ?_, ?_, ?_, ?_, ?_, ?_⟩
  · simp only [HermiteInteraction.calcAccJerkPairSingleSingle, ← sepSq_def, h1, Vec3.eq_iff]
    generalize Real.sqrt (sepSq pi.pos pj.pos + self.eps_sq) = s
    refine ⟨?_, ?_, ?_⟩ <;> ring
  · simp only [HermiteInteraction.calcAccJerkPairSingleSingle, ← sepSq_def, h1, h3,
      Vec3.eq_iff]
    generalize Real.sqrt (sepSq pi.pos pj.pos + self.eps_sq) = s
    refine ⟨?_, ?_, ?_⟩ <;> ring
  · rw [HermiteInteraction_calcAccJerkPairSingleSingle_ret, sepSq_def]
    ring
  · simp only [HermiteInteraction.calcAccJerkPairSingleSingle, ← sepSq_def, h1, hsym]
    generalize Real.sqrt (sepSq pi.pos pj.pos + self.eps_sq) = s
    ring
  · simp only [HermiteInteraction.calcAccJerkPairSingleSingle, ← sepSq_def, h1, hsym]
    generalize Real.sqrt (sepSq pi.pos pj.pos + self.eps_sq) = s
    ring
  · simp only [HermiteInteraction.calcAccJerkPairSingleSingle, ← sepSq_def, h1, hsym]
    generalize Real.sqrt (sepSq pi.pos pj.pos + self.eps_sq) = s
    ring

/-- Witness of C37: `G = 2`, `eps_sq = 5`; particle `i` at rest at the origin, particle `j`
of mass 3 at `x = 2` with velocity 1, so `r^2 = 4 + 5 = 9`, `r = 3`; on a force that holds
`acc0 = (10, 0, 0)` the call leaves `acc0.c0 = 10 + 2*3*2/27` and returns 4. -/
theorem hermite_pair_kernel_witness :
    ((⟨5, 2⟩ : HermiteInteraction ℝ).calcAccJerkPairSingleSingle Real.sqrt
        ⟨⟨10, 0, 0⟩, ⟨0, 0, 0⟩⟩ (Tpi.onAxis 1 1 0 0) (Tpi.onAxis 2 3 2 1)).fi.acc0.c0
      = 10 + 4 / 9
    ∧ ((⟨5, 2⟩ : HermiteInteraction ℝ).calcAccJerkPairSingleSingle Real.sqrt
        ⟨⟨10, 0, 0⟩, ⟨0, 0, 0⟩⟩ (Tpi.onAxis 1 1 0 0) (Tpi.onAxis 2 3 2 1)).ret = 4 := by
  have h := hermite_pair_kernel ⟨5, 2⟩ ⟨⟨10, 0, 0⟩, ⟨0, 0, 0⟩⟩ ⟨⟨0, 0, 0⟩, ⟨0, 0, 0⟩⟩
    (Tpi.onAxis 1 1 0 0) (Tpi.onAxis 2 3 2 1) (by norm_num [sepSq, Tpi.onAxis])
  have hs : sepSq (Tpi.onAxis (1 : Int) (1 : ℝ) 0 0).pos (Tpi.onAxis (2 : Int) (3 : ℝ) 2 1).pos
      + (⟨5, 2⟩ : HermiteInteraction ℝ).eps_sq = 9 := by
    norm_num [sepSq, Tpi.onAxis]
  constructor
  · rw [h.2.1, hs, sqrt_nine]
    norm_num [Tpi.onAxis]
  · rw [h.2.2.2.1]
    norm_num [Tpi.onAxis]

/-- C40: the group-member kernel refines the pair kernel.  When every member of the group
has an identifier different from that of `i`, `calcAccJerkPairSingleGroupMember` returns
normally, with the force and the value that `calcAccJerkPairSingleSingle` applied to `i`
and each member in turn gives (`specGroupMember`: each call on the force the call before
left, the value is the minimum of `NUMERIC_FLOAT_MAX` and what the calls return).  That
value is at most `NUMERIC_FLOAT_MAX` and at most the unsoftened squared distance of every
member, and it is `NUMERIC_FLOAT_MAX` or the squared distance of a member; when
`NUMERIC_FLOAT_MAX` bounds every squared distance and the group is not empty, it is the
least squared distance.  For an empty group the force is unchanged and the value is
`NUMERIC_FLOAT_MAX`.  When a member has the identifier of `i`, the assertion fails. -/
theorem group_member_kernel_refines_pair_kernel (fmax : ℝ) (self : HermiteInteraction ℝ)
    (fi : ForceH4 ℝ) (pi : Tpi ℝ) (g : List (Tpi ℝ)) :
    ((∀ pj ∈ g, pi.id ≠ pj.id) →
      self.calcAccJerkPairSingleGroupMember fmax Real.sqrt fi pi g
        = some (specGroupMember Real.sqrt self pi { fi := fi, ret := fmax } g))
    ∧ (specGroupMember Real.sqrt self pi { fi := fi, ret := fmax } g).ret ≤ fmax
    ∧ (∀ pj ∈ g, (specGroupMember Real.sqrt self pi { fi := fi, ret := fmax } g).ret
        ≤ (self.calcAccJerkPairSingleSingle Real.sqrt fi pi pj).ret)
    ∧ ((specGroupMember Real.sqrt self pi { fi := fi, ret := fmax } g).ret = fmax
      ∨ ∃ pj ∈ g, (specGroupMember Real.sqrt self pi { fi := fi, ret := fmax } g).ret
        = (self.calcAccJerkPairSingleSingle Real.sqrt fi pi pj).ret)
    ∧ (g ≠ [] → (∀ pj ∈ g, (self.calcAccJerkPairSingleSingle Real.sqrt fi pi pj).ret ≤ fmax) →
      ∃ pj ∈ g, (specGroupMember Real.sqrt self pi { fi := fi, ret := fmax } g).ret
          = (self.calcAccJerkPairSingleSingle Real.sqrt fi pi pj).ret
        ∧ ∀ q ∈ g, (self.calcAccJerkPairSingleSingle Real.sqrt fi pi pj).ret
          ≤ (self.calcAccJerkPairSingleSingle Real.sqrt fi pi q).ret)
    ∧ self.calcAccJerkPairSingleGroupMember fmax Real.sqrt fi pi []
      = some { fi := fi, ret := fmax }
    ∧ ((∃ pj ∈ g, pi.id = pj.id) →
      self.calcAccJerkPairSingleGroupMember fmax Real.sqrt fi pi g = none) := by
  refine ⟨fun h => HermiteInteraction_groupMember_fold Real.sqrt self pi g _ h, ?_, ?_, ?_, ?_,
    rfl, fun h => HermiteInteraction_groupMember_fold_abort Real.sqrt self pi g _ h⟩
  · rw [specGroupMember_ret]
    exact foldl_min_le_init _ g fmax
  · intro pj hpj
    rw [specGroupMember_ret, HermiteInteraction_calcAccJerkPairSingleSingle_ret]
    exact foldl_min_le_mem (fun q : Tpi ℝ => sepSq pi.pos q.pos) g fmax pj hpj
  · rw [specGroupMember_ret]
    exact foldl_min_attained (fun q : Tpi ℝ => sepSq pi.pos q.pos) g fmax
  · intro hne hmax
    rw [specGroupMember_ret]
    exact foldl_min_is_least (fun q : Tpi ℝ => sepSq pi.pos q.pos) g fmax hne hmax

/-- Witness of C40: `G = 2`, `eps_sq = 5`, `NUMERIC_FLOAT_MAX` taken as 100; particle `i`
(identifier 1) at the origin and a group of two members (identifiers 2 and 3) at `x = 2`
and `x = -1`: the call returns normally with the value 1, the smaller of the squared
distances 4 and 1. -/
theorem group_member_kernel_refines_pair_kernel_witness :
    ∃ out, (⟨5, 2⟩ : HermiteInteraction ℝ).calcAccJerkPairSingleGroupMember 100 Real.sqrt
        ⟨⟨10, 0, 0⟩, ⟨0, 0, 0⟩⟩ (Tpi.onAxis 1 1 0 0)
        [Tpi.onAxis 2 3 2 1, Tpi.onAxis 3 1 (-1) 0] = some out
      ∧ out.ret = 1 := by
  refine ⟨_, (group_member_kernel_refines_pair_kernel 100 ⟨5, 2⟩ ⟨⟨10, 0, 0⟩, ⟨0, 0, 0⟩⟩
    (Tpi.onAxis 1 1 0 0) [Tpi.onAxis 2 3 2 1, Tpi.onAxis 3 1 (-1) 0]).1 (by
      intro pj hpj
      simp only [List.mem_cons, List.mem_singleton, List.not_mem_nil, or_false] at hpj
      rcases hpj with h | h <;> subst h <;> simp [Tpi.onAxis]), ?_⟩
  rw [specGroupMember_ret]
  norm_num [sepSq, Tpi.onAxis]

/-- C36: the inner force kernels leave no stale values.  In a gradient formulation
(`AR_TTL` defined), for every particle array and any two force arrays that hold a record
for every particle, `Interaction::calcInnerAccPotAndGTKickInv` produces the same potential
and the same returned factor, and for every particle the same `acc_in` and the same
`gtgrad`; so does `ARInteraction::calcAccPotAndGTKick`; and the two-body routine
`calcInnerAccPotAndGTKickInvTwo` produces the same `acc_in`, `gtgrad`, potential and
returned factor for any two pairs of force records. -/
theorem inner_kernels_leave_no_stale_values {F : Type} [LinearOrderedField F] (cfg : Config)
    (hT : cfg.AR_TTL = true) (sqrt : F → F) (self : Interaction F) (ar : ARInteraction F)
    (ps : List (Particle F)) (f f' : List (Force F))
    (hf : ps.length ≤ f.length) (hf' : ps.length ≤ f'.length)
    (p1 p2 : Particle F) (f1 f2 f1' f2' : Force F) :
    ((self.calcInnerAccPotAndGTKickInv cfg sqrt f ps).epot
        = (self.calcInnerAccPotAndGTKickInv cfg sqrt f' ps).epot
      ∧ (self.calcInnerAccPotAndGTKickInv cfg sqrt f ps).ret
        = (self.calcInnerAccPotAndGTKickInv cfg sqrt f' ps).ret
      ∧ ∀ k, k < ps.length → ∃ x y,
          (self.calcInnerAccPotAndGTKickInv cfg sqrt f ps).force[k]? = some x
          ∧ (self.calcInnerAccPotAndGTKickInv cfg sqrt f' ps).force[k]? = some y
          ∧ x.acc_in = y.acc_in ∧ x.gtgrad = y.gtgrad)
    ∧ ((ar.calcAccPotAndGTKick cfg sqrt f ps).epot = (ar.calcAccPotAndGTKick cfg sqrt f' ps).epot
      ∧ (ar.calcAccPotAndGTKick cfg sqrt f ps).ret = (ar.calcAccPotAndGTKick cfg sqrt f' ps).ret
      ∧ ∀ k, k < ps.length → ∃ x y,
          (ar.calcAccPotAndGTKick cfg sqrt f ps).force[k]? = some x
          ∧ (ar.calcAccPotAndGTKick cfg sqrt f' ps).force[k]? = some y
          ∧ x.acc_in = y.acc_in ∧ x.gtgrad = y.gtgrad)
    ∧ ((self.calcInnerAccPotAndGTKickInvTwo cfg sqrt f1 f2 p1 p2).epot
        = (self.calcInnerAccPotAndGTKickInvTwo cfg sqrt f1' f2' p1 p2).epot
      ∧ (self.calcInnerAccPotAndGTKickInvTwo cfg sqrt f1 f2 p1 p2).ret
        = (self.calcInnerAccPotAndGTKickInvTwo cfg sqrt f1' f2' p1 p2).ret
      ∧ (self.calcInnerAccPotAndGTKickInvTwo cfg sqrt f1 f2 p1 p2).f1.acc_in
        = (self.calcInnerAccPotAndGTKickInvTwo cfg sqrt f1' f2' p1 p2).f1.acc_in
      ∧ (self.calcInnerAccPotAndGTKickInvTwo cfg sqrt f1 f2 p1 p2).f2.acc_in
        = (self.calcInnerAccPotAndGTKickInvTwo cfg sqrt f1' f2' p1 p2).f2.acc_in
      ∧ (self.calcInnerAccPotAndGTKickInvTwo cfg sqrt f1 f2 p1 p2).f1.gtgrad
        = (self.calcInnerAccPotAndGTKickInvTwo cfg sqrt f1' f2' p1 p2).f1.gtgrad
      ∧ (self.calcInnerAccPotAndGTKickInvTwo cfg sqrt f1 f2 p1 p2).f2.gtgrad
        = (self.calcInnerAccPotAndGTKickInvTwo cfg sqrt f1' f2' p1 p2).f2.gtgrad) := by
  have hs := Interaction_calcInnerAccPotAndGTKickInv_scalars cfg sqrt self ps f f'
  have ha := ARInteraction_calcAccPotAndGTKick_scalars cfg sqrt ar ps f f'
  refine ⟨⟨hs.1, hs.2, ?_⟩, ⟨ha.1, ha.2, ?_⟩, rfl, rfl, rfl, rfl, ?_, ?_⟩
  · intro k hk
    have hp : ps[k]? = some ps[k] := List.getElem?_eq_getElem hk
    have hx : f[k]? = some (f.get ⟨k, by omega⟩) := List.getElem?_eq_getElem (by omega)
    have hy : f'[k]? = some (f'.get ⟨k, by omega⟩) := List.getElem?_eq_getElem (by omega)
    refine ⟨_, _, Interaction_calcInnerAccPotAndGTKickInv_get cfg hT sqrt self ps f k _ _ hp hx,
      Interaction_calcInnerAccPotAndGTKickInv_get cfg hT sqrt self ps f' k _ _ hp hy, rfl, ?_⟩
    simp only [hs.2]
  · intro k hk
    have hp : ps[k]? = some ps[k] := List.getElem?_eq_getElem hk
    have hx : f[k]? = some (f.get ⟨k, by omega⟩) := List.getElem?_eq_getElem (by omega)
    have hy : f'[k]? = some (f'.get ⟨k, by omega⟩) := List.getElem?_eq_getElem (by omega)
    exact ⟨_, _, ARInteraction_calcAccPotAndGTKick_get cfg hT sqrt ar ps f k _ _ hp hx,
      ARInteraction_calcAccPotAndGTKick_get cfg hT sqrt ar ps f' k _ _ hp hy, rfl, rfl⟩
  · simp only [Interaction.calcInnerAccPotAndGTKickInvTwo, hT, if_true]
  · simp only [Interaction.calcInnerAccPotAndGTKickInvTwo, hT, if_true]

/-- Witness of C36: three particles of mass 1, 1, 9 at `x = 0, 1, 3` with `G = 2`; a force
array filled with 7 and one filled with 0 give the same potential, and the same `acc_in`
and `gtgrad` for the first particle. -/
theorem inner_kernels_leave_no_stale_values_witness :
    ((⟨2⟩ : Interaction ℝ).calcInnerAccPotAndGTKickInv Config.ttl Real.sqrt
        [Force.filled 7, Force.filled 7, Force.filled 7]
        [Particle.atRest 1 0 0 0, Particle.atRest 1 1 0 0, Particle.atRest 9 3 0 0]).epot
      = ((⟨2⟩ : Interaction ℝ).calcInnerAccPotAndGTKickInv Config.ttl Real.sqrt
        [Force.filled 0, Force.filled 0, Force.filled 0]
        [Particle.atRest 1 0 0 0, Particle.atRest 1 1 0 0, Particle.atRest 9 3 0 0]).epot
    ∧ ∃ x y,
      ((⟨2⟩ : Interaction ℝ).calcInnerAccPotAndGTKickInv Config.ttl Real.sqrt
        [Force.filled 7, Force.filled 7, Force.filled 7]
        [Particle.atRest 1 0 0 0, Particle.atRest 1 1 0 0, Particle.atRest 9 3 0 0]).force[0]?
        = some x
      ∧ ((⟨2⟩ : Interaction ℝ).calcInnerAccPotAndGTKickInv Config.ttl Real.sqrt
        [Force.filled 0, Force.filled 0, Force.filled 0]
        [Particle.atRest 1 0 0 0, Particle.atRest 1 1 0 0, Particle.atRest 9 3 0 0]).force[0]?
        = some y
      ∧ x.acc_in = y.acc_in ∧ x.gtgrad = y.gtgrad := by
  have h := (inner_kernels_leave_no_stale_values Config.ttl rfl Real.sqrt ⟨2⟩ ⟨0, 2⟩
    [Particle.atRest 1 0 0 0, Particle.atRest 1 1 0 0, Particle.atRest 9 3 0 0]
    [Force.filled 7, Force.filled 7, Force.filled 7]
    [Force.filled 0, Force.filled 0, Force.filled 0] (by decide) (by decide)
    (Particle.atRest 1 0 0 0) (Particle.atRest 1 1 0 0)
    (Force.filled 7) (Force.filled 7) (Force.filled 0) (Force.filled 0)).1
  exact ⟨h.1, h.2.2 0 (by decide)⟩

/-- C39: the indexing of the tree builder is safe and covers every placeholder.  For a
group of `n >= 2` particles (and a core builder whose nodes, the slots below `n_real - 1`,
have no particle without positive mass as a child) `generateBinaryTree` returns: no
assertion fails, and `ilast < n - 1` holds in every iteration of the last loop.  Every node
index that the loops after the core pairing write through (`ilast`, `i-1`, `i`, 0),
computed as the source does with `int`, lies in `0 .. n-2`.  The written indices are, in
order and once each, the slots from `n_real - 1` (from 0 with fewer than two real
particles) to `n - 2`; a slot that is not among them is left as the core pairing (or the
caller) left it, and a slot `j` among them holds what it held with the members set once:
the second member is a particle without positive mass, and the first member is the node
`j - 1`, or in slot 0 the lone real particle (particle 0 without one).  So every node that
a written slot of the result refers to is the slot just below it, an index in `0 .. n-3`,
and every particle that it refers to is an index of the particle array.  Each particle
without positive mass is a child of exactly one node of the tree. -/
theorem tree_builder_indexing_safe
    (generateCore : (Nat → BinaryTree ℝ) → List Nat → List (Particle ℝ) → ℝ
      → (Nat → BinaryTree ℝ))
    (self : Information ℝ) (ps : List (Particle ℝ)) (G : ℝ) (hn : 2 ≤ ps.length)
    (hcore : ∀ k, k < (realIndices ps).length - 1 → ∀ u ∈ unusedIndices ps,
      (generateCore self.binarytree.data (realIndices ps) ps G k).hasLeaf u = false) :
    ∃ out, self.generateBinaryTree generateCore ps G = some out
      ∧ (∀ i, i < (unusedIndices ps).length →
          ((realIndices ps).length : Int) - 1 + i < (ps.length : Int) - 1)
      ∧ (∀ s ∈ Information.writtenSlots ps, 0 ≤ s ∧ s ≤ (ps.length : Int) - 2)
      ∧ (∀ j : Nat, (j : Int) ∈ Information.writtenSlots ps → ∀ k,
          (out.binarytree.data j).member_left = Member.node k
            ∨ (out.binarytree.data j).member_right = Member.node k →
          k + 1 = j ∧ k + 2 < ps.length)
      ∧ (∀ j : Nat, (j : Int) ∈ Information.writtenSlots ps → ∀ i,
          (out.binarytree.data j).member_left = Member.particle i
            ∨ (out.binarytree.data j).member_right = Member.particle i →
          i < ps.length)
      ∧ Information.writtenSlots ps
        = (List.range'
            (if (realIndices ps).length ≤ 1 then 0 else (realIndices ps).length - 1)
            (ps.length - 1
              - (if (realIndices ps).length ≤ 1 then 0 else (realIndices ps).length - 1))).map
            (fun i : Nat => (i : Int))
      ∧ (∀ j : Nat, (j : Int) ∉ Information.writtenSlots ps →
          out.binarytree.data j
            = (if 2 ≤ (realIndices ps).length then
                generateCore self.binarytree.data (realIndices ps) ps G
              else self.binarytree.data) j)
      ∧ (∀ j : Nat, (j : Int) ∈ Information.writtenSlots ps →
          ∃ u ∈ unusedIndices ps,
            out.binarytree.data j
              = ((if 2 ≤ (realIndices ps).length then
                    generateCore self.binarytree.data (realIndices ps) ps G
                  else self.binarytree.data) j).setMembers
                  (if j = 0 then Member.particle ((realIndices ps).headD 0)
                    else Member.node (j - 1))
                  (Member.particle u)
                  (if j = 0 then (((realIndices ps).headD 0 : Nat) : Int) else -1)
                  (u : Int))
      ∧ (∀ u ∈ unusedIndices ps,
          ∃! j, j < ps.length - 1 ∧ (out.binarytree.data j).hasLeaf u = true) := by
  have hsum := realIndices_length_add ps
  obtain ⟨out, hout, _, hkeep, hset⟩ :=
    Information_generateBinaryTree_slots generateCore self ps G hn
  obtain ⟨out', hout', hleaf⟩ :=
    Information_generateBinaryTree_leaf generateCore self ps G hn hcore
  have heq : out' = out := Option.some.inj (hout'.symm.trans hout)
  subst heq
  have hmem : ∀ j : Nat, (j : Int) ∈ Information.writtenSlots ps
      ↔ (realIndices ps).length - 1 ≤ j ∧ j < ps.length - 1 := by
    intro j
    rw [Information_writtenSlots_mem ps hn]
    by_cases hle : (realIndices ps).length ≤ 1
    · rw [if_pos hle]
      constructor
      · rintro ⟨_, h⟩
        exact ⟨by omega, h⟩
      · rintro ⟨_, h⟩
        exact ⟨Nat.zero_le _, h⟩
    · rw [if_neg hle]
  have hwritten : ∀ j : Nat, (j : Int) ∈ Information.writtenSlots ps →
      ∃ u ∈ unusedIndices ps,
        out'.binarytree.data j
          = ((if 2 ≤ (realIndices ps).length then
                generateCore self.binarytree.data (realIndices ps) ps G
              else self.binarytree.data) j).setMembers
              (if j = 0 then Member.particle ((realIndices ps).headD 0)
                else Member.node (j - 1))
              (Member.particle u)
              (if j = 0 then (((realIndices ps).headD 0 : Nat) : Int) else -1)
              (u : Int) := by
    intro j hj
    obtain ⟨h1, h2⟩ := (hmem j).mp hj
    obtain ⟨u, hu, hd⟩ := hset j h1 h2
    exact ⟨u, List.mem_iff_getElem?.mpr ⟨_, hu⟩, hd⟩
  refine ⟨out', hout, ?_, Information_writtenSlots_bounds ps hn, ?_, ?_,
    Information_writtenSlots_eq ps hn, ?_, hwritten, hleaf⟩
  · intro i hi
    omega
  · intro j hj k hk
    obtain ⟨h1, h2⟩ := (hmem j).mp hj
    obtain ⟨u, _, hd⟩ := hwritten j hj
    rw [hd] at hk
    simp only [BinaryTree.setMembers] at hk
    by_cases hj0 : j = 0
    · rw [if_pos hj0] at hk
      rcases hk with hk | hk <;> cases hk
    · rw [if_neg hj0] at hk
      rcases hk with hk | hk
      · have hk' : j - 1 = k := Member.node.inj hk
        omega
      · cases hk
  · intro j hj i hi
    obtain ⟨u, hu, hd⟩ := hwritten j hj
    rw [hd] at hi
    simp only [BinaryTree.setMembers] at hi
    rcases hi with hi | hi
    · by_cases hj0 : j = 0
      · rw [if_pos hj0] at hi
        have hi' : (realIndices ps).headD 0 = i := Member.particle.inj hi
        rw [← hi']
        exact realIndices_headD_lt ps hn
      · rw [if_neg hj0] at hi
        cases hi
    · have hi' : u = i := Member.particle.inj hi
      rw [← hi']
      exact unusedIndices_lt ps u hu
  · intro j hj
    apply hkeep
    have := (hmem j).not.mp hj
    omega

/-- Witness of C39: three particles of mass 1, 1, 0 and a core builder that puts the two
real particles into slot 0: the tree is built, slot 1 is the one slot written after the
core pairing, its first member is the node 0 and its second the particle 2, and the
particle of mass 0 is a child of exactly one node. -/
theorem tree_builder_indexing_safe_witness :
    ∃ out, (Information.new (BinaryTree.circular (1 : ℝ) 1 1 1)).generateBinaryTree
          (fun d idx _ _ => writeNode d 0 (fun b => b.setMembers
            (Member.particle (idx.headD 0)) (Member.particle (idx.getD 1 0))
            (idx.headD 0) (idx.getD 1 0)))
          [Particle.atRest 1 0 0 0, Particle.atRest 1 1 0 0, Particle.atRest 0 2 0 0] 1
        = some out
      ∧ Information.writtenSlots
          [Particle.atRest (1 : ℝ) 0 0 0, Particle.atRest 1 1 0 0, Particle.atRest 0 2 0 0]
        = [1]
      ∧ (out.binarytree.data 1).member_left = Member.node 0
      ∧ (out.binarytree.data 1).member_right = Member.particle 2
      ∧ ∃! j, j < 2 ∧ (out.binarytree.data j).hasLeaf 2 = true := by
  have hr : realIndices [Particle.atRest (1 : ℝ) 0 0 0, Particle.atRest 1 1 0 0,
      Particle.atRest 0 2 0 0] = [0, 1] := by
    simp [realIndices, List.enum, List.enumFrom, List.filter, Particle.atRest]
  have hu : unusedIndices [Particle.atRest (1 : ℝ) 0 0 0, Particle.atRest 1 1 0 0,
      Particle.atRest 0 2 0 0] = [2] := by
    simp [unusedIndices, List.enum, List.enumFrom, List.filter, Particle.atRest]
  obtain ⟨out, h1, _, _, _, _, hw, _, hset, hleaf⟩ := tree_builder_indexing_safe
    (fun d idx _ _ => writeNode d 0 (fun b => b.setMembers
      (Member.particle (idx.headD 0)) (Member.particle (idx.getD 1 0))
      (idx.headD 0) (idx.getD 1 0)))
    (Information.new (BinaryTree.circular (1 : ℝ) 1 1 1))
    [Particle.atRest 1 0 0 0, Particle.atRest 1 1 0 0, Particle.atRest 0 2 0 0] 1
    (by simp)
    (by
      intro k hk u hu'
      rw [hr] at hk
      rw [hu, List.mem_singleton] at hu'
      have hk0 : k = 0 := by
        simp only [List.length_cons, List.length_nil] at hk
        omega
      subst hk0
      subst hu'
      simp [writeNode, BinaryTree.setMembers, BinaryTree.hasLeaf, hr])
  have hw1 : Information.writtenSlots
      [Particle.atRest (1 : ℝ) 0 0 0, Particle.atRest 1 1 0 0, Particle.atRest 0 2 0 0]
      = [1] := by
    rw [hw, hr]
    decide
  obtain ⟨u, hu', hd⟩ := hset 1 (by rw [hw1]; simp)
  rw [hu, List.mem_singleton] at hu'
  subst hu'
  refine ⟨out, h1, hw1, ?_, ?_, ?_⟩
  · rw [hd]
    rfl
  · rw [hd]
    rfl
  · have := hleaf 2 (by rw [hu]; exact List.mem_singleton_self _)
    simpa using this

/-- C33 (the code departs from the claim): the snapshot of `Information` does not bring
`ds` back.  With a four-byte `int` and an eight-byte `Float` (binary64, low byte first), an
`Information` with `ds = 1.0` and the option `later` is written as the eight bytes
`00 00 00 00 01 00 00 00`: four bytes of `ds` and the option.  Read into a
default-constructed `Information` (`ds = 0.0`), they give the option `later` and `ds = 0`,
not 1, although the eight bytes of 1.0 are read back as 1.0. -/
theorem information_snapshot_loses_ds :
    ObjRep.binary64.FaithfulAt 1
    ∧ ({ ds := 1, fix_step_option := FixStepOption.later,
         binarytree := (Information.new (BinaryTree.circular (1 : ℚ) 1 1 1)).binarytree }
        : Information ℚ).writeBinary 4 ObjRep.binary64 ObjRep.fixStepOption []
      = [0, 0, 0, 0, 1, 0, 0, 0]
    ∧ ∃ out, (Information.new (BinaryTree.circular (1 : ℚ) 1 1 1)).readBinary 4
          ObjRep.binary64 ObjRep.fixStepOption [0, 0, 0, 0, 1, 0, 0, 0] = some (out, [])
        ∧ out.fix_step_option = FixStepOption.later ∧ out.ds = 0 ∧ out.ds ≠ 1 := by
  refine ⟨⟨by decide, by decide⟩, by decide, ?_⟩
  rw [Information_readBinary_eq, if_neg (by decide)]
  refine ⟨_, rfl, by decide, ?_, ?_⟩
  · norm_num [ObjRep.binary64, Information.new]
    decide
  · norm_num [ObjRep.binary64, Information.new]
    decide

/-- C34 (the code departs from the claim): the snapshot of `Interaction` does not bring the
gravitational constant back.  `Interaction::writeBinary` writes nothing and
`Interaction::readBinary` reads nothing: for an `Interaction` with
`gravitational_constant = 1`, which passes `checkParams`, the stream stays empty, and the
default-constructed object that it is read into keeps `gravitational_constant = -1`, with
which `checkParams` aborts. -/
theorem interaction_snapshot_drops_gravitational_constant :
    (⟨1⟩ : Interaction ℝ).checkParams = some true
    ∧ (⟨1⟩ : Interaction ℝ).writeBinary [] = []
    ∧ (Interaction.new : Interaction ℝ).readBinary ((⟨1⟩ : Interaction ℝ).writeBinary [])
      = (Interaction.new, [])
    ∧ ((Interaction.new : Interaction ℝ).readBinary
        ((⟨1⟩ : Interaction ℝ).writeBinary [])).1.gravitational_constant = -1
    ∧ ((Interaction.new : Interaction ℝ).readBinary
        ((⟨1⟩ : Interaction ℝ).writeBinary [])).1.checkParams = none := by
  refine ⟨?_, rfl, rfl, rfl, ?_⟩
  · simp [Interaction.checkParams, ASSERT]
  · simp [Interaction.checkParams, ASSERT, Interaction.readBinary, Interaction.new]

/-- C35 (the code departs from the claim): `Information::readBinary` returns after a partial
read.  With a four-byte `int`, an eight-byte `Float` and a four-byte option the two members
that the snapshot is about hold 12 bytes, but `readBinary` asks for `sizeof(int)` bytes of
`ds`, so it returns on every stream of 8 bytes or more.  On the first 8 of the 12 bytes of a
record with `ds = 0.0` and the option `later` (eight zero bytes), read into an `Information`
with `ds = 1.0` and the option `none`, it does not abort: the stream is consumed, `ds` is
made of four bytes of the stream and the last four bytes of the old value and is still 1.0,
and the option is `always`, read from the second half of the bytes of `ds`. -/
theorem information_short_read_returns :
    ObjRep.binary64.size + ObjRep.fixStepOption.size = 12
    ∧ (ObjRep.binary64.bytes 0 ++ ObjRep.fixStepOption.bytes FixStepOption.later).length = 12
    ∧ ObjRep.binary64.FaithfulAt 0 ∧ ObjRep.binary64.FaithfulAt 1
    ∧ (ObjRep.binary64.bytes 0 ++ ObjRep.fixStepOption.bytes FixStepOption.later).take 8
      = [0, 0, 0, 0, 0, 0, 0, 0]
    ∧ (∀ (info : Information ℚ) (fin : List Byte), 8 ≤ fin.length →
        ∃ out, info.readBinary 4 ObjRep.binary64 ObjRep.fixStepOption fin
          = some (out, fin.drop 8))
    ∧ ∃ out, ({ ds := 1, fix_step_option := FixStepOption.none,
                binarytree := (Information.new (BinaryTree.circular (1 : ℚ) 1 1 1)).binarytree }
          : Information ℚ).readBinary 4 ObjRep.binary64 ObjRep.fixStepOption
            ((ObjRep.binary64.bytes 0
              ++ ObjRep.fixStepOption.bytes FixStepOption.later).take 8) = some (out, [])
        ∧ ObjRep.binary64.bytes out.ds
          = [0, 0, 0, 0] ++ (ObjRep.binary64.bytes 1).drop 4
        ∧ out.ds = 1 ∧ out.ds ≠ 0
        ∧ out.fix_step_option = FixStepOption.always := by
  refine ⟨rfl, by decide, ⟨by decide, by decide⟩, ⟨by decide, by decide⟩, by decide, ?_, ?_⟩
  · intro info fin hfin
    rw [Information_readBinary_eq, if_neg (by
      have h4 : ObjRep.fixStepOption.size = 4 := rfl
      rw [h4]
      omega)]
    exact ⟨_, rfl⟩
  · rw [Information_readBinary_eq, if_neg (by decide)]
    refine ⟨_, rfl, ?_, ?_, ?_, ?_⟩
    · norm_num [ObjRep.binary64]
    · norm_num [ObjRep.binary64]
    · norm_num [ObjRep.binary64]
    · decide

/-! ## Further properties -/

/-- After `Interaction::calcAccPotAndGTKickInv` the force record of every member `k`
exists and has `acc_pert` equal to zero, whatever the array held before the call. -/
theorem Interaction_calcAccPotAndGTKickInv_resets_acc_pert {F : Type} [LinearOrderedField F]
    {Perturber : Type} (cfg : Config) (sqrt : F → F) (self : Interaction F)
    (force : List (Force F)) (ps : List (Particle F)) (cm : Particle F) (pert : Perturber)
    (t : F) (k : Nat) (hk : k < ps.length) (hfk : k < force.length) :
    ∃ f, (self.calcAccPotAndGTKickInv cfg sqrt force ps cm pert t).force[k]? = some f
      ∧ f.acc_pert = ⟨0, 0, 0⟩ := by
  simp only [Interaction.calcAccPotAndGTKickInv, writeLoop_get, if_pos hk]
  have hlen : ∀ inner : KickOut F, inner.force.length = force.length →
      ∃ f, Option.map (fun f : Force F => { f with acc_pert := (⟨0, 0, 0⟩ : Vec3 F) })
          inner.force[k]? = some f ∧ f.acc_pert = ⟨0, 0, 0⟩ := by
    intro inner hl
    have hk' : k < inner.force.length := by omega
    rw [List.getElem?_eq_getElem hk']
    exact ⟨_, rfl, rfl⟩
  apply hlen
  split
  · simp only [writeForce_length]
  · exact Interaction_calcInnerAccPotAndGTKickInv_length cfg sqrt self force ps

/-- Witness: two members with stale force records. -/
theorem Interaction_calcAccPotAndGTKickInv_resets_acc_pert_witness :
    ∃ f, ((⟨2⟩ : Interaction ℝ).calcAccPotAndGTKickInv Config.ttl Real.sqrt
        [Force.filled 7, Force.filled 7] [Particle.atRest 3 0 0 0, Particle.atRest 5 1 0 0]
        (Particle.atRest 8 0 0 0) () 0).force[1]? = some f ∧ f.acc_pert = ⟨0, 0, 0⟩ :=
  Interaction_calcAccPotAndGTKickInv_resets_acc_pert Config.ttl Real.sqrt ⟨2⟩
    [Force.filled 7, Force.filled 7] [Particle.atRest 3 0 0 0, Particle.atRest 5 1 0 0]
    (Particle.atRest 8 0 0 0) () 0 1 (by decide) (by decide)

/-- In the gradient-based sum-style configuration the vector that the general kernel of
`Interaction` accumulates in `_force[i].gtgrad` is `G` times the gradient named by the
spec, for every particle array and every `G`. -/
theorem Interaction_gtgrad_is_G_times_gradient {F : Type} [LinearOrderedField F]
    (cfg : Config) (hT : cfg.AR_TTL = true) (hsum : cfg.AR_TTL_GT_MULTI = false)
    (sqrt : F → F) (self : Interaction F) (ps : List (Particle F)) (i : Nat)
    (pi : Particle F) :
    (self.innerLoop cfg sqrt ps i pi).gtgradi
      = ⟨self.gravitational_constant
            * (specGtgrad sqrt self.gravitational_constant ps i pi).c0,
         self.gravitational_constant
            * (specGtgrad sqrt self.gravitational_constant ps i pi).c1,
         self.gravitational_constant
            * (specGtgrad sqrt self.gravitational_constant ps i pi).c2⟩ := by
  unfold Interaction.innerLoop specGtgrad
  exact Interaction_fold_gtgradi cfg hT hsum sqrt self i pi ps.enum _ ⟨0, 0, 0⟩
    (by simp) (by simp) (by simp)

/-- Witness: `G = 2` and the three particles of the failing input of C7. -/
theorem Interaction_gtgrad_is_G_times_gradient_witness :
    ((⟨2⟩ : Interaction ℝ).innerLoop Config.ttl Real.sqrt
        [Particle.atRest 1 0 0 0, Particle.atRest 1 1 0 0, Particle.atRest 9 3 0 0] 0
        (Particle.atRest 1 0 0 0)).gtgradi
      = ⟨(⟨2⟩ : Interaction ℝ).gravitational_constant * (specGtgrad Real.sqrt 2
            [Particle.atRest 1 0 0 0, Particle.atRest 1 1 0 0, Particle.atRest 9 3 0 0] 0
            (Particle.atRest 1 0 0 0)).c0,
         (⟨2⟩ : Interaction ℝ).gravitational_constant * (specGtgrad Real.sqrt 2
            [Particle.atRest 1 0 0 0, Particle.atRest 1 1 0 0, Particle.atRest 9 3 0 0] 0
            (Particle.atRest 1 0 0 0)).c1,
         (⟨2⟩ : Interaction ℝ).gravitational_constant * (specGtgrad Real.sqrt 2
            [Particle.atRest 1 0 0 0, Particle.atRest 1 1 0 0, Particle.atRest 9 3 0 0] 0
            (Particle.atRest 1 0 0 0)).c2⟩ :=
  Interaction_gtgrad_is_G_times_gradient Config.ttl rfl rfl Real.sqrt ⟨2⟩ _ 0 _

/-- For `G > 0`, positive masses and `semi > 0`, the estimate of `calcDsKeplerIter` for the
hyperbolic node with the opposite `semi` is below the estimate for the bound node exactly
when `0.0245436926 < 0.19634954084 * sqrt G`: the ratio of the two estimates depends on
`G`. -/
theorem Information_dsKepler_hyperbolic_lt_iff (G : ℝ) (bin : BinaryTree ℝ) (hG : 0 < G)
    (h1 : 0 < bin.m1) (h2 : 0 < bin.m2) (ha : 0 < bin.semi) :
    Information.dsKepler Real.sqrt G { bin with semi := -bin.semi }
        < Information.dsKepler Real.sqrt G bin
      ↔ 0.0245436926 < 0.19634954084 * Real.sqrt G := by
  have hneg : ¬ (-bin.semi > 0) := by
    simp only [gt_iff_lt, neg_pos, not_lt]
    exact le_of_lt ha
  have hM : 0 < bin.m1 + bin.m2 := add_pos h1 h2
  have hs : 0 < Real.sqrt (bin.semi / (bin.m1 + bin.m2)) := Real.sqrt_pos.mpr (div_pos ha hM)
  have hP : 0 < bin.m1 * bin.m2 := mul_pos h1 h2
  have hsplit : Real.sqrt (G * bin.semi / (bin.m1 + bin.m2))
      = Real.sqrt G * Real.sqrt (bin.semi / (bin.m1 + bin.m2)) := by
    rw [mul_div_assoc, Real.sqrt_mul (le_of_lt hG)]
  simp only [Information.dsKepler, hneg, if_false, gt_iff_lt, ha, if_true, neg_neg, hsplit]
  have hsP : 0 < Real.sqrt (bin.semi / (bin.m1 + bin.m2)) * (bin.m1 * bin.m2) := mul_pos hs hP
  rw [show 0.0245436926 * Real.sqrt (bin.semi / (bin.m1 + bin.m2)) * (bin.m1 * bin.m2)
      = 0.0245436926 * (Real.sqrt (bin.semi / (bin.m1 + bin.m2)) * (bin.m1 * bin.m2)) by ring,
    show 0.19634954084 * (Real.sqrt G * Real.sqrt (bin.semi / (bin.m1 + bin.m2)))
        * (bin.m1 * bin.m2)
      = 0.19634954084 * Real.sqrt G
        * (Real.sqrt (bin.semi / (bin.m1 + bin.m2)) * (bin.m1 * bin.m2)) by ring]
  exact mul_lt_mul_right hsP

/-- Witness: with `G = 1/100` the condition fails, so the hyperbolic estimate is not
below the bound one. -/
theorem Information_dsKepler_hyperbolic_lt_iff_witness :
    ¬ Information.dsKepler Real.sqrt (1 / 100)
          { BinaryTree.circular (1 : ℝ) 1 2 1 with
            semi := -(BinaryTree.circular (1 : ℝ) 1 2 1).semi }
        < Information.dsKepler Real.sqrt (1 / 100) (BinaryTree.circular 1 1 2 1) := by
  rw [Information_dsKepler_hyperbolic_lt_iff (1 / 100) (BinaryTree.circular 1 1 2 1)
    (by norm_num) (by norm_num [BinaryTree.circular]) (by norm_num [BinaryTree.circular])
    (by norm_num [BinaryTree.circular]), sqrt_hundredth]
  norm_num

/-- The snapshots of `ARInteraction` and `HermiteInteraction` are copies of the whole
object: written and read back into an object of the class, where the object representation
is faithful at the value written, they bring `eps_sq` and `G` back, so `checkParams` gives
after the read what it gave before the write. -/
theorem ARInteraction_snapshot_round_trip {F : Type} [LinearOrderedField F]
    (repAR : ObjRep (ARInteraction F)) (repH : ObjRep (HermiteInteraction F))
    (x self : ARInteraction F) (y selfH : HermiteInteraction F)
    (hx : repAR.FaithfulAt x) (hself : (repAR.bytes self).length = repAR.size)
    (hy : repH.FaithfulAt y) (hselfH : (repH.bytes selfH).length = repH.size) :
    self.readBinary repAR (x.writeBinary repAR []) = some (x, [])
    ∧ selfH.readBinary repH (y.writeBinary repH []) = some (y, [])
    ∧ (∀ out rest, self.readBinary repAR (x.writeBinary repAR []) = some (out, rest) →
        out.checkParams = x.checkParams)
    ∧ (∀ out rest, selfH.readBinary repH (y.writeBinary repH []) = some (out, rest) →
        out.checkParams = y.checkParams) := by
  have h1 : self.readBinary repAR (x.writeBinary repAR []) = some (x, []) :=
    readWhole_writeWhole repAR self x hx hself
  have h2 : selfH.readBinary repH (y.writeBinary repH []) = some (y, []) :=
    readWhole_writeWhole repH selfH y hy hselfH
  refine ⟨h1, h2, ?_, ?_⟩
  · intro out rest h
    rw [h1] at h
    cases h
    rfl
  · intro out rest h
    rw [h2] at h
    cases h
    rfl

/-- Witness: `eps_sq = 0` and `G = 1` as two binary64 values one after the other, read into
default-constructed objects. -/
theorem ARInteraction_snapshot_round_trip_witness :
    (ARInteraction.new : ARInteraction ℚ).readBinary
        (ObjRep.twoFloats ObjRep.binary64 ARInteraction.mk ARInteraction.eps_sq
          ARInteraction.G)
        ((⟨0, 1⟩ : ARInteraction ℚ).writeBinary
          (ObjRep.twoFloats ObjRep.binary64 ARInteraction.mk ARInteraction.eps_sq
            ARInteraction.G) [])
      = some (⟨0, 1⟩, []) :=
  (ARInteraction_snapshot_round_trip
    (ObjRep.twoFloats ObjRep.binary64 ARInteraction.mk ARInteraction.eps_sq ARInteraction.G)
    (ObjRep.twoFloats ObjRep.binary64 HermiteInteraction.mk HermiteInteraction.eps_sq
      HermiteInteraction.G)
    ⟨0, 1⟩ ARInteraction.new ⟨0, 1⟩ HermiteInteraction.new
    ⟨by decide, by simp [ObjRep.twoFloats, ObjRep.binary64]⟩
    (by norm_num [ObjRep.twoFloats, ObjRep.binary64, ARInteraction.new])
    ⟨by decide, by simp [ObjRep.twoFloats, ObjRep.binary64]⟩
    (by norm_num [ObjRep.twoFloats, ObjRep.binary64, HermiteInteraction.new])).1

/-- Premerge scheduling with the time that the source computes.  For a node with two
members, both of status `single`, and an interrupt record of status `none`: if the
pericentre `semi*(1-ecc)` is below the sum of the radii, the pair approaches
(`(x1-x2).(v1-v2) < 0`) and the `t_peri` of the source, which is the integer part of
`|mean_anomaly/6.28318530718*period|`, is not less than `time_end - time_now`, then after
`modifyAndInterruptIter` both members have the status `premerge` and the check time
`time_now + t_peri`, their mass, position, velocity and radius are unchanged, and the
interrupt record is unchanged. -/
theorem premerge_scheduling_with_integer_time (calcEccAnomaly : BinaryTree ℝ → ℝ → ℝ)
    (calcMeanAnomaly : BinaryTree ℝ → ℝ → ℝ → ℝ) (intr : BinaryInterrupt ℝ)
    (bin : BinaryTree ℝ) (p1 p2 : Particle ℝ)
    (hn : bin.getMemberN = 2) (hs : intr.status = InterruptStatus.none)
    (h1 : p1.status = Status.single) (h2 : p2.status = Status.single)
    (hperi : bin.semi * (1 - bin.ecc) < p1.radius + p2.radius)
    (hdr : (p1.pos.c0 - p2.pos.c0) * (p1.vel.c0 - p2.vel.c0)
        + (p1.pos.c1 - p2.pos.c1) * (p1.vel.c1 - p2.vel.c1)
        + (p1.pos.c2 - p2.pos.c2) * (p1.vel.c2 - p2.vel.c2) < 0)
    (ht : ¬ Interaction.tPeri Real.sqrt calcEccAnomaly calcMeanAnomaly bin p1 p2
        < intr.time_end - intr.time_now) :
    ∃ out, Interaction.modifyAndInterruptIter Real.sqrt calcEccAnomaly calcMeanAnomaly intr
        bin p1 p2 = out
      ∧ out.p1.status = Status.premerge ∧ out.p2.status = Status.premerge
      ∧ out.p1.time_check
          = intr.time_now + Interaction.tPeri Real.sqrt calcEccAnomaly calcMeanAnomaly bin p1 p2
      ∧ out.p2.time_check
          = intr.time_now + Interaction.tPeri Real.sqrt calcEccAnomaly calcMeanAnomaly bin p1 p2
      ∧ out.p1.mass = p1.mass ∧ out.p1.pos = p1.pos ∧ out.p1.vel = p1.vel
      ∧ out.p1.radius = p1.radius
      ∧ out.p2.mass = p2.mass ∧ out.p2.pos = p2.pos ∧ out.p2.vel = p2.vel
      ∧ out.p2.radius = p2.radius
      ∧ out.bin_interrupt = intr
      ∧ out.bin_interrupt.status = InterruptStatus.none
      ∧ out.bin_interrupt.adr = intr.adr := by
  have h := Interaction_modifyAndInterruptIter_single Real.sqrt calcEccAnomaly calcMeanAnomaly
    intr bin p1 p2 hn hs h1 h2
  have hd : Interaction.drdv p1 p2 = (p1.pos.c0 - p2.pos.c0) * (p1.vel.c0 - p2.vel.c0)
      + (p1.pos.c1 - p2.pos.c1) * (p1.vel.c1 - p2.vel.c1)
      + (p1.pos.c2 - p2.pos.c2) * (p1.vel.c2 - p2.vel.c2) := rfl
  rw [hd, if_pos ⟨hperi, hdr⟩, if_neg ht] at h
  refine ⟨_, h, rfl, rfl, rfl, rfl, rfl, rfl, rfl, rfl, rfl, rfl, rfl, rfl, rfl, hs, rfl⟩

/-- Witness: a node with `semi = 1`, `ecc = 0`, `period = 2`; two members of status
`single` and radius 1, the first at `x = 0` with velocity 1, the second at rest at `x = 1`;
the mean anomaly is taken as 6.28318530718, so the time to pericentre is 2, not less than
`time_end - time_now = 1 - 0`: both members become `premerge` with check time 2. -/
theorem premerge_scheduling_with_integer_time_witness :
    ∃ out, Interaction.modifyAndInterruptIter Real.sqrt (fun _ _ => 0)
        (fun _ _ _ => 6.28318530718) ⟨none, 0, 1, InterruptStatus.none⟩
        (BinaryTree.circular 1 1 1 2) (Particle.body 1 0 1 1 Status.single 0)
        (Particle.body 1 1 0 1 Status.single 0) = out
      ∧ out.p1.status = Status.premerge ∧ out.p2.status = Status.premerge
      ∧ out.p1.time_check = 2 ∧ out.p2.time_check = 2
      ∧ out.bin_interrupt.status = InterruptStatus.none := by
  have ht : Interaction.tPeri Real.sqrt (fun _ _ => 0) (fun _ _ _ => (6.28318530718 : ℝ))
      (BinaryTree.circular 1 1 1 2) (Particle.body 1 0 1 1 Status.single 0)
      (Particle.body 1 1 0 1 Status.single 0) = 2 := by
    norm_num [Interaction.tPeri, Interaction.abs, Interaction.tPeriArg, truncToInt,
      BinaryTree.circular]
  obtain ⟨out, ho, a1, a2, a3, a4, _, _, _, _, _, _, _, _, _, a5, _⟩ :=
    premerge_scheduling_with_integer_time (fun _ _ => 0) (fun _ _ _ => 6.28318530718)
      ⟨none, 0, 1, InterruptStatus.none⟩ (BinaryTree.circular 1 1 1 2)
      (Particle.body 1 0 1 1 Status.single 0) (Particle.body 1 1 0 1 Status.single 0)
      rfl rfl rfl rfl
      (by norm_num [BinaryTree.circular, Particle.body])
      (by norm_num [Particle.body])
      (by rw [ht]; norm_num)
  rw [ht] at a3 a4
  exact ⟨out, ho, a1, a2, by rw [a3]; norm_num, by rw [a4]; norm_num, a5⟩

/-- Each `readBinary` aborts exactly when the stream holds fewer bytes than the routine asks
for: `sizeof(*this)` for `BinarySlowDown`, `ARInteraction` and `HermiteInteraction`, which
are read as a whole, and `sizeof(int)` plus `sizeof(FixStepOption)` for `Information`, which
is the number of bytes that `Information::writeBinary` writes.  When it returns, the stream
has advanced by that number of bytes, and the object holds them over its first bytes (over
the first `sizeof(int)` bytes of `ds` and over `fix_step_option` for `Information`). -/
theorem readBinary_aborts_below_requested_size {F B : Type} (sizeof_int : Nat)
    (repF : ObjRep F) (repO : ObjRep FixStepOption) (repB : ObjRep B)
    (repAR : ObjRep (ARInteraction F)) (repH : ObjRep (HermiteInteraction F))
    (info : Information F) (b : B) (ar : ARInteraction F) (hi : HermiteInteraction F)
    (fin : List Byte) :
    (info.readBinary sizeof_int repF repO fin
      = if fin.length < sizeof_int + repO.size then none
        else some
          ({ info with
              ds := repF.value (fin.take sizeof_int ++ (repF.bytes info.ds).drop sizeof_int)
              fix_step_option := repO.value ((fin.drop sizeof_int).take repO.size
                ++ (repO.bytes info.fix_step_option).drop repO.size) },
            fin.drop (sizeof_int + repO.size)))
    ∧ (sizeof_int ≤ (repF.bytes info.ds).length →
        repO.size ≤ (repO.bytes info.fix_step_option).length →
        (info.writeBinary sizeof_int repF repO []).length = sizeof_int + repO.size)
    ∧ (BinarySlowDown.readBinary repB b fin
      = if fin.length < repB.size then none
        else some (repB.value (fin.take repB.size ++ (repB.bytes b).drop repB.size),
          fin.drop repB.size))
    ∧ (ar.readBinary repAR fin
      = if fin.length < repAR.size then none
        else some (repAR.value (fin.take repAR.size ++ (repAR.bytes ar).drop repAR.size),
          fin.drop repAR.size))
    ∧ (hi.readBinary repH fin
      = if fin.length < repH.size then none
        else some (repH.value (fin.take repH.size ++ (repH.bytes hi).drop repH.size),
          fin.drop repH.size)) := by
  refine ⟨Information_readBinary_eq sizeof_int repF repO info fin, ?_,
    readWhole_eq repB b fin, readWhole_eq repAR ar fin, readWhole_eq repH hi fin⟩
  intro h1 h2
  rw [Information_writeBinary_nil, List.length_append, List.length_take, List.length_take]
  omega

/-- Witness: with a four-byte `int` and a four-byte option, `Information::readBinary`
aborts on a stream of seven bytes and returns on the stream of eight bytes, which it
consumes. -/
theorem readBinary_aborts_below_requested_size_witness :
    (Information.new (BinaryTree.circular (1 : ℚ) 1 1 1)).readBinary 4 ObjRep.binary64
        ObjRep.fixStepOption [0, 0, 0, 0, 1, 0, 0] = none
    ∧ ∃ out, (Information.new (BinaryTree.circular (1 : ℚ) 1 1 1)).readBinary 4
        ObjRep.binary64 ObjRep.fixStepOption [0, 0, 0, 0, 1, 0, 0, 0] = some (out, []) := by
  have h7 := (readBinary_aborts_below_requested_size 4 ObjRep.binary64 ObjRep.fixStepOption
    ObjRep.fixStepOption (ObjRep.twoFloats ObjRep.binary64 ARInteraction.mk
      ARInteraction.eps_sq ARInteraction.G)
    (ObjRep.twoFloats ObjRep.binary64 HermiteInteraction.mk HermiteInteraction.eps_sq
      HermiteInteraction.G)
    (Information.new (BinaryTree.circular (1 : ℚ) 1 1 1)) FixStepOption.none ⟨0, 1⟩ ⟨0, 1⟩
    [0, 0, 0, 0, 1, 0, 0]).1
  have h8 := (readBinary_aborts_below_requested_size 4 ObjRep.binary64 ObjRep.fixStepOption
    ObjRep.fixStepOption (ObjRep.twoFloats ObjRep.binary64 ARInteraction.mk
      ARInteraction.eps_sq ARInteraction.G)
    (ObjRep.twoFloats ObjRep.binary64 HermiteInteraction.mk HermiteInteraction.eps_sq
      HermiteInteraction.G)
    (Information.new (BinaryTree.circular (1 : ℚ) 1 1 1)) FixStepOption.none ⟨0, 1⟩ ⟨0, 1⟩
    [0, 0, 0, 0, 1, 0, 0, 0]).1
  rw [if_pos (by decide)] at h7
  rw [if_neg (by decide)] at h8
  exact ⟨h7, _, h8⟩

end SDAR
